import Mathlib

/-!
The package gevent: listener lifecycle and reentrant dispatch.

A shallow embedding of `listen.go`, `dispatch.go`, `event.go` and `error.go`.

Representation choices.

* Go maps are association lists (`GoMap`); `get` reads the first entry of a key,
  `set` overwrites it or appends a new entry, `delete` drops the key.
* A `*list.Element` of a `container/list` is identified by the ID of the listener it
  carries, so `listenerList` is a Lean list of listeners, `listenerMap` maps an ID to the
  element (an ID again) and `pendingRemList` queues elements.
* Go mutates containers through pointers.  Here a container is addressed by its place in
  the dispatcher (kind, tier, value) and a mutation is written back at that place.  While a
  container is walked its depth counter is positive, so it is neither detached nor
  restructured, and pointer and place denote the same object.
* A callback is an arbitrary Go closure.  It is embedded as a `Prog`: the tree of calls it
  makes to the public API of the dispatcher, each continuing with the value the call
  returned, ending in the error it returns.
* Every call of a listener callback is logged in a trace (`Invocation`), the only
  instrumentation that was added to the code.
* A panic is the outcome `Outcome.panic`; nested dispatches are bounded by a fuel argument
  (`Outcome.timeout` when it is exhausted).
-/

set_option linter.unusedSectionVars false
set_option linter.unusedVariables false

namespace Gevent

/-! ## Go maps -/

/-- Association-list model of a Go map. -/
abbrev GoMap (α β : Type) := List (α × β)

namespace GoMap

variable {α β : Type} [DecidableEq α]

/-- Map read `m[k]`. -/
def get (k : α) : GoMap α β → Option β
  | [] => none
  | (a, b) :: t => if a = k then some b else get k t

/-- Map write `m[k] = v`. -/
def set (k : α) (v : β) : GoMap α β → GoMap α β
  | [] => [(k, v)]
  | (a, b) :: t => if a = k then (a, v) :: t else (a, b) :: set k v t

/-- Builtin `delete(m, k)`. -/
def delete (k : α) (m : GoMap α β) : GoMap α β :=
  m.filter (fun p => decide (p.1 ≠ k))

/-- Builtin `len(m)`. -/
def len (m : GoMap α β) : Nat := m.length

/-- The index of a list of IDs in which every key maps to the element carrying it. -/
def diag (ids : List α) : GoMap α α := ids.map (fun i => (i, i))

end GoMap

/-! ## event.go, error.go -/

/-- Values of type `interface{}`: an uninterpreted payload, `none` is nil. -/
abbrev Any := Option Nat

/-- Event identifier `EventID`. -/
structure EventID (K V : Type) where
  Kind : K
  Value : V
  deriving DecidableEq, Repr

/-- Event handed to the callbacks. -/
structure Event (K V : Type) where
  eventID : EventID K V
  param : Any
  generator : Any
  deriving DecidableEq, Repr

/-- Non-nil values of the Go interface `error` that occur in the package. -/
inductive Error (K V : Type) : Type where
  | ErrRemAfterDispatch : Error K V
  | other (code : Nat) : Error K V
  | dispatchError (dt : String) (eventID : EventID K V) (err : Error K V) : Error K V
  | dispatchErrors (errors : List (Error K V)) : Error K V

/-- Go comparison `err == ErrRemAfterDispatch`. -/
def Error.isRemAfterDispatch {K V : Type} : Option (Error K V) → Bool
  | some .ErrRemAfterDispatch => true
  | _ => false

set_option linter.dupNamespace false in
mutual
/-- Method `Error()` of the error values: `dispatchError.Error` and `dispatchErrors.Error`
of `error.go`, the text of `ErrRemAfterDispatch`, and the message `msg code` of a callback
error.  `fmtV` is the rendering of an event value by the verb `%v`; `dispatchError.Error`
passes `e.eventID.Value` to `Sprintf` for both verbs of the event ID. -/
def Error.Error {K V : Type} (fmtV : V → String) (msg : Nat → String) : Error K V → String
  | .ErrRemAfterDispatch => "remove after dispatch"
  | .other code => msg code
  | .dispatchError dt eventID err =>
    "dispatch " ++ dt ++ " event of id=\x7bkind:" ++ fmtV eventID.Value ++ ", value:"
      ++ fmtV eventID.Value ++ "\x7d: " ++ Error.Error fmtV msg err
  | .dispatchErrors errors => "[" ++ Error.joinFrom fmtV msg 0 errors ++ "]"
/-- The loop of `dispatchErrors.Error` from index `i` on: `", "` before every error but
the first, then its message. -/
def Error.joinFrom {K V : Type} (fmtV : V → String) (msg : Nat → String) (i : Nat) :
    List (Error K V) → String
  | [] => ""
  | err :: rest =>
    (if i > 0 then ", " else "") ++ Error.Error fmtV msg err
      ++ Error.joinFrom fmtV msg (i + 1) rest
end

/-! ## Callbacks -/

/-- Behaviour of a callback: the calls it makes to the dispatcher and the error it
returns.  A nil callback argument is `none`. -/
inductive Prog (K V L : Type) : Type where
  | ret (err : Option (Error K V)) : Prog K V L
  | AddKindListener (evtKind : K) (lID : L) (callback : Option (Event K V → Prog K V L))
      (once : List Bool) (next : Bool → Prog K V L) : Prog K V L
  | AddValueListener (evtId : EventID K V) (lID : L)
      (callback : Option (Event K V → Prog K V L))
      (once : List Bool) (next : Bool → Prog K V L) : Prog K V L
  | RemKindListener (evtKind : K) (lID : L) (next : Bool → Prog K V L) : Prog K V L
  | RemValueListener (evtId : EventID K V) (lID : L) (next : Bool → Prog K V L) : Prog K V L
  | Clear (next : Prog K V L) : Prog K V L
  | Dispatch (evtId : EventID K V) (generator : Any) (param : List Any)
      (next : Option (Error K V) → Prog K V L) : Prog K V L

/-- Type `ListenerCallback`. -/
abbrev ListenerCallback (K V L : Type) := Event K V → Prog K V L

/-! ## listen.go: listener -/

/-- Record `listener`.  The callback is never nil: `newListener` rejects a nil callback
and `reset` only runs on a listener that leaves its container. -/
structure listener (K V L : Type) where
  id : L
  callback : ListenerCallback K V L
  once : Bool
  pendingRem : Bool

/-- Constructor `newListener`; a nil callback panics. -/
def newListener {K V L : Type} (id : L) (callback : Option (ListenerCallback K V L))
    (once : Bool) : Except String (listener K V L) :=
  match callback with
  | none => .error "callback nil"
  | some cb => .ok { id := id, callback := cb, once := once, pendingRem := false }

/-! ## listen.go: listenerContainer -/

/-- Record `listenerContainer`. -/
structure listenerContainer (K V L : Type) where
  listenerList : List (listener K V L)
  listenerMap : GoMap L L
  pendingRemList : Option (List L)
  dispatching : Int

/-- Constructor `newListenerContainer`. -/
def newListenerContainer {K V L : Type} : listenerContainer K V L :=
  { listenerList := [], listenerMap := [], pendingRemList := none, dispatching := 0 }

namespace listenerContainer

variable {K V L : Type} [DecidableEq L]

/-- The listener carried by element `elem` (`elem.Value`). -/
def value (ls : listenerContainer K V L) (elem : L) : Option (listener K V L) :=
  ls.listenerList.find? (fun l => decide (l.id = elem))

/-- Method `addListener`; panics while the container dispatches. -/
def addListener (ls : listenerContainer K V L) (l : listener K V L) :
    Except String (listenerContainer K V L × Bool) :=
  if ls.dispatching > 0 then
    .error "add listener on dispatching"
  else
    match GoMap.get l.id ls.listenerMap with
    | some _ => .ok (ls, false)
    | none =>
      .ok ({ ls with
              listenerList := ls.listenerList ++ [l]
              listenerMap := GoMap.set l.id l.id ls.listenerMap }, true)

/-- Method `directRemListener`: unlink the element, drop its key. -/
def directRemListener (ls : listenerContainer K V L) (l : listener K V L) (elem : L) :
    listenerContainer K V L :=
  { ls with
    listenerList := ls.listenerList.filter (fun x => decide (x.id ≠ elem))
    listenerMap := GoMap.delete l.id ls.listenerMap }

/-- Method `pendingRemListener`: flag the listener and queue its element, once. -/
def pendingRemListener (ls : listenerContainer K V L) (l : listener K V L) (elem : L) :
    listenerContainer K V L :=
  if l.pendingRem then
    ls
  else
    { ls with
      listenerList :=
        ls.listenerList.map (fun x => if x.id = elem then { x with pendingRem := true } else x)
      pendingRemList := some (ls.pendingRemList.getD [] ++ [elem]) }

/-- Method `remListener`: false when the ID has no index entry; otherwise the listener of
the indexed element is flagged (during a dispatch) or unlinked (outside one). -/
def remListener (ls : listenerContainer K V L) (lID : L) : listenerContainer K V L × Bool :=
  match GoMap.get lID ls.listenerMap with
  | none => (ls, false)
  | some elem =>
    match ls.value elem with
    | none => (ls, true)
    | some l =>
      if ls.dispatching > 0 then
        (ls.pendingRemListener l elem, true)
      else
        (ls.directRemListener l elem, true)

/-- Method `noListener`. -/
def noListener (ls : listenerContainer K V L) : Bool :=
  ls.listenerList.length == 0

/-- Method `clear`: a no-op during a dispatch; otherwise the index, the queue and the list
are emptied. -/
def clear (ls : listenerContainer K V L) : listenerContainer K V L :=
  if ls.dispatching > 0 then
    ls
  else
    { ls with listenerMap := [], pendingRemList := none, listenerList := [] }

/-- First statement of `dispatch`: `ls.dispatching++`. -/
def enter (ls : listenerContainer K V L) : listenerContainer K V L :=
  { ls with dispatching := ls.dispatching + 1 }

/-- The flush loop of `dispatch`: every queued element is removed directly. -/
def flush (ls : listenerContainer K V L) : List L → listenerContainer K V L
  | [] => ls
  | remElem :: rest =>
    match ls.value remElem with
    | none => flush ls rest
    | some l => flush (ls.directRemListener l remElem) rest

/-- The statements of `dispatch` after the walk: decrement, clamp at 0, flush at depth 0. -/
def leave (ls : listenerContainer K V L) : listenerContainer K V L :=
  let ls1 := { ls with dispatching := ls.dispatching - 1 }
  let ls2 := if ls1.dispatching < 0 then { ls1 with dispatching := 0 } else ls1
  if ls2.dispatching = 0 then
    match ls2.pendingRemList with
    | none => ls2
    | some q => { flush ls2 q with pendingRemList := none }
  else
    ls2

end listenerContainer

/-! ## listen.go: kindListenerContainer -/

/-- Record `kindListenerContainer`; a nil pointer or nil map is `none`. -/
structure kindListenerContainer (K V L : Type) where
  kindListeners : Option (listenerContainer K V L)
  valueListeners : Option (GoMap V (listenerContainer K V L))
  dispatching : Int

/-- Constructor `newKindListenerContainer`. -/
def newKindListenerContainer {K V L : Type} : kindListenerContainer K V L :=
  { kindListeners := none, valueListeners := none, dispatching := 0 }

namespace kindListenerContainer

variable {K V L : Type} [DecidableEq V] [DecidableEq L]

/-- Map read `kls.valueListeners[value]`; reading a nil map yields nil. -/
def valueListener (kls : kindListenerContainer K V L) (value : V) :
    Option (listenerContainer K V L) :=
  match kls.valueListeners with
  | none => none
  | some m => GoMap.get value m

/-- Method `addKindListener`. -/
def addKindListener (kls : kindListenerContainer K V L) (l : listener K V L) :
    Except String (kindListenerContainer K V L × Bool) :=
  if kls.dispatching > 0 then
    .error "add kind listener on dispatching"
  else
    let lc := match kls.kindListeners with
      | none => newListenerContainer
      | some lc => lc
    match lc.addListener l with
    | .error msg => .error msg
    | .ok (lc1, added) => .ok ({ kls with kindListeners := some lc1 }, added)

/-- Method `remKindListener`. -/
def remKindListener (kls : kindListenerContainer K V L) (lID : L) :
    kindListenerContainer K V L × Bool :=
  match kls.kindListeners with
  | none => (kls, false)
  | some lc =>
    let (lc1, rem) := lc.remListener lID
    if lc1.noListener then
      ({ kls with kindListeners := none }, rem)
    else
      ({ kls with kindListeners := some lc1 }, rem)

/-- Method `addValueListener`. -/
def addValueListener (kls : kindListenerContainer K V L) (value : V) (l : listener K V L) :
    Except String (kindListenerContainer K V L × Bool) :=
  if kls.dispatching > 0 then
    .error "add value listener on dispatching"
  else
    let m : GoMap V (listenerContainer K V L) := match kls.valueListeners with
      | none => []
      | some m => m
    let lc := match GoMap.get value m with
      | none => newListenerContainer
      | some lc => lc
    match lc.addListener l with
    | .error msg => .error msg
    | .ok (lc1, added) => .ok ({ kls with valueListeners := some (GoMap.set value lc1 m) }, added)

/-- The pruning at the end of `remValueListener` and of the value phase of `dispatch`:
delete the entry of an empty container. -/
def pruneValue (m : GoMap V (listenerContainer K V L)) (value : V)
    (lc : listenerContainer K V L) : GoMap V (listenerContainer K V L) :=
  if lc.noListener then GoMap.delete value m else GoMap.set value lc m

/-- Method `remValueListener`. -/
def remValueListener (kls : kindListenerContainer K V L) (value : V) (lID : L) :
    kindListenerContainer K V L × Bool :=
  match kls.valueListeners, kls.valueListener value with
  | some m, some lc =>
    let (lc1, rem) := lc.remListener lID
    let m1 := pruneValue m value lc1
    if GoMap.len m1 = 0 then
      ({ kls with valueListeners := none }, rem)
    else
      ({ kls with valueListeners := some m1 }, rem)
  | _, _ => (kls, false)

/-- Method `noListener`. -/
def noListener (kls : kindListenerContainer K V L) : Bool :=
  (match kls.kindListeners with
    | none => true
    | some lc => lc.noListener) &&
  (match kls.valueListeners with
    | none => true
    | some m => GoMap.len m == 0)

/-- Method `clear`: a no-op during a dispatch; otherwise both tiers are cleared and set
to nil, so the cleared listener containers are dropped. -/
def clear (kls : kindListenerContainer K V L) : kindListenerContainer K V L :=
  if kls.dispatching > 0 then
    kls
  else
    { kls with kindListeners := none, valueListeners := none }

end kindListenerContainer

/-! ## dispatch.go: Dispatcher, everything but Dispatch -/

/-- Record `Dispatcher`. -/
structure Dispatcher (K V L : Type) where
  kindListenerContainers : GoMap K (kindListenerContainer K V L)
  dispatching : Int

/-- Constructor `NewDispatcher`. -/
def NewDispatcher {K V L : Type} : Dispatcher K V L :=
  { kindListenerContainers := [], dispatching := 0 }

namespace Dispatcher

variable {K V L : Type} [DecidableEq K] [DecidableEq V] [DecidableEq L]

/-- Method `addORGetKindListeners`. -/
def addORGetKindListeners (d : Dispatcher K V L) (evtKind : K) :
    Dispatcher K V L × kindListenerContainer K V L :=
  match GoMap.get evtKind d.kindListenerContainers with
  | some klc => (d, klc)
  | none =>
    ({ d with kindListenerContainers :=
          GoMap.set evtKind newKindListenerContainer d.kindListenerContainers },
      newKindListenerContainer)

/-- The variadic flag `once ...bool`: its first element, false when absent. -/
def onceFlag : List Bool → Bool
  | [] => false
  | b :: _ => b

/-- Method `AddKindListener`. -/
def AddKindListener (d : Dispatcher K V L) (evtKind : K) (lID : L)
    (callback : Option (ListenerCallback K V L)) (once : List Bool) :
    Except String (Dispatcher K V L × Bool) :=
  match callback with
  | none => .error "listener callback nil"
  | some _ =>
    match newListener lID callback (onceFlag once) with
    | .error msg => .error msg
    | .ok l =>
      let (d1, klc) := d.addORGetKindListeners evtKind
      match klc.addKindListener l with
      | .error msg => .error msg
      | .ok (klc1, added) =>
        .ok ({ d1 with kindListenerContainers :=
                GoMap.set evtKind klc1 d1.kindListenerContainers }, added)

/-- Method `AddValueListener`. -/
def AddValueListener (d : Dispatcher K V L) (evtId : EventID K V) (lID : L)
    (callback : Option (ListenerCallback K V L)) (once : List Bool) :
    Except String (Dispatcher K V L × Bool) :=
  match callback with
  | none => .error "listener callback nil"
  | some _ =>
    match newListener lID callback (onceFlag once) with
    | .error msg => .error msg
    | .ok l =>
      let (d1, klc) := d.addORGetKindListeners evtId.Kind
      match klc.addValueListener evtId.Value l with
      | .error msg => .error msg
      | .ok (klc1, added) =>
        .ok ({ d1 with kindListenerContainers :=
                GoMap.set evtId.Kind klc1 d1.kindListenerContainers }, added)

/-- The pruning that ends `RemKindListener`, `RemValueListener` and `Dispatch`:
`if klc.noListener() { delete(d.kindListenerContainers, kind) }`. -/
def pruneKind (d : Dispatcher K V L) (evtKind : K) (klc : kindListenerContainer K V L) :
    Dispatcher K V L :=
  if klc.noListener then
    { d with kindListenerContainers := GoMap.delete evtKind d.kindListenerContainers }
  else
    { d with kindListenerContainers := GoMap.set evtKind klc d.kindListenerContainers }

/-- Method `RemKindListener`. -/
def RemKindListener (d : Dispatcher K V L) (evtKind : K) (lID : L) :
    Dispatcher K V L × Bool :=
  match GoMap.get evtKind d.kindListenerContainers with
  | none => (d, false)
  | some klc =>
    let (klc1, rem) := klc.remKindListener lID
    (d.pruneKind evtKind klc1, rem)

/-- Method `RemValueListener`. -/
def RemValueListener (d : Dispatcher K V L) (evtId : EventID K V) (lID : L) :
    Dispatcher K V L × Bool :=
  match GoMap.get evtId.Kind d.kindListenerContainers with
  | none => (d, false)
  | some klc =>
    let (klc1, rem) := klc.remValueListener evtId.Value lID
    (d.pruneKind evtId.Kind klc1, rem)

/-- Method `Clear`: a no-op during a dispatch; otherwise every per-kind container is
cleared and the mapping is replaced by an empty one, so the cleared containers are dropped
with the old mapping. -/
def Clear (d : Dispatcher K V L) : Dispatcher K V L :=
  if d.dispatching > 0 then
    d
  else
    { d with kindListenerContainers := [] }

end Dispatcher

/-! ## Dispatch: the state seen by callbacks -/

/-- The two tiers of a kind: its kind-level container and its per-value containers. -/
inductive Tier where
  | kind : Tier
  | value : Tier
  deriving DecidableEq, Repr

/-- The provenance string `dt` of `dispatchError`. -/
def Tier.dt : Tier → String
  | .kind => "kind"
  | .value => "value"

/-- One call of a listener callback: the tier of its container, the event, the listener. -/
structure Invocation (K V L : Type) where
  tier : Tier
  event : Event K V
  id : L
  deriving DecidableEq, Repr

/-- The dispatcher together with the log of callback calls. -/
structure World (K V L : Type) where
  d : Dispatcher K V L
  trace : List (Invocation K V L)

/-- Result of a call that may run callbacks. -/
inductive Outcome (K V L α : Type) : Type where
  | ok (a : α) (w : World K V L) : Outcome K V L α
  | panic (msg : String) : Outcome K V L α
  | timeout : Outcome K V L α

/-- Type of `Dispatcher.Dispatch` as seen from a callback. -/
abbrev Handler (K V L : Type) :=
  EventID K V → Any → List Any → World K V L → Outcome K V L (Option (Error K V))

section Places

variable {K V L : Type} [DecidableEq K] [DecidableEq V] [DecidableEq L]

/-- The container of a tier of `kls`: `kls.kindListeners` or `kls.valueListeners[value]`. -/
def kindListenerContainer.container (kls : kindListenerContainer K V L) (tier : Tier)
    (value : V) : Option (listenerContainer K V L) :=
  match tier with
  | .kind => kls.kindListeners
  | .value => kls.valueListener value

/-- Write a mutated container back to its tier. -/
def kindListenerContainer.setContainer (kls : kindListenerContainer K V L) (tier : Tier)
    (value : V) (lc : listenerContainer K V L) : kindListenerContainer K V L :=
  match tier with
  | .kind => { kls with kindListeners := some lc }
  | .value =>
    match kls.valueListeners with
    | none => kls
    | some m => { kls with valueListeners := some (GoMap.set value lc m) }

/-- Apply a mutation to the `kindListenerContainer` of a kind, if there is one. -/
def Dispatcher.updateKind (d : Dispatcher K V L) (evtKind : K)
    (f : kindListenerContainer K V L → kindListenerContainer K V L) : Dispatcher K V L :=
  match GoMap.get evtKind d.kindListenerContainers with
  | none => d
  | some kls =>
    { d with kindListenerContainers := GoMap.set evtKind (f kls) d.kindListenerContainers }

/-- The listener container an event is dispatched to in the given tier. -/
def Dispatcher.container (d : Dispatcher K V L) (evtId : EventID K V) (tier : Tier) :
    Option (listenerContainer K V L) :=
  match GoMap.get evtId.Kind d.kindListenerContainers with
  | none => none
  | some kls => kls.container tier evtId.Value

/-- Write a mutated listener container back to its place. -/
def Dispatcher.setContainer (d : Dispatcher K V L) (evtId : EventID K V) (tier : Tier)
    (lc : listenerContainer K V L) : Dispatcher K V L :=
  d.updateKind evtId.Kind (fun kls => kls.setContainer tier evtId.Value lc)

/-- Call `ls.pendingRemListener(l, elem)` from the walk of `dispatch`, on the container and
the listener as they are after the callback returned. -/
def World.pendingRemListener (w : World K V L) (evtId : EventID K V) (tier : Tier)
    (elem : L) : World K V L :=
  match w.d.container evtId tier with
  | none => w
  | some ls =>
    match ls.value elem with
    | none => w
    | some l => { w with d := w.d.setContainer evtId tier (ls.pendingRemListener l elem) }

end Places

/-! ## Dispatch: running callbacks -/

section Run

variable {K V L : Type} [DecidableEq K] [DecidableEq V] [DecidableEq L]

/-- Run a callback body against the dispatcher; `Dispatch` is the dispatcher entry point
used for nested dispatches. -/
def runProg (Dispatch : Handler K V L) :
    Prog K V L → World K V L → Outcome K V L (Option (Error K V))
  | .ret err, w => .ok err w
  | .AddKindListener evtKind lID callback once next, w =>
    match w.d.AddKindListener evtKind lID callback once with
    | .error msg => .panic msg
    | .ok (d1, added) => runProg Dispatch (next added) { w with d := d1 }
  | .AddValueListener evtId lID callback once next, w =>
    match w.d.AddValueListener evtId lID callback once with
    | .error msg => .panic msg
    | .ok (d1, added) => runProg Dispatch (next added) { w with d := d1 }
  | .RemKindListener evtKind lID next, w =>
    runProg Dispatch (next (w.d.RemKindListener evtKind lID).2)
      { w with d := (w.d.RemKindListener evtKind lID).1 }
  | .RemValueListener evtId lID next, w =>
    runProg Dispatch (next (w.d.RemValueListener evtId lID).2)
      { w with d := (w.d.RemValueListener evtId lID).1 }
  | .Clear next, w => runProg Dispatch next { w with d := w.d.Clear }
  | .Dispatch evtId generator param next, w =>
    match Dispatch evtId generator param w with
    | .ok err w1 => runProg Dispatch (next err) w1
    | .panic msg => .panic msg
    | .timeout => .timeout

/-- Method `listener.dispatch`; the call of the callback is logged. -/
def listener.dispatch (run : Prog K V L → World K V L → Outcome K V L (Option (Error K V)))
    (l : listener K V L) (tier : Tier) (evt : Event K V) (w : World K V L) :
    Outcome K V L (Option (Error K V)) :=
  if l.pendingRem then
    .ok none w
  else
    run (l.callback evt) { w with trace := w.trace ++ [⟨tier, evt, l.id⟩] }

/-- The walk of `listenerContainer.dispatch` over the elements of `listenerList`,
front to back, collecting the genuine errors in `errs`.  The elements are those of the
list when the walk starts (the list is not restructured while the depth is positive);
each listener is read from the container as it is at its turn, so a flag set by an
earlier callback is seen, and an element that is no longer linked is passed over. -/
def listenerContainer.walk
    (run : Prog K V L → World K V L → Outcome K V L (Option (Error K V)))
    (tier : Tier) (evt : Event K V) :
    List L → World K V L → List (Error K V) → Outcome K V L (List (Error K V))
  | [], w, errs => .ok errs w
  | elem :: rest, w, errs =>
    match (w.d.container evt.eventID tier).bind (fun ls => ls.value elem) with
    | none => walk run tier evt rest w errs
    | some l =>
      if !l.pendingRem then
        match l.dispatch run tier evt w with
        | .ok err w1 =>
          let errs1 := match err with
            | none => errs
            | some e => if Error.isRemAfterDispatch err then errs else errs ++ [e]
          let w2 := if l.once || Error.isRemAfterDispatch err then
              w1.pendingRemListener evt.eventID tier elem
            else w1
          walk run tier evt rest w2 errs1
        | .panic msg => .panic msg
        | .timeout => .timeout
      else
        walk run tier evt rest w errs

/-- The error returned by both `dispatch` methods: `&dispatchErrors{errors: errs}` when
`len(errs) > 0`, nil otherwise. -/
def dispatchResult (errs : List (Error K V)) : Option (Error K V) :=
  if errs.length > 0 then some (.dispatchErrors errs) else none

/-- Method `listenerContainer.dispatch`, for the container the event reaches in `tier`. -/
def listenerContainer.dispatch
    (run : Prog K V L → World K V L → Outcome K V L (Option (Error K V)))
    (tier : Tier) (evt : Event K V) (w : World K V L) :
    Outcome K V L (Option (Error K V)) :=
  match w.d.container evt.eventID tier with
  | none => .ok none w
  | some ls =>
    match listenerContainer.walk run tier evt (ls.listenerList.map (fun l => l.id))
        { w with d := w.d.setContainer evt.eventID tier ls.enter } [] with
    | .ok errs w1 =>
      match w1.d.container evt.eventID tier with
      | none => .ok (dispatchResult errs) w1
      | some ls1 =>
        .ok (dispatchResult errs) { w1 with d := w1.d.setContainer evt.eventID tier ls1.leave }
    | .panic msg => .panic msg
    | .timeout => .timeout

/-- Wrap the error of one phase: `&dispatchError{dt, eventID, err}` appended to `errs`. -/
def wrapPhase (dt : String) (evt : Event K V) (errs : List (Error K V)) :
    Option (Error K V) → List (Error K V)
  | none => errs
  | some err => errs ++ [.dispatchError dt evt.eventID err]

/-- End of the kind phase: `if kls.kindListeners.noListener() { kls.kindListeners = nil }`. -/
def kindListenerContainer.pruneKindListeners (kls : kindListenerContainer K V L) :
    kindListenerContainer K V L :=
  match kls.kindListeners with
  | none => kls
  | some lc => if lc.noListener then { kls with kindListeners := none } else kls

/-- End of the value phase: an empty container is deleted from `valueListeners`, and an
empty `valueListeners` becomes nil. -/
def kindListenerContainer.pruneValueListeners (kls : kindListenerContainer K V L)
    (value : V) : kindListenerContainer K V L :=
  match kls.valueListeners, kls.valueListener value with
  | some m, some lc =>
    if lc.noListener then
      if GoMap.len (GoMap.delete value m) = 0 then
        { kls with valueListeners := none }
      else
        { kls with valueListeners := some (GoMap.delete value m) }
    else kls
  | _, _ => kls

/-- The kind phase of `kindListenerContainer.dispatch`: the block
`if kls.kindListeners != nil { ... }`, yielding `errs`. -/
def kindListenerContainer.dispatchKind
    (run : Prog K V L → World K V L → Outcome K V L (Option (Error K V)))
    (evt : Event K V) (w : World K V L) : Outcome K V L (List (Error K V)) :=
  match (GoMap.get evt.eventID.Kind w.d.kindListenerContainers).bind
      (fun kls => kls.kindListeners) with
  | none => .ok [] w
  | some _ =>
    match listenerContainer.dispatch run .kind evt w with
    | .ok err w1 =>
      .ok (wrapPhase "kind" evt [] err)
        { w1 with d := (w1.d.updateKind evt.eventID.Kind (fun kls => kls.pruneKindListeners)) }
    | .panic msg => .panic msg
    | .timeout => .timeout

/-- The value phase of `kindListenerContainer.dispatch`: the block
`if kls.valueListeners != nil { ... }`, extending `errs`. -/
def kindListenerContainer.dispatchValue
    (run : Prog K V L → World K V L → Outcome K V L (Option (Error K V)))
    (evt : Event K V) (errs : List (Error K V)) (w : World K V L) :
    Outcome K V L (List (Error K V)) :=
  match (GoMap.get evt.eventID.Kind w.d.kindListenerContainers).bind
      (fun kls => kls.valueListener evt.eventID.Value) with
  | none => .ok errs w
  | some _ =>
    match listenerContainer.dispatch run .value evt w with
    | .ok err w1 =>
      .ok (wrapPhase "value" evt errs err)
        { w1 with d := (w1.d.updateKind evt.eventID.Kind
            (fun kls => kls.pruneValueListeners evt.eventID.Value)) }
    | .panic msg => .panic msg
    | .timeout => .timeout

/-- Last statements of `kindListenerContainer.dispatch`: decrement, clamp at 0. -/
def kindListenerContainer.leave (kls : kindListenerContainer K V L) :
    kindListenerContainer K V L :=
  if kls.dispatching - 1 < 0 then { kls with dispatching := 0 }
  else { kls with dispatching := kls.dispatching - 1 }

/-- Method `kindListenerContainer.dispatch`, for the container of the kind of the event. -/
def kindListenerContainer.dispatch
    (run : Prog K V L → World K V L → Outcome K V L (Option (Error K V)))
    (evt : Event K V) (w : World K V L) : Outcome K V L (Option (Error K V)) :=
  match kindListenerContainer.dispatchKind run evt
      { w with d := (w.d.updateKind evt.eventID.Kind
          (fun kls => { kls with dispatching := kls.dispatching + 1 })) } with
  | .panic msg => .panic msg
  | .timeout => .timeout
  | .ok errs1 w1 =>
    match kindListenerContainer.dispatchValue run evt errs1 w1 with
    | .panic msg => .panic msg
    | .timeout => .timeout
    | .ok errs2 w2 =>
      .ok (dispatchResult errs2)
        { w2 with d := (w2.d.updateKind evt.eventID.Kind (fun kls => kls.leave)) }

/-- The variadic argument `param ...interface{}`: `param[0]` when present, else nil. -/
def firstParam : List Any → Any
  | [] => none
  | p :: _ => p

/-- Body of `Dispatcher.Dispatch`; `nested` serves the dispatches made by callbacks. -/
def Dispatcher.DispatchWith (nested : Handler K V L) : Handler K V L :=
  fun evtId generator param w =>
  match GoMap.get evtId.Kind w.d.kindListenerContainers with
  | none => .ok none w
  | some _ =>
    let evt : Event K V :=
      { eventID := evtId, generator := generator, param := firstParam param }
    match kindListenerContainer.dispatch (runProg nested) evt
        { w with d := { w.d with dispatching := w.d.dispatching + 1 } } with
    | .ok err w1 =>
      let d2 := match GoMap.get evtId.Kind w1.d.kindListenerContainers with
        | none => w1.d
        | some klc =>
          if klc.noListener then
            { w1.d with kindListenerContainers :=
                GoMap.delete evtId.Kind w1.d.kindListenerContainers }
          else w1.d
      .ok err { w1 with d := { d2 with dispatching := d2.dispatching - 1 } }
    | .panic msg => .panic msg
    | .timeout => .timeout

/-- Method `Dispatcher.Dispatch`.  The first argument bounds how deep callbacks may nest
dispatches: with `fuel` nested levels left, a dispatch at level `fuel + 1` times out. -/
def Dispatcher.Dispatch : Nat → Handler K V L
  | 0 => Dispatcher.DispatchWith (fun _ _ _ _ => .timeout)
  | fuel + 1 => Dispatcher.DispatchWith (Dispatcher.Dispatch fuel)

end Run

/-! ## Vocabulary of the specification -/

section Vocabulary

variable {K V L : Type} [DecidableEq K] [DecidableEq V] [DecidableEq L]

/-- The IDs of the listeners of a container, in list order. -/
def listenerContainer.ids (ls : listenerContainer K V L) : List L :=
  ls.listenerList.map (fun l => l.id)

/-- Index and list of a container agree: the index maps exactly the IDs of the listeners
in the list, each to the element carrying it, and no ID occurs twice.  The entries of the
association list are kept in list order, which is how `addListener` and the removals
maintain them; the order of the entries of a Go map carries no meaning. -/
def listenerContainer.Canon (ls : listenerContainer K V L) : Prop :=
  ls.listenerMap = GoMap.diag ls.ids ∧ ls.ids.Nodup

/-- A container on which no dispatch is in progress: depth 0, nothing queued or flagged
for removal, index and list in agreement. -/
def listenerContainer.Idle (ls : listenerContainer K V L) : Prop :=
  ls.dispatching = 0 ∧ ls.pendingRemList = none ∧
    (∀ l ∈ ls.listenerList, l.pendingRem = false) ∧ ls.Canon

/-- A per-kind container on which no dispatch is in progress. -/
def kindListenerContainer.Idle (kls : kindListenerContainer K V L) : Prop :=
  kls.dispatching = 0 ∧ (∀ lc, kls.kindListeners = some lc → lc.Idle) ∧
    (∀ m, kls.valueListeners = some m → ∀ p ∈ m, p.2.Idle)

/-- A dispatcher with no dispatch in progress. -/
def Dispatcher.Idle (d : Dispatcher K V L) : Prop :=
  d.dispatching = 0 ∧ ∀ p ∈ d.kindListenerContainers, p.2.Idle

/-- The listeners an event reaches in a tier, in registration order. -/
def Dispatcher.listeners (d : Dispatcher K V L) (evtId : EventID K V) (tier : Tier) :
    List (listener K V L) :=
  match d.container evtId tier with
  | none => []
  | some ls => ls.listenerList

/-- An ID is registered in the container an event reaches in a tier. -/
def Dispatcher.registered (d : Dispatcher K V L) (evtId : EventID K V) (tier : Tier)
    (lID : L) : Prop :=
  lID ∈ (d.listeners evtId tier).map (fun l => l.id)

/-- A callback body that only calls `Clear` and removes the listener `lID` it belongs to
(registered in `tier` for `evtId`) before it returns. -/
inductive Prog.Local (evtId : EventID K V) (tier : Tier) (lID : L) : Prog K V L → Prop where
  | ret (err : Option (Error K V)) : Prog.Local evtId tier lID (.ret err)
  | Clear {next : Prog K V L} (h : Prog.Local evtId tier lID next) :
      Prog.Local evtId tier lID (.Clear next)
  | RemKindListener {next : Bool → Prog K V L} (ht : tier = .kind)
      (h : Prog.Local evtId tier lID (next true)) :
      Prog.Local evtId tier lID (.RemKindListener evtId.Kind lID next)
  | RemValueListener {next : Bool → Prog K V L} (ht : tier = .value)
      (h : Prog.Local evtId tier lID (next true)) :
      Prog.Local evtId tier lID (.RemValueListener evtId lID next)

/-- The error a `Prog.Local` body returns. -/
def Prog.result : Prog K V L → Option (Error K V)
  | .ret err => err
  | .Clear next => next.result
  | .RemKindListener _ _ next => (next true).result
  | .RemValueListener _ _ next => (next true).result
  | _ => none

/-- Whether a `Prog.Local` body removes its own listener. -/
def Prog.removes : Prog K V L → Bool
  | .ret _ => false
  | .Clear next => next.removes
  | .RemKindListener _ _ _ => true
  | .RemValueListener _ _ _ => true
  | _ => false

/-- The listener is queued for removal by a walk: it is called, and it removes itself,
is one-shot or returns `ErrRemAfterDispatch`. -/
def listener.removed (evt : Event K V) (l : listener K V L) : Bool :=
  !l.pendingRem &&
    ((l.callback evt).removes || l.once || Error.isRemAfterDispatch (l.callback evt).result)

/-- The listener as a walk leaves it. -/
def listener.afterWalk (evt : Event K V) (l : listener K V L) : listener K V L :=
  if l.removed evt then { l with pendingRem := true } else l

/-- The contribution of one callback result to `errs`. -/
def genuine : Option (Error K V) → List (Error K V)
  | none => []
  | some .ErrRemAfterDispatch => []
  | some e => [e]

/-- The listeners a walk calls: those not flagged for removal. -/
def fired (ll : List (listener K V L)) : List (listener K V L) :=
  ll.filter (fun l => !l.pendingRem)

/-- The genuine errors of the callbacks a walk calls. -/
def genuineErrors (evt : Event K V) (ll : List (listener K V L)) : List (Error K V) :=
  (fired ll).flatMap (fun l => genuine (l.callback evt).result)

/-- The log entries of the callbacks a walk calls. -/
def invocations (tier : Tier) (evt : Event K V) (ll : List (listener K V L)) :
    List (Invocation K V L) :=
  (fired ll).map (fun l => ⟨tier, evt, l.id⟩)

/-- Queue `ids` behind a pending-removal list that may be nil. -/
def enqueue (q : Option (List L)) (ids : List L) : Option (List L) :=
  match ids with
  | [] => q
  | _ :: _ => some (q.getD [] ++ ids)

/-- Replace the `kindListenerContainer` of a kind. -/
def Dispatcher.putKind (d : Dispatcher K V L) (evtKind : K)
    (klc : kindListenerContainer K V L) : Dispatcher K V L :=
  { d with kindListenerContainers := GoMap.set evtKind klc d.kindListenerContainers }

/-- The tier has a place for the container of a value in `kls`. -/
def kindListenerContainer.HasPlace (kls : kindListenerContainer K V L) (tier : Tier) : Prop :=
  tier = .value → kls.valueListeners ≠ none

/-- The world while the container `ls` an event reaches in `tier` is walked: `ls` sits at
its place in `klc`, which sits at the kind of the event in `d`. -/
def inWalk (d : Dispatcher K V L) (klc : kindListenerContainer K V L) (evtId : EventID K V)
    (tier : Tier) (ls : listenerContainer K V L) (t : List (Invocation K V L)) : World K V L :=
  { d := d.putKind evtId.Kind (klc.setContainer tier evtId.Value ls), trace := t }

/-- The container a walk leaves behind, before the closing statements of `dispatch`. -/
def listenerContainer.walked (evt : Event K V) (ls : listenerContainer K V L) :
    listenerContainer K V L :=
  { listenerList := ls.listenerList.map (listener.afterWalk evt)
    listenerMap := ls.listenerMap
    pendingRemList :=
      enqueue ls.pendingRemList
        ((ls.listenerList.filter (listener.removed evt)).map (fun x => x.id))
    dispatching := ls.dispatching + 1 }

/-- An idle container after `dispatch`: the listeners queued for removal are gone. -/
def listenerContainer.afterDispatch (evt : Event K V) (ls : listenerContainer K V L) :
    listenerContainer K V L :=
  { listenerList := ls.listenerList.filter (fun l => !l.removed evt)
    listenerMap :=
      GoMap.diag ((ls.listenerList.filter (fun l => !l.removed evt)).map (fun x => x.id))
    pendingRemList := none
    dispatching := 0 }

/-- An idle per-kind container after the kind phase of `dispatch`. -/
def kindListenerContainer.afterKind (evt : Event K V) (kls : kindListenerContainer K V L) :
    kindListenerContainer K V L :=
  { kls with
    kindListeners :=
      match kls.kindListeners with
      | none => none
      | some ls =>
        if (ls.afterDispatch evt).noListener then none else some (ls.afterDispatch evt) }

/-- An idle per-kind container after the value phase of `dispatch`. -/
def kindListenerContainer.afterValue (evt : Event K V) (kls : kindListenerContainer K V L) :
    kindListenerContainer K V L :=
  { kls with
    valueListeners :=
      match kls.valueListeners with
      | none => none
      | some m =>
        match GoMap.get evt.eventID.Value m with
        | none => some m
        | some ls =>
          if (ls.afterDispatch evt).noListener then
            if GoMap.len (GoMap.delete evt.eventID.Value m) = 0 then none
            else some (GoMap.delete evt.eventID.Value m)
          else some (GoMap.set evt.eventID.Value (ls.afterDispatch evt) m) }

/-- An idle per-kind container after `dispatch`: both containers the event reaches have
dispatched and are pruned when empty. -/
def kindListenerContainer.afterDispatch (evt : Event K V) (kls : kindListenerContainer K V L) :
    kindListenerContainer K V L :=
  (kls.afterKind evt).afterValue evt

/-- The listeners of the container of a tier of `kls`, in registration order. -/
def kindListenerContainer.tierList (kls : kindListenerContainer K V L) (tier : Tier)
    (value : V) : List (listener K V L) :=
  match kls.container tier value with
  | none => []
  | some ls => ls.listenerList

/-- The event built by `Dispatch` from its arguments. -/
def mkEvent (evtId : EventID K V) (generator : Any) (param : List Any) : Event K V :=
  { eventID := evtId, generator := generator, param := firstParam param }

/-- The error `Dispatch` returns when the callbacks of the kind tier returned `rk` and
those of the value tier `rv`, in order. -/
def dispatchErrorOf (evt : Event K V) (rk rv : List (Error K V)) : Option (Error K V) :=
  dispatchResult
    (wrapPhase "value" evt (wrapPhase "kind" evt [] (dispatchResult rk)) (dispatchResult rv))

/-- The dispatcher after a dispatch of `evt` on an idle kind: the per-kind container has
dispatched and is pruned when it holds no listener. -/
def Dispatcher.afterDispatch (evt : Event K V) (d : Dispatcher K V L) : Dispatcher K V L :=
  match GoMap.get evt.eventID.Kind d.kindListenerContainers with
  | none => d
  | some klc => d.pruneKind evt.eventID.Kind (klc.afterDispatch evt)

/-- The event `evtId` is dispatched to the container that `other` reaches in `tier`. -/
def reaches (evtId other : EventID K V) (tier : Tier) : Prop :=
  other.Kind = evtId.Kind ∧ (tier = .value → other.Value = evtId.Value)

/-- Registration in a tier: `AddKindListener` or `AddValueListener`. -/
def Dispatcher.AddListener (d : Dispatcher K V L) (evtId : EventID K V) (tier : Tier) (lID : L)
    (callback : Option (ListenerCallback K V L)) (once : List Bool) :
    Except String (Dispatcher K V L × Bool) :=
  match tier with
  | .kind => d.AddKindListener evtId.Kind lID callback once
  | .value => d.AddValueListener evtId lID callback once

/-- Removal in a tier: `RemKindListener` or `RemValueListener`. -/
def Dispatcher.RemListener (d : Dispatcher K V L) (evtId : EventID K V) (tier : Tier) (lID : L) :
    Dispatcher K V L × Bool :=
  match tier with
  | .kind => d.RemKindListener evtId.Kind lID
  | .value => d.RemValueListener evtId lID

/-- A callback body that starts by removing its own listener, registered in `tier` for
`evtId` under the ID `lID`, and continues with the result of the removal. -/
def selfRemove (evtId : EventID K V) (tier : Tier) (lID : L) (next : Bool → Prog K V L) :
    Prog K V L :=
  match tier with
  | .kind => .RemKindListener evtId.Kind lID next
  | .value => .RemValueListener evtId lID next

/-- The listener containers of a kind: the kind-level one and the per-value ones. -/
def kindListenerContainer.containers (kls : kindListenerContainer K V L) :
    List (listenerContainer K V L) :=
  kls.kindListeners.toList ++ (kls.valueListeners.getD []).map (fun p => p.2)

/-- All listeners of a kind, of both tiers. -/
def kindListenerContainer.allListeners (kls : kindListenerContainer K V L) :
    List (listener K V L) :=
  kls.containers.flatMap (fun lc => lc.listenerList)

/-- No empty container at any level of a kind (the pruning invariant): every container
present holds a listener and a value mapping present has an entry. -/
def kindListenerContainer.Pruned (kls : kindListenerContainer K V L) : Prop :=
  (∀ lc ∈ kls.containers, lc.listenerList ≠ []) ∧ kls.valueListeners ≠ some []

/-- A per-tier entry of the error `Dispatch` returns: a `dispatchError` for the event ID
wrapping a non-empty list of callback errors, none of them `ErrRemAfterDispatch`. -/
def TierError (evtId : EventID K V) (x : Error K V) : Prop :=
  ∃ dt errs, x = .dispatchError dt evtId (.dispatchErrors errs) ∧ errs ≠ [] ∧
    Error.ErrRemAfterDispatch ∉ errs

/-- The container with every callback replaced by one that returns nil. -/
def listenerContainer.silenced (ls : listenerContainer K V L) : listenerContainer K V L :=
  { ls with
    listenerList := ls.listenerList.map (fun l => { l with callback := fun _ => .ret none }) }

/-- What a test observes of a dispatch: whether the returned error is nil, the calls
logged, and the number of kinds left in the mapping of the dispatcher. -/
def Outcome.observe : Outcome K V L (Option (Error K V)) →
    Option (Bool × List (Invocation K V L) × Nat)
  | .ok err w => some (err.isNone, w.trace, GoMap.len w.d.kindListenerContainers)
  | _ => none

/-- The dispatcher a registration leaves behind (the empty dispatcher after a panic). -/
def afterAdd (r : Except String (Dispatcher K V L × Bool)) : Dispatcher K V L :=
  match r with
  | .ok (d, _) => d
  | .error _ => NewDispatcher

instance (ls : listenerContainer K V L) : Decidable ls.Idle := by
  unfold listenerContainer.Idle listenerContainer.Canon
  infer_instance

instance (kls : kindListenerContainer K V L) : Decidable kls.Idle :=
  decidable_of_iff
    (kls.dispatching = 0 ∧ (∀ lc ∈ kls.kindListeners.toList, lc.Idle) ∧
      (∀ p ∈ kls.valueListeners.getD [], p.2.Idle))
    (by
      unfold kindListenerContainer.Idle
      cases kls.kindListeners <;> cases kls.valueListeners <;> simp)

instance (d : Dispatcher K V L) : Decidable d.Idle := by
  unfold Dispatcher.Idle
  infer_instance

/-- A callback that returns nil. -/
def cbNil : ListenerCallback Nat Nat Nat := fun _ => .ret none

/-- A callback that returns the genuine error numbered `n`. -/
def cbErr (n : Nat) : ListenerCallback Nat Nat Nat := fun _ => .ret (some (.other n))

/-- A callback that returns `ErrRemAfterDispatch`. -/
def cbRem : ListenerCallback Nat Nat Nat := fun _ => .ret (some .ErrRemAfterDispatch)

/-- A callback that calls `Clear` and returns nil. -/
def cbClear : ListenerCallback Nat Nat Nat := fun _ => .Clear (.ret none)

/-- Example: kind 10 has the kind-level listeners 1 and 2 (one-shot, failing) and, for
value 5, the value-level listener 1 (returning the sentinel); kind 20 has one kind-level
listener 3. -/
def exDispatcher : Dispatcher Nat Nat Nat :=
  { kindListenerContainers :=
      [(10, { kindListeners := some
                { listenerList := [⟨1, cbNil, false, false⟩, ⟨2, cbErr 7, true, false⟩]
                  listenerMap := [(1, 1), (2, 2)]
                  pendingRemList := none
                  dispatching := 0 }
              valueListeners := some
                [(5, { listenerList := [⟨1, cbRem, false, false⟩]
                       listenerMap := [(1, 1)]
                       pendingRemList := none
                       dispatching := 0 })]
              dispatching := 0 }),
       (20, { kindListeners := some
                { listenerList := [⟨3, cbNil, false, false⟩]
                  listenerMap := [(3, 3)]
                  pendingRemList := none
                  dispatching := 0 }
              valueListeners := none
              dispatching := 0 })]
    dispatching := 0 }

/-- A callback that removes its own listener, ID 4 of the kind tier of kind 10, and
returns the genuine error 9 when the removal returned true, nil when it returned false. -/
def cbSelfKind : ListenerCallback Nat Nat Nat :=
  fun _ => selfRemove ⟨10, 5⟩ .kind 4 (fun b => .ret (if b then some (.other 9) else none))

/-- A callback that removes its own listener, ID 4 of the value tier of (10, 5), and
returns nil. -/
def cbSelfValue : ListenerCallback Nat Nat Nat :=
  fun _ => selfRemove ⟨10, 5⟩ .value 4 (fun _ => .ret none)

/-- Example with reentrant callbacks: kind 10 has the kind-level listeners 1 (calling
`Clear`), 4 (removing itself) and 2 (failing) and, for value 5, the value-level listeners
4 (removing itself) and 6 (calling `Clear`). -/
def exReentrant : Dispatcher Nat Nat Nat :=
  { kindListenerContainers :=
      [(10, { kindListeners := some
                { listenerList := [⟨1, cbClear, false, false⟩, ⟨4, cbSelfKind, false, false⟩,
                    ⟨2, cbErr 7, false, false⟩]
                  listenerMap := [(1, 1), (4, 4), (2, 2)]
                  pendingRemList := none
                  dispatching := 0 }
              valueListeners := some
                [(5, { listenerList := [⟨4, cbSelfValue, false, false⟩,
                         ⟨6, cbClear, false, false⟩]
                       listenerMap := [(4, 4), (6, 6)]
                       pendingRemList := none
                       dispatching := 0 })]
              dispatching := 0 })]
    dispatching := 0 }

/-- Example container: listeners 1 (nil), 2 (genuine error 7), 3 (sentinel) and
4 (genuine error 8). -/
def exContainer : listenerContainer Nat Nat Nat :=
  { listenerList := [⟨1, cbNil, false, false⟩, ⟨2, cbErr 7, false, false⟩,
      ⟨3, cbRem, false, false⟩, ⟨4, cbErr 8, false, false⟩]
    listenerMap := [(1, 1), (2, 2), (3, 3), (4, 4)]
    pendingRemList := none
    dispatching := 0 }

/-- No empty container at any level of the dispatcher (the pruning invariant): every kind
in the mapping has a listener, and its per-kind container holds no empty container. -/
def Dispatcher.Pruned (d : Dispatcher K V L) : Prop :=
  ∀ p ∈ d.kindListenerContainers, p.2.Pruned ∧ p.2.noListener = false

/-- Flags and queue of a container agree: a listener is flagged for removal exactly when
its element is queued, and no element is queued twice. -/
def listenerContainer.Queued (ls : listenerContainer K V L) : Prop :=
  (∀ x ∈ ls.listenerList, x.pendingRem = true ↔ x.id ∈ ls.pendingRemList.getD []) ∧
    (ls.pendingRemList.getD []).Nodup

/-- Example container in the middle of a dispatch (depth 1): listener 1 is already flagged
and queued, listeners 2 and 3 are not. -/
def exWalking : listenerContainer Nat Nat Nat :=
  { listenerList := [⟨1, cbNil, true, true⟩, ⟨2, cbErr 7, false, false⟩,
      ⟨3, cbNil, false, false⟩]
    listenerMap := [(1, 1), (2, 2), (3, 3)]
    pendingRemList := some [1]
    dispatching := 1 }

/-- The entry a tier contributes to the error of `Dispatch`: none when the tier has no
genuine error, otherwise one `dispatchError` with the tag of the tier and the event ID that
wraps the genuine errors of the tier. -/
def tierEntry (dt : String) (evtId : EventID K V) (errs : List (Error K V)) :
    List (Error K V) :=
  match errs with
  | [] => []
  | _ :: _ => [.dispatchError dt evtId (.dispatchErrors errs)]

/-- The opening statements of `Dispatcher.Dispatch` and `kindListenerContainer.dispatch`:
both depth counters are incremented. -/
def World.openKind (w : World K V L) (evtKind : K) : World K V L :=
  { w with d := (Dispatcher.updateKind { w.d with dispatching := w.d.dispatching + 1 } evtKind
      (fun kls => { kls with dispatching := kls.dispatching + 1 })) }

/-- The closing statements of `kindListenerContainer.dispatch` and `Dispatcher.Dispatch`:
the depth counter of the kind is decremented, a kind left without listeners is deleted
from the mapping, the depth counter of the dispatcher is decremented. -/
def World.closeKind (w : World K V L) (evtKind : K) : World K V L :=
  let d1 := w.d.updateKind evtKind (fun kls => kls.leave)
  let d2 := match GoMap.get evtKind d1.kindListenerContainers with
    | none => d1
    | some klc =>
      if klc.noListener then
        { d1 with kindListenerContainers := GoMap.delete evtKind d1.kindListenerContainers }
      else d1
  { w with d := { d2 with dispatching := d2.dispatching - 1 } }

/-- The log entry written when the callback of a listener is called. -/
def World.logCall (w : World K V L) (tier : Tier) (evt : Event K V) (lID : L) : World K V L :=
  { w with trace := w.trace ++ [⟨tier, evt, lID⟩] }

/-- The pruning that ends a phase of `kindListenerContainer.dispatch`. -/
def kindListenerContainer.pruneTier (kls : kindListenerContainer K V L) (tier : Tier)
    (value : V) : kindListenerContainer K V L :=
  match tier with
  | .kind => kls.pruneKindListeners
  | .value => kls.pruneValueListeners value

/-- The closing statements of a phase: the container leaves its dispatch (depth
decremented, flush at depth 0) and is pruned from its tier when empty. -/
def World.leaveTier (w : World K V L) (evtId : EventID K V) (tier : Tier) : World K V L :=
  let d1 := match w.d.container evtId tier with
    | none => w.d
    | some ls => w.d.setContainer evtId tier ls.leave
  { w with d := (d1.updateKind evtId.Kind (fun kls => kls.pruneTier tier evtId.Value)) }

/-- The public operations other than `Dispatch` preserve `I`. -/
def ApiStable (I : World K V L → Prop) : Prop :=
  (∀ w k lID cb once d1 b, I w → w.d.AddKindListener k lID cb once = .ok (d1, b) →
    I { w with d := d1 }) ∧
  (∀ w evtId lID cb once d1 b, I w → w.d.AddValueListener evtId lID cb once = .ok (d1, b) →
    I { w with d := d1 }) ∧
  (∀ w k lID, I w → I { w with d := (w.d.RemKindListener k lID).1 }) ∧
  (∀ w evtId lID, I w → I { w with d := (w.d.RemValueListener evtId lID).1 }) ∧
  (∀ w, I w → I { w with d := w.d.Clear })

/-- The statements of one phase of a dispatch of `evtId` lead from `J` back to `J` through
a property of the class `Good` that holds whenever a callback is entered. -/
def TierFrame (Good : (World K V L → Prop) → Prop) (J : World K V L → Prop)
    (evtId : EventID K V) (tier : Tier) : Prop :=
  ∃ I : World K V L → Prop, Good I ∧
    (∀ w ls, J w → w.d.container evtId tier = some ls →
      I { w with d := w.d.setContainer evtId tier ls.enter }) ∧
    (∀ w l evt elem, evt.eventID = evtId → I w →
      (w.d.container evtId tier).bind (fun ls => ls.value elem) = some l →
      l.pendingRem = false → I (w.logCall tier evt l.id)) ∧
    (∀ w elem, I w → I (w.pendingRemListener evtId tier elem)) ∧
    (∀ w, I w → J (w.leaveTier evtId tier))

/-- The statements of a dispatch of `evtId` around its two phases lead from `I` to `I`. -/
def Frame (Good : (World K V L → Prop) → Prop) (I : World K V L → Prop)
    (evtId : EventID K V) : Prop :=
  ∃ J : World K V L → Prop,
    (∀ w klc, I w → GoMap.get evtId.Kind w.d.kindListenerContainers = some klc →
      J (w.openKind evtId.Kind)) ∧
    (∀ w, J w → I (w.closeKind evtId.Kind)) ∧
    ∀ tier, TierFrame Good J evtId tier

/-- The message of a per-tier dispatch error as the specification states it: the kind
field renders the kind of the event (`fmtK`), the value field its value (`fmtV`). -/
def specDispatchErrorMessage (fmtK : K → String) (fmtV : V → String) (dt : String)
    (eventID : EventID K V) (cause : String) : String :=
  "dispatch " ++ dt ++ " event of id=\x7bkind:" ++ fmtK eventID.Kind ++ ", value:"
    ++ fmtV eventID.Value ++ "\x7d: " ++ cause

/-- A callback that dispatches its own event again, now with the parameter 1, when the
event it receives has no parameter, and returns nil. -/
def cbRedispatch : ListenerCallback Nat Nat Nat :=
  fun e => if e.param = none then .Dispatch e.eventID none [some 1] (fun _ => .ret none)
    else .ret none

/-- Example: the dispatcher after `AddKindListener(10, 1, cbRedispatch, true)`. -/
def exOnce : Dispatcher Nat Nat Nat :=
  afterAdd (NewDispatcher.AddKindListener 10 1 (some cbRedispatch) [true])

/-- A callback that registers listener 9 for the event ID (10, 6) and returns nil. -/
def cbAddOther : ListenerCallback Nat Nat Nat :=
  fun _ => .AddValueListener ⟨10, 6⟩ 9 (some cbNil) [] (fun _ => .ret none)

/-- Example: the dispatcher after `AddValueListener((10, 5), 1, cbAddOther)`. -/
def exAdder : Dispatcher Nat Nat Nat :=
  afterAdd (NewDispatcher.AddValueListener ⟨10, 5⟩ 1 (some cbAddOther) [])

/-- The pruning invariant inside a dispatch of kind `evtKind`: no container is empty, and
a per-kind container without listeners can only be the one of `evtKind`, which the closing
statements of `Dispatch` delete. -/
def Dispatcher.PrunedBut (d : Dispatcher K V L) (evtKind : K) : Prop :=
  ∀ p ∈ d.kindListenerContainers, p.2.Pruned ∧
    (p.2.noListener = true →
      p.1 = evtKind ∧ GoMap.get evtKind d.kindListenerContainers = some p.2)

/-- The dispatcher states reached from `NewDispatcher` by calls of the public operations
that return; the callbacks registered on the way are arbitrary, so the operations they
issue during a `Dispatch` are included. -/
inductive Dispatcher.Reachable : Dispatcher K V L → Prop where
  | NewDispatcher : Dispatcher.Reachable NewDispatcher
  | AddKindListener {d d1 : Dispatcher K V L} {evtKind : K} {lID : L}
      {callback : Option (ListenerCallback K V L)} {once : List Bool} {added : Bool}
      (h : Dispatcher.Reachable d)
      (hr : d.AddKindListener evtKind lID callback once = .ok (d1, added)) :
      Dispatcher.Reachable d1
  | AddValueListener {d d1 : Dispatcher K V L} {evtId : EventID K V} {lID : L}
      {callback : Option (ListenerCallback K V L)} {once : List Bool} {added : Bool}
      (h : Dispatcher.Reachable d)
      (hr : d.AddValueListener evtId lID callback once = .ok (d1, added)) :
      Dispatcher.Reachable d1
  | RemKindListener {d : Dispatcher K V L} (evtKind : K) (lID : L)
      (h : Dispatcher.Reachable d) : Dispatcher.Reachable (d.RemKindListener evtKind lID).1
  | RemValueListener {d : Dispatcher K V L} (evtId : EventID K V) (lID : L)
      (h : Dispatcher.Reachable d) : Dispatcher.Reachable (d.RemValueListener evtId lID).1
  | Clear {d : Dispatcher K V L} (h : Dispatcher.Reachable d) : Dispatcher.Reachable d.Clear
  | Dispatch {d d1 : Dispatcher K V L} {fuel : Nat} {evtId : EventID K V} {generator : Any}
      {param : List Any} {t t1 : List (Invocation K V L)} {err : Option (Error K V)}
      (h : Dispatcher.Reachable d)
      (hr : Dispatcher.Dispatch fuel evtId generator param ⟨d, t⟩ = .ok err ⟨d1, t1⟩) :
      Dispatcher.Reachable d1

/-- The container is at depth `n` and masks the listener `lID`: the listener is in the
list, every listener of that ID is flagged for removal, and its element is queued. -/
def listenerContainer.Masks (ls : listenerContainer K V L) (lID : L) (n : Int) : Prop :=
  ls.dispatching = n ∧ lID ∈ ls.pendingRemList.getD [] ∧
    (∀ x ∈ ls.listenerList, x.id = lID → x.pendingRem = true) ∧ lID ∈ ls.ids

/-- The container of a tier of `kls` masks the listener `lID` at depth `n`. -/
def kindListenerContainer.Masks (kls : kindListenerContainer K V L) (tier : Tier) (v : V)
    (lID : L) (n : Int) : Prop :=
  ∃ ls, kls.container tier v = some ls ∧ ls.Masks lID n

/-- The container an event reaches in a tier masks the listener `lID` at depth `n`, and
the depth counter of the dispatcher is `m`. -/
def Dispatcher.Masks (d : Dispatcher K V L) (evtId : EventID K V) (tier : Tier) (lID : L)
    (n m : Int) : Prop :=
  d.dispatching = m ∧ ∃ klc, GoMap.get evtId.Kind d.kindListenerContainers = some klc ∧
    klc.Masks tier evtId.Value lID n

/-- The number of calls, in a log, of the listener `lID` of the container that `evtId`
reaches in `tier`. -/
def calls (evtId : EventID K V) (tier : Tier) (lID : L) (t : List (Invocation K V L)) : Nat :=
  t.countP (fun i => decide (i.tier = tier ∧ i.id = lID ∧
    i.event.eventID.Kind = evtId.Kind ∧ (tier = .value → i.event.eventID.Value = evtId.Value)))

/-- The listener `lID` is masked in its container at depth `n`, the dispatcher is at depth
`m`, and the log holds `c` calls of the listener. -/
def Masked (evtId : EventID K V) (tier : Tier) (lID : L) (n m : Int) (c : Nat)
    (w : World K V L) : Prop :=
  w.d.Masks evtId tier lID n m ∧ calls evtId tier lID w.trace = c

/-- The event `e2` reaches in `tier2` the container that `evtId` reaches in `tier`. -/
def samePlace (evtId : EventID K V) (tier : Tier) (e2 : EventID K V) (tier2 : Tier) : Prop :=
  tier2 = tier ∧ e2.Kind = evtId.Kind ∧ (tier = .value → e2.Value = evtId.Value)

instance (evtId : EventID K V) (tier : Tier) (e2 : EventID K V) (tier2 : Tier) :
    Decidable (samePlace evtId tier e2 tier2) := by
  unfold samePlace
  infer_instance

/-- The class of the masking properties of one listener. -/
def MaskedClass (evtId : EventID K V) (tier : Tier) (lID : L) (I : World K V L → Prop) : Prop :=
  ∃ (n m : Int) (c : Nat), 1 ≤ n ∧ 1 ≤ m ∧ I = Masked evtId tier lID n m c

/-- A callback body that starts by removing the listener `lID` of the container that
`evtId` reaches in `tier`, a peer of its own listener, and continues with the result of the
removal. -/
def removePeer (evtId : EventID K V) (tier : Tier) (lID : L) (next : Bool → Prog K V L) :
    Prog K V L :=
  match tier with
  | .kind => .RemKindListener evtId.Kind lID next
  | .value => .RemValueListener evtId lID next

/-- The listener with its pending-removal flag set when its ID is `i`. -/
def listener.flag (i : L) (x : listener K V L) : listener K V L :=
  if x.id = i then { x with pendingRem := true } else x

/-- Call `pendingRemListener` for the element `elem` and the listener it carries. -/
def listenerContainer.mark (ls : listenerContainer K V L) (elem : L) :
    listenerContainer K V L :=
  match ls.value elem with
  | none => ls
  | some l => ls.pendingRemListener l elem

/-- A callback of a kind-level listener: it removes the kind-level listener `X` of the kind
of its event and then, when the event has no parameter, dispatches the event again with
the parameter 1; it returns nil. -/
def cbRemovePeer (X : Nat) : ListenerCallback Nat Nat Nat :=
  fun e => removePeer e.eventID .kind X
    (fun _ => if e.param = none then .Dispatch e.eventID none [some 1] (fun _ => .ret none)
      else .ret none)

/-- Example container, idle, with the listeners 1, 2, 3 in registration order; the callback
of listener 2 removes the listener `X` and dispatches again. -/
def exPeers (X : Nat) : listenerContainer Nat Nat Nat :=
  { listenerList := [⟨1, cbNil, false, false⟩, ⟨2, cbRemovePeer X, false, false⟩,
      ⟨3, cbNil, false, false⟩]
    listenerMap := GoMap.diag [1, 2, 3]
    pendingRemList := none
    dispatching := 0 }

/-- The world in which `Dispatch((10, 5))` reaches the kind-level container `exPeers X` of
kind 10: both depth counters are 1 and the log is empty. -/
def exPeersWorld (X : Nat) : World Nat Nat Nat :=
  inWalk ⟨[], 1⟩ ⟨none, none, 1⟩ ⟨10, 5⟩ .kind (exPeers X) []

/-- An active call of `Dispatch`: the ID of its event and the phase it is in, `none` while
it executes the statements before, between and after the two phases. -/
structure Call (K V : Type) where
  evtId : EventID K V
  phase : Option Tier

/-- The number of active calls that are in the phase of `tier` on the container that
`e` reaches in `tier`: the calls of `listenerContainer.dispatch` active on it. -/
def depthOf (s : List (Call K V)) (e : EventID K V) (tier : Tier) : Nat :=
  s.countP (fun f => decide (f.phase = some tier ∧ f.evtId.Kind = e.Kind ∧
    (tier = .value → f.evtId.Value = e.Value)))

/-- The number of active calls for events of kind `k`: the calls of
`kindListenerContainer.dispatch` active on the per-kind container of `k`. -/
def kindDepthOf (s : List (Call K V)) (k : K) : Nat :=
  s.countP (fun f => decide (f.evtId.Kind = k))

/-- Every active call is in one of its phases: the state in which callbacks run. -/
def Callable (s : List (Call K V)) : Prop :=
  ∀ f ∈ s, f.phase ≠ none

/-- A container in good order at depth `n`: index and list agree, flags and queue agree,
the depth counter is `n`, every queued element is linked, and nothing is queued at
depth 0. -/
def listenerContainer.Sound (ls : listenerContainer K V L) (n : Nat) : Prop :=
  ls.Canon ∧ ls.Queued ∧ ls.dispatching = (n : Int) ∧
    (∀ e ∈ ls.pendingRemList.getD [], e ∈ ls.ids) ∧ (n = 0 → ls.pendingRemList = none)

/-- What the pruning statements keep of a container: nothing when it has no listener. -/
def listenerContainer.kept (ls : listenerContainer K V L) : Option (listenerContainer K V L) :=
  if ls.noListener then none else some ls

/-- A per-kind container in good order when `kd` calls of `kindListenerContainer.dispatch`
are active on it and `dp tier v` calls of `listenerContainer.dispatch` are active on its
container of `tier` (and value `v`): its depth counter is `kd`, each of its containers is
non-empty and in good order at its number of active calls, and each container with an
active call is present. -/
def kindListenerContainer.Balanced (klc : kindListenerContainer K V L) (kd : Nat)
    (dp : Tier → V → Nat) : Prop :=
  klc.dispatching = (kd : Int) ∧
    (∀ tier v ls, klc.container tier v = some ls →
      ls.Sound (dp tier v) ∧ ls.listenerList ≠ []) ∧
    (∀ tier v, 0 < dp tier v → ∃ ls, klc.container tier v = some ls)

/-- A dispatcher in good order under the stack `s` of active calls (innermost first): its
depth counter is the number of active calls, only the innermost call may be outside its
phases, every per-kind container is in good order at the numbers of active calls on it,
and each kind with an active call has its per-kind container. -/
def Dispatcher.Balanced (d : Dispatcher K V L) (s : List (Call K V)) : Prop :=
  d.dispatching = (s.length : Int) ∧ Callable s.tail ∧
    (∀ k klc, GoMap.get k d.kindListenerContainers = some klc →
      klc.Balanced (kindDepthOf s k) (fun tier v => depthOf s ⟨k, v⟩ tier)) ∧
    (∀ k, 0 < kindDepthOf s k → ∃ klc, GoMap.get k d.kindListenerContainers = some klc)

/-- The states of a dispatcher reachable from `NewDispatcher`, with the stack `s` of the
calls of `Dispatch` that are active (innermost first).  The public operations are called
from outside (`s` empty) or by a callback, while every active call is in a phase; a
dispatch in progress advances by its statements: both depth counters are incremented
(`openKind`), a phase is entered on its container (`enter`), a callback is called
(`logCall`), a listener is flagged for removal by the walk (`pendingRemListener`), the
phase is left (`leaveTier`), the call returns (`closeKind`). -/
inductive Reach : List (Call K V) → World K V L → Prop where
  | NewDispatcher (t : List (Invocation K V L)) : Reach [] ⟨NewDispatcher, t⟩
  | AddKindListener {s : List (Call K V)} {w : World K V L} {evtKind : K} {lID : L}
      {callback : Option (ListenerCallback K V L)} {once : List Bool}
      {d1 : Dispatcher K V L} {added : Bool} (h : Reach s w) (hs : Callable s)
      (hr : w.d.AddKindListener evtKind lID callback once = .ok (d1, added)) :
      Reach s { w with d := d1 }
  | AddValueListener {s : List (Call K V)} {w : World K V L} {evtId : EventID K V} {lID : L}
      {callback : Option (ListenerCallback K V L)} {once : List Bool}
      {d1 : Dispatcher K V L} {added : Bool} (h : Reach s w) (hs : Callable s)
      (hr : w.d.AddValueListener evtId lID callback once = .ok (d1, added)) :
      Reach s { w with d := d1 }
  | RemKindListener {s : List (Call K V)} {w : World K V L} (evtKind : K) (lID : L)
      (h : Reach s w) (hs : Callable s) :
      Reach s { w with d := (w.d.RemKindListener evtKind lID).1 }
  | RemValueListener {s : List (Call K V)} {w : World K V L} (evtId : EventID K V) (lID : L)
      (h : Reach s w) (hs : Callable s) :
      Reach s { w with d := (w.d.RemValueListener evtId lID).1 }
  | Clear {s : List (Call K V)} {w : World K V L} (h : Reach s w) (hs : Callable s) :
      Reach s { w with d := w.d.Clear }
  | openKind {s : List (Call K V)} {w : World K V L} (evtId : EventID K V)
      {klc : kindListenerContainer K V L} (h : Reach s w) (hs : Callable s)
      (hk : GoMap.get evtId.Kind w.d.kindListenerContainers = some klc) :
      Reach (⟨evtId, none⟩ :: s) (w.openKind evtId.Kind)
  | enter {s : List (Call K V)} {w : World K V L} {evtId : EventID K V} (tier : Tier)
      {ls : listenerContainer K V L} (h : Reach (⟨evtId, none⟩ :: s) w)
      (hc : w.d.container evtId tier = some ls) :
      Reach (⟨evtId, some tier⟩ :: s) { w with d := w.d.setContainer evtId tier ls.enter }
  | logCall {s : List (Call K V)} {w : World K V L} {evtId : EventID K V} {tier : Tier}
      (evt : Event K V) (lID : L) (h : Reach (⟨evtId, some tier⟩ :: s) w) :
      Reach (⟨evtId, some tier⟩ :: s) (w.logCall tier evt lID)
  | pendingRemListener {s : List (Call K V)} {w : World K V L} {evtId : EventID K V}
      {tier : Tier} (elem : L) (h : Reach (⟨evtId, some tier⟩ :: s) w) :
      Reach (⟨evtId, some tier⟩ :: s) (w.pendingRemListener evtId tier elem)
  | leaveTier {s : List (Call K V)} {w : World K V L} {evtId : EventID K V} {tier : Tier}
      (h : Reach (⟨evtId, some tier⟩ :: s) w) :
      Reach (⟨evtId, none⟩ :: s) (w.leaveTier evtId tier)
  | closeKind {s : List (Call K V)} {w : World K V L} {evtId : EventID K V}
      (h : Reach (⟨evtId, none⟩ :: s) w) : Reach s (w.closeKind evtId.Kind)

/-- The class of the reachability predicates of the stacks on which callbacks can run. -/
def ReachClass (I : World K V L → Prop) : Prop :=
  ∃ s : List (Call K V), Callable s ∧ I = Reach s

/-- The first statement of `listenerContainer.dispatch` on the container an event reaches
in a tier: `ls.dispatching++`. -/
def World.enterTier (w : World K V L) (evtId : EventID K V) (tier : Tier) : World K V L :=
  match w.d.container evtId tier with
  | none => w
  | some ls => { w with d := w.d.setContainer evtId tier ls.enter }

/-- Example: the dispatcher after `AddKindListener(10, 1, cbRedispatch)` and
`AddKindListener(10, 2, cbNil)`. -/
def exTwo : Dispatcher Nat Nat Nat :=
  afterAdd ((afterAdd (NewDispatcher.AddKindListener 10 1 (some cbRedispatch) [])).AddKindListener
    10 2 (some cbNil) [])

/-- Example: `Dispatch((10, 5))` on `exTwo` is in its kind phase and has called the
callback of listener 1. -/
def exOuter : World Nat Nat Nat :=
  (((⟨exTwo, []⟩ : World Nat Nat Nat).openKind 10).enterTier ⟨10, 5⟩ .kind).logCall .kind
    ⟨⟨10, 5⟩, none, none⟩ 1

/-- Example: from `exOuter`, the callback of listener 1 has called `Dispatch((10, 5), nil, 1)`
and this nested call is in its kind phase. -/
def exNested : World Nat Nat Nat :=
  (exOuter.openKind 10).enterTier ⟨10, 5⟩ .kind

/-- Example: from `exNested`, a callback has called `RemKindListener(10, 2)`. -/
def exNestedRem : World Nat Nat Nat :=
  { exNested with d := (exNested.d.RemKindListener 10 2).1 }

end Vocabulary

/-! ## Facts about Go maps -/

namespace GoMap

variable {α β : Type} [DecidableEq α]

theorem get_set_self (k : α) (v : β) (m : GoMap α β) : get k (set k v m) = some v := by
  induction m with
  | nil => simp [set, get]
  | cons p t ih =>
    obtain ⟨a, b⟩ := p
    by_cases h : a = k
    · simp [set, get, h]
    · simp [set, get, h, ih]

theorem get_set_ne {k j : α} (v : β) (m : GoMap α β) (h : k ≠ j) :
    get j (set k v m) = get j m := by
  induction m with
  | nil => simp [set, get, h]
  | cons p t ih =>
    obtain ⟨a, b⟩ := p
    by_cases hak : a = k
    · subst hak
      simp [set, get, h]
    · by_cases haj : a = j
      · subst haj
        simp [set, get, hak]
      · simp [set, get, hak, haj, ih]

theorem set_set (k : α) (v u : β) (m : GoMap α β) : set k u (set k v m) = set k u m := by
  induction m with
  | nil => simp [set]
  | cons p t ih =>
    obtain ⟨a, b⟩ := p
    by_cases h : a = k
    · simp [set, h]
    · simp [set, h, ih]

theorem set_get_self {k : α} {v : β} {m : GoMap α β} (h : get k m = some v) :
    set k v m = m := by
  induction m with
  | nil => simp [get] at h
  | cons p t ih =>
    obtain ⟨a, b⟩ := p
    by_cases hak : a = k
    · simp [get, hak] at h
      simp [set, hak, h]
    · simp [get, hak] at h
      simp [set, hak, ih h]

theorem get_delete_self (k : α) (m : GoMap α β) : get k (delete k m) = none := by
  induction m with
  | nil => simp [delete, get]
  | cons p t ih =>
    obtain ⟨a, b⟩ := p
    by_cases h : a = k
    · simpa [delete, List.filter_cons, h] using ih
    · simpa [delete, List.filter_cons, h, get] using ih

theorem get_delete_ne {k j : α} (m : GoMap α β) (h : k ≠ j) :
    get j (delete k m) = get j m := by
  induction m with
  | nil => simp [delete, get]
  | cons p t ih =>
    obtain ⟨a, b⟩ := p
    by_cases hak : a = k
    · subst hak
      simpa [delete, List.filter_cons, get, h] using ih
    · by_cases haj : a = j
      · subst haj
        simp [delete, List.filter_cons, hak, get]
      · simpa [delete, List.filter_cons, hak, get, haj] using ih

theorem delete_set (k : α) (v : β) (m : GoMap α β) : delete k (set k v m) = delete k m := by
  induction m with
  | nil => simp [set, delete]
  | cons p t ih =>
    obtain ⟨a, b⟩ := p
    by_cases h : a = k
    · simp [set, delete, List.filter_cons, h]
    · simpa [set, delete, List.filter_cons, h] using ih

theorem set_ne_nil (k : α) (v : β) (m : GoMap α β) : set k v m ≠ [] := by
  cases m with
  | nil => simp [set]
  | cons p t =>
    obtain ⟨a, b⟩ := p
    by_cases h : a = k <;> simp [set, h]

theorem len_set_pos (k : α) (v : β) (m : GoMap α β) : 0 < len (set k v m) := by
  unfold len
  exact List.length_pos.mpr (set_ne_nil k v m)

theorem mem_of_get {k : α} {v : β} {m : GoMap α β} (h : get k m = some v) : (k, v) ∈ m := by
  induction m with
  | nil => simp [get] at h
  | cons p t ih =>
    obtain ⟨a, b⟩ := p
    by_cases hak : a = k
    · simp [get, hak] at h
      simp [hak, h]
    · simp [get, hak] at h
      exact List.mem_cons_of_mem _ (ih h)

theorem mem_set {k : α} {v : β} {m : GoMap α β} {p : α × β} (h : p ∈ set k v m) :
    p = (k, v) ∨ p ∈ m := by
  induction m with
  | nil => simpa [set] using h
  | cons q t ih =>
    obtain ⟨a, b⟩ := q
    by_cases hak : a = k
    · simp [set, hak] at h
      rcases h with h | h
      · exact Or.inl h
      · exact Or.inr (List.mem_cons_of_mem _ h)
    · simp [set, hak] at h
      rcases h with h | h
      · exact Or.inr (by simp [h])
      · rcases ih h with h1 | h1
        · exact Or.inl h1
        · exact Or.inr (List.mem_cons_of_mem _ h1)

theorem mem_delete {k : α} {m : GoMap α β} {p : α × β} (h : p ∈ delete k m) : p ∈ m :=
  (List.mem_filter.mp h).1

theorem get_diag (k : α) (ids : List α) :
    get k (diag ids) = if k ∈ ids then some k else none := by
  induction ids with
  | nil => simp [diag, get]
  | cons x t ih =>
    by_cases h : x = k
    · simp [diag, get, h]
    · have h1 : ¬ k = x := fun e => h e.symm
      simpa [diag, get, h, h1] using ih

theorem set_diag (k : α) (ids : List α) (h : k ∉ ids) :
    set k k (diag ids) = diag (ids ++ [k]) := by
  induction ids with
  | nil => simp [diag, set]
  | cons y t ih =>
    have hy : ¬ y = k := by
      intro e
      exact h (by simp [e])
    have ht : k ∉ t := fun e => h (List.mem_cons_of_mem _ e)
    have := ih ht
    simp only [diag] at this ⊢
    simp only [List.map_cons, set, hy, if_false, List.cons_append]
    rw [this]

theorem delete_diag (k : α) (ids : List α) :
    delete k (diag ids) = diag (ids.filter (fun y => decide (y ≠ k))) := by
  induction ids with
  | nil => simp [delete, diag]
  | cons y t ih =>
    simp only [diag, delete] at ih ⊢
    by_cases h : y = k
    · simpa [List.filter_cons, h] using ih
    · simpa [List.filter_cons, h] using ih

end GoMap

/-! ## Facts about listener containers -/

section ContainerFacts

variable {K V L : Type} [DecidableEq K] [DecidableEq V] [DecidableEq L]

theorem find_split (pre rest : List (listener K V L)) (l : listener K V L)
    (h : l.id ∉ pre.map (fun x => x.id)) :
    (pre ++ l :: rest).find? (fun x => decide (x.id = l.id)) = some l := by
  induction pre with
  | nil => simp
  | cons y t ih =>
    have hy : ¬ y.id = l.id := by
      intro e
      exact h (by simp [e])
    have ht : l.id ∉ t.map (fun x => x.id) := fun e => h (by simp at e ⊢; exact Or.inr e)
    simp [List.find?_cons, hy, ih ht]

theorem map_mark_of_not_mem (ll : List (listener K V L)) (i : L)
    (h : i ∉ ll.map (fun x => x.id)) :
    ll.map (fun x => if x.id = i then { x with pendingRem := true } else x) = ll := by
  induction ll with
  | nil => rfl
  | cons y t ih =>
    have hy : ¬ y.id = i := by
      intro e
      exact h (by simp [e])
    have ht : i ∉ t.map (fun x => x.id) := fun e => h (by simp at e ⊢; exact Or.inr e)
    simp [hy, ih ht]

theorem mark_split (pre rest : List (listener K V L)) (l : listener K V L)
    (hpre : l.id ∉ pre.map (fun x => x.id)) (hrest : l.id ∉ rest.map (fun x => x.id)) :
    (pre ++ l :: rest).map (fun x => if x.id = l.id then { x with pendingRem := true } else x)
      = pre ++ { l with pendingRem := true } :: rest := by
  rw [List.map_append, List.map_cons, map_mark_of_not_mem pre _ hpre,
    map_mark_of_not_mem rest _ hrest]
  simp

theorem enqueue_enqueue (q : Option (List L)) (a b : List L) :
    enqueue (enqueue q a) b = enqueue q (a ++ b) := by
  cases a with
  | nil => simp [enqueue]
  | cons x t =>
    cases b with
    | nil => simp [enqueue]
    | cons y u => simp [enqueue]

theorem value_id {ls : listenerContainer K V L} {elem : L} {l : listener K V L}
    (h : ls.value elem = some l) : l.id = elem := by
  have := List.find?_some h
  simpa using this

theorem value_mem {ls : listenerContainer K V L} {elem : L} {l : listener K V L}
    (h : ls.value elem = some l) : l ∈ ls.listenerList :=
  List.mem_of_find?_eq_some h

theorem value_pendingRemListener {ls : listenerContainer K V L} {elem : L}
    {l : listener K V L} (h : ls.value elem = some l) :
    ∃ l1, (ls.pendingRemListener l elem).value elem = some l1 ∧ l1.pendingRem = true := by
  unfold listenerContainer.pendingRemListener
  by_cases hp : l.pendingRem = true
  · simp only [hp, if_true]
    exact ⟨l, h, hp⟩
  · simp only [hp]
    refine ⟨{ l with pendingRem := true }, ?_, rfl⟩
    have hid := value_id h
    unfold listenerContainer.value at h ⊢
    simp only [Bool.false_eq_true, if_false]
    rw [List.find?_map]
    have hfun : ((fun (x : listener K V L) => decide (x.id = elem)) ∘
        fun x => if x.id = elem then { x with pendingRem := true } else x)
        = fun x => decide (x.id = elem) := by
      funext x
      by_cases hx : x.id = elem <;> simp [hx]
    rw [hfun, h]
    simp [hid]

theorem pendingRemListener_of_pending (ls : listenerContainer K V L) (elem : L)
    (l : listener K V L) (h : l.pendingRem = true) : ls.pendingRemListener l elem = ls := by
  simp [listenerContainer.pendingRemListener, h]

theorem pendingRemListener_listenerMap (ls : listenerContainer K V L) (elem : L)
    (l : listener K V L) : (ls.pendingRemListener l elem).listenerMap = ls.listenerMap := by
  unfold listenerContainer.pendingRemListener
  split <;> rfl

theorem pendingRemListener_dispatching (ls : listenerContainer K V L) (elem : L)
    (l : listener K V L) : (ls.pendingRemListener l elem).dispatching = ls.dispatching := by
  unfold listenerContainer.pendingRemListener
  split <;> rfl

theorem pendingRemListener_noListener (ls : listenerContainer K V L) (elem : L)
    (l : listener K V L) : (ls.pendingRemListener l elem).noListener = ls.noListener := by
  unfold listenerContainer.pendingRemListener
  split
  · rfl
  · simp [listenerContainer.noListener]

theorem noListener_of_value {ls : listenerContainer K V L} {elem : L} {l : listener K V L}
    (h : ls.value elem = some l) : ls.noListener = false := by
  have hm := value_mem h
  unfold listenerContainer.noListener
  cases hl : ls.listenerList with
  | nil => rw [hl] at hm; simp at hm
  | cons x t => simp

end ContainerFacts

/-! ## Facts about places -/

section PlaceFacts

variable {K V L : Type} [DecidableEq K] [DecidableEq V] [DecidableEq L]

theorem updateKind_putKind (d : Dispatcher K V L) (k : K) (x : kindListenerContainer K V L)
    (f : kindListenerContainer K V L → kindListenerContainer K V L) :
    (d.putKind k x).updateKind k f = d.putKind k (f x) := by
  simp [Dispatcher.updateKind, Dispatcher.putKind, GoMap.get_set_self, GoMap.set_set]

theorem updateKind_of_get {d : Dispatcher K V L} {k : K} {x : kindListenerContainer K V L}
    (h : GoMap.get k d.kindListenerContainers = some x)
    (f : kindListenerContainer K V L → kindListenerContainer K V L) :
    d.updateKind k f = d.putKind k (f x) := by
  simp [Dispatcher.updateKind, Dispatcher.putKind, h]

theorem putKind_putKind (d : Dispatcher K V L) (k : K) (x y : kindListenerContainer K V L) :
    (d.putKind k x).putKind k y = d.putKind k y := by
  simp [Dispatcher.putKind, GoMap.set_set]

theorem putKind_of_get {d : Dispatcher K V L} {k : K} {x : kindListenerContainer K V L}
    (h : GoMap.get k d.kindListenerContainers = some x) : d.putKind k x = d := by
  simp [Dispatcher.putKind, GoMap.set_get_self h]

theorem get_putKind (d : Dispatcher K V L) (k : K) (x : kindListenerContainer K V L) :
    GoMap.get k (d.putKind k x).kindListenerContainers = some x := by
  simp [Dispatcher.putKind, GoMap.get_set_self]

theorem dispatching_putKind (d : Dispatcher K V L) (k : K) (x : kindListenerContainer K V L) :
    (d.putKind k x).dispatching = d.dispatching := rfl

theorem container_putKind (d : Dispatcher K V L) (evtId : EventID K V) (tier : Tier)
    (x : kindListenerContainer K V L) :
    (d.putKind evtId.Kind x).container evtId tier = x.container tier evtId.Value := by
  simp [Dispatcher.container, get_putKind]

theorem setContainer_putKind (d : Dispatcher K V L) (evtId : EventID K V) (tier : Tier)
    (x : kindListenerContainer K V L) (ls : listenerContainer K V L) :
    (d.putKind evtId.Kind x).setContainer evtId tier ls
      = d.putKind evtId.Kind (x.setContainer tier evtId.Value ls) := by
  simp [Dispatcher.setContainer, updateKind_putKind]

theorem container_setContainer {x : kindListenerContainer K V L} {tier : Tier}
    (h : x.HasPlace tier) (v : V) (ls : listenerContainer K V L) :
    (x.setContainer tier v ls).container tier v = some ls := by
  cases tier with
  | kind => simp [kindListenerContainer.setContainer, kindListenerContainer.container]
  | value =>
    have h1 := h rfl
    cases hm : x.valueListeners with
    | none => exact absurd hm h1
    | some m =>
      simp [kindListenerContainer.setContainer, kindListenerContainer.container,
        kindListenerContainer.valueListener, hm, GoMap.get_set_self]

theorem setContainer_setContainer (x : kindListenerContainer K V L) (tier : Tier) (v : V)
    (a b : listenerContainer K V L) :
    (x.setContainer tier v a).setContainer tier v b = x.setContainer tier v b := by
  cases tier with
  | kind => simp [kindListenerContainer.setContainer]
  | value =>
    cases hm : x.valueListeners with
    | none => simp [kindListenerContainer.setContainer, hm]
    | some m => simp [kindListenerContainer.setContainer, hm, GoMap.set_set]

theorem hasPlace_setContainer {x : kindListenerContainer K V L} {tier : Tier}
    (h : x.HasPlace tier) (t2 : Tier) (v : V) (a : listenerContainer K V L) :
    (x.setContainer t2 v a).HasPlace tier := by
  intro ht
  have h1 := h ht
  cases t2 with
  | kind => simpa [kindListenerContainer.setContainer] using h1
  | value =>
    cases hm : x.valueListeners with
    | none => exact absurd hm h1
    | some m => simp [kindListenerContainer.setContainer, hm]

theorem hasPlace_of_container {x : kindListenerContainer K V L} {tier : Tier} {v : V}
    {ls : listenerContainer K V L} (h : x.container tier v = some ls) : x.HasPlace tier := by
  intro ht hn
  subst ht
  simp [kindListenerContainer.container, kindListenerContainer.valueListener, hn] at h

theorem setContainer_of_container {x : kindListenerContainer K V L} {tier : Tier} {v : V}
    {ls : listenerContainer K V L} (h : x.container tier v = some ls) :
    x.setContainer tier v ls = x := by
  obtain ⟨kl, vl, n⟩ := x
  cases tier with
  | kind =>
    simp only [kindListenerContainer.container] at h
    simp [kindListenerContainer.setContainer, h]
  | value =>
    cases vl with
    | none =>
      simp [kindListenerContainer.container, kindListenerContainer.valueListener] at h
    | some m =>
      simp only [kindListenerContainer.container, kindListenerContainer.valueListener] at h
      simp [kindListenerContainer.setContainer, GoMap.set_get_self h]

theorem Clear_of_dispatching {d : Dispatcher K V L} (h : 0 < d.dispatching) : d.Clear = d := by
  simp [Dispatcher.Clear, h]

end PlaceFacts

/-! ## Callbacks that clear and remove their own listener -/

section LocalFacts

variable {K V L : Type} [DecidableEq K] [DecidableEq V] [DecidableEq L]

theorem container_inWalk (d : Dispatcher K V L) {klc : kindListenerContainer K V L}
    (evtId : EventID K V) {tier : Tier} (hp : klc.HasPlace tier)
    (ls : listenerContainer K V L) (t : List (Invocation K V L)) :
    (inWalk d klc evtId tier ls t).d.container evtId tier = some ls := by
  simp [inWalk, container_putKind, container_setContainer hp]

theorem setContainer_inWalk (d : Dispatcher K V L) (klc : kindListenerContainer K V L)
    (evtId : EventID K V) (tier : Tier) (ls ls1 : listenerContainer K V L)
    (t : List (Invocation K V L)) :
    (inWalk d klc evtId tier ls t).d.setContainer evtId tier ls1
      = (inWalk d klc evtId tier ls1 t).d := by
  simp [inWalk, setContainer_putKind, setContainer_setContainer]

theorem pendingRemListener_inWalk (d : Dispatcher K V L) {klc : kindListenerContainer K V L}
    (evtId : EventID K V) {tier : Tier} (hp : klc.HasPlace tier)
    (ls : listenerContainer K V L) (t : List (Invocation K V L)) {elem : L}
    {l : listener K V L} (hv : ls.value elem = some l) :
    (inWalk d klc evtId tier ls t).pendingRemListener evtId tier elem
      = inWalk d klc evtId tier (ls.pendingRemListener l elem) t := by
  unfold World.pendingRemListener
  rw [container_inWalk d evtId hp]
  simp only [hv]
  rw [setContainer_inWalk]
  rfl

theorem RemKindListener_inWalk (d : Dispatcher K V L) (klc : kindListenerContainer K V L)
    (evtId : EventID K V) (ls : listenerContainer K V L) (t : List (Invocation K V L))
    {lID : L} {l : listener K V L} (hv : ls.value lID = some l)
    (hm : GoMap.get lID ls.listenerMap = some lID) (hd : 0 < ls.dispatching) :
    (inWalk d klc evtId .kind ls t).d.RemKindListener evtId.Kind lID
      = ((inWalk d klc evtId .kind (ls.pendingRemListener l lID) t).d, true) := by
  have hno : (ls.pendingRemListener l lID).noListener = false := by
    rw [pendingRemListener_noListener]
    exact noListener_of_value hv
  simp only [Dispatcher.RemKindListener, inWalk, get_putKind,
    kindListenerContainer.remKindListener, kindListenerContainer.setContainer,
    listenerContainer.remListener, hm, hv, hd, if_true, hno, Bool.false_eq_true, if_false,
    Dispatcher.pruneKind, kindListenerContainer.noListener, Bool.false_and]
  simp [Dispatcher.putKind, GoMap.set_set]

theorem RemValueListener_inWalk (d : Dispatcher K V L) {klc : kindListenerContainer K V L}
    (evtId : EventID K V) (hp : klc.HasPlace .value) (ls : listenerContainer K V L)
    (t : List (Invocation K V L))
    {lID : L} {l : listener K V L} (hv : ls.value lID = some l)
    (hm : GoMap.get lID ls.listenerMap = some lID) (hd : 0 < ls.dispatching) :
    (inWalk d klc evtId .value ls t).d.RemValueListener evtId lID
      = ((inWalk d klc evtId .value (ls.pendingRemListener l lID) t).d, true) := by
  have hno : (ls.pendingRemListener l lID).noListener = false := by
    rw [pendingRemListener_noListener]
    exact noListener_of_value hv
  have h1 := hp rfl
  cases hvl : klc.valueListeners with
  | none => exact absurd hvl h1
  | some m =>
    have hlen : ∀ x, GoMap.len (GoMap.set evtId.Value x m) ≠ 0 :=
      fun x => Nat.pos_iff_ne_zero.mp (GoMap.len_set_pos _ _ _)
    simp only [Dispatcher.RemValueListener, inWalk, get_putKind,
      kindListenerContainer.remValueListener, kindListenerContainer.setContainer, hvl,
      kindListenerContainer.valueListener, GoMap.get_set_self,
      listenerContainer.remListener, hm, hv, hd, if_true, kindListenerContainer.pruneValue,
      hno, Bool.false_eq_true, if_false, GoMap.set_set, hlen,
      Dispatcher.pruneKind, kindListenerContainer.noListener]
    have hb : ∀ x, (GoMap.len (GoMap.set evtId.Value x m) == 0) = false := by
      intro x
      simpa using hlen x
    simp [Dispatcher.putKind, GoMap.set_set, hb]

theorem runProg_local (H : Handler K V L) (d : Dispatcher K V L)
    {klc : kindListenerContainer K V L} (evtId : EventID K V) {tier : Tier}
    (hp : klc.HasPlace tier) (hd : 0 < d.dispatching) {lID : L} {p : Prog K V L}
    (hl : Prog.Local evtId tier lID p) :
    ∀ (ls : listenerContainer K V L) (t : List (Invocation K V L)) (l : listener K V L),
      ls.value lID = some l → GoMap.get lID ls.listenerMap = some lID → 0 < ls.dispatching →
      runProg H p (inWalk d klc evtId tier ls t)
        = .ok p.result
            (inWalk d klc evtId tier (if p.removes then ls.pendingRemListener l lID else ls) t) := by
  induction hl with
  | ret err =>
    intro ls t l _ _ _
    simp [runProg, Prog.result, Prog.removes]
  | Clear h ih =>
    intro ls t l hv hm hdl
    have hc : (inWalk d klc evtId tier ls t).d.Clear = (inWalk d klc evtId tier ls t).d :=
      Clear_of_dispatching (by simpa [inWalk, dispatching_putKind] using hd)
    simp only [runProg, hc, Prog.result, Prog.removes]
    exact ih ls t l hv hm hdl
  | @RemKindListener next ht h ih =>
    intro ls t l hv hm hdl
    subst ht
    obtain ⟨l1, hv1, hp1⟩ := value_pendingRemListener hv
    have hm1 : GoMap.get lID (ls.pendingRemListener l lID).listenerMap = some lID := by
      rw [pendingRemListener_listenerMap]; exact hm
    have hd1 : 0 < (ls.pendingRemListener l lID).dispatching := by
      rw [pendingRemListener_dispatching]; exact hdl
    simp only [runProg, RemKindListener_inWalk d klc evtId ls t hv hm hdl, Prog.result,
      Prog.removes, if_true]
    have := ih (ls.pendingRemListener l lID) t l1 hv1 hm1 hd1
    rw [pendingRemListener_of_pending _ _ _ hp1] at this
    simpa [inWalk] using this
  | @RemValueListener next ht h ih =>
    intro ls t l hv hm hdl
    subst ht
    obtain ⟨l1, hv1, hp1⟩ := value_pendingRemListener hv
    have hm1 : GoMap.get lID (ls.pendingRemListener l lID).listenerMap = some lID := by
      rw [pendingRemListener_listenerMap]; exact hm
    have hd1 : 0 < (ls.pendingRemListener l lID).dispatching := by
      rw [pendingRemListener_dispatching]; exact hdl
    simp only [runProg, RemValueListener_inWalk d evtId hp ls t hv hm hdl, Prog.result,
      Prog.removes, if_true]
    have := ih (ls.pendingRemListener l lID) t l1 hv1 hm1 hd1
    rw [pendingRemListener_of_pending _ _ _ hp1] at this
    simpa [inWalk] using this

end LocalFacts

/-! ## The walk over a container -/

section WalkFacts

variable {K V L : Type} [DecidableEq K] [DecidableEq V] [DecidableEq L]

theorem value_split (pre rest : List (listener K V L)) (l : listener K V L) (lmap : GoMap L L)
    (q : Option (List L)) (n : Int)
    (hnd : ((pre ++ l :: rest).map (fun x => x.id)).Nodup) :
    (⟨pre ++ l :: rest, lmap, q, n⟩ : listenerContainer K V L).value l.id = some l := by
  have h : l.id ∉ pre.map (fun x => x.id) := by
    rw [List.map_append, List.map_cons] at hnd
    have := (List.nodup_append.mp hnd).2.2
    intro hmem
    exact this hmem (List.mem_cons_self _ _)
  exact find_split pre rest l h

theorem pendingRemListener_split (pre rest : List (listener K V L)) (l : listener K V L)
    (lmap : GoMap L L) (q : Option (List L)) (n : Int)
    (hnd : ((pre ++ l :: rest).map (fun x => x.id)).Nodup) (hpend : l.pendingRem = false) :
    (⟨pre ++ l :: rest, lmap, q, n⟩ : listenerContainer K V L).pendingRemListener l l.id
      = ⟨pre ++ { l with pendingRem := true } :: rest, lmap, some (q.getD [] ++ [l.id]), n⟩ := by
  rw [List.map_append, List.map_cons] at hnd
  have h1 : l.id ∉ pre.map (fun x => x.id) := by
    have := (List.nodup_append.mp hnd).2.2
    intro hmem
    exact this hmem (List.mem_cons_self _ _)
  have h2 : l.id ∉ rest.map (fun x => x.id) :=
    (List.nodup_cons.mp (List.nodup_append.mp hnd).2.1).1
  simp only [listenerContainer.pendingRemListener, hpend, Bool.false_eq_true, if_false]
  rw [mark_split pre rest l h1 h2]

theorem dispatch_inWalk (H : Handler K V L) (d : Dispatcher K V L)
    {klc : kindListenerContainer K V L} (evt : Event K V) {tier : Tier}
    (hp : klc.HasPlace tier) (hd : 0 < d.dispatching)
    (ls : listenerContainer K V L) (t : List (Invocation K V L)) (l : listener K V L)
    (hpend : l.pendingRem = false)
    (hl : Prog.Local evt.eventID tier l.id (l.callback evt))
    (hv : ls.value l.id = some l) (hm : GoMap.get l.id ls.listenerMap = some l.id)
    (hn : 0 < ls.dispatching) :
    l.dispatch (runProg H) tier evt (inWalk d klc evt.eventID tier ls t)
      = .ok (l.callback evt).result
          (inWalk d klc evt.eventID tier
            (if (l.callback evt).removes then ls.pendingRemListener l l.id else ls)
            (t ++ [⟨tier, evt, l.id⟩])) := by
  unfold listener.dispatch
  simp only [hpend, Bool.false_eq_true, if_false]
  exact runProg_local H d evt.eventID hp hd hl ls (t ++ [⟨tier, evt, l.id⟩]) l hv hm hn

theorem genuine_eq (err : Option (Error K V)) (errs : List (Error K V)) :
    (match err with
      | none => errs
      | some e => if Error.isRemAfterDispatch err then errs else errs ++ [e])
      = errs ++ genuine err := by
  cases err with
  | none => simp [genuine]
  | some e => cases e <;> simp [genuine, Error.isRemAfterDispatch]

theorem walk_spec (H : Handler K V L) (d : Dispatcher K V L)
    {klc : kindListenerContainer K V L} (evt : Event K V) {tier : Tier}
    (hp : klc.HasPlace tier) (hd : 0 < d.dispatching) :
    ∀ (rest pre : List (listener K V L)) (lmap : GoMap L L) (q : Option (List L)) (n : Int)
      (t : List (Invocation K V L)) (errs : List (Error K V)),
      lmap = GoMap.diag ((pre ++ rest).map (fun x => x.id)) →
      ((pre ++ rest).map (fun x => x.id)).Nodup →
      0 < n →
      (∀ l ∈ rest, l.pendingRem = false →
        Prog.Local evt.eventID tier l.id (l.callback evt)) →
      listenerContainer.walk (runProg H) tier evt (rest.map (fun x => x.id))
          (inWalk d klc evt.eventID tier ⟨pre ++ rest, lmap, q, n⟩ t) errs
        = .ok (errs ++ genuineErrors evt rest)
            (inWalk d klc evt.eventID tier
              ⟨pre ++ rest.map (listener.afterWalk evt), lmap,
                enqueue q ((rest.filter (listener.removed evt)).map (fun x => x.id)), n⟩
              (t ++ invocations tier evt rest)) := by
  intro rest
  induction rest with
  | nil =>
    intro pre lmap q n t errs _ _ _ _
    simp [listenerContainer.walk, genuineErrors, fired, invocations, enqueue]
  | cons l rest ih =>
    intro pre lmap q n t errs hmap hnd hn hloc
    have hv := value_split pre rest l lmap q n hnd
    have hmem : l.id ∈ (pre ++ l :: rest).map (fun x => x.id) := by simp
    have hm : GoMap.get l.id lmap = some l.id := by
      rw [hmap, GoMap.get_diag]
      simp
    have hnd1 : (((pre ++ [l.afterWalk evt]) ++ rest).map (fun x => x.id)).Nodup := by
      have : (l.afterWalk evt).id = l.id := by
        unfold listener.afterWalk
        split <;> rfl
      simpa [this] using hnd
    have hmap1 : lmap = GoMap.diag (((pre ++ [l.afterWalk evt]) ++ rest).map (fun x => x.id)) := by
      have : (l.afterWalk evt).id = l.id := by
        unfold listener.afterWalk
        split <;> rfl
      rw [hmap]
      simp [this]
    have hloc1 : ∀ x ∈ rest, x.pendingRem = false →
        Prog.Local evt.eventID tier x.id (x.callback evt) :=
      fun x hx => hloc x (List.mem_cons_of_mem _ hx)
    simp only [List.map_cons, listenerContainer.walk]
    rw [container_inWalk d evt.eventID hp]
    simp only [Option.some_bind, hv]
    by_cases hpend : l.pendingRem = true
    · -- flagged before its turn: skipped
      simp only [hpend, Bool.not_true, Bool.false_eq_true, if_false]
      have haw : l.afterWalk evt = l := by simp [listener.afterWalk, listener.removed, hpend]
      have hrm : l.removed evt = false := by simp [listener.removed, hpend]
      have := ih (pre ++ [l]) lmap q n t errs (by simpa [haw] using hmap1)
        (by simpa [haw] using hnd1) hn hloc1
      simp only [List.append_assoc, List.singleton_append] at this
      rw [this]
      simp [genuineErrors, fired, invocations, hpend, haw, List.filter_cons, hrm]
    · have hpend : l.pendingRem = false := by simpa using hpend
      simp only [hpend, Bool.not_false, if_true]
      rw [dispatch_inWalk H d evt hp hd _ t l hpend (hloc l (List.mem_cons_self _ _) hpend)
        hv hm hn]
      simp only [genuine_eq]
      -- the container after the callback and the removal check
      have hstep :
          (if (l.once || Error.isRemAfterDispatch (l.callback evt).result) = true then
              (inWalk d klc evt.eventID tier
                (if (l.callback evt).removes = true then
                  (⟨pre ++ l :: rest, lmap, q, n⟩ : listenerContainer K V L).pendingRemListener
                    l l.id
                else ⟨pre ++ l :: rest, lmap, q, n⟩)
                (t ++ [⟨tier, evt, l.id⟩])).pendingRemListener evt.eventID tier l.id
            else
              inWalk d klc evt.eventID tier
                (if (l.callback evt).removes = true then
                  (⟨pre ++ l :: rest, lmap, q, n⟩ : listenerContainer K V L).pendingRemListener
                    l l.id
                else ⟨pre ++ l :: rest, lmap, q, n⟩)
                (t ++ [⟨tier, evt, l.id⟩]))
            = inWalk d klc evt.eventID tier
                ⟨(pre ++ [l.afterWalk evt]) ++ rest, lmap,
                  enqueue q (if l.removed evt then [l.id] else []), n⟩
                (t ++ [⟨tier, evt, l.id⟩]) := by
        have hsplit := pendingRemListener_split pre rest l lmap q n hnd hpend
        by_cases hr : (l.callback evt).removes = true
        · have hrm : l.removed evt = true := by simp [listener.removed, hpend, hr]
          simp only [hr, if_true, hsplit]
          have hnd2 : ((pre ++ { l with pendingRem := true } :: rest).map
              (fun x => x.id)).Nodup := by simpa using hnd
          have hv2 := value_split pre rest { l with pendingRem := true } lmap
            (some (q.getD [] ++ [l.id])) n hnd2
          have hv2' : (⟨pre ++ { l with pendingRem := true } :: rest, lmap,
              some (q.getD [] ++ [l.id]), n⟩ : listenerContainer K V L).value l.id
              = some { l with pendingRem := true } := hv2
          rw [pendingRemListener_inWalk d evt.eventID hp _ _ hv2',
            pendingRemListener_of_pending _ _ _ rfl]
          simp [listener.afterWalk, hrm, enqueue]
        · have hr : (l.callback evt).removes = false := by simpa using hr
          simp only [hr, Bool.false_eq_true, if_false]
          by_cases ho : (l.once || Error.isRemAfterDispatch (l.callback evt).result) = true
          · have hrm : l.removed evt = true := by
              simp only [listener.removed, hpend, hr, Bool.not_false, Bool.true_and,
                Bool.false_or]
              exact ho
            simp only [ho, if_true]
            rw [pendingRemListener_inWalk d evt.eventID hp _ _ hv, hsplit]
            simp [listener.afterWalk, hrm, enqueue]
          · have ho' : (l.once || Error.isRemAfterDispatch (l.callback evt).result) = false := by
              simpa using ho
            have hrm : l.removed evt = false := by
              simp only [listener.removed, hpend, hr, Bool.not_false, Bool.true_and,
                Bool.false_or]
              exact ho'
            simp only [ho, if_false]
            simp [listener.afterWalk, hrm, enqueue]
      rw [hstep]
      rw [ih (pre ++ [l.afterWalk evt]) lmap _ n _ _ hmap1 hnd1 hn hloc1]
      rw [enqueue_enqueue]
      have hfil : (if l.removed evt = true then [l.id] else [])
          ++ (rest.filter (listener.removed evt)).map (fun x => x.id)
          = ((l :: rest).filter (listener.removed evt)).map (fun x => x.id) := by
        by_cases hrm : l.removed evt = true <;> simp [List.filter_cons, hrm]
      rw [hfil]
      simp [genuineErrors, fired, invocations, hpend, List.filter_cons]

end WalkFacts

/-! ## Flush and the dispatch of one container -/

section DispatchFacts

variable {K V L : Type} [DecidableEq K] [DecidableEq V] [DecidableEq L]

theorem flush_spec : ∀ (q : List L) (ll : List (listener K V L)) (pq : Option (List L))
    (n : Int),
    listenerContainer.flush ⟨ll, GoMap.diag (ll.map (fun x => x.id)), pq, n⟩ q
      = ⟨ll.filter (fun x => decide (x.id ∉ q)),
          GoMap.diag ((ll.filter (fun x => decide (x.id ∉ q))).map (fun x => x.id)), pq, n⟩ := by
  intro q
  induction q with
  | nil =>
    intro ll pq n
    simp [listenerContainer.flush]
  | cons e q ih =>
    intro ll pq n
    unfold listenerContainer.flush
    cases hv : (⟨ll, GoMap.diag (ll.map (fun x => x.id)), pq, n⟩ :
        listenerContainer K V L).value e with
    | none =>
      simp only
      rw [ih]
      have hne : ∀ x ∈ ll, x.id ≠ e := by
        intro x hx
        have := List.find?_eq_none.mp hv x hx
        simpa using this
      have hf : ll.filter (fun x => decide (x.id ∉ e :: q))
          = ll.filter (fun x => decide (x.id ∉ q)) := by
        apply List.filter_congr
        intro x hx
        simp [hne x hx]
      rw [hf]
    | some l =>
      have hid : l.id = e := value_id hv
      simp only [listenerContainer.directRemListener, hid, GoMap.delete_diag]
      have hc : (ll.map (fun x => x.id)).filter (fun y => decide (y ≠ e))
          = (ll.filter (fun x => decide (x.id ≠ e))).map (fun x => x.id) := by
        rw [List.filter_map]
        rfl
      rw [hc, ih]
      have hf : (ll.filter (fun x => decide (x.id ≠ e))).filter (fun x => decide (x.id ∉ q))
          = ll.filter (fun x => decide (x.id ∉ e :: q)) := by
        rw [List.filter_filter]
        apply List.filter_congr
        intro x hx
        by_cases h1 : x.id = e <;> by_cases h2 : x.id ∈ q <;> simp [h1, h2]
      rw [hf]

theorem afterWalk_id (evt : Event K V) (l : listener K V L) : (l.afterWalk evt).id = l.id := by
  unfold listener.afterWalk
  split <;> rfl

theorem afterWalk_of_not_removed {evt : Event K V} {l : listener K V L}
    (h : l.removed evt = false) : l.afterWalk evt = l := by
  simp [listener.afterWalk, h]

theorem map_afterWalk_ids (evt : Event K V) (ll : List (listener K V L)) :
    (ll.map (listener.afterWalk evt)).map (fun x => x.id) = ll.map (fun x => x.id) := by
  simp [List.map_map, Function.comp_def, afterWalk_id]

theorem mem_removed_ids (evt : Event K V) {ll : List (listener K V L)}
    (hnd : (ll.map (fun x => x.id)).Nodup) {l : listener K V L} (hl : l ∈ ll) :
    l.id ∈ (ll.filter (listener.removed evt)).map (fun x => x.id) ↔ l.removed evt = true := by
  constructor
  · intro h
    obtain ⟨x, hx, hxid⟩ := List.mem_map.mp h
    have hx1 := List.mem_filter.mp hx
    have : x = l := List.inj_on_of_nodup_map hnd hx1.1 hl hxid
    rw [← this]
    exact hx1.2
  · intro h
    exact List.mem_map.mpr ⟨l, List.mem_filter.mpr ⟨hl, h⟩, rfl⟩

/-- The closing statements of `dispatch` on a container that was idle when entered. -/
theorem leave_walked (evt : Event K V) (ls : listenerContainer K V L) (hi : ls.Idle) :
    (ls.walked evt).leave = ls.afterDispatch evt := by
  obtain ⟨ll, lmap, pq, n⟩ := ls
  obtain ⟨hn, hq, hpend, hmap, hnd⟩ := hi
  simp only [listenerContainer.ids] at hmap hnd
  simp only at hn hq hmap hnd hpend
  subst hn hq
  have hkeep : ∀ x ∈ ll, (!x.removed evt) = true → x.afterWalk evt = x := by
    intro x _ h
    exact afterWalk_of_not_removed (by simpa using h)
  have hfinal : (ll.map (listener.afterWalk evt)).filter
      (fun x => decide (x.id ∉ (ll.filter (listener.removed evt)).map (fun x => x.id)))
      = ll.filter (fun l => !l.removed evt) := by
    rw [List.filter_map]
    have h1 : ll.filter ((fun x => decide (x.id ∉
          (ll.filter (listener.removed evt)).map (fun x => x.id))) ∘ listener.afterWalk evt)
        = ll.filter (fun l => !l.removed evt) := by
      apply List.filter_congr
      intro x hx
      have := mem_removed_ids evt hnd hx
      simp only [Function.comp, afterWalk_id]
      by_cases hr : x.removed evt = true
      · simp [hr, this.mpr hr]
      · have hr' : x.removed evt = false := by simpa using hr
        have : x.id ∉ (ll.filter (listener.removed evt)).map (fun x => x.id) :=
          fun hmem => hr (this.mp hmem)
        simp [hr', this]
    rw [h1]
    calc (ll.filter (fun l => !l.removed evt)).map (listener.afterWalk evt)
        = (ll.filter (fun l => !l.removed evt)).map id := by
          apply List.map_congr_left
          intro x hx
          have hx1 := List.mem_filter.mp hx
          exact hkeep x hx1.1 hx1.2
      _ = ll.filter (fun l => !l.removed evt) := by simp
  unfold listenerContainer.leave listenerContainer.walked listenerContainer.afterDispatch
  simp only [zero_add, sub_self, lt_self_iff_false, if_false, if_true]
  cases hR : (ll.filter (listener.removed evt)).map (fun x => x.id) with
  | nil =>
    have hnone : ∀ x ∈ ll, x.removed evt = false := by
      intro x hx
      by_contra hc
      have hc' : x.removed evt = true := by simpa using hc
      have := (mem_removed_ids evt hnd hx).mpr hc'
      rw [hR] at this
      simp at this
    have h1 : ll.map (listener.afterWalk evt) = ll := by
      calc ll.map (listener.afterWalk evt) = ll.map id := by
            apply List.map_congr_left
            intro x hx
            exact afterWalk_of_not_removed (hnone x hx)
        _ = ll := by simp
    have h2 : ll.filter (fun l => !l.removed evt) = ll := by
      apply List.filter_eq_self.mpr
      intro x hx
      simp [hnone x hx]
    simp [enqueue, h1, h2, hmap]
  | cons e r =>
    simp only [enqueue, Option.getD_none, List.nil_append]
    have hm2 : lmap = GoMap.diag ((ll.map (listener.afterWalk evt)).map (fun x => x.id)) := by
      rw [map_afterWalk_ids]; exact hmap
    rw [hm2, flush_spec, ← hR, hfinal]

/-- The closing statements of `dispatch` on a container that was already dispatching
when entered: nothing is flushed. -/
theorem leave_walked_nested (evt : Event K V) (ls : listenerContainer K V L)
    (h : 0 < ls.dispatching) :
    (ls.walked evt).leave = { ls.walked evt with dispatching := ls.dispatching } := by
  unfold listenerContainer.leave listenerContainer.walked
  have h1 : ¬ (ls.dispatching + 1 - 1 < 0) := by omega
  have h2 : ¬ (ls.dispatching + 1 - 1 = 0) := by omega
  simp only [h1, h2, if_false]
  simp

theorem world_set_inWalk (d : Dispatcher K V L) (klc : kindListenerContainer K V L)
    (evtId : EventID K V) (tier : Tier) (ls ls1 : listenerContainer K V L)
    (t : List (Invocation K V L)) :
    ({ inWalk d klc evtId tier ls t with
        d := (inWalk d klc evtId tier ls t).d.setContainer evtId tier ls1 } : World K V L)
      = inWalk d klc evtId tier ls1 t := by
  rw [setContainer_inWalk]
  rfl

/-- Dispatch of one container whose callbacks only clear and remove their own listener. -/
theorem lcDispatch_spec (H : Handler K V L) (d : Dispatcher K V L)
    {klc : kindListenerContainer K V L} (evt : Event K V) {tier : Tier}
    (hp : klc.HasPlace tier) (hd : 0 < d.dispatching)
    (ls : listenerContainer K V L) (t : List (Invocation K V L)) (hc : ls.Canon)
    (hn : 0 ≤ ls.dispatching)
    (hloc : ∀ l ∈ ls.listenerList, l.pendingRem = false →
      Prog.Local evt.eventID tier l.id (l.callback evt)) :
    listenerContainer.dispatch (runProg H) tier evt (inWalk d klc evt.eventID tier ls t)
      = .ok (dispatchResult (genuineErrors evt ls.listenerList))
          (inWalk d klc evt.eventID tier (ls.walked evt).leave
            (t ++ invocations tier evt ls.listenerList)) := by
  obtain ⟨ll, lmap, pq, n⟩ := ls
  obtain ⟨hmap, hnd⟩ := hc
  simp only [listenerContainer.ids] at hmap hnd
  simp only at hn hloc
  unfold listenerContainer.dispatch
  rw [container_inWalk d evt.eventID hp]
  simp only
  rw [world_set_inWalk]
  have hw := walk_spec H d evt hp hd ll [] lmap pq (n + 1) t []
    (by simpa using hmap) (by simpa using hnd) (by omega) hloc
  simp only [List.nil_append] at hw
  have he : (listenerContainer.enter ⟨ll, lmap, pq, n⟩ : listenerContainer K V L)
      = ⟨ll, lmap, pq, n + 1⟩ := rfl
  rw [he, hw]
  simp only
  rw [container_inWalk d evt.eventID hp]
  simp only
  rw [world_set_inWalk]
  rfl

end DispatchFacts

/-! ## Dispatch of a kind and of the dispatcher -/

section KindFacts

variable {K V L : Type} [DecidableEq K] [DecidableEq V] [DecidableEq L]

theorem dispatchKind_spec (H : Handler K V L) (d : Dispatcher K V L)
    (klc : kindListenerContainer K V L) (evt : Event K V) (hd : 0 < d.dispatching)
    (t : List (Invocation K V L))
    (hi : ∀ lc, klc.kindListeners = some lc → lc.Idle)
    (hloc : ∀ l ∈ klc.tierList .kind evt.eventID.Value,
      Prog.Local evt.eventID .kind l.id (l.callback evt)) :
    kindListenerContainer.dispatchKind (runProg H) evt ⟨d.putKind evt.eventID.Kind klc, t⟩
      = .ok (wrapPhase "kind" evt []
              (dispatchResult (genuineErrors evt (klc.tierList .kind evt.eventID.Value))))
          ⟨d.putKind evt.eventID.Kind (klc.afterKind evt),
            t ++ invocations .kind evt (klc.tierList .kind evt.eventID.Value)⟩ := by
  unfold kindListenerContainer.dispatchKind
  simp only [get_putKind, Option.some_bind]
  cases hk : klc.kindListeners with
  | none =>
    have h1 : klc.afterKind evt = klc := by
      obtain ⟨kl, vl, n⟩ := klc
      simp only at hk
      subst hk
      rfl
    simp [kindListenerContainer.tierList, kindListenerContainer.container, hk, h1,
      genuineErrors, fired, invocations, dispatchResult, wrapPhase]
  | some ls =>
    have hcont : klc.container .kind evt.eventID.Value = some ls := by
      simp [kindListenerContainer.container, hk]
    have hw : (⟨d.putKind evt.eventID.Kind klc, t⟩ : World K V L)
        = inWalk d klc evt.eventID .kind ls t := by
      simp [inWalk, setContainer_of_container hcont]
    have hidle := hi ls hk
    have hlist : klc.tierList .kind evt.eventID.Value = ls.listenerList := by
      simp [kindListenerContainer.tierList, hcont]
    rw [hlist] at hloc ⊢
    simp only
    rw [hw, lcDispatch_spec H d evt (hasPlace_of_container hcont) hd ls t hidle.2.2.2
      (by rw [hidle.1]) (fun l hl _ => hloc l hl), leave_walked evt ls hidle]
    simp only [inWalk, updateKind_putKind]
    have h2 : (klc.setContainer .kind evt.eventID.Value (ls.afterDispatch evt)).pruneKindListeners
        = klc.afterKind evt := by
      simp only [kindListenerContainer.pruneKindListeners, kindListenerContainer.setContainer,
        kindListenerContainer.afterKind, hk]
      split <;> rfl
    rw [h2]

theorem dispatchValue_spec (H : Handler K V L) (d : Dispatcher K V L)
    (klc : kindListenerContainer K V L) (evt : Event K V) (hd : 0 < d.dispatching)
    (t : List (Invocation K V L)) (errs : List (Error K V))
    (hi : ∀ m, klc.valueListeners = some m → ∀ p ∈ m, p.2.Idle)
    (hloc : ∀ l ∈ klc.tierList .value evt.eventID.Value,
      Prog.Local evt.eventID .value l.id (l.callback evt)) :
    kindListenerContainer.dispatchValue (runProg H) evt errs
        ⟨d.putKind evt.eventID.Kind klc, t⟩
      = .ok (wrapPhase "value" evt errs
              (dispatchResult (genuineErrors evt (klc.tierList .value evt.eventID.Value))))
          ⟨d.putKind evt.eventID.Kind (klc.afterValue evt),
            t ++ invocations .value evt (klc.tierList .value evt.eventID.Value)⟩ := by
  unfold kindListenerContainer.dispatchValue
  simp only [get_putKind, Option.some_bind]
  cases hk : klc.valueListener evt.eventID.Value with
  | none =>
    have h1 : klc.afterValue evt = klc := by
      obtain ⟨kl, vl, n⟩ := klc
      cases vl with
      | none => rfl
      | some m =>
        simp only [kindListenerContainer.valueListener] at hk
        simp [kindListenerContainer.afterValue, hk]
    simp [kindListenerContainer.tierList, kindListenerContainer.container, hk, h1,
      genuineErrors, fired, invocations, dispatchResult, wrapPhase]
  | some ls =>
    have hcont : klc.container .value evt.eventID.Value = some ls := by
      simp [kindListenerContainer.container, hk]
    have hw : (⟨d.putKind evt.eventID.Kind klc, t⟩ : World K V L)
        = inWalk d klc evt.eventID .value ls t := by
      simp [inWalk, setContainer_of_container hcont]
    cases hm : klc.valueListeners with
    | none => simp [kindListenerContainer.valueListener, hm] at hk
    | some m =>
      have hget : GoMap.get evt.eventID.Value m = some ls := by
        simpa [kindListenerContainer.valueListener, hm] using hk
      have hidle : ls.Idle := hi m hm _ (GoMap.mem_of_get hget)
      have hlist : klc.tierList .value evt.eventID.Value = ls.listenerList := by
        simp [kindListenerContainer.tierList, hcont]
      rw [hlist] at hloc ⊢
      simp only
      rw [hw, lcDispatch_spec H d evt (hasPlace_of_container hcont) hd ls t hidle.2.2.2
        (by rw [hidle.1]) (fun l hl _ => hloc l hl), leave_walked evt ls hidle]
      simp only [inWalk, updateKind_putKind]
      have h2 : (klc.setContainer .value evt.eventID.Value
            (ls.afterDispatch evt)).pruneValueListeners evt.eventID.Value
          = klc.afterValue evt := by
        simp only [kindListenerContainer.pruneValueListeners,
          kindListenerContainer.setContainer, kindListenerContainer.afterValue, hm, hget,
          kindListenerContainer.valueListener, GoMap.get_set_self, GoMap.delete_set]
        split
        · split <;> rfl
        · rfl
      rw [h2]

theorem tierList_afterKind_value (evt : Event K V) (klc : kindListenerContainer K V L) (v : V) :
    (klc.afterKind evt).tierList .value v = klc.tierList .value v := rfl

theorem kindDispatch_spec (H : Handler K V L) (d : Dispatcher K V L)
    (klc : kindListenerContainer K V L) (evt : Event K V) (hd : 0 < d.dispatching)
    (t : List (Invocation K V L))
    (hget : GoMap.get evt.eventID.Kind d.kindListenerContainers = some klc)
    (hi : klc.Idle)
    (hloc : ∀ tier, ∀ l ∈ klc.tierList tier evt.eventID.Value,
      Prog.Local evt.eventID tier l.id (l.callback evt)) :
    kindListenerContainer.dispatch (runProg H) evt ⟨d, t⟩
      = .ok (dispatchErrorOf evt (genuineErrors evt (klc.tierList .kind evt.eventID.Value))
              (genuineErrors evt (klc.tierList .value evt.eventID.Value)))
          ⟨d.putKind evt.eventID.Kind (klc.afterDispatch evt),
            t ++ invocations .kind evt (klc.tierList .kind evt.eventID.Value)
              ++ invocations .value evt (klc.tierList .value evt.eventID.Value)⟩ := by
  obtain ⟨hn, hik, hiv⟩ := hi
  unfold kindListenerContainer.dispatch
  simp only [updateKind_of_get hget]
  have e1 : ∀ tier, kindListenerContainer.tierList
      { klc with dispatching := klc.dispatching + 1 } tier evt.eventID.Value
      = klc.tierList tier evt.eventID.Value := fun _ => rfl
  have e2 : kindListenerContainer.tierList
      (kindListenerContainer.afterKind evt { klc with dispatching := klc.dispatching + 1 })
      .value evt.eventID.Value = klc.tierList .value evt.eventID.Value := rfl
  have h1 := dispatchKind_spec H d { klc with dispatching := klc.dispatching + 1 } evt hd t
    hik (hloc .kind)
  rw [e1] at h1
  rw [h1]
  simp only
  have h2 := dispatchValue_spec H d
    (kindListenerContainer.afterKind evt { klc with dispatching := klc.dispatching + 1 }) evt hd
    (t ++ invocations .kind evt (klc.tierList .kind evt.eventID.Value))
    (wrapPhase "kind" evt []
      (dispatchResult (genuineErrors evt (klc.tierList .kind evt.eventID.Value))))
    hiv (hloc .value)
  rw [e2] at h2
  rw [h2]
  simp only [updateKind_putKind]
  have hleave : kindListenerContainer.leave
      (kindListenerContainer.afterValue evt
        (kindListenerContainer.afterKind evt
          { klc with dispatching := klc.dispatching + 1 }))
      = klc.afterDispatch evt := by
    obtain ⟨kl, vl, n⟩ := klc
    simp only at hn
    subst hn
    simp [kindListenerContainer.leave, kindListenerContainer.afterValue,
      kindListenerContainer.afterKind, kindListenerContainer.afterDispatch]
  rw [hleave]
  rfl

theorem DispatchWith_spec (H : Handler K V L) (d : Dispatcher K V L)
    (klc : kindListenerContainer K V L) (evtId : EventID K V) (generator : Any)
    (param : List Any) (hd : 0 ≤ d.dispatching) (t : List (Invocation K V L))
    (hget : GoMap.get evtId.Kind d.kindListenerContainers = some klc)
    (hi : klc.Idle)
    (hloc : ∀ tier, ∀ l ∈ klc.tierList tier evtId.Value,
      Prog.Local evtId tier l.id (l.callback (mkEvent evtId generator param))) :
    Dispatcher.DispatchWith H evtId generator param ⟨d, t⟩
      = .ok (dispatchErrorOf (mkEvent evtId generator param)
              (genuineErrors (mkEvent evtId generator param) (klc.tierList .kind evtId.Value))
              (genuineErrors (mkEvent evtId generator param) (klc.tierList .value evtId.Value)))
          ⟨d.pruneKind evtId.Kind (klc.afterDispatch (mkEvent evtId generator param)),
            t ++ invocations .kind (mkEvent evtId generator param)
                  (klc.tierList .kind evtId.Value)
              ++ invocations .value (mkEvent evtId generator param)
                  (klc.tierList .value evtId.Value)⟩ := by
  unfold Dispatcher.DispatchWith
  simp only [hget]
  have hk := kindDispatch_spec H { d with dispatching := d.dispatching + 1 } klc
    (mkEvent evtId generator param) (by simp; omega) t hget hi hloc
  simp only [mkEvent] at hk ⊢
  rw [hk]
  simp only [get_putKind]
  obtain ⟨m, n⟩ := d
  unfold Dispatcher.pruneKind Dispatcher.putKind
  split <;> simp [GoMap.delete_set]

theorem Dispatch_eq_DispatchWith (fuel : Nat) :
    ∃ H : Handler K V L, (Dispatcher.Dispatch fuel : Handler K V L) = Dispatcher.DispatchWith H := by
  cases fuel with
  | zero => exact ⟨_, rfl⟩
  | succ n => exact ⟨_, rfl⟩

/-- Dispatch on an idle kind whose callbacks only clear and remove their own listener:
every listener of both tiers is called, in order, and the removed ones are gone. -/
theorem Dispatch_spec (fuel : Nat) (d : Dispatcher K V L)
    (klc : kindListenerContainer K V L) (evtId : EventID K V) (generator : Any)
    (param : List Any) (hd : 0 ≤ d.dispatching) (t : List (Invocation K V L))
    (hget : GoMap.get evtId.Kind d.kindListenerContainers = some klc)
    (hi : klc.Idle)
    (hloc : ∀ tier, ∀ l ∈ klc.tierList tier evtId.Value,
      Prog.Local evtId tier l.id (l.callback (mkEvent evtId generator param))) :
    Dispatcher.Dispatch fuel evtId generator param ⟨d, t⟩
      = .ok (dispatchErrorOf (mkEvent evtId generator param)
              (genuineErrors (mkEvent evtId generator param) (klc.tierList .kind evtId.Value))
              (genuineErrors (mkEvent evtId generator param) (klc.tierList .value evtId.Value)))
          ⟨d.pruneKind evtId.Kind (klc.afterDispatch (mkEvent evtId generator param)),
            t ++ invocations .kind (mkEvent evtId generator param)
                  (klc.tierList .kind evtId.Value)
              ++ invocations .value (mkEvent evtId generator param)
                  (klc.tierList .value evtId.Value)⟩ := by
  obtain ⟨H, hH⟩ := Dispatch_eq_DispatchWith (K := K) (V := V) (L := L) fuel
  rw [hH]
  exact DispatchWith_spec H d klc evtId generator param hd t hget hi hloc

end KindFacts

/-! ## The dispatcher after a dispatch -/

section AfterFacts

variable {K V L : Type} [DecidableEq K] [DecidableEq V] [DecidableEq L]

theorem listeners_of_get {d : Dispatcher K V L} {evtId : EventID K V}
    {klc : kindListenerContainer K V L}
    (h : GoMap.get evtId.Kind d.kindListenerContainers = some klc) (tier : Tier) :
    d.listeners evtId tier = klc.tierList tier evtId.Value := by
  simp [Dispatcher.listeners, Dispatcher.container, h, kindListenerContainer.tierList]

theorem listeners_of_get_none {d : Dispatcher K V L} {evtId : EventID K V}
    (h : GoMap.get evtId.Kind d.kindListenerContainers = none) (tier : Tier) :
    d.listeners evtId tier = [] := by
  simp [Dispatcher.listeners, Dispatcher.container, h]

theorem fired_of_idle {ll : List (listener K V L)} (h : ∀ l ∈ ll, l.pendingRem = false) :
    fired ll = ll := by
  apply List.filter_eq_self.mpr
  intro l hl
  simp [h l hl]

theorem idle_of_get {d : Dispatcher K V L} (hi : d.Idle) {k : K}
    {klc : kindListenerContainer K V L}
    (h : GoMap.get k d.kindListenerContainers = some klc) : klc.Idle :=
  hi.2 _ (GoMap.mem_of_get h)

theorem idle_of_container {klc : kindListenerContainer K V L} (hi : klc.Idle) {tier : Tier}
    {v : V} {ls : listenerContainer K V L} (h : klc.container tier v = some ls) : ls.Idle := by
  cases tier with
  | kind => exact hi.2.1 ls h
  | value =>
    cases hm : klc.valueListeners with
    | none => simp [kindListenerContainer.container, kindListenerContainer.valueListener, hm] at h
    | some m =>
      have : GoMap.get v m = some ls := by
        simpa [kindListenerContainer.container, kindListenerContainer.valueListener, hm] using h
      exact hi.2.2 m hm _ (GoMap.mem_of_get this)

theorem idle_of_dcontainer {d : Dispatcher K V L} (hi : d.Idle) {evtId : EventID K V}
    {tier : Tier} {ls : listenerContainer K V L} (h : d.container evtId tier = some ls) :
    ls.Idle := by
  unfold Dispatcher.container at h
  cases hg : GoMap.get evtId.Kind d.kindListenerContainers with
  | none => simp [hg] at h
  | some klc =>
    simp only [hg] at h
    exact idle_of_container (idle_of_get hi hg) h

theorem tierList_pending {klc : kindListenerContainer K V L} (hi : klc.Idle) (tier : Tier)
    (v : V) : ∀ l ∈ klc.tierList tier v, l.pendingRem = false := by
  unfold kindListenerContainer.tierList
  cases h : klc.container tier v with
  | none => simp
  | some ls => exact (idle_of_container hi h).2.2.1

theorem tierList_nodup {klc : kindListenerContainer K V L} (hi : klc.Idle) (tier : Tier)
    (v : V) : ((klc.tierList tier v).map (fun l => l.id)).Nodup := by
  unfold kindListenerContainer.tierList
  cases h : klc.container tier v with
  | none => simp
  | some ls => exact (idle_of_container hi h).2.2.2.2

theorem listeners_pending {d : Dispatcher K V L} (hi : d.Idle) (evtId : EventID K V)
    (tier : Tier) : ∀ l ∈ d.listeners evtId tier, l.pendingRem = false := by
  unfold Dispatcher.listeners
  cases h : d.container evtId tier with
  | none => simp
  | some ls => exact (idle_of_dcontainer hi h).2.2.1

theorem listeners_nodup {d : Dispatcher K V L} (hi : d.Idle) (evtId : EventID K V)
    (tier : Tier) : ((d.listeners evtId tier).map (fun l => l.id)).Nodup := by
  unfold Dispatcher.listeners
  cases h : d.container evtId tier with
  | none => simp
  | some ls => exact (idle_of_dcontainer hi h).2.2.2.2

theorem dispatchErrorOf_nil (evt : Event K V) :
    dispatchErrorOf evt [] [] = none := by
  simp [dispatchErrorOf, dispatchResult, wrapPhase]

/-- Dispatch on an idle dispatcher whose callbacks only clear and remove their own
listener, in terms of the listeners the event reaches. -/
theorem Dispatch_idle (fuel : Nat) (d : Dispatcher K V L) (hi : d.Idle)
    (evtId : EventID K V) (generator : Any) (param : List Any) (t : List (Invocation K V L))
    (hloc : ∀ tier, ∀ l ∈ d.listeners evtId tier,
      Prog.Local evtId tier l.id (l.callback (mkEvent evtId generator param))) :
    Dispatcher.Dispatch fuel evtId generator param ⟨d, t⟩
      = .ok (dispatchErrorOf (mkEvent evtId generator param)
              (genuineErrors (mkEvent evtId generator param) (d.listeners evtId .kind))
              (genuineErrors (mkEvent evtId generator param) (d.listeners evtId .value)))
          ⟨d.afterDispatch (mkEvent evtId generator param),
            t ++ (d.listeners evtId .kind).map
                  (fun l => ⟨.kind, mkEvent evtId generator param, l.id⟩)
              ++ (d.listeners evtId .value).map
                  (fun l => ⟨.value, mkEvent evtId generator param, l.id⟩)⟩ := by
  cases hg : GoMap.get evtId.Kind d.kindListenerContainers with
  | none =>
    obtain ⟨H, hH⟩ := Dispatch_eq_DispatchWith (K := K) (V := V) (L := L) fuel
    rw [hH]
    have hg2 : GoMap.get (mkEvent evtId generator param : Event K V).eventID.Kind
        d.kindListenerContainers = none := hg
    simp [Dispatcher.DispatchWith, hg, listeners_of_get_none hg, genuineErrors, fired,
      dispatchErrorOf_nil, Dispatcher.afterDispatch, hg2]
  | some klc =>
    have hki := idle_of_get hi hg
    have hg2 : GoMap.get (mkEvent evtId generator param : Event K V).eventID.Kind
        d.kindListenerContainers = some klc := hg
    rw [Dispatch_spec fuel d klc evtId generator param (by rw [hi.1]) t hg hki
      (fun tier l hl => hloc tier l (by rw [listeners_of_get hg]; exact hl))]
    simp only [listeners_of_get hg, invocations, fired_of_idle (tierList_pending hki _ _),
      Dispatcher.afterDispatch, hg2]
    rfl

theorem afterDispatch_idle_lc (evt : Event K V) {ls : listenerContainer K V L} (hi : ls.Idle) :
    (ls.afterDispatch evt).Idle := by
  obtain ⟨_, _, hpend, hmap, hnd⟩ := hi
  refine ⟨rfl, rfl, ?_, rfl, ?_⟩
  · intro l hl
    exact hpend l (List.mem_filter.mp hl).1
  · exact List.Nodup.sublist (List.Sublist.map _ (List.filter_sublist _)) hnd

theorem afterDispatch_idle_klc (evt : Event K V) {klc : kindListenerContainer K V L}
    (hi : klc.Idle) : (klc.afterDispatch evt).Idle := by
  obtain ⟨kl, vl, n⟩ := klc
  obtain ⟨hn, hk, hv⟩ := hi
  simp only at hn hk hv
  refine ⟨hn, ?_, ?_⟩
  · intro lc hlc
    simp only [kindListenerContainer.afterDispatch, kindListenerContainer.afterValue,
      kindListenerContainer.afterKind] at hlc
    cases kl with
    | none => simp at hlc
    | some ls =>
      simp only at hlc
      split at hlc
      · simp at hlc
      · simp only [Option.some.injEq] at hlc
        rw [← hlc]
        exact afterDispatch_idle_lc evt (hk ls rfl)
  · intro m hm p hp
    simp only [kindListenerContainer.afterDispatch, kindListenerContainer.afterValue,
      kindListenerContainer.afterKind] at hm
    cases vl with
    | none => simp at hm
    | some m0 =>
      simp only at hm
      cases hg : GoMap.get evt.eventID.Value m0 with
      | none =>
        simp only [hg, Option.some.injEq] at hm
        rw [← hm] at hp
        exact hv m0 rfl p hp
      | some ls =>
        simp only [hg] at hm
        have hls : ls.Idle := hv m0 rfl _ (GoMap.mem_of_get hg)
        split at hm
        · split at hm
          · simp at hm
          · simp only [Option.some.injEq] at hm
            rw [← hm] at hp
            exact hv m0 rfl p (GoMap.mem_delete hp)
        · simp only [Option.some.injEq] at hm
          rw [← hm] at hp
          rcases GoMap.mem_set hp with h1 | h1
          · rw [h1]
            exact afterDispatch_idle_lc evt hls
          · exact hv m0 rfl p h1

theorem pruneKind_idle {d : Dispatcher K V L} (hi : d.Idle) (k : K)
    {klc : kindListenerContainer K V L} (hk : klc.Idle) : (d.pruneKind k klc).Idle := by
  unfold Dispatcher.pruneKind
  split
  · exact ⟨hi.1, fun p hp => hi.2 p (GoMap.mem_delete hp)⟩
  · refine ⟨hi.1, fun p hp => ?_⟩
    rcases GoMap.mem_set hp with h1 | h1
    · rw [h1]; exact hk
    · exact hi.2 p h1

theorem afterDispatch_idle (evt : Event K V) {d : Dispatcher K V L} (hi : d.Idle) :
    (d.afterDispatch evt).Idle := by
  unfold Dispatcher.afterDispatch
  cases hg : GoMap.get evt.eventID.Kind d.kindListenerContainers with
  | none => exact hi
  | some klc => exact pruneKind_idle hi _ (afterDispatch_idle_klc evt (idle_of_get hi hg))

theorem tierList_of_noListener {klc : kindListenerContainer K V L}
    (h : klc.noListener = true) (tier : Tier) (v : V) : klc.tierList tier v = [] := by
  obtain ⟨kl, vl, n⟩ := klc
  simp only [kindListenerContainer.noListener, Bool.and_eq_true] at h
  cases tier with
  | kind =>
    cases kl with
    | none => rfl
    | some ls =>
      have := h.1
      simp only [listenerContainer.noListener, beq_iff_eq, List.length_eq_zero] at this
      simp [kindListenerContainer.tierList, kindListenerContainer.container, this]
  | value =>
    cases vl with
    | none => rfl
    | some m =>
      have := h.2
      simp only [GoMap.len, beq_iff_eq, List.length_eq_zero] at this
      simp [kindListenerContainer.tierList, kindListenerContainer.container,
        kindListenerContainer.valueListener, this, GoMap.get]

theorem noListener_iff_nil (ls : listenerContainer K V L) :
    ls.noListener = true ↔ ls.listenerList = [] := by
  simp [listenerContainer.noListener]

theorem tierList_afterDispatch_kind (evt : Event K V) (klc : kindListenerContainer K V L)
    (v : V) :
    (klc.afterDispatch evt).tierList .kind v
      = (klc.tierList .kind v).filter (fun l => !l.removed evt) := by
  obtain ⟨kl, vl, n⟩ := klc
  cases kl with
  | none => rfl
  | some ls =>
    simp only [kindListenerContainer.afterDispatch, kindListenerContainer.afterValue,
      kindListenerContainer.afterKind, kindListenerContainer.tierList,
      kindListenerContainer.container]
    by_cases h : (ls.afterDispatch evt).noListener = true
    · have h1 := (noListener_iff_nil _).mp h
      simp only [listenerContainer.afterDispatch] at h1
      simp only [h, if_true]
      simp [h1]
    · have h' : (ls.afterDispatch evt).noListener = false := by simpa using h
      simp only [h', Bool.false_eq_true, if_false]
      rfl

theorem tierList_afterDispatch_value (evt : Event K V) (klc : kindListenerContainer K V L)
    (v : V) :
    (klc.afterDispatch evt).tierList .value v
      = if v = evt.eventID.Value then (klc.tierList .value v).filter (fun l => !l.removed evt)
        else klc.tierList .value v := by
  obtain ⟨kl, vl, n⟩ := klc
  cases vl with
  | none => simp [kindListenerContainer.afterDispatch, kindListenerContainer.afterValue,
      kindListenerContainer.afterKind, kindListenerContainer.tierList,
      kindListenerContainer.container, kindListenerContainer.valueListener]
  | some m =>
    simp only [kindListenerContainer.afterDispatch, kindListenerContainer.afterValue,
      kindListenerContainer.afterKind, kindListenerContainer.tierList,
      kindListenerContainer.container, kindListenerContainer.valueListener]
    cases hg : GoMap.get evt.eventID.Value m with
    | none =>
      by_cases hv : v = evt.eventID.Value
      · subst hv
        simp [hg]
      · simp [hv]
    | some ls =>
      simp only
      by_cases h : (ls.afterDispatch evt).noListener = true
      · have h1 := (noListener_iff_nil _).mp h
        simp only [listenerContainer.afterDispatch] at h1
        simp only [h, if_true]
        by_cases hlen : GoMap.len (GoMap.delete evt.eventID.Value m) = 0
        · simp only [hlen, if_true]
          by_cases hv : v = evt.eventID.Value
          · subst hv
            simp [hg, h1]
          · have hne : evt.eventID.Value ≠ v := fun e => hv e.symm
            have hnil : GoMap.delete evt.eventID.Value m = [] := by
              simpa [GoMap.len] using hlen
            have := GoMap.get_delete_ne (β := listenerContainer K V L) m hne
            rw [hnil] at this
            simp only [GoMap.get] at this
            simp [hv, ← this]
        · simp only [hlen, if_false]
          by_cases hv : v = evt.eventID.Value
          · subst hv
            simp [hg, h1, GoMap.get_delete_self]
          · have hne : evt.eventID.Value ≠ v := fun e => hv e.symm
            simp [hv, GoMap.get_delete_ne m hne]
      · have h' : (ls.afterDispatch evt).noListener = false := by simpa using h
        simp only [h', Bool.false_eq_true, if_false]
        by_cases hv : v = evt.eventID.Value
        · subst hv
          simp only [GoMap.get_set_self, hg, if_true]
          rfl
        · have hne : evt.eventID.Value ≠ v := fun e => hv e.symm
          simp [hv, GoMap.get_set_ne _ m hne]

theorem get_pruneKind_self (d : Dispatcher K V L) (k : K) (klc : kindListenerContainer K V L) :
    GoMap.get k (d.pruneKind k klc).kindListenerContainers
      = if klc.noListener then none else some klc := by
  unfold Dispatcher.pruneKind
  split <;> simp [GoMap.get_delete_self, GoMap.get_set_self]

theorem get_pruneKind_ne (d : Dispatcher K V L) {k j : K} (klc : kindListenerContainer K V L)
    (h : k ≠ j) :
    GoMap.get j (d.pruneKind k klc).kindListenerContainers
      = GoMap.get j d.kindListenerContainers := by
  unfold Dispatcher.pruneKind
  split <;> simp [GoMap.get_delete_ne _ h, GoMap.get_set_ne _ _ h]

theorem listeners_pruneKind_self (d : Dispatcher K V L) (evtId : EventID K V)
    (klc : kindListenerContainer K V L) (tier : Tier) :
    (d.pruneKind evtId.Kind klc).listeners evtId tier = klc.tierList tier evtId.Value := by
  by_cases h : klc.noListener = true
  · have hg : GoMap.get evtId.Kind (d.pruneKind evtId.Kind klc).kindListenerContainers = none := by
      rw [get_pruneKind_self]; simp [h]
    rw [listeners_of_get_none hg, tierList_of_noListener h]
  · have hg : GoMap.get evtId.Kind (d.pruneKind evtId.Kind klc).kindListenerContainers
        = some klc := by
      rw [get_pruneKind_self]; simp [h]
    rw [listeners_of_get hg]

theorem listeners_congr {d1 d2 : Dispatcher K V L} {evtId : EventID K V}
    (h : GoMap.get evtId.Kind d1.kindListenerContainers
      = GoMap.get evtId.Kind d2.kindListenerContainers) (tier : Tier) :
    d1.listeners evtId tier = d2.listeners evtId tier := by
  simp [Dispatcher.listeners, Dispatcher.container, h]

/-- The listeners registered after a dispatch: in the two containers the event reached
the removed listeners are gone, every other container is as before. -/
theorem listeners_afterDispatch (evt : Event K V) (d : Dispatcher K V L)
    (other : EventID K V) (tier : Tier) :
    (d.afterDispatch evt).listeners other tier
      = if other.Kind = evt.eventID.Kind ∧ (tier = .value → other.Value = evt.eventID.Value)
        then (d.listeners other tier).filter (fun l => !l.removed evt)
        else d.listeners other tier := by
  unfold Dispatcher.afterDispatch
  cases hg : GoMap.get evt.eventID.Kind d.kindListenerContainers with
  | none =>
    simp only
    by_cases hk : other.Kind = evt.eventID.Kind
    · have hg2 : GoMap.get other.Kind d.kindListenerContainers = none := by rw [hk]; exact hg
      simp [listeners_of_get_none hg2]
    · simp [hk]
  | some klc =>
    simp only
    by_cases hk : other.Kind = evt.eventID.Kind
    · have hg2 : GoMap.get other.Kind d.kindListenerContainers = some klc := by rw [hk]; exact hg
      have h1 : (d.pruneKind evt.eventID.Kind (klc.afterDispatch evt)).listeners other tier
          = (klc.afterDispatch evt).tierList tier other.Value := by
        have := listeners_pruneKind_self d other (klc.afterDispatch evt) tier
        rw [hk] at this
        exact this
      rw [h1, listeners_of_get hg2]
      cases tier with
      | kind => simp [hk, tierList_afterDispatch_kind]
      | value => simp [hk, tierList_afterDispatch_value]
    · have hne : evt.eventID.Kind ≠ other.Kind := fun e => hk e.symm
      simp only [hk, false_and, if_false]
      exact listeners_congr (get_pruneKind_ne d _ hne) tier

end AfterFacts

/-! ## Registration and removal outside a dispatch -/

section RegisterFacts

variable {K V L : Type} [DecidableEq K] [DecidableEq V] [DecidableEq L]

theorem newListenerContainer_idle : (newListenerContainer : listenerContainer K V L).Idle :=
  ⟨rfl, rfl, by simp [newListenerContainer], rfl, by simp [newListenerContainer,
    listenerContainer.ids]⟩

theorem newKindListenerContainer_idle :
    (newKindListenerContainer : kindListenerContainer K V L).Idle :=
  ⟨rfl, by simp [newKindListenerContainer], by simp [newKindListenerContainer]⟩

theorem addListener_dup {ls : listenerContainer K V L} (hi : ls.Idle) (l : listener K V L)
    (h : l.id ∈ ls.ids) : ls.addListener l = .ok (ls, false) := by
  obtain ⟨hn, _, _, hmap, _⟩ := hi
  have hg : GoMap.get l.id ls.listenerMap = some l.id := by
    rw [hmap, GoMap.get_diag]; simp [h]
  simp [listenerContainer.addListener, hn, hg]

theorem addListener_new {ls : listenerContainer K V L} (hi : ls.Idle) (l : listener K V L)
    (h : l.id ∉ ls.ids) :
    ls.addListener l
      = .ok (⟨ls.listenerList ++ [l], GoMap.diag (ls.ids ++ [l.id]), none, 0⟩, true) := by
  obtain ⟨ll, lmap, pq, n⟩ := ls
  obtain ⟨hn, hq, _, hmap, _⟩ := hi
  simp only [listenerContainer.ids] at hn hq hmap h
  subst hn hq hmap
  have hg : GoMap.get l.id (GoMap.diag (ll.map (fun x => x.id))) = none := by
    rw [GoMap.get_diag]; simp [h]
  simp only [listenerContainer.addListener, lt_self_iff_false, if_false, hg,
    listenerContainer.ids]
  rw [GoMap.set_diag _ _ h]

theorem added_idle {ls : listenerContainer K V L} (hi : ls.Idle) (l : listener K V L)
    (h : l.id ∉ ls.ids) (hp : l.pendingRem = false) :
    (⟨ls.listenerList ++ [l], GoMap.diag (ls.ids ++ [l.id]), none, 0⟩ :
      listenerContainer K V L).Idle := by
  obtain ⟨_, _, hpend, _, hnd⟩ := hi
  refine ⟨rfl, rfl, ?_, ?_, ?_⟩
  · intro x hx
    rcases List.mem_append.mp hx with h1 | h1
    · exact hpend x h1
    · simp only [List.mem_singleton] at h1
      rw [h1]; exact hp
  · simp [listenerContainer.ids]
  · simp only [listenerContainer.ids, List.map_append, List.map_cons, List.map_nil]
    simp only [listenerContainer.ids] at hnd h
    exact List.Nodup.append hnd (by simp) (by simpa using h)

theorem putKind_idle {d : Dispatcher K V L} (hi : d.Idle) (k : K)
    {klc : kindListenerContainer K V L} (hk : klc.Idle) : (d.putKind k klc).Idle := by
  refine ⟨hi.1, fun p hp => ?_⟩
  rcases GoMap.mem_set hp with h1 | h1
  · rw [h1]; exact hk
  · exact hi.2 p h1

theorem listeners_putKind_self (d : Dispatcher K V L) (evtId : EventID K V)
    (klc : kindListenerContainer K V L) (tier : Tier) :
    (d.putKind evtId.Kind klc).listeners evtId tier = klc.tierList tier evtId.Value :=
  listeners_of_get (get_putKind d evtId.Kind klc) tier

theorem listeners_putKind_ne (d : Dispatcher K V L) {k : K} (other : EventID K V)
    (klc : kindListenerContainer K V L) (tier : Tier) (h : k ≠ other.Kind) :
    (d.putKind k klc).listeners other tier = d.listeners other tier :=
  listeners_congr (by simp [Dispatcher.putKind, GoMap.get_set_ne _ _ h]) tier

/-- What `addORGetKindListeners` followed by a write-back amounts to. -/
theorem addORGet_putKind (d : Dispatcher K V L) (k : K) (klc1 : kindListenerContainer K V L) :
    (d.addORGetKindListeners k).1.putKind k klc1 = d.putKind k klc1 := by
  unfold Dispatcher.addORGetKindListeners
  cases hg : GoMap.get k d.kindListenerContainers with
  | none => simp [Dispatcher.putKind, GoMap.set_set]
  | some klc => simp [Dispatcher.putKind]

theorem addORGet_idle {d : Dispatcher K V L} (hi : d.Idle) (k : K) :
    (d.addORGetKindListeners k).2.Idle := by
  unfold Dispatcher.addORGetKindListeners
  cases hg : GoMap.get k d.kindListenerContainers with
  | none => exact newKindListenerContainer_idle
  | some klc => exact idle_of_get hi hg

theorem addORGet_tierList (d : Dispatcher K V L) (evtId : EventID K V) (tier : Tier) :
    (d.addORGetKindListeners evtId.Kind).2.tierList tier evtId.Value
      = d.listeners evtId tier := by
  unfold Dispatcher.addORGetKindListeners
  cases hg : GoMap.get evtId.Kind d.kindListenerContainers with
  | none =>
    rw [listeners_of_get_none hg]
    cases tier <;> rfl
  | some klc => rw [listeners_of_get hg]

theorem addORGet_of_registered {d : Dispatcher K V L} {evtId : EventID K V} {tier : Tier}
    {lID : L} (h : d.registered evtId tier lID) :
    ∃ klc, GoMap.get evtId.Kind d.kindListenerContainers = some klc ∧
      d.addORGetKindListeners evtId.Kind = (d, klc) := by
  cases hg : GoMap.get evtId.Kind d.kindListenerContainers with
  | none =>
    unfold Dispatcher.registered at h
    rw [listeners_of_get_none hg] at h
    simp at h
  | some klc => exact ⟨klc, rfl, by simp [Dispatcher.addORGetKindListeners, hg]⟩

theorem addKindListener_core (kl : Option (listenerContainer K V L))
    (vl : Option (GoMap V (listenerContainer K V L))) (l : listener K V L)
    (ls : listenerContainer K V L) (hls : ls.Idle) (hnot : l.id ∉ ls.ids)
    (hsel : kl.getD newListenerContainer = ls) :
    kindListenerContainer.addKindListener ⟨kl, vl, 0⟩ l
      = .ok (⟨some ⟨ls.listenerList ++ [l], GoMap.diag (ls.ids ++ [l.id]), none, 0⟩, vl, 0⟩,
          true) := by
  have hnew := addListener_new hls l hnot
  cases kl with
  | none =>
    simp only [Option.getD_none] at hsel
    simp only [kindListenerContainer.addKindListener, lt_self_iff_false, if_false, hsel, hnew]
  | some lc =>
    simp only [Option.getD_some] at hsel
    simp only [kindListenerContainer.addKindListener, lt_self_iff_false, if_false, hsel, hnew]

/-- The per-kind container after a new kind-level listener was appended. -/
theorem addKindListener_new {klc : kindListenerContainer K V L} (hi : klc.Idle) (v : V)
    (l : listener K V L) (h : l.id ∉ (klc.tierList .kind v).map (fun x => x.id))
    (hp : l.pendingRem = false) :
    ∃ klc1, klc.addKindListener l = .ok (klc1, true) ∧ klc1.Idle ∧
      klc1.tierList .kind v = klc.tierList .kind v ++ [l] ∧
      ∀ u, klc1.tierList .value u = klc.tierList .value u := by
  obtain ⟨kl, vl, n⟩ := klc
  obtain ⟨hn, hk, hv⟩ := hi
  simp only at hn hk hv
  subst hn
  have hlist : kindListenerContainer.tierList ⟨kl, vl, 0⟩ .kind v
      = (kl.getD newListenerContainer).listenerList := by
    cases kl <;> simp [kindListenerContainer.tierList, kindListenerContainer.container,
      newListenerContainer]
  have hls : (kl.getD newListenerContainer).Idle := by
    cases kl with
    | none => exact newListenerContainer_idle
    | some lc => exact hk lc rfl
  have hnot : l.id ∉ (kl.getD newListenerContainer).ids := by
    rw [hlist] at h
    exact h
  refine ⟨_, addKindListener_core kl vl l _ hls hnot rfl, ?_, ?_, ?_⟩
  · refine ⟨rfl, ?_, hv⟩
    intro lc hlc
    simp only [Option.some.injEq] at hlc
    rw [← hlc]
    exact added_idle hls l hnot hp
  · rw [hlist]
    simp [kindListenerContainer.tierList, kindListenerContainer.container]
  · intro u; rfl

theorem addKindListener_dup {klc : kindListenerContainer K V L} (hi : klc.Idle) (v : V)
    (l : listener K V L) (h : l.id ∈ (klc.tierList .kind v).map (fun x => x.id)) :
    klc.addKindListener l = .ok (klc, false) := by
  obtain ⟨kl, vl, n⟩ := klc
  obtain ⟨hn, hk, hv⟩ := hi
  simp only at hn hk hv
  subst hn
  cases kl with
  | none => simp [kindListenerContainer.tierList, kindListenerContainer.container] at h
  | some ls =>
    have hls : ls.Idle := hk ls rfl
    have h1 : l.id ∈ ls.ids := by
      simpa [kindListenerContainer.tierList, kindListenerContainer.container,
        listenerContainer.ids] using h
    simp [kindListenerContainer.addKindListener, addListener_dup hls l h1]

theorem addValueListener_core (kl : Option (listenerContainer K V L))
    (vl : Option (GoMap V (listenerContainer K V L))) (v : V) (l : listener K V L)
    (ls : listenerContainer K V L) (hls : ls.Idle) (hnot : l.id ∉ ls.ids)
    (hsel : (GoMap.get v (vl.getD [])).getD newListenerContainer = ls) :
    kindListenerContainer.addValueListener ⟨kl, vl, 0⟩ v l
      = .ok (⟨kl, some (GoMap.set v
              ⟨ls.listenerList ++ [l], GoMap.diag (ls.ids ++ [l.id]), none, 0⟩ (vl.getD [])),
            0⟩, true) := by
  have hnew := addListener_new hls l hnot
  cases vl with
  | none =>
    simp only [Option.getD_none, GoMap.get] at hsel
    simp only [kindListenerContainer.addValueListener, lt_self_iff_false, if_false,
      GoMap.get, hsel, hnew, Option.getD_none]
  | some m =>
    simp only [Option.getD_some] at hsel
    cases hg : GoMap.get v m with
    | none =>
      simp only [hg, Option.getD_none] at hsel
      simp only [kindListenerContainer.addValueListener, lt_self_iff_false, if_false,
        hg, hsel, hnew, Option.getD_some]
    | some lc =>
      simp only [hg, Option.getD_some] at hsel
      simp only [kindListenerContainer.addValueListener, lt_self_iff_false, if_false,
        hg, hsel, hnew, Option.getD_some]

/-- The per-kind container after a new value-level listener was appended. -/
theorem addValueListener_new {klc : kindListenerContainer K V L} (hi : klc.Idle) (v : V)
    (l : listener K V L) (h : l.id ∉ (klc.tierList .value v).map (fun x => x.id))
    (hp : l.pendingRem = false) :
    ∃ klc1, klc.addValueListener v l = .ok (klc1, true) ∧ klc1.Idle ∧
      klc1.tierList .value v = klc.tierList .value v ++ [l] ∧
      (∀ u, u ≠ v → klc1.tierList .value u = klc.tierList .value u) ∧
      ∀ u, klc1.tierList .kind u = klc.tierList .kind u := by
  obtain ⟨kl, vl, n⟩ := klc
  obtain ⟨hn, hk, hv⟩ := hi
  simp only at hn hk hv
  subst hn
  have htl : ∀ u, kindListenerContainer.tierList ⟨kl, vl, 0⟩ .value u
      = ((GoMap.get u (vl.getD [])).getD newListenerContainer).listenerList := by
    intro u
    cases vl with
    | none => simp [kindListenerContainer.tierList, kindListenerContainer.container,
        kindListenerContainer.valueListener, newListenerContainer, GoMap.get]
    | some m =>
      cases hg : GoMap.get u m <;>
        simp [kindListenerContainer.tierList, kindListenerContainer.container,
          kindListenerContainer.valueListener, newListenerContainer, hg]
  have hmi : ∀ p ∈ vl.getD [], p.2.Idle := by
    cases vl with
    | none => simp
    | some m => exact hv m rfl
  have hls : ((GoMap.get v (vl.getD [])).getD newListenerContainer).Idle := by
    cases hg : GoMap.get v (vl.getD []) with
    | none => exact newListenerContainer_idle
    | some lc => exact hmi _ (GoMap.mem_of_get hg)
  have hnot : l.id ∉ ((GoMap.get v (vl.getD [])).getD newListenerContainer).ids := by
    rw [htl] at h
    exact h
  refine ⟨_, addValueListener_core kl vl v l _ hls hnot rfl, ?_, ?_, ?_, ?_⟩
  · refine ⟨rfl, hk, ?_⟩
    intro m1 hm1 p hp1
    simp only [Option.some.injEq] at hm1
    rw [← hm1] at hp1
    rcases GoMap.mem_set hp1 with h1 | h1
    · rw [h1]; exact added_idle hls l hnot hp
    · exact hmi p h1
  · rw [htl]
    simp [kindListenerContainer.tierList, kindListenerContainer.container,
      kindListenerContainer.valueListener, GoMap.get_set_self]
  · intro u hu
    have hne : v ≠ u := fun e => hu e.symm
    rw [htl]
    simp [kindListenerContainer.tierList, kindListenerContainer.container,
      kindListenerContainer.valueListener, GoMap.get_set_ne _ _ hne, newListenerContainer]
    cases hg : GoMap.get u (vl.getD []) <;> simp
  · intro u; rfl

theorem addValueListener_dup {klc : kindListenerContainer K V L} (hi : klc.Idle) (v : V)
    (l : listener K V L) (h : l.id ∈ (klc.tierList .value v).map (fun x => x.id)) :
    klc.addValueListener v l = .ok (klc, false) := by
  obtain ⟨kl, vl, n⟩ := klc
  obtain ⟨hn, hk, hv⟩ := hi
  simp only at hn hk hv
  subst hn
  cases vl with
  | none => simp [kindListenerContainer.tierList, kindListenerContainer.container,
      kindListenerContainer.valueListener] at h
  | some m =>
    cases hg : GoMap.get v m with
    | none => simp [kindListenerContainer.tierList, kindListenerContainer.container,
        kindListenerContainer.valueListener, hg] at h
    | some ls =>
      have hls : ls.Idle := hv m rfl _ (GoMap.mem_of_get hg)
      have h1 : l.id ∈ ls.ids := by
        simpa [kindListenerContainer.tierList, kindListenerContainer.container,
          kindListenerContainer.valueListener, hg, listenerContainer.ids] using h
      simp [kindListenerContainer.addValueListener, hg, addListener_dup hls l h1,
        GoMap.set_get_self hg]

theorem AddKindListener_eq (d : Dispatcher K V L) (k : K) (lID : L)
    (cb : ListenerCallback K V L) (once : List Bool) :
    d.AddKindListener k lID (some cb) once
      = match (d.addORGetKindListeners k).2.addKindListener
            ⟨lID, cb, Dispatcher.onceFlag once, false⟩ with
        | .error msg => .error msg
        | .ok (klc1, added) => .ok ((d.addORGetKindListeners k).1.putKind k klc1, added) := by
  simp only [Dispatcher.AddKindListener, newListener]
  rfl

theorem AddValueListener_eq (d : Dispatcher K V L) (evtId : EventID K V) (lID : L)
    (cb : ListenerCallback K V L) (once : List Bool) :
    d.AddValueListener evtId lID (some cb) once
      = match (d.addORGetKindListeners evtId.Kind).2.addValueListener evtId.Value
            ⟨lID, cb, Dispatcher.onceFlag once, false⟩ with
        | .error msg => .error msg
        | .ok (klc1, added) =>
          .ok ((d.addORGetKindListeners evtId.Kind).1.putKind evtId.Kind klc1, added) := by
  simp only [Dispatcher.AddValueListener, newListener]
  rfl

theorem AddKindListener_dup (d : Dispatcher K V L) (hi : d.Idle) (evtId : EventID K V)
    (lID : L) (cb : ListenerCallback K V L) (once : List Bool)
    (h : d.registered evtId .kind lID) :
    d.AddKindListener evtId.Kind lID (some cb) once = .ok (d, false) := by
  obtain ⟨klc, hg, hadd⟩ := addORGet_of_registered h
  have hki := idle_of_get hi hg
  have h1 : lID ∈ (klc.tierList .kind evtId.Value).map (fun x => x.id) := by
    rw [← listeners_of_get hg]; exact h
  rw [AddKindListener_eq, hadd]
  simp only
  rw [addKindListener_dup hki evtId.Value ⟨lID, cb, Dispatcher.onceFlag once, false⟩ h1]
  simp only
  rw [putKind_of_get hg]

theorem AddValueListener_dup (d : Dispatcher K V L) (hi : d.Idle) (evtId : EventID K V)
    (lID : L) (cb : ListenerCallback K V L) (once : List Bool)
    (h : d.registered evtId .value lID) :
    d.AddValueListener evtId lID (some cb) once = .ok (d, false) := by
  obtain ⟨klc, hg, hadd⟩ := addORGet_of_registered h
  have hki := idle_of_get hi hg
  have h1 : lID ∈ (klc.tierList .value evtId.Value).map (fun x => x.id) := by
    rw [← listeners_of_get hg]; exact h
  rw [AddValueListener_eq, hadd]
  simp only
  rw [addValueListener_dup hki evtId.Value ⟨lID, cb, Dispatcher.onceFlag once, false⟩ h1]
  simp only
  rw [putKind_of_get hg]

theorem listeners_putKind_same_kind (d : Dispatcher K V L) (evtId other : EventID K V)
    (klc : kindListenerContainer K V L) (tier : Tier) (h : other.Kind = evtId.Kind) :
    (d.putKind evtId.Kind klc).listeners other tier = klc.tierList tier other.Value := by
  rw [← h]
  exact listeners_putKind_self d other klc tier

theorem addORGet_tierList_same_kind (d : Dispatcher K V L) (evtId other : EventID K V)
    (tier : Tier) (h : other.Kind = evtId.Kind) :
    (d.addORGetKindListeners evtId.Kind).2.tierList tier other.Value
      = d.listeners other tier := by
  rw [← h]
  exact addORGet_tierList d other tier

theorem AddKindListener_new (d : Dispatcher K V L) (hi : d.Idle) (evtId : EventID K V)
    (lID : L) (cb : ListenerCallback K V L) (once : List Bool)
    (h : ¬ d.registered evtId .kind lID) :
    ∃ d1, d.AddKindListener evtId.Kind lID (some cb) once = .ok (d1, true) ∧ d1.Idle ∧
      d1.listeners evtId .kind
        = d.listeners evtId .kind ++ [⟨lID, cb, Dispatcher.onceFlag once, false⟩] ∧
      ∀ other tier, ¬ (other.Kind = evtId.Kind ∧ tier = .kind) →
        d1.listeners other tier = d.listeners other tier := by
  have h1 : lID ∉ ((d.addORGetKindListeners evtId.Kind).2.tierList .kind evtId.Value).map
      (fun x => x.id) := by
    rw [addORGet_tierList]; exact h
  obtain ⟨klc1, hadd, hidle, hk, hv⟩ := addKindListener_new (addORGet_idle hi evtId.Kind)
    evtId.Value ⟨lID, cb, Dispatcher.onceFlag once, false⟩ h1 rfl
  refine ⟨d.putKind evtId.Kind klc1, ?_, putKind_idle hi _ hidle, ?_, ?_⟩
  · rw [AddKindListener_eq, hadd]
    simp only
    rw [addORGet_putKind]
  · rw [listeners_putKind_self, hk, addORGet_tierList]
  · intro other tier hne
    by_cases hk2 : other.Kind = evtId.Kind
    · cases tier with
      | kind => exact absurd ⟨hk2, rfl⟩ hne
      | value =>
        rw [listeners_putKind_same_kind d evtId other klc1 .value hk2, hv,
          addORGet_tierList_same_kind d evtId other .value hk2]
    · exact listeners_putKind_ne d other klc1 tier (fun e => hk2 e.symm)

theorem AddValueListener_new (d : Dispatcher K V L) (hi : d.Idle) (evtId : EventID K V)
    (lID : L) (cb : ListenerCallback K V L) (once : List Bool)
    (h : ¬ d.registered evtId .value lID) :
    ∃ d1, d.AddValueListener evtId lID (some cb) once = .ok (d1, true) ∧ d1.Idle ∧
      d1.listeners evtId .value
        = d.listeners evtId .value ++ [⟨lID, cb, Dispatcher.onceFlag once, false⟩] ∧
      ∀ other tier, ¬ (other.Kind = evtId.Kind ∧ tier = .value ∧ other.Value = evtId.Value) →
        d1.listeners other tier = d.listeners other tier := by
  have h1 : lID ∉ ((d.addORGetKindListeners evtId.Kind).2.tierList .value evtId.Value).map
      (fun x => x.id) := by
    rw [addORGet_tierList]; exact h
  obtain ⟨klc1, hadd, hidle, hv, hvo, hk⟩ := addValueListener_new
    (addORGet_idle hi evtId.Kind) evtId.Value ⟨lID, cb, Dispatcher.onceFlag once, false⟩ h1 rfl
  refine ⟨d.putKind evtId.Kind klc1, ?_, putKind_idle hi _ hidle, ?_, ?_⟩
  · rw [AddValueListener_eq, hadd]
    simp only
    rw [addORGet_putKind]
  · rw [listeners_putKind_self, hv, addORGet_tierList]
  · intro other tier hne
    by_cases hk2 : other.Kind = evtId.Kind
    · cases tier with
      | kind =>
        rw [listeners_putKind_same_kind d evtId other klc1 .kind hk2, hk,
          addORGet_tierList_same_kind d evtId other .kind hk2]
      | value =>
        have hv2 : other.Value ≠ evtId.Value := fun e => hne ⟨hk2, rfl, e⟩
        rw [listeners_putKind_same_kind d evtId other klc1 .value hk2, hvo _ hv2,
          addORGet_tierList_same_kind d evtId other .value hk2]
    · exact listeners_putKind_ne d other klc1 tier (fun e => hk2 e.symm)

theorem remListener_absent {ls : listenerContainer K V L} (hc : ls.Canon) (lID : L)
    (h : lID ∉ ls.ids) : ls.remListener lID = (ls, false) := by
  have hg : GoMap.get lID ls.listenerMap = none := by
    rw [hc.1, GoMap.get_diag]; simp [h]
  simp [listenerContainer.remListener, hg]

theorem RemKindListener_absent (d : Dispatcher K V L) (hi : d.Idle) (evtId : EventID K V)
    (lID : L) (h : ¬ d.registered evtId .kind lID) :
    (d.RemKindListener evtId.Kind lID).2 = false := by
  unfold Dispatcher.RemKindListener
  cases hg : GoMap.get evtId.Kind d.kindListenerContainers with
  | none => rfl
  | some klc =>
    have hki := idle_of_get hi hg
    simp only
    unfold kindListenerContainer.remKindListener
    cases hk : klc.kindListeners with
    | none => rfl
    | some ls =>
      have hls : ls.Idle := hki.2.1 ls hk
      have h1 : lID ∉ ls.ids := by
        intro hmem
        apply h
        unfold Dispatcher.registered
        rw [listeners_of_get hg]
        simpa [kindListenerContainer.tierList, kindListenerContainer.container, hk,
          listenerContainer.ids] using hmem
      simp only [remListener_absent hls.2.2.2 lID h1]
      split <;> rfl

theorem RemValueListener_absent (d : Dispatcher K V L) (hi : d.Idle) (evtId : EventID K V)
    (lID : L) (h : ¬ d.registered evtId .value lID) :
    (d.RemValueListener evtId lID).2 = false := by
  unfold Dispatcher.RemValueListener
  cases hg : GoMap.get evtId.Kind d.kindListenerContainers with
  | none => rfl
  | some klc =>
    have hki := idle_of_get hi hg
    simp only
    unfold kindListenerContainer.remValueListener
    cases hm : klc.valueListeners with
    | none => rfl
    | some m =>
      cases hv : klc.valueListener evtId.Value with
      | none => rfl
      | some ls =>
        have hget : GoMap.get evtId.Value m = some ls := by
          simpa [kindListenerContainer.valueListener, hm] using hv
        have hls : ls.Idle := hki.2.2 m hm _ (GoMap.mem_of_get hget)
        have h1 : lID ∉ ls.ids := by
          intro hmem
          apply h
          unfold Dispatcher.registered
          rw [listeners_of_get hg]
          simpa [kindListenerContainer.tierList, kindListenerContainer.container, hv,
            listenerContainer.ids] using hmem
        simp only [remListener_absent hls.2.2.2 lID h1]
        split <;> rfl

end RegisterFacts

/-! ## Registration state after a dispatch -/

section LaterFacts

variable {K V L : Type} [DecidableEq K] [DecidableEq V] [DecidableEq L]

theorem listeners_of_reaches (d : Dispatcher K V L) {evtId other : EventID K V} {tier : Tier}
    (h : reaches evtId other tier) : d.listeners other tier = d.listeners evtId tier := by
  obtain ⟨hk, hv⟩ := h
  unfold Dispatcher.listeners Dispatcher.container
  rw [hk]
  cases tier with
  | kind => rfl
  | value => rw [hv rfl]

theorem listeners_afterDispatch_self (evtId : EventID K V) (generator : Any) (param : List Any)
    (d : Dispatcher K V L) (tier : Tier) :
    (d.afterDispatch (mkEvent evtId generator param)).listeners evtId tier
      = (d.listeners evtId tier).filter
          (fun l => !l.removed (mkEvent evtId generator param)) := by
  rw [listeners_afterDispatch]
  simp [mkEvent]

theorem not_registered_after (evtId : EventID K V) (generator : Any) (param : List Any)
    {d : Dispatcher K V L} (hi : d.Idle) {tier : Tier} {l : listener K V L}
    (hl : l ∈ d.listeners evtId tier)
    (hr : l.removed (mkEvent evtId generator param) = true) :
    ¬ (d.afterDispatch (mkEvent evtId generator param)).registered evtId tier l.id := by
  unfold Dispatcher.registered
  rw [listeners_afterDispatch_self]
  intro hmem
  obtain ⟨x, hx, hxid⟩ := List.mem_map.mp hmem
  have hx1 := List.mem_filter.mp hx
  have : x = l := List.inj_on_of_nodup_map (listeners_nodup hi evtId tier) hx1.1 hl hxid
  rw [this, hr] at hx1
  simp at hx1

theorem registered_after (evtId : EventID K V) (generator : Any) (param : List Any)
    {d : Dispatcher K V L} {tier : Tier} {l : listener K V L}
    (hl : l ∈ d.listeners evtId tier)
    (hr : l.removed (mkEvent evtId generator param) = false) :
    l ∈ (d.afterDispatch (mkEvent evtId generator param)).listeners evtId tier := by
  rw [listeners_afterDispatch_self]
  exact List.mem_filter.mpr ⟨hl, by simp [hr]⟩

theorem RemListener_absent (d : Dispatcher K V L) (hi : d.Idle) (evtId : EventID K V)
    (tier : Tier) (lID : L) (h : ¬ d.registered evtId tier lID) :
    (d.RemListener evtId tier lID).2 = false := by
  cases tier with
  | kind => exact RemKindListener_absent d hi evtId lID h
  | value => exact RemValueListener_absent d hi evtId lID h

theorem AddListener_new (d : Dispatcher K V L) (hi : d.Idle) (evtId : EventID K V)
    (tier : Tier) (lID : L) (cb : ListenerCallback K V L) (once : List Bool)
    (h : ¬ d.registered evtId tier lID) :
    ∃ d1, d.AddListener evtId tier lID (some cb) once = .ok (d1, true) := by
  cases tier with
  | kind =>
    obtain ⟨d1, h1, _⟩ := AddKindListener_new d hi evtId lID cb once h
    exact ⟨d1, h1⟩
  | value =>
    obtain ⟨d1, h1, _⟩ := AddValueListener_new d hi evtId lID cb once h
    exact ⟨d1, h1⟩

theorem count_invocation (tier tier2 : Tier) (evt : Event K V) (lID : L)
    (ll : List (listener K V L)) :
    ((ll.map (fun x => (⟨tier2, evt, x.id⟩ : Invocation K V L))).count ⟨tier, evt, lID⟩)
      = if tier = tier2 then (ll.map (fun x => x.id)).count lID else 0 := by
  by_cases h : tier = tier2
  · subst h
    simp only [if_true]
    have hmap : ll.map (fun x => (⟨tier, evt, x.id⟩ : Invocation K V L))
        = (ll.map (fun x => x.id)).map (fun i => (⟨tier, evt, i⟩ : Invocation K V L)) := by
      simp [List.map_map, Function.comp_def]
    rw [hmap]
    exact List.count_map_of_injective _ _
      (fun a b hab => by simpa using hab) lID
  · simp only [h, if_false]
    apply List.count_eq_zero_of_not_mem
    intro hmem
    obtain ⟨x, _, hx⟩ := List.mem_map.mp hmem
    have : tier2 = tier := by
      have := congrArg Invocation.tier hx
      simpa using this
    exact h this.symm

/-- In the calls of a dispatch on an idle dispatcher, a listener the event reaches occurs
exactly once. -/
theorem count_called (d : Dispatcher K V L) (hi : d.Idle) (evtId : EventID K V)
    (evt : Event K V) (tier : Tier) (l : listener K V L) (hl : l ∈ d.listeners evtId tier) :
    ((d.listeners evtId .kind).map (fun x => (⟨.kind, evt, x.id⟩ : Invocation K V L))
      ++ (d.listeners evtId .value).map
          (fun x => (⟨.value, evt, x.id⟩ : Invocation K V L))).count ⟨tier, evt, l.id⟩ = 1 := by
  rw [List.count_append, count_invocation, count_invocation]
  have h1 : ((d.listeners evtId tier).map (fun x => x.id)).count l.id = 1 :=
    List.count_eq_one_of_mem (listeners_nodup hi evtId tier) (List.mem_map.mpr ⟨l, hl, rfl⟩)
  cases tier with
  | kind => simpa using h1
  | value => simpa using h1

/-- A later dispatch on an idle dispatcher calls no listener whose ID is not registered
in the container it belongs to. -/
theorem not_called_later (fuel : Nat) (d : Dispatcher K V L) (hi : d.Idle)
    (evtId : EventID K V) (tier : Tier) (lID : L) (hnot : ¬ d.registered evtId tier lID)
    (other : EventID K V) (generator : Any) (param : List Any) (t : List (Invocation K V L))
    (hloc : ∀ tier2, ∀ x ∈ d.listeners other tier2,
      Prog.Local other tier2 x.id (x.callback (mkEvent other generator param))) :
    ∃ err d2 t1, Dispatcher.Dispatch fuel other generator param ⟨d, t⟩
        = .ok err ⟨d2, t ++ t1⟩ ∧
      ∀ i ∈ t1, ¬ (i.tier = tier ∧ i.id = lID ∧ reaches evtId i.event.eventID tier) := by
  refine ⟨_, _, _, by rw [Dispatch_idle fuel d hi other generator param t hloc,
    List.append_assoc], ?_⟩
  intro i hi1 ⟨htier, hid, hreach⟩
  apply hnot
  unfold Dispatcher.registered
  rcases List.mem_append.mp hi1 with h | h
  · obtain ⟨x, hx, hxi⟩ := List.mem_map.mp h
    subst hxi
    simp only at htier hid hreach
    subst htier
    have : reaches evtId other .kind := hreach
    rw [← listeners_of_reaches d this]
    exact List.mem_map.mpr ⟨x, hx, hid⟩
  · obtain ⟨x, hx, hxi⟩ := List.mem_map.mp h
    subst hxi
    simp only at htier hid hreach
    subst htier
    have : reaches evtId other .value := hreach
    rw [← listeners_of_reaches d this]
    exact List.mem_map.mpr ⟨x, hx, hid⟩

theorem length_pos_of_ne_nil {α : Type} {l : List α} (h : l ≠ []) : 0 < l.length :=
  List.length_pos.mpr h

/-- When a kind without empty containers holds a single listener and a dispatch removes
it, the per-kind container is left without listeners. -/
theorem noListener_after_last (evt : Event K V) (klc : kindListenerContainer K V L)
    (hp : klc.Pruned) (tier : Tier) (l : listener K V L)
    (hl : l ∈ klc.tierList tier evt.eventID.Value)
    (hlast : klc.allListeners.length = 1) (hr : l.removed evt = true) :
    (klc.afterDispatch evt).noListener = true := by
  obtain ⟨kl, vl, n⟩ := klc
  obtain ⟨hne, hvn⟩ := hp
  simp only [kindListenerContainer.containers] at hne
  simp only at hvn
  simp only [kindListenerContainer.allListeners, kindListenerContainer.containers] at hlast
  cases kl with
  | some lsK =>
    have h1 : lsK.listenerList ≠ [] := hne lsK (by simp)
    have h1' := length_pos_of_ne_nil h1
    cases vl with
    | some m =>
      cases m with
      | nil => exact absurd rfl hvn
      | cons p m1 =>
        have h2 : p.2.listenerList ≠ [] := hne p.2 (by simp)
        have h2' := length_pos_of_ne_nil h2
        simp only [Option.toList, Option.getD_some, List.map_cons, List.singleton_append,
          List.flatMap_cons, List.length_append] at hlast
        omega
    | none =>
      simp only [Option.toList, Option.getD_none, List.map_nil, List.append_nil,
        List.flatMap_cons, List.flatMap_nil, List.length_append, List.length_nil,
        add_zero] at hlast
      cases tier with
      | value =>
        simp [kindListenerContainer.tierList, kindListenerContainer.container,
          kindListenerContainer.valueListener] at hl
      | kind =>
        simp only [kindListenerContainer.tierList, kindListenerContainer.container] at hl
        obtain ⟨x, hx⟩ := List.length_eq_one.mp hlast
        rw [hx] at hl
        simp only [List.mem_singleton] at hl
        subst hl
        simp [kindListenerContainer.afterDispatch, kindListenerContainer.afterValue,
          kindListenerContainer.afterKind, kindListenerContainer.noListener,
          listenerContainer.afterDispatch, listenerContainer.noListener, hx, hr]
  | none =>
    cases tier with
    | kind =>
      simp [kindListenerContainer.tierList, kindListenerContainer.container] at hl
    | value =>
      cases vl with
      | none =>
        simp [kindListenerContainer.tierList, kindListenerContainer.container,
          kindListenerContainer.valueListener] at hl
      | some m =>
        cases m with
        | nil => exact absurd rfl hvn
        | cons p m1 =>
          have h2 : p.2.listenerList ≠ [] := hne p.2 (by simp)
          have h2' := length_pos_of_ne_nil h2
          cases m1 with
          | cons q m2 =>
            have h3 : q.2.listenerList ≠ [] := hne q.2 (by simp)
            have h3' := length_pos_of_ne_nil h3
            simp only [Option.toList, Option.getD_some, List.map_cons, List.nil_append,
              List.flatMap_cons, List.length_append] at hlast
            omega
          | nil =>
            obtain ⟨pv, pc⟩ := p
            simp only [Option.toList, Option.getD_some, List.map_cons, List.map_nil,
              List.nil_append, List.flatMap_cons, List.flatMap_nil, List.append_nil] at hlast
            obtain ⟨x, hx⟩ := List.length_eq_one.mp hlast
            simp only [kindListenerContainer.tierList, kindListenerContainer.container,
              kindListenerContainer.valueListener, GoMap.get] at hl
            by_cases hv : pv = evt.eventID.Value
            · simp only [hv, if_true, hx, List.mem_singleton] at hl
              subst hl
              simp [kindListenerContainer.afterDispatch, kindListenerContainer.afterValue,
                kindListenerContainer.afterKind, kindListenerContainer.noListener,
                listenerContainer.afterDispatch, listenerContainer.noListener, hx, hr,
                GoMap.get, hv, GoMap.delete, GoMap.len]
            · simp [hv] at hl

theorem get_afterDispatch_of_noListener (evtId : EventID K V) (generator : Any)
    (param : List Any) (d : Dispatcher K V L) (klc : kindListenerContainer K V L)
    (hg : GoMap.get evtId.Kind d.kindListenerContainers = some klc)
    (h : (klc.afterDispatch (mkEvent evtId generator param)).noListener = true) :
    GoMap.get evtId.Kind
      (d.afterDispatch (mkEvent evtId generator param)).kindListenerContainers = none := by
  have hg2 : GoMap.get (mkEvent evtId generator param : Event K V).eventID.Kind
      d.kindListenerContainers = some klc := hg
  unfold Dispatcher.afterDispatch
  simp only [hg2]
  have := get_pruneKind_self d evtId.Kind (klc.afterDispatch (mkEvent evtId generator param))
  rw [h] at this
  simpa [mkEvent] using this

end LaterFacts

/-! ## The errors of a dispatch, for arbitrary callbacks -/

section ErrorFacts

variable {K V L : Type} [DecidableEq K] [DecidableEq V] [DecidableEq L]

theorem walk_no_sentinel
    (run : Prog K V L → World K V L → Outcome K V L (Option (Error K V)))
    (tier : Tier) (evt : Event K V) :
    ∀ (ids : List L) (w : World K V L) (errs errs1 : List (Error K V)) (w1 : World K V L),
      listenerContainer.walk run tier evt ids w errs = .ok errs1 w1 →
      Error.ErrRemAfterDispatch ∉ errs → Error.ErrRemAfterDispatch ∉ errs1 := by
  intro ids
  induction ids with
  | nil =>
    intro w errs errs1 w1 h hn
    simp only [listenerContainer.walk, Outcome.ok.injEq] at h
    rw [← h.1]; exact hn
  | cons elem rest ih =>
    intro w errs errs1 w1 h hn
    unfold listenerContainer.walk at h
    split at h
    · exact ih _ _ _ _ h hn
    · rename_i l _
      split at h
      · split at h
        · rename_i err w2 _
          refine ih _ _ _ _ h ?_
          cases err with
          | none => exact hn
          | some e =>
            cases e with
            | ErrRemAfterDispatch => simpa [Error.isRemAfterDispatch] using hn
            | other c => simpa [Error.isRemAfterDispatch] using hn
            | dispatchError a b c => simpa [Error.isRemAfterDispatch] using hn
            | dispatchErrors a => simpa [Error.isRemAfterDispatch] using hn
        · simp at h
        · simp at h
      · exact ih _ _ _ _ h hn

theorem lcDispatch_error
    (run : Prog K V L → World K V L → Outcome K V L (Option (Error K V)))
    (tier : Tier) (evt : Event K V) (w w1 : World K V L) (e : Error K V)
    (h : listenerContainer.dispatch run tier evt w = .ok (some e) w1) :
    ∃ errs, e = .dispatchErrors errs ∧ errs ≠ [] ∧ Error.ErrRemAfterDispatch ∉ errs := by
  unfold listenerContainer.dispatch at h
  split at h
  · simp at h
  · split at h
    · rename_i errs w2 hw
      have hns := walk_no_sentinel run tier evt _ _ _ _ _ hw (by simp)
      have key : dispatchResult errs = some e →
          ∃ errs, e = .dispatchErrors errs ∧ errs ≠ [] ∧
            Error.ErrRemAfterDispatch ∉ errs := by
        intro hr
        unfold dispatchResult at hr
        split at hr
        · rename_i hlen
          simp only [Option.some.injEq] at hr
          exact ⟨errs, hr.symm, List.length_pos.mp hlen, hns⟩
        · simp at hr
      split at h
      · simp only [Outcome.ok.injEq] at h
        exact key h.1
      · simp only [Outcome.ok.injEq] at h
        exact key h.1
    · simp at h
    · simp at h

theorem wrapPhase_tierError (dt : String) (evt : Event K V) (errs : List (Error K V))
    (err : Option (Error K V))
    (herrs : ∀ x ∈ errs, TierError evt.eventID x)
    (herr : ∀ e, err = some e →
      ∃ l, e = .dispatchErrors l ∧ l ≠ [] ∧ Error.ErrRemAfterDispatch ∉ l) :
    ∀ x ∈ wrapPhase dt evt errs err, TierError evt.eventID x := by
  intro x hx
  cases err with
  | none => exact herrs x (by simpa [wrapPhase] using hx)
  | some e =>
    simp only [wrapPhase, List.mem_append, List.mem_singleton] at hx
    rcases hx with h | h
    · exact herrs x h
    · obtain ⟨l, hl, hne, hns⟩ := herr e rfl
      exact ⟨dt, l, by rw [h, hl], hne, hns⟩

theorem dispatchKind_error
    (run : Prog K V L → World K V L → Outcome K V L (Option (Error K V)))
    (evt : Event K V) (w w1 : World K V L) (errs : List (Error K V))
    (h : kindListenerContainer.dispatchKind run evt w = .ok errs w1) :
    ∀ x ∈ errs, TierError evt.eventID x := by
  unfold kindListenerContainer.dispatchKind at h
  split at h
  · simp only [Outcome.ok.injEq] at h
    rw [← h.1]; simp
  · split at h
    · rename_i err w2 hd
      simp only [Outcome.ok.injEq] at h
      rw [← h.1]
      apply wrapPhase_tierError
      · simp
      · intro e he
        rw [he] at hd
        exact lcDispatch_error run .kind evt _ _ e hd
    · simp at h
    · simp at h

theorem dispatchValue_error
    (run : Prog K V L → World K V L → Outcome K V L (Option (Error K V)))
    (evt : Event K V) (w w1 : World K V L) (errs0 errs : List (Error K V))
    (h0 : ∀ x ∈ errs0, TierError evt.eventID x)
    (h : kindListenerContainer.dispatchValue run evt errs0 w = .ok errs w1) :
    ∀ x ∈ errs, TierError evt.eventID x := by
  unfold kindListenerContainer.dispatchValue at h
  split at h
  · simp only [Outcome.ok.injEq] at h
    rw [← h.1]; exact h0
  · split at h
    · rename_i err w2 hd
      simp only [Outcome.ok.injEq] at h
      rw [← h.1]
      apply wrapPhase_tierError _ _ _ _ h0
      intro e he
      rw [he] at hd
      exact lcDispatch_error run .value evt _ _ e hd
    · simp at h
    · simp at h

theorem kindDispatch_error
    (run : Prog K V L → World K V L → Outcome K V L (Option (Error K V)))
    (evt : Event K V) (w w1 : World K V L) (e : Error K V)
    (h : kindListenerContainer.dispatch run evt w = .ok (some e) w1) :
    ∃ es, e = .dispatchErrors es ∧ es ≠ [] ∧ ∀ x ∈ es, TierError evt.eventID x := by
  unfold kindListenerContainer.dispatch at h
  split at h
  · simp at h
  · simp at h
  · rename_i errs1 w2 hk
    have h1 := dispatchKind_error run evt _ _ _ hk
    split at h
    · simp at h
    · simp at h
    · rename_i errs2 w3 hv
      have h2 := dispatchValue_error run evt _ _ _ _ h1 hv
      simp only [Outcome.ok.injEq] at h
      have hr := h.1
      unfold dispatchResult at hr
      split at hr
      · rename_i hlen
        simp only [Option.some.injEq] at hr
        exact ⟨errs2, hr.symm, List.length_pos.mp hlen, h2⟩
      · simp at hr

/-- Whatever the callbacks do, a non-nil error returned by `Dispatch` is a list of
per-tier entries for the dispatched event ID, each wrapping a non-empty list of callback
errors that does not contain `ErrRemAfterDispatch`. -/
theorem Dispatch_error (fuel : Nat) (evtId : EventID K V) (generator : Any)
    (param : List Any) (w w1 : World K V L) (e : Error K V)
    (h : Dispatcher.Dispatch fuel evtId generator param w = .ok (some e) w1) :
    ∃ es, e = .dispatchErrors es ∧ es ≠ [] ∧ ∀ x ∈ es, TierError evtId x := by
  obtain ⟨H, hH⟩ := Dispatch_eq_DispatchWith (K := K) (V := V) (L := L) fuel
  rw [hH] at h
  unfold Dispatcher.DispatchWith at h
  split at h
  · simp at h
  · dsimp only at h
    split at h
    · rename_i err w2 hk
      simp only [Outcome.ok.injEq] at h
      rw [h.1] at hk
      exact kindDispatch_error _ _ _ _ e hk
    · simp at h
    · simp at h

theorem genuine_eq_nil (r : Option (Error K V)) :
    genuine r = [] ↔ r = none ∨ r = some .ErrRemAfterDispatch := by
  cases r with
  | none => simp [genuine]
  | some e => cases e <;> simp [genuine]

theorem mem_genuine (r : Option (Error K V)) (e : Error K V) :
    e ∈ genuine r ↔ r = some e ∧ e ≠ .ErrRemAfterDispatch := by
  cases r with
  | none => simp [genuine]
  | some x =>
    cases x with
    | ErrRemAfterDispatch =>
      simp only [genuine, List.not_mem_nil, Option.some.injEq, ne_eq, false_iff, not_and,
        not_not]
      intro h
      exact h.symm
    | other c =>
      simp only [genuine, List.mem_singleton, Option.some.injEq, ne_eq]
      constructor
      · intro h; subst h; exact ⟨rfl, by simp⟩
      · intro h; exact h.1.symm
    | dispatchError a b c =>
      simp only [genuine, List.mem_singleton, Option.some.injEq, ne_eq]
      constructor
      · intro h; subst h; exact ⟨rfl, by simp⟩
      · intro h; exact h.1.symm
    | dispatchErrors a =>
      simp only [genuine, List.mem_singleton, Option.some.injEq, ne_eq]
      constructor
      · intro h; subst h; exact ⟨rfl, by simp⟩
      · intro h; exact h.1.symm

theorem dispatchResult_eq_none (errs : List (Error K V)) :
    dispatchResult errs = none ↔ errs = [] := by
  cases errs <;> simp [dispatchResult]

theorem dispatchErrorOf_eq_none (evt : Event K V) (ek ev : List (Error K V)) :
    dispatchErrorOf evt ek ev = none ↔ ek = [] ∧ ev = [] := by
  cases ek <;> cases ev <;> simp [dispatchErrorOf, dispatchResult, wrapPhase]

theorem flatMap_congr_mem {α β : Type} (ll : List α) (f g : α → List β)
    (h : ∀ l ∈ ll, f l = g l) : ll.flatMap f = ll.flatMap g := by
  induction ll with
  | nil => rfl
  | cons x t ih =>
    simp only [List.flatMap_cons]
    rw [h x (List.mem_cons_self _ _), ih (fun l hl => h l (List.mem_cons_of_mem _ hl))]

/-- The genuine errors of a walk over unflagged listeners whose callbacks return what
`res` says. -/
theorem genuineErrors_of_results (evt : Event K V) (ll : List (listener K V L))
    (res : listener K V L → Option (Error K V))
    (hp : ∀ l ∈ ll, l.pendingRem = false)
    (hres : ∀ l ∈ ll, l.callback evt = .ret (res l)) :
    genuineErrors evt ll = ll.flatMap (fun l => genuine (res l)) := by
  unfold genuineErrors
  rw [fired_of_idle hp]
  apply flatMap_congr_mem
  intro l hl
  rw [hres l hl]
  rfl

end ErrorFacts

/-! ## The example dispatcher -/

section Example

theorem exDispatcher_idle : exDispatcher.Idle := by decide

theorem exReentrant_idle : exReentrant.Idle := by decide

theorem exReentrant_kind :
    exReentrant.listeners ⟨10, 5⟩ .kind
      = [⟨1, cbClear, false, false⟩, ⟨4, cbSelfKind, false, false⟩, ⟨2, cbErr 7, false, false⟩] :=
  rfl

theorem exReentrant_value :
    exReentrant.listeners ⟨10, 5⟩ .value
      = [⟨4, cbSelfValue, false, false⟩, ⟨6, cbClear, false, false⟩] :=
  rfl

theorem exDispatcher_pure (evtId : EventID Nat Nat) (tier : Tier) :
    ∀ l ∈ exDispatcher.listeners evtId tier, ∀ e, ∃ r, l.callback e = .ret r := by
  intro l hl e
  have hmem : l ∈ ([⟨1, cbNil, false, false⟩, ⟨2, cbErr 7, true, false⟩,
      ⟨1, cbRem, false, false⟩, ⟨3, cbNil, false, false⟩] :
      List (listener Nat Nat Nat)) := by
    unfold Dispatcher.listeners Dispatcher.container at hl
    simp only [exDispatcher, GoMap.get] at hl
    by_cases h1 : 10 = evtId.Kind
    · simp only [h1, if_true] at hl
      cases tier with
      | kind =>
        simp only [kindListenerContainer.container] at hl
        simp only [List.mem_cons, List.mem_singleton, List.not_mem_nil, or_false] at hl ⊢
        rcases hl with h | h <;> simp [h]
      | value =>
        simp only [kindListenerContainer.container, kindListenerContainer.valueListener,
          GoMap.get] at hl
        by_cases h2 : 5 = evtId.Value
        · simp only [h2, if_true, List.mem_singleton] at hl
          simp [hl]
        · simp [h2] at hl
    · simp only [h1, if_false] at hl
      by_cases h3 : 20 = evtId.Kind
      · simp only [h3, if_true] at hl
        cases tier with
        | kind =>
          simp only [kindListenerContainer.container, List.mem_singleton] at hl
          simp [hl]
        | value =>
          simp [kindListenerContainer.container, kindListenerContainer.valueListener] at hl
      · simp [h3] at hl
  simp only [List.mem_cons, List.mem_singleton, List.not_mem_nil, or_false] at hmem
  rcases hmem with h | h | h | h <;> subst h
  · exact ⟨_, rfl⟩
  · exact ⟨_, rfl⟩
  · exact ⟨_, rfl⟩
  · exact ⟨_, rfl⟩

theorem exReentrant_local (tier : Tier) :
    ∀ x ∈ exReentrant.listeners ⟨10, 5⟩ tier, ∀ e,
      Prog.Local (⟨10, 5⟩ : EventID Nat Nat) tier x.id (x.callback e) := by
  intro x hx e
  cases tier with
  | kind =>
    rw [exReentrant_kind] at hx
    simp only [List.mem_cons, List.mem_singleton, List.not_mem_nil, or_false] at hx
    rcases hx with h | h | h <;> subst h
    · exact Prog.Local.Clear (Prog.Local.ret _)
    · exact Prog.Local.RemKindListener rfl (Prog.Local.ret _)
    · exact Prog.Local.ret _
  | value =>
    rw [exReentrant_value] at hx
    simp only [List.mem_cons, List.mem_singleton, List.not_mem_nil, or_false] at hx
    rcases hx with h | h <;> subst h
    · exact Prog.Local.RemValueListener rfl (Prog.Local.ret _)
    · exact Prog.Local.Clear (Prog.Local.ret _)

end Example

/-! ## Claims -/

section Claims

variable {K V L : Type} [DecidableEq K] [DecidableEq V] [DecidableEq L]

theorem local_of_ret {evtId : EventID K V} {tier : Tier} {lID : L} {p : Prog K V L}
    (h : ∃ r, p = .ret r) : Prog.Local evtId tier lID p := by
  obtain ⟨r, hr⟩ := h
  rw [hr]
  exact Prog.Local.ret r

/-- C1: on a dispatcher with no dispatch in progress, for callbacks that do not call back
into the dispatcher, `Dispatch` of the event ID `(k, v)` calls exactly the kind-level
listeners of `k`, in registration order, followed by the value-level listeners of exactly
`(k, v)`, in registration order; no ID occurs twice in either list, so each listener is
called exactly once and no other listener is called. -/
theorem C1_dispatch_kind_then_value (fuel : Nat) (d : Dispatcher K V L) (hi : d.Idle)
    (evtId : EventID K V) (generator : Any) (param : List Any)
    (t : List (Invocation K V L))
    (hpure : ∀ tier, ∀ l ∈ d.listeners evtId tier, ∀ e, ∃ r, l.callback e = .ret r) :
    (∃ err d1, Dispatcher.Dispatch fuel evtId generator param ⟨d, t⟩
      = .ok err ⟨d1,
          t ++ (d.listeners evtId .kind).map
                (fun l => ⟨.kind, mkEvent evtId generator param, l.id⟩)
            ++ (d.listeners evtId .value).map
                (fun l => ⟨.value, mkEvent evtId generator param, l.id⟩)⟩) ∧
      ((d.listeners evtId .kind).map (fun l => l.id)).Nodup ∧
      ((d.listeners evtId .value).map (fun l => l.id)).Nodup := by
  refine ⟨⟨_, _, Dispatch_idle fuel d hi evtId generator param t
    (fun tier l hl => local_of_ret (hpure tier l hl _))⟩,
    listeners_nodup hi evtId .kind, listeners_nodup hi evtId .value⟩

/-- Witness of C1 on the example dispatcher, for the event ID (10, 5). -/
theorem C1_dispatch_kind_then_value_witness :
    (∃ err d1, Dispatcher.Dispatch 0 ⟨10, 5⟩ none [] ⟨exDispatcher, []⟩
      = .ok err ⟨d1,
          [] ++ (exDispatcher.listeners ⟨10, 5⟩ .kind).map
                (fun l => ⟨.kind, mkEvent ⟨10, 5⟩ none [], l.id⟩)
            ++ (exDispatcher.listeners ⟨10, 5⟩ .value).map
                (fun l => ⟨.value, mkEvent ⟨10, 5⟩ none [], l.id⟩)⟩) ∧
      ((exDispatcher.listeners ⟨10, 5⟩ .kind).map (fun l => l.id)).Nodup ∧
      ((exDispatcher.listeners ⟨10, 5⟩ .value).map (fun l => l.id)).Nodup :=
  C1_dispatch_kind_then_value 0 exDispatcher exDispatcher_idle ⟨10, 5⟩ none [] []
    (fun tier => exDispatcher_pure ⟨10, 5⟩ tier)

/-- C2: on a dispatcher with no dispatch in progress, `AddKindListener(k, id, cb, once)`
with a non-nil callback and an ID already registered at the kind tier of `k` returns
false and leaves the dispatcher exactly as it was. -/
theorem C2_add_kind_duplicate (d : Dispatcher K V L) (hi : d.Idle) (evtId : EventID K V)
    (lID : L) (cb : ListenerCallback K V L) (once : List Bool)
    (hreg : d.registered evtId .kind lID) :
    d.AddKindListener evtId.Kind lID (some cb) once = .ok (d, false) :=
  AddKindListener_dup d hi evtId lID cb once hreg

/-- Witness of C2: ID 2 is registered at the kind tier of kind 10 of the example. -/
theorem C2_add_kind_duplicate_witness :
    exDispatcher.AddKindListener 10 2 (some cbNil) [true] = .ok (exDispatcher, false) :=
  C2_add_kind_duplicate exDispatcher exDispatcher_idle ⟨10, 0⟩ 2 cbNil [true] (by
    simp [Dispatcher.registered, Dispatcher.listeners, Dispatcher.container, exDispatcher,
      GoMap.get, kindListenerContainer.container])

/-- C3: listener identity is scoped to one container.  On a dispatcher with no dispatch in
progress, registering `lID` with a non-nil callback in a tier of `(k, v)` returns true
exactly when `lID` is not registered in that very container, whatever is registered in
the other tier, for other values or for other kinds; and when `lID` is in neither tier,
both registrations succeed and a dispatch of `(k, v)` calls both listeners. -/
theorem C3_identity_scoped_to_container (d : Dispatcher K V L) (hi : d.Idle)
    (evtId : EventID K V) (lID : L) :
    (∀ tier (cb : ListenerCallback K V L) (once : List Bool),
      ∃ d1 b, d.AddListener evtId tier lID (some cb) once = .ok (d1, b) ∧
        (b = true ↔ ¬ d.registered evtId tier lID)) ∧
    (∀ (cbK cbV : ListenerCallback K V L) (onceK onceV : List Bool),
      ¬ d.registered evtId .kind lID → ¬ d.registered evtId .value lID →
      ∃ d1 d2, d.AddKindListener evtId.Kind lID (some cbK) onceK = .ok (d1, true) ∧
        d1.AddValueListener evtId lID (some cbV) onceV = .ok (d2, true) ∧
        ∀ (fuel : Nat) (generator : Any) (param : List Any) (t : List (Invocation K V L)),
          (∀ tier, ∀ l ∈ d.listeners evtId tier, ∀ e, ∃ r, l.callback e = .ret r) →
          (∀ e, ∃ r, cbK e = .ret r) → (∀ e, ∃ r, cbV e = .ret r) →
          ∃ err d3 t1, Dispatcher.Dispatch fuel evtId generator param ⟨d2, t⟩
              = .ok err ⟨d3, t1⟩ ∧
            (⟨.kind, mkEvent evtId generator param, lID⟩ : Invocation K V L) ∈ t1 ∧
            (⟨.value, mkEvent evtId generator param, lID⟩ : Invocation K V L) ∈ t1) := by
  constructor
  · intro tier cb once
    by_cases hreg : d.registered evtId tier lID
    · refine ⟨d, false, ?_, by simp [hreg]⟩
      cases tier with
      | kind => exact AddKindListener_dup d hi evtId lID cb once hreg
      | value => exact AddValueListener_dup d hi evtId lID cb once hreg
    · cases tier with
      | kind =>
        obtain ⟨d1, h1, _⟩ := AddKindListener_new d hi evtId lID cb once hreg
        exact ⟨d1, true, h1, by simp [hreg]⟩
      | value =>
        obtain ⟨d1, h1, _⟩ := AddValueListener_new d hi evtId lID cb once hreg
        exact ⟨d1, true, h1, by simp [hreg]⟩
  · intro cbK cbV onceK onceV hk hv
    obtain ⟨d1, h1, hi1, hl1, ho1⟩ := AddKindListener_new d hi evtId lID cbK onceK hk
    have hv1 : ¬ d1.registered evtId .value lID := by
      unfold Dispatcher.registered
      rw [ho1 evtId .value (by simp)]
      exact hv
    obtain ⟨d2, h2, hi2, hl2, ho2⟩ := AddValueListener_new d1 hi1 evtId lID cbV onceV hv1
    refine ⟨d1, d2, h1, h2, ?_⟩
    intro fuel generator param t hpure hpK hpV
    have hkind : d2.listeners evtId .kind
        = d.listeners evtId .kind ++ [⟨lID, cbK, Dispatcher.onceFlag onceK, false⟩] := by
      rw [ho2 evtId .kind (by simp), hl1]
    have hvalue : d2.listeners evtId .value
        = d.listeners evtId .value ++ [⟨lID, cbV, Dispatcher.onceFlag onceV, false⟩] := by
      rw [hl2, ho1 evtId .value (by simp)]
    have hloc : ∀ tier, ∀ l ∈ d2.listeners evtId tier,
        Prog.Local evtId tier l.id (l.callback (mkEvent evtId generator param)) := by
      intro tier l hl
      apply local_of_ret
      cases tier with
      | kind =>
        rw [hkind] at hl
        rcases List.mem_append.mp hl with h | h
        · exact hpure .kind l h _
        · simp only [List.mem_singleton] at h
          subst h
          exact hpK _
      | value =>
        rw [hvalue] at hl
        rcases List.mem_append.mp hl with h | h
        · exact hpure .value l h _
        · simp only [List.mem_singleton] at h
          subst h
          exact hpV _
    refine ⟨_, _, _, Dispatch_idle fuel d2 hi2 evtId generator param t hloc, ?_, ?_⟩
    · rw [hkind]
      simp
    · rw [hvalue]
      simp

/-- Witness of C3 on the example dispatcher: ID 7 is registered nowhere for (10, 5). -/
theorem C3_identity_scoped_to_container_witness :
    (∀ tier (cb : ListenerCallback Nat Nat Nat) (once : List Bool),
      ∃ d1 b, exDispatcher.AddListener ⟨10, 5⟩ tier 7 (some cb) once = .ok (d1, b) ∧
        (b = true ↔ ¬ exDispatcher.registered ⟨10, 5⟩ tier 7)) ∧
    (∀ (cbK cbV : ListenerCallback Nat Nat Nat) (onceK onceV : List Bool),
      ¬ exDispatcher.registered ⟨10, 5⟩ .kind 7 → ¬ exDispatcher.registered ⟨10, 5⟩ .value 7 →
      ∃ d1 d2, exDispatcher.AddKindListener 10 7 (some cbK) onceK = .ok (d1, true) ∧
        d1.AddValueListener ⟨10, 5⟩ 7 (some cbV) onceV = .ok (d2, true) ∧
        ∀ (fuel : Nat) (generator : Any) (param : List Any) (t : List (Invocation Nat Nat Nat)),
          (∀ tier, ∀ l ∈ exDispatcher.listeners ⟨10, 5⟩ tier, ∀ e, ∃ r, l.callback e = .ret r) →
          (∀ e, ∃ r, cbK e = .ret r) → (∀ e, ∃ r, cbV e = .ret r) →
          ∃ err d3 t1, Dispatcher.Dispatch fuel ⟨10, 5⟩ generator param ⟨d2, t⟩
              = .ok err ⟨d3, t1⟩ ∧
            (⟨.kind, mkEvent ⟨10, 5⟩ generator param, 7⟩ : Invocation Nat Nat Nat) ∈ t1 ∧
            (⟨.value, mkEvent ⟨10, 5⟩ generator param, 7⟩ : Invocation Nat Nat Nat) ∈ t1) :=
  C3_identity_scoped_to_container exDispatcher exDispatcher_idle ⟨10, 5⟩ 7

/-- C4: when the kind of the event has no entry in the mapping of the dispatcher,
`Dispatch` returns nil, calls no callback and leaves the whole dispatcher, its depth
counter included, unchanged, whatever the state of the dispatcher. -/
theorem C4_dispatch_no_entry (fuel : Nat) (d : Dispatcher K V L) (evtId : EventID K V)
    (generator : Any) (param : List Any) (t : List (Invocation K V L))
    (h : GoMap.get evtId.Kind d.kindListenerContainers = none) :
    Dispatcher.Dispatch fuel evtId generator param ⟨d, t⟩ = .ok none ⟨d, t⟩ := by
  obtain ⟨H, hH⟩ := Dispatch_eq_DispatchWith (K := K) (V := V) (L := L) fuel
  rw [hH]
  simp [Dispatcher.DispatchWith, h]

/-- Witness of C4: kind 30 has no entry in the example dispatcher. -/
theorem C4_dispatch_no_entry_witness :
    Dispatcher.Dispatch 0 ⟨30, 5⟩ none [none] ⟨exDispatcher, []⟩ = .ok none ⟨exDispatcher, []⟩ :=
  C4_dispatch_no_entry 0 exDispatcher ⟨30, 5⟩ none [none] [] rfl

/-- C5: on a dispatcher with no dispatch in progress and callbacks that do not call back
into the dispatcher, a listener registered with `once = true` (in either tier) is called
exactly once by the first `Dispatch` that reaches it; when that `Dispatch` has returned
the listener is not registered: removing its ID returns false, adding its ID again returns
true and no later `Dispatch` calls it; and if it was the only listener of its kind, the
kind has no entry left in the mapping of the dispatcher. -/
theorem C5_once_listener (fuel : Nat) (d : Dispatcher K V L) (hi : d.Idle)
    (evtId : EventID K V) (generator : Any) (param : List Any) (t : List (Invocation K V L))
    (tier : Tier) (l : listener K V L) (hl : l ∈ d.listeners evtId tier)
    (honce : l.once = true)
    (hpure : ∀ tier2, ∀ x ∈ d.listeners evtId tier2, ∀ e, ∃ r, x.callback e = .ret r) :
    ∃ err d1 t1, Dispatcher.Dispatch fuel evtId generator param ⟨d, t⟩
        = .ok err ⟨d1, t ++ t1⟩ ∧
      t1.count ⟨tier, mkEvent evtId generator param, l.id⟩ = 1 ∧
      ¬ d1.registered evtId tier l.id ∧
      (d1.RemListener evtId tier l.id).2 = false ∧
      (∀ (cb : ListenerCallback K V L) (once : List Bool),
        ∃ d2, d1.AddListener evtId tier l.id (some cb) once = .ok (d2, true)) ∧
      (∀ (fuel2 : Nat) (other : EventID K V) (generator2 : Any) (param2 : List Any)
          (t2 : List (Invocation K V L)),
        (∀ tier2, ∀ x ∈ d1.listeners other tier2, ∀ e, ∃ r, x.callback e = .ret r) →
        ∃ err2 d2 t3, Dispatcher.Dispatch fuel2 other generator2 param2 ⟨d1, t2⟩
            = .ok err2 ⟨d2, t2 ++ t3⟩ ∧
          ∀ i ∈ t3, ¬ (i.tier = tier ∧ i.id = l.id ∧ reaches evtId i.event.eventID tier)) ∧
      (∀ klc, GoMap.get evtId.Kind d.kindListenerContainers = some klc → klc.Pruned →
        klc.allListeners.length = 1 →
        GoMap.get evtId.Kind d1.kindListenerContainers = none) := by
  have hpend := listeners_pending hi evtId tier l hl
  have hr : l.removed (mkEvent evtId generator param) = true := by
    simp [listener.removed, hpend, honce]
  have hi1 := afterDispatch_idle (mkEvent evtId generator param) hi
  have hnot := not_registered_after evtId generator param hi hl hr
  refine ⟨_, _, _, by rw [Dispatch_idle fuel d hi evtId generator param t
    (fun tier2 x hx => local_of_ret (hpure tier2 x hx _)), List.append_assoc],
    count_called d hi evtId _ tier l hl, hnot,
    RemListener_absent _ hi1 evtId tier l.id hnot,
    fun cb once => AddListener_new _ hi1 evtId tier l.id cb once hnot, ?_, ?_⟩
  · intro fuel2 other generator2 param2 t2 hp2
    exact not_called_later fuel2 _ hi1 evtId tier l.id hnot other generator2 param2 t2
      (fun tier2 x hx => local_of_ret (hp2 tier2 x hx _))
  · intro klc hg hpr hlast
    have hl2 : l ∈ klc.tierList tier (mkEvent evtId generator param : Event K V).eventID.Value := by
      rw [listeners_of_get hg] at hl
      exact hl
    exact get_afterDispatch_of_noListener evtId generator param d klc hg
      (noListener_after_last _ klc hpr tier l hl2 hlast hr)

/-- Witness of C5: listener 2 of the kind tier of kind 10 of the example is one-shot. -/
theorem C5_once_listener_witness :
    ∃ err d1 t1, Dispatcher.Dispatch 0 ⟨10, 5⟩ none [] ⟨exDispatcher, []⟩
        = .ok err ⟨d1, [] ++ t1⟩ ∧
      t1.count ⟨.kind, mkEvent ⟨10, 5⟩ none [], 2⟩ = 1 ∧
      ¬ d1.registered ⟨10, 5⟩ .kind 2 ∧
      (d1.RemListener ⟨10, 5⟩ .kind 2).2 = false ∧
      (∀ (cb : ListenerCallback Nat Nat Nat) (once : List Bool),
        ∃ d2, d1.AddListener ⟨10, 5⟩ .kind 2 (some cb) once = .ok (d2, true)) ∧
      (∀ (fuel2 : Nat) (other : EventID Nat Nat) (generator2 : Any) (param2 : List Any)
          (t2 : List (Invocation Nat Nat Nat)),
        (∀ tier2, ∀ x ∈ d1.listeners other tier2, ∀ e, ∃ r, x.callback e = .ret r) →
        ∃ err2 d2 t3, Dispatcher.Dispatch fuel2 other generator2 param2 ⟨d1, t2⟩
            = .ok err2 ⟨d2, t2 ++ t3⟩ ∧
          ∀ i ∈ t3, ¬ (i.tier = .kind ∧ i.id = 2 ∧ reaches ⟨10, 5⟩ i.event.eventID .kind)) ∧
      (∀ klc, GoMap.get 10 exDispatcher.kindListenerContainers = some klc → klc.Pruned →
        klc.allListeners.length = 1 →
        GoMap.get 10 d1.kindListenerContainers = none) :=
  C5_once_listener 0 exDispatcher exDispatcher_idle ⟨10, 5⟩ none [] [] .kind
    ⟨2, cbErr 7, true, false⟩
    (by simp [Dispatcher.listeners, Dispatcher.container, exDispatcher, GoMap.get,
      kindListenerContainer.container])
    rfl (fun tier2 => exDispatcher_pure ⟨10, 5⟩ tier2)

theorem local_selfRemove (evtId : EventID K V) (tier : Tier) (lID : L)
    (r : Bool → Option (Error K V)) :
    Prog.Local evtId tier lID (selfRemove evtId tier lID (fun b => .ret (r b))) := by
  cases tier with
  | kind => exact Prog.Local.RemKindListener rfl (Prog.Local.ret _)
  | value => exact Prog.Local.RemValueListener rfl (Prog.Local.ret _)

theorem mem_genuineErrors {evt : Event K V} {ll : List (listener K V L)} {l : listener K V L}
    (hl : l ∈ ll) (hp : l.pendingRem = false) {e : Error K V}
    (he : e ∈ genuine (l.callback evt).result) : e ∈ genuineErrors evt ll := by
  unfold genuineErrors fired
  exact List.mem_flatMap.mpr ⟨l, List.mem_filter.mpr ⟨hl, by simp [hp]⟩, he⟩

theorem dispatchResult_of_ne_nil {errs : List (Error K V)} (h : errs ≠ []) :
    dispatchResult errs = some (.dispatchErrors errs) := by
  cases errs with
  | nil => exact absurd rfl h
  | cons a t => simp [dispatchResult]

theorem dispatchErrorOf_of_ne_nil (evt : Event K V) {ek ev : List (Error K V)}
    (h : ek ≠ [] ∨ ev ≠ []) :
    dispatchErrorOf evt ek ev
      = some (.dispatchErrors
          (tierEntry "kind" evt.eventID ek ++ tierEntry "value" evt.eventID ev)) := by
  cases ek with
  | nil =>
    cases ev with
    | nil => simp at h
    | cons b u => simp [dispatchErrorOf, dispatchResult, wrapPhase, tierEntry]
  | cons a t =>
    cases ev with
    | nil => simp [dispatchErrorOf, dispatchResult, wrapPhase, tierEntry]
    | cons b u => simp [dispatchErrorOf, dispatchResult, wrapPhase, tierEntry]

theorem genuineErrors_split (evt : Event K V) (pre post : List (listener K V L))
    (l : listener K V L) (hp : l.pendingRem = false) :
    genuineErrors evt (pre ++ l :: post)
      = genuineErrors evt pre ++ genuine (l.callback evt).result ++ genuineErrors evt post := by
  simp [genuineErrors, fired, List.filter_append, List.filter_cons, hp, List.flatMap_append]

theorem mem_tierEntry (tier : Tier) (evtId : EventID K V) (ek ev : List (Error K V))
    (h : (match tier with | .kind => ek | .value => ev) ≠ []) :
    Error.dispatchError tier.dt evtId
        (.dispatchErrors (match tier with | .kind => ek | .value => ev))
      ∈ tierEntry "kind" evtId ek ++ tierEntry "value" evtId ev := by
  cases tier with
  | kind =>
    cases ek with
    | nil => exact absurd rfl h
    | cons a t => simp [tierEntry, Tier.dt]
  | value =>
    cases ev with
    | nil => exact absurd rfl h
    | cons a t => simp [tierEntry, Tier.dt]

/-- C6: on a dispatcher with no dispatch in progress, let the callback of listener `l`
start by calling `RemKindListener` / `RemValueListener` on its own ID and return `r b`
where `b` is what the removal returned, the other callbacks only calling `Clear` or
removing their own listener.  Then `Dispatch` returns and has called every listener of
both tiers, the ones after `l` included.  The error it returns is nil when neither tier
collected an error, and otherwise the `dispatchErrors` of the per-tier entries, each a
`dispatchError` with the tag of its tier and the event ID wrapping the `dispatchErrors`
of the errors the tier collected.  The errors collected for the tier of `l` are those of
the listeners before `l`, then the genuine error `r true` of `l` (so the removal returned
true and the error is collected), then those of the listeners after `l`; an error `r true`
other than `ErrRemAfterDispatch` is therefore inside the entry of its tier in the error
returned.  Once `Dispatch` has returned `l` is not registered, and the next `Dispatch` of
the same event ID does not call it. -/
theorem C6_self_removal (fuel : Nat) (d : Dispatcher K V L) (hi : d.Idle)
    (evtId : EventID K V) (generator : Any) (param : List Any) (t : List (Invocation K V L))
    (tier : Tier) (l : listener K V L) (hl : l ∈ d.listeners evtId tier)
    (r : Event K V → Bool → Option (Error K V))
    (hcb : ∀ e, l.callback e = selfRemove evtId tier l.id (fun b => .ret (r e b)))
    (hloc : ∀ tier2, ∀ x ∈ d.listeners evtId tier2, (tier2 ≠ tier ∨ x.id ≠ l.id) →
      ∀ e, Prog.Local evtId tier2 x.id (x.callback e)) :
    ∃ d1 err, Dispatcher.Dispatch fuel evtId generator param ⟨d, t⟩
        = .ok err
            ⟨d1, t ++ (d.listeners evtId .kind).map
                    (fun x => ⟨.kind, mkEvent evtId generator param, x.id⟩)
                ++ (d.listeners evtId .value).map
                    (fun x => ⟨.value, mkEvent evtId generator param, x.id⟩)⟩ ∧
      ((genuineErrors (mkEvent evtId generator param) (d.listeners evtId .kind) = [] ∧
          genuineErrors (mkEvent evtId generator param) (d.listeners evtId .value) = []) →
        err = none) ∧
      ((genuineErrors (mkEvent evtId generator param) (d.listeners evtId .kind) ≠ [] ∨
          genuineErrors (mkEvent evtId generator param) (d.listeners evtId .value) ≠ []) →
        err = some (.dispatchErrors
          (tierEntry "kind" evtId
              (genuineErrors (mkEvent evtId generator param) (d.listeners evtId .kind))
            ++ tierEntry "value" evtId
              (genuineErrors (mkEvent evtId generator param) (d.listeners evtId .value))))) ∧
      (∀ pre post, d.listeners evtId tier = pre ++ l :: post →
        genuineErrors (mkEvent evtId generator param) (d.listeners evtId tier)
          = genuineErrors (mkEvent evtId generator param) pre
            ++ genuine (r (mkEvent evtId generator param) true)
            ++ genuineErrors (mkEvent evtId generator param) post) ∧
      (∀ e, r (mkEvent evtId generator param) true = some e → e ≠ .ErrRemAfterDispatch →
        ∃ es errs, err = some (.dispatchErrors es) ∧
          Error.dispatchError tier.dt evtId (.dispatchErrors errs) ∈ es ∧ e ∈ errs) ∧
      ¬ d1.registered evtId tier l.id ∧
      (∀ (fuel2 : Nat) (generator2 : Any) (param2 : List Any) (t2 : List (Invocation K V L)),
        ∃ err2 d2 t3, Dispatcher.Dispatch fuel2 evtId generator2 param2 ⟨d1, t2⟩
            = .ok err2 ⟨d2, t2 ++ t3⟩ ∧
          ∀ i ∈ t3, ¬ (i.tier = tier ∧ i.id = l.id ∧ reaches evtId i.event.eventID tier)) := by
  have hall : ∀ tier2, ∀ x ∈ d.listeners evtId tier2, ∀ e,
      Prog.Local evtId tier2 x.id (x.callback e) := by
    intro tier2 x hx e
    by_cases hsame : tier2 = tier ∧ x.id = l.id
    · obtain ⟨h1, h2⟩ := hsame
      subst h1
      have : x = l := List.inj_on_of_nodup_map (listeners_nodup hi evtId tier2) hx hl h2
      subst this
      rw [hcb e]
      exact local_selfRemove evtId tier2 x.id (r e)
    · have : tier2 ≠ tier ∨ x.id ≠ l.id := by
        by_cases h1 : tier2 = tier
        · exact Or.inr (fun h2 => hsame ⟨h1, h2⟩)
        · exact Or.inl h1
      exact hloc tier2 x hx this e
  have hpend := listeners_pending hi evtId tier l hl
  have hres : (l.callback (mkEvent evtId generator param)).result
      = r (mkEvent evtId generator param) true := by
    rw [hcb]
    cases tier <;> rfl
  have hrem : (l.callback (mkEvent evtId generator param)).removes = true := by
    rw [hcb]
    cases tier <;> rfl
  have hr : l.removed (mkEvent evtId generator param) = true := by
    simp [listener.removed, hpend, hrem]
  have hi1 := afterDispatch_idle (mkEvent evtId generator param) hi
  have hnot := not_registered_after evtId generator param hi hl hr
  have hne : (mkEvent evtId generator param : Event K V).eventID = evtId := rfl
  have hshape : ∀ h : (genuineErrors (mkEvent evtId generator param) (d.listeners evtId .kind)
        ≠ [] ∨ genuineErrors (mkEvent evtId generator param) (d.listeners evtId .value) ≠ []),
      dispatchErrorOf (mkEvent evtId generator param)
          (genuineErrors (mkEvent evtId generator param) (d.listeners evtId .kind))
          (genuineErrors (mkEvent evtId generator param) (d.listeners evtId .value))
        = some (.dispatchErrors
          (tierEntry "kind" evtId
              (genuineErrors (mkEvent evtId generator param) (d.listeners evtId .kind))
            ++ tierEntry "value" evtId
              (genuineErrors (mkEvent evtId generator param) (d.listeners evtId .value)))) :=
    fun h => dispatchErrorOf_of_ne_nil (mkEvent evtId generator param) h
  refine ⟨_, _, Dispatch_idle fuel d hi evtId generator param t
    (fun tier2 x hx => hall tier2 x hx _), ?_, hshape, ?_, ?_, hnot, ?_⟩
  · intro h
    exact (dispatchErrorOf_eq_none _ _ _).mpr h
  · intro pre post hsplit
    rw [hsplit, genuineErrors_split _ pre post l hpend, hres]
  · intro e he0 hne
    have he : e ∈ genuine (l.callback (mkEvent evtId generator param)).result := by
      rw [hres]
      exact (mem_genuine _ _).mpr ⟨he0, hne⟩
    have hmem : e ∈ genuineErrors (mkEvent evtId generator param) (d.listeners evtId tier) :=
      mem_genuineErrors hl hpend he
    have hor : genuineErrors (mkEvent evtId generator param) (d.listeners evtId .kind) ≠ [] ∨
        genuineErrors (mkEvent evtId generator param) (d.listeners evtId .value) ≠ [] := by
      cases tier with
      | kind => exact Or.inl (List.ne_nil_of_mem hmem)
      | value => exact Or.inr (List.ne_nil_of_mem hmem)
    refine ⟨_, genuineErrors (mkEvent evtId generator param) (d.listeners evtId tier),
      hshape hor, ?_, hmem⟩
    have := mem_tierEntry tier evtId
      (genuineErrors (mkEvent evtId generator param) (d.listeners evtId .kind))
      (genuineErrors (mkEvent evtId generator param) (d.listeners evtId .value))
      (by cases tier <;> exact List.ne_nil_of_mem hmem)
    cases tier <;> exact this
  · intro fuel2 generator2 param2 t2
    refine not_called_later fuel2 _ hi1 evtId tier l.id hnot evtId generator2 param2 t2 ?_
    intro tier2 x hx
    rw [listeners_afterDispatch_self] at hx
    exact hall tier2 x (List.mem_filter.mp hx).1 _

/-- Witness of C6: listener 4 of the kind tier of kind 10 of the reentrant example removes
itself and fails with error 9 when the removal returned true.  `Dispatch` calls the
listeners 1, 4, 2 of the kind tier and 4, 6 of the value tier and returns the one entry of
the kind tier, holding error 9 of listener 4 and then error 7 of listener 2, the listener
after it. -/
theorem C6_self_removal_witness :
    ∃ d1, Dispatcher.Dispatch 0 ⟨10, 5⟩ none [] ⟨exReentrant, []⟩
        = .ok (some (.dispatchErrors
                [.dispatchError "kind" ⟨10, 5⟩ (.dispatchErrors [.other 9, .other 7])]))
            ⟨d1, [⟨.kind, mkEvent ⟨10, 5⟩ none [], 1⟩, ⟨.kind, mkEvent ⟨10, 5⟩ none [], 4⟩,
                  ⟨.kind, mkEvent ⟨10, 5⟩ none [], 2⟩, ⟨.value, mkEvent ⟨10, 5⟩ none [], 4⟩,
                  ⟨.value, mkEvent ⟨10, 5⟩ none [], 6⟩]⟩ ∧
      genuineErrors (mkEvent ⟨10, 5⟩ none []) (exReentrant.listeners ⟨10, 5⟩ .kind)
        = [] ++ [Error.other 9] ++ [Error.other 7] ∧
      ¬ d1.registered ⟨10, 5⟩ .kind 4 ∧
      (∀ (fuel2 : Nat) (generator2 : Any) (param2 : List Any)
          (t2 : List (Invocation Nat Nat Nat)),
        ∃ err2 d2 t3, Dispatcher.Dispatch fuel2 ⟨10, 5⟩ generator2 param2 ⟨d1, t2⟩
            = .ok err2 ⟨d2, t2 ++ t3⟩ ∧
          ∀ i ∈ t3, ¬ (i.tier = .kind ∧ i.id = 4 ∧ reaches ⟨10, 5⟩ i.event.eventID .kind)) := by
  obtain ⟨d1, err, hrun, _, herr, hsplit, _, hreg, hlater⟩ :=
    C6_self_removal 0 exReentrant exReentrant_idle ⟨10, 5⟩ none [] [] .kind
      ⟨4, cbSelfKind, false, false⟩ (by rw [exReentrant_kind]; simp)
      (fun _ b => if b then some (.other 9) else none) (fun _ => rfl)
      (fun tier2 x hx _ => exReentrant_local tier2 x hx)
  have he := herr (Or.inl (List.cons_ne_nil (Error.other 9) [Error.other 7]))
  rw [he] at hrun
  exact ⟨d1, hrun,
    hsplit [⟨1, cbClear, false, false⟩] [⟨2, cbErr 7, false, false⟩] exReentrant_kind,
    hreg, hlater⟩

/-- C7: the removal sentinel is never surfaced.  On a dispatcher with no dispatch in
progress whose callbacks return `res` without calling back, `Dispatch` returns nil exactly
when every callback returned nil or `ErrRemAfterDispatch`, and the errors it collects per
tier are exactly the callback results that are neither nil nor `ErrRemAfterDispatch`, in
order.  Whatever the callbacks do and whatever the state, a non-nil error returned by
`Dispatch` is a list of per-tier entries for the event ID, each wrapping a non-empty list
of callback errors that does not contain `ErrRemAfterDispatch`. -/
theorem C7_sentinel_not_surfaced (fuel : Nat) (d : Dispatcher K V L) (hi : d.Idle)
    (evtId : EventID K V) (generator : Any) (param : List Any) (t : List (Invocation K V L))
    (res : Tier → listener K V L → Option (Error K V))
    (hres : ∀ tier, ∀ l ∈ d.listeners evtId tier,
      l.callback (mkEvent evtId generator param) = .ret (res tier l)) :
    (∃ d1 t1, Dispatcher.Dispatch fuel evtId generator param ⟨d, t⟩
        = .ok (dispatchErrorOf (mkEvent evtId generator param)
                ((d.listeners evtId .kind).flatMap (fun l => genuine (res .kind l)))
                ((d.listeners evtId .value).flatMap (fun l => genuine (res .value l))))
            ⟨d1, t1⟩) ∧
      (dispatchErrorOf (mkEvent evtId generator param)
          ((d.listeners evtId .kind).flatMap (fun l => genuine (res .kind l)))
          ((d.listeners evtId .value).flatMap (fun l => genuine (res .value l))) = none ↔
        ∀ tier, ∀ l ∈ d.listeners evtId tier,
          res tier l = none ∨ res tier l = some .ErrRemAfterDispatch) ∧
      (∀ tier (e : Error K V),
        e ∈ (d.listeners evtId tier).flatMap (fun l => genuine (res tier l)) ↔
          ∃ l ∈ d.listeners evtId tier, res tier l = some e ∧ e ≠ .ErrRemAfterDispatch) ∧
      (∀ (fuel2 : Nat) (other : EventID K V) (generator2 : Any) (param2 : List Any)
          (w w1 : World K V L) (e : Error K V),
        Dispatcher.Dispatch fuel2 other generator2 param2 w = .ok (some e) w1 →
        ∃ es, e = .dispatchErrors es ∧ es ≠ [] ∧ ∀ x ∈ es, TierError other x) := by
  have hd := Dispatch_idle fuel d hi evtId generator param t
    (fun tier l hl => local_of_ret ⟨_, hres tier l hl⟩)
  rw [genuineErrors_of_results _ _ (res .kind) (listeners_pending hi evtId .kind)
      (hres .kind),
    genuineErrors_of_results _ _ (res .value) (listeners_pending hi evtId .value)
      (hres .value)] at hd
  refine ⟨⟨_, _, hd⟩, ?_, ?_, ?_⟩
  · rw [dispatchErrorOf_eq_none]
    simp only [List.flatMap_eq_nil_iff, genuine_eq_nil]
    constructor
    · intro h tier
      cases tier with
      | kind => exact h.1
      | value => exact h.2
    · intro h
      exact ⟨h .kind, h .value⟩
  · intro tier e
    simp only [List.mem_flatMap, mem_genuine]
  · intro fuel2 other generator2 param2 w w1 e h
    exact Dispatch_error fuel2 other generator2 param2 w w1 e h

/-- Witness of C7 on the example dispatcher: of the callbacks reached by (10, 5) one
returns nil, one the genuine error 7 and one `ErrRemAfterDispatch`. -/
theorem C7_sentinel_not_surfaced_witness :
    (∃ d1 t1, Dispatcher.Dispatch 0 ⟨10, 5⟩ none [] ⟨exDispatcher, []⟩
        = .ok (dispatchErrorOf (mkEvent ⟨10, 5⟩ none [])
                ((exDispatcher.listeners ⟨10, 5⟩ .kind).flatMap
                  (fun l => genuine ((fun _ l => (l.callback (mkEvent ⟨10, 5⟩ none [])).result)
                    Tier.kind l)))
                ((exDispatcher.listeners ⟨10, 5⟩ .value).flatMap
                  (fun l => genuine ((fun _ l => (l.callback (mkEvent ⟨10, 5⟩ none [])).result)
                    Tier.value l))))
            ⟨d1, t1⟩) ∧
      (dispatchErrorOf (mkEvent ⟨10, 5⟩ none [])
          ((exDispatcher.listeners ⟨10, 5⟩ .kind).flatMap
            (fun l => genuine ((fun _ l => (l.callback (mkEvent ⟨10, 5⟩ none [])).result)
              Tier.kind l)))
          ((exDispatcher.listeners ⟨10, 5⟩ .value).flatMap
            (fun l => genuine ((fun _ l => (l.callback (mkEvent ⟨10, 5⟩ none [])).result)
              Tier.value l))) = none ↔
        ∀ tier, ∀ l ∈ exDispatcher.listeners ⟨10, 5⟩ tier,
          (fun _ l => (l.callback (mkEvent ⟨10, 5⟩ none [])).result) tier l = none ∨
          (fun _ l => (l.callback (mkEvent ⟨10, 5⟩ none [])).result) tier l
            = some .ErrRemAfterDispatch) ∧
      (∀ tier (e : Error Nat Nat),
        e ∈ (exDispatcher.listeners ⟨10, 5⟩ tier).flatMap
            (fun l => genuine ((fun _ l => (l.callback (mkEvent ⟨10, 5⟩ none [])).result)
              tier l)) ↔
          ∃ l ∈ exDispatcher.listeners ⟨10, 5⟩ tier,
            (fun _ l => (l.callback (mkEvent ⟨10, 5⟩ none [])).result) tier l = some e ∧
              e ≠ .ErrRemAfterDispatch) ∧
      (∀ (fuel2 : Nat) (other : EventID Nat Nat) (generator2 : Any) (param2 : List Any)
          (w w1 : World Nat Nat Nat) (e : Error Nat Nat),
        Dispatcher.Dispatch fuel2 other generator2 param2 w = .ok (some e) w1 →
        ∃ es, e = .dispatchErrors es ∧ es ≠ [] ∧ ∀ x ∈ es, TierError other x) :=
  C7_sentinel_not_surfaced 0 exDispatcher exDispatcher_idle ⟨10, 5⟩ none [] []
    (fun _ l => (l.callback (mkEvent ⟨10, 5⟩ none [])).result)
    (fun tier l hl => by
      obtain ⟨r, hr⟩ := exDispatcher_pure ⟨10, 5⟩ tier l hl (mkEvent ⟨10, 5⟩ none [])
      simp only [hr]
      rfl)

theorem value_of_mem {ls : listenerContainer K V L} (hnd : ls.ids.Nodup)
    {l : listener K V L} (hl : l ∈ ls.listenerList) : ls.value l.id = some l := by
  obtain ⟨pre, rest, hsplit⟩ := List.append_of_mem hl
  obtain ⟨ll, lmap, pq, n⟩ := ls
  simp only at hsplit
  subst hsplit
  exact value_split pre rest l lmap pq n hnd

theorem value_walked (evt : Event K V) {ls : listenerContainer K V L} (hnd : ls.ids.Nodup)
    {l : listener K V L} (hl : l ∈ ls.listenerList) :
    (ls.walked evt).value l.id = some (l.afterWalk evt) := by
  have hv := value_of_mem hnd hl
  unfold listenerContainer.value at hv ⊢
  simp only [listenerContainer.walked]
  rw [List.find?_map]
  have hfun : ((fun (x : listener K V L) => decide (x.id = l.id)) ∘ listener.afterWalk evt)
      = fun x => decide (x.id = l.id) := by
    funext x
    simp [afterWalk_id]
  rw [hfun, hv]
  rfl

theorem walked_ids (evt : Event K V) (ls : listenerContainer K V L) :
    (ls.walked evt).ids = ls.ids := by
  simp only [listenerContainer.ids, listenerContainer.walked]
  exact map_afterWalk_ids evt ls.listenerList

theorem removed_of_sentinel {evt : Event K V} {l : listener K V L}
    (hp : l.pendingRem = false)
    (h : l.callback evt = .ret (some .ErrRemAfterDispatch)) : l.removed evt = true := by
  simp [listener.removed, hp, h, Prog.result, Error.isRemAfterDispatch]

theorem not_removed_of_result {evt : Event K V} {l : listener K V L}
    {r : Option (Error K V)} (ho : l.once = false) (h : l.callback evt = .ret r)
    (hr : r ≠ some .ErrRemAfterDispatch) : l.removed evt = false := by
  have : Error.isRemAfterDispatch r = false := by
    cases r with
    | none => rfl
    | some e =>
      cases e with
      | ErrRemAfterDispatch => exact absurd rfl hr
      | other c => rfl
      | dispatchError a b c => rfl
      | dispatchErrors a => rfl
  simp [listener.removed, ho, h, Prog.result, Prog.removes, this]

/-- The walk of `dispatch` over a container whose callbacks only clear and remove their
own listener, started right after `ls.dispatching++`. -/
theorem walk_enter (H : Handler K V L) (d : Dispatcher K V L)
    {klc : kindListenerContainer K V L} (evt : Event K V) {tier : Tier}
    (hp : klc.HasPlace tier) (hd : 0 < d.dispatching)
    (ls : listenerContainer K V L) (t : List (Invocation K V L)) (hc : ls.Canon)
    (hn : 0 ≤ ls.dispatching)
    (hloc : ∀ l ∈ ls.listenerList, l.pendingRem = false →
      Prog.Local evt.eventID tier l.id (l.callback evt)) :
    listenerContainer.walk (runProg H) tier evt ls.ids
        (inWalk d klc evt.eventID tier ls.enter t) []
      = .ok (genuineErrors evt ls.listenerList)
          (inWalk d klc evt.eventID tier (ls.walked evt)
            (t ++ invocations tier evt ls.listenerList)) := by
  obtain ⟨ll, lmap, pq, n⟩ := ls
  obtain ⟨hmap, hnd⟩ := hc
  simp only [listenerContainer.ids] at hmap hnd
  simp only at hn hloc
  have hw := walk_spec H d evt hp hd ll [] lmap pq (n + 1) t []
    (by simpa using hmap) (by simpa using hnd) (by omega) hloc
  simp only [List.nil_append] at hw
  exact hw

/-- C8: a listener registered with `once = false` whose callback returns
`ErrRemAfterDispatch` stays in the list of its container, flagged, until the walk of that
dispatch has ended; it is still there after a dispatch that was nested in another dispatch
on the same container, and it is gone after a dispatch that entered the container at depth
0.  On a dispatcher with no dispatch in progress it is then not registered, no later
`Dispatch` calls it and its ID can be registered again, whereas a listener with
`once = false` whose callback returns nil or another error stays registered.  Callbacks do
not call back into the dispatcher. -/
theorem C8_sentinel_deferred_removal (fuel : Nat) (d : Dispatcher K V L) (hi : d.Idle)
    (evtId : EventID K V) (generator : Any) (param : List Any) (t : List (Invocation K V L))
    (tier : Tier) (l : listener K V L) (hl : l ∈ d.listeners evtId tier)
    (honce : l.once = false) (r : Option (Error K V))
    (hr : l.callback (mkEvent evtId generator param) = .ret r)
    (hpure : ∀ tier2, ∀ x ∈ d.listeners evtId tier2, ∀ e, ∃ q, x.callback e = .ret q) :
    (∃ err d1 t1, Dispatcher.Dispatch fuel evtId generator param ⟨d, t⟩
        = .ok err ⟨d1, t ++ t1⟩ ∧
      (r = some .ErrRemAfterDispatch →
        ¬ d1.registered evtId tier l.id ∧
        (∀ (cb : ListenerCallback K V L) (once : List Bool),
          ∃ d2, d1.AddListener evtId tier l.id (some cb) once = .ok (d2, true)) ∧
        (∀ (fuel2 : Nat) (other : EventID K V) (generator2 : Any) (param2 : List Any)
            (t2 : List (Invocation K V L)),
          (∀ tier2, ∀ x ∈ d1.listeners other tier2, ∀ e, ∃ q, x.callback e = .ret q) →
          ∃ err2 d2 t3, Dispatcher.Dispatch fuel2 other generator2 param2 ⟨d1, t2⟩
              = .ok err2 ⟨d2, t2 ++ t3⟩ ∧
            ∀ i ∈ t3,
              ¬ (i.tier = tier ∧ i.id = l.id ∧ reaches evtId i.event.eventID tier))) ∧
      (r ≠ some .ErrRemAfterDispatch → l ∈ d1.listeners evtId tier)) ∧
    (∀ (H : Handler K V L) (d0 : Dispatcher K V L) (klc : kindListenerContainer K V L)
        (evt : Event K V) (ls : listenerContainer K V L) (t0 : List (Invocation K V L))
        (x : listener K V L),
      klc.HasPlace tier → 0 < d0.dispatching → ls.Canon → 0 ≤ ls.dispatching →
      x ∈ ls.listenerList → x.pendingRem = false → x.once = false →
      x.callback evt = .ret (some .ErrRemAfterDispatch) →
      (∀ y ∈ ls.listenerList, ∃ q, y.callback evt = .ret q) →
      (∃ errs t1, listenerContainer.walk (runProg H) tier evt ls.ids
            (inWalk d0 klc evt.eventID tier ls.enter t0) []
          = .ok errs (inWalk d0 klc evt.eventID tier (ls.walked evt) t1)) ∧
        (ls.walked evt).ids = ls.ids ∧
        (ls.walked evt).value x.id = some { x with pendingRem := true } ∧
        (∃ err t1, listenerContainer.dispatch (runProg H) tier evt
            (inWalk d0 klc evt.eventID tier ls t0)
          = .ok err (inWalk d0 klc evt.eventID tier (ls.walked evt).leave t1)) ∧
        (0 < ls.dispatching → (ls.walked evt).leave.ids = ls.ids) ∧
        (ls.Idle → x.id ∉ (ls.walked evt).leave.ids)) := by
  constructor
  · have hpend := listeners_pending hi evtId tier l hl
    have hi1 := afterDispatch_idle (mkEvent evtId generator param) hi
    refine ⟨_, _, _, by rw [Dispatch_idle fuel d hi evtId generator param t
      (fun tier2 x hx => local_of_ret (hpure tier2 x hx _)), List.append_assoc], ?_, ?_⟩
    · intro hrs
      subst hrs
      have hrm := removed_of_sentinel hpend hr
      have hnot := not_registered_after evtId generator param hi hl hrm
      refine ⟨hnot, fun cb once => AddListener_new _ hi1 evtId tier l.id cb once hnot, ?_⟩
      intro fuel2 other generator2 param2 t2 hp2
      exact not_called_later fuel2 _ hi1 evtId tier l.id hnot other generator2 param2 t2
        (fun tier2 x hx => local_of_ret (hp2 tier2 x hx _))
    · intro hrn
      exact registered_after evtId generator param hl (not_removed_of_result honce hr hrn)
  · intro H d0 klc evt ls t0 x hp hd0 hc hn hx hxp hxo hxr hpl
    have hloc : ∀ y ∈ ls.listenerList, y.pendingRem = false →
        Prog.Local evt.eventID tier y.id (y.callback evt) :=
      fun y hy _ => local_of_ret (hpl y hy)
    have hrm := removed_of_sentinel hxp hxr
    refine ⟨⟨_, _, walk_enter H d0 evt hp hd0 ls t0 hc hn hloc⟩, walked_ids evt ls, ?_,
      ⟨_, _, lcDispatch_spec H d0 evt hp hd0 ls t0 hc hn hloc⟩, ?_, ?_⟩
    · rw [value_walked evt hc.2 hx]
      simp [listener.afterWalk, hrm]
    · intro hpos
      rw [leave_walked_nested evt ls hpos]
      exact walked_ids evt ls
    · intro hidle
      rw [leave_walked evt ls hidle]
      simp only [listenerContainer.ids, listenerContainer.afterDispatch]
      intro hmem
      obtain ⟨y, hy, hyid⟩ := List.mem_map.mp hmem
      have hy1 := List.mem_filter.mp hy
      have : y = x := List.inj_on_of_nodup_map hc.2 hy1.1 hx hyid
      rw [this, hrm] at hy1
      simp at hy1

/-- Witness of C8: listener 1 of the value tier of (10, 5) of the example is not one-shot
and returns `ErrRemAfterDispatch`. -/
theorem C8_sentinel_deferred_removal_witness :
    (∃ err d1 t1, Dispatcher.Dispatch 0 ⟨10, 5⟩ none [] ⟨exDispatcher, []⟩
        = .ok err ⟨d1, [] ++ t1⟩ ∧
      ((some Error.ErrRemAfterDispatch : Option (Error Nat Nat)) = some .ErrRemAfterDispatch →
        ¬ d1.registered ⟨10, 5⟩ .value 1 ∧
        (∀ (cb : ListenerCallback Nat Nat Nat) (once : List Bool),
          ∃ d2, d1.AddListener ⟨10, 5⟩ .value 1 (some cb) once = .ok (d2, true)) ∧
        (∀ (fuel2 : Nat) (other : EventID Nat Nat) (generator2 : Any) (param2 : List Any)
            (t2 : List (Invocation Nat Nat Nat)),
          (∀ tier2, ∀ x ∈ d1.listeners other tier2, ∀ e, ∃ q, x.callback e = .ret q) →
          ∃ err2 d2 t3, Dispatcher.Dispatch fuel2 other generator2 param2 ⟨d1, t2⟩
              = .ok err2 ⟨d2, t2 ++ t3⟩ ∧
            ∀ i ∈ t3,
              ¬ (i.tier = .value ∧ i.id = 1 ∧ reaches ⟨10, 5⟩ i.event.eventID .value))) ∧
      ((some Error.ErrRemAfterDispatch : Option (Error Nat Nat)) ≠ some .ErrRemAfterDispatch →
        (⟨1, cbRem, false, false⟩ : listener Nat Nat Nat) ∈ d1.listeners ⟨10, 5⟩ .value)) ∧
    (∀ (H : Handler Nat Nat Nat) (d0 : Dispatcher Nat Nat Nat)
        (klc : kindListenerContainer Nat Nat Nat)
        (evt : Event Nat Nat) (ls : listenerContainer Nat Nat Nat)
        (t0 : List (Invocation Nat Nat Nat)) (x : listener Nat Nat Nat),
      klc.HasPlace .value → 0 < d0.dispatching → ls.Canon → 0 ≤ ls.dispatching →
      x ∈ ls.listenerList → x.pendingRem = false → x.once = false →
      x.callback evt = .ret (some .ErrRemAfterDispatch) →
      (∀ y ∈ ls.listenerList, ∃ q, y.callback evt = .ret q) →
      (∃ errs t1, listenerContainer.walk (runProg H) .value evt ls.ids
            (inWalk d0 klc evt.eventID .value ls.enter t0) []
          = .ok errs (inWalk d0 klc evt.eventID .value (ls.walked evt) t1)) ∧
        (ls.walked evt).ids = ls.ids ∧
        (ls.walked evt).value x.id = some { x with pendingRem := true } ∧
        (∃ err t1, listenerContainer.dispatch (runProg H) .value evt
            (inWalk d0 klc evt.eventID .value ls t0)
          = .ok err (inWalk d0 klc evt.eventID .value (ls.walked evt).leave t1)) ∧
        (0 < ls.dispatching → (ls.walked evt).leave.ids = ls.ids) ∧
        (ls.Idle → x.id ∉ (ls.walked evt).leave.ids)) :=
  C8_sentinel_deferred_removal 0 exDispatcher exDispatcher_idle ⟨10, 5⟩ none [] [] .value
    ⟨1, cbRem, false, false⟩
    (by simp [Dispatcher.listeners, Dispatcher.container, exDispatcher, GoMap.get,
      kindListenerContainer.container, kindListenerContainer.valueListener])
    rfl (some .ErrRemAfterDispatch) rfl (fun tier2 => exDispatcher_pure ⟨10, 5⟩ tier2)

theorem invocations_silenced (tier : Tier) (evt : Event K V) (ls : listenerContainer K V L) :
    invocations tier evt ls.silenced.listenerList = invocations tier evt ls.listenerList := by
  simp only [invocations, fired, listenerContainer.silenced, List.filter_map, List.map_map]
  rfl

theorem silenced_canon {ls : listenerContainer K V L} (hc : ls.Canon) : ls.silenced.Canon := by
  have hids : ls.silenced.ids = ls.ids := by
    simp [listenerContainer.ids, listenerContainer.silenced, List.map_map, Function.comp_def]
  exact ⟨by rw [hids]; exact hc.1, by rw [hids]; exact hc.2⟩

theorem genuineErrors_silenced (evt : Event K V) (ls : listenerContainer K V L) :
    genuineErrors evt ls.silenced.listenerList = [] := by
  simp only [genuineErrors, fired, listenerContainer.silenced, List.flatMap_eq_nil_iff]
  intro l hl
  obtain ⟨x, _, hx⟩ := List.mem_map.mp (List.mem_filter.mp hl).1
  rw [← hx]
  rfl

/-- C9: no short-circuit on failure.  For every listener container and whatever its
callbacks return (without calling back), `dispatch` returns and calls the same listeners
in the same order as it does when every callback returns nil, namely all listeners not
flagged for removal, in list order.  The errors it collects are the callback results that
are neither nil nor `ErrRemAfterDispatch`, in the order of the calls: it returns nil when
there is none, and otherwise the `dispatchErrors` holding exactly that list, so an error
returned by one callback neither stops the walk nor hides a later error.  When every
callback returns nil it returns nil. -/
theorem C9_no_short_circuit (H : Handler K V L) (d0 : Dispatcher K V L)
    (klc : kindListenerContainer K V L) (evt : Event K V) (tier : Tier)
    (hp : klc.HasPlace tier) (hd0 : 0 < d0.dispatching) (ls : listenerContainer K V L)
    (hc : ls.Canon) (hn : 0 ≤ ls.dispatching) (t0 : List (Invocation K V L))
    (res : listener K V L → Option (Error K V))
    (hres : ∀ l ∈ ls.listenerList, l.callback evt = .ret (res l)) :
    ∃ ls1 ls2 r,
      listenerContainer.dispatch (runProg H) tier evt (inWalk d0 klc evt.eventID tier ls t0)
        = .ok r
            (inWalk d0 klc evt.eventID tier ls1
              (t0 ++ (ls.listenerList.filter (fun l => !l.pendingRem)).map
                (fun l => ⟨tier, evt, l.id⟩))) ∧
      ((ls.listenerList.filter (fun l => !l.pendingRem)).flatMap
          (fun l => match res l with
            | none => []
            | some .ErrRemAfterDispatch => []
            | some e => [e]) = [] → r = none) ∧
      ((ls.listenerList.filter (fun l => !l.pendingRem)).flatMap
          (fun l => match res l with
            | none => []
            | some .ErrRemAfterDispatch => []
            | some e => [e]) ≠ [] →
        r = some (.dispatchErrors
          ((ls.listenerList.filter (fun l => !l.pendingRem)).flatMap
            (fun l => match res l with
              | none => []
              | some .ErrRemAfterDispatch => []
              | some e => [e])))) ∧
      (∀ l ∈ ls.listenerList, l.pendingRem = false → ∀ e, res l = some e →
        e ≠ .ErrRemAfterDispatch → ∃ errs, r = some (.dispatchErrors errs) ∧ e ∈ errs) ∧
      listenerContainer.dispatch (runProg H) tier evt
          (inWalk d0 klc evt.eventID tier ls.silenced t0)
        = .ok none
            (inWalk d0 klc evt.eventID tier ls2
              (t0 ++ (ls.listenerList.filter (fun l => !l.pendingRem)).map
                (fun l => ⟨tier, evt, l.id⟩))) := by
  have h1 := lcDispatch_spec H d0 evt hp hd0 ls t0 hc hn
    (fun l hl _ => local_of_ret ⟨_, hres l hl⟩)
  have h2 := lcDispatch_spec H d0 evt hp hd0 ls.silenced t0 (silenced_canon hc) hn
    (fun l hl _ => by
      obtain ⟨x, _, hx⟩ := List.mem_map.mp hl
      rw [← hx]
      exact Prog.Local.ret _)
  rw [invocations_silenced, genuineErrors_silenced] at h2
  have hg : genuineErrors evt ls.listenerList
      = (ls.listenerList.filter (fun l => !l.pendingRem)).flatMap
          (fun l => match res l with
            | none => []
            | some .ErrRemAfterDispatch => []
            | some e => [e]) := by
    unfold genuineErrors fired
    apply flatMap_congr_mem
    intro l hl
    rw [hres l (List.mem_filter.mp hl).1]
    show genuine (res l) = _
    cases hr : res l with
    | none => rfl
    | some e => cases e <;> rfl
  rw [hg] at h1
  refine ⟨_, _, _, h1, fun h => ?_, fun h => dispatchResult_of_ne_nil h, ?_, h2⟩
  · rw [h]
    rfl
  · intro l hl hpend e he hne
    have hmem : e ∈ (ls.listenerList.filter (fun l => !l.pendingRem)).flatMap
        (fun l => match res l with
          | none => []
          | some .ErrRemAfterDispatch => []
          | some e => [e]) := by
      refine List.mem_flatMap.mpr ⟨l, List.mem_filter.mpr ⟨hl, by simp [hpend]⟩, ?_⟩
      rw [he]
      cases e <;> simp at hne ⊢
    exact ⟨_, dispatchResult_of_ne_nil (List.ne_nil_of_mem hmem), hmem⟩

/-- Witness of C9: the example container, mid-way in a dispatcher of depth 1.  All four
listeners are called, and the errors 7 and 8 of listeners 2 and 4 are both returned, in
that order, the sentinel of listener 3 between them being left out. -/
theorem C9_no_short_circuit_witness :
    ∃ ls1 ls2,
      listenerContainer.dispatch (runProg (Dispatcher.Dispatch 0)) .kind
          (mkEvent ⟨10, 5⟩ none [])
          (inWalk ⟨[], 1⟩ newKindListenerContainer ⟨10, 5⟩ .kind exContainer [])
        = .ok (some (.dispatchErrors [.other 7, .other 8]))
            (inWalk ⟨[], 1⟩ newKindListenerContainer ⟨10, 5⟩ .kind ls1
              [⟨.kind, mkEvent ⟨10, 5⟩ none [], 1⟩, ⟨.kind, mkEvent ⟨10, 5⟩ none [], 2⟩,
               ⟨.kind, mkEvent ⟨10, 5⟩ none [], 3⟩, ⟨.kind, mkEvent ⟨10, 5⟩ none [], 4⟩]) ∧
      listenerContainer.dispatch (runProg (Dispatcher.Dispatch 0)) .kind
          (mkEvent ⟨10, 5⟩ none [])
          (inWalk ⟨[], 1⟩ newKindListenerContainer ⟨10, 5⟩ .kind exContainer.silenced [])
        = .ok none
            (inWalk ⟨[], 1⟩ newKindListenerContainer ⟨10, 5⟩ .kind ls2
              [⟨.kind, mkEvent ⟨10, 5⟩ none [], 1⟩, ⟨.kind, mkEvent ⟨10, 5⟩ none [], 2⟩,
               ⟨.kind, mkEvent ⟨10, 5⟩ none [], 3⟩, ⟨.kind, mkEvent ⟨10, 5⟩ none [], 4⟩]) := by
  obtain ⟨ls1, ls2, r, hrun, _, herr, _, hsil⟩ :=
    C9_no_short_circuit (Dispatcher.Dispatch 0) ⟨[], 1⟩ newKindListenerContainer
      (mkEvent ⟨10, 5⟩ none []) .kind (fun h => by cases h) (by decide) exContainer
      ⟨rfl, by decide⟩ (by decide) []
      (fun l => (l.callback (mkEvent ⟨10, 5⟩ none [])).result)
      (fun l hl => by
        simp only [exContainer, List.mem_cons, List.mem_singleton, List.not_mem_nil,
          or_false] at hl
        rcases hl with h | h | h | h <;> subst h <;> rfl)
  have he := herr (List.cons_ne_nil (Error.other 7) [Error.other 8])
  rw [he] at hrun
  exact ⟨ls1, ls2, hrun, hsil⟩

theorem mem_listeners_afterDispatch (evt : Event K V) (d : Dispatcher K V L)
    (other : EventID K V) (tier : Tier) (x : listener K V L)
    (hx : x ∈ d.listeners other tier)
    (h : ¬ reaches evt.eventID other tier ∨ x.removed evt = false) :
    x ∈ (d.afterDispatch evt).listeners other tier := by
  rw [listeners_afterDispatch]
  by_cases hr : other.Kind = evt.eventID.Kind ∧ (tier = .value → other.Value = evt.eventID.Value)
  · rw [if_pos hr]
    rcases h with h | h
    · exact absurd hr h
    · exact List.mem_filter.mpr ⟨hx, by rw [h]; rfl⟩
  · rw [if_neg hr]
    exact hx

/-- C10: `Clear` called while the dispatch depth is positive changes nothing, whatever the
state, so a callback that calls `Clear` runs like the rest of its body.  On a dispatcher
with no dispatch in progress whose callbacks call `Clear` (and at most remove their own
listener), `Dispatch` still calls every listener of both tiers, and every listener
registered before it that the dispatch does not remove (not one-shot, no sentinel, no
explicit removal, or in a container the event does not reach) is registered afterwards
and called by the next `Dispatch` that reaches it. -/
theorem C10_clear_during_dispatch (fuel : Nat) (d : Dispatcher K V L) (hi : d.Idle)
    (evtId : EventID K V) (generator : Any) (param : List Any) (t : List (Invocation K V L))
    (hloc : ∀ tier, ∀ x ∈ d.listeners evtId tier, ∀ e,
      Prog.Local evtId tier x.id (x.callback e)) :
    (∀ d0 : Dispatcher K V L, 0 < d0.dispatching → d0.Clear = d0) ∧
    (∀ (H : Handler K V L) (next : Prog K V L) (w : World K V L), 0 < w.d.dispatching →
      runProg H (.Clear next) w = runProg H next w) ∧
    (∃ err d1, Dispatcher.Dispatch fuel evtId generator param ⟨d, t⟩
        = .ok err ⟨d1, t ++ (d.listeners evtId .kind).map
                    (fun x => ⟨.kind, mkEvent evtId generator param, x.id⟩)
                ++ (d.listeners evtId .value).map
                    (fun x => ⟨.value, mkEvent evtId generator param, x.id⟩)⟩ ∧
      ∀ (other : EventID K V) (tier : Tier) (x : listener K V L),
        x ∈ d.listeners other tier →
        (¬ reaches evtId other tier ∨ x.removed (mkEvent evtId generator param) = false) →
        x ∈ d1.listeners other tier ∧
        ∀ (fuel2 : Nat) (generator2 : Any) (param2 : List Any) (t2 : List (Invocation K V L)),
          (∀ tier2, ∀ y ∈ d1.listeners other tier2,
            Prog.Local other tier2 y.id (y.callback (mkEvent other generator2 param2))) →
          ∃ err2 d2 t3, Dispatcher.Dispatch fuel2 other generator2 param2 ⟨d1, t2⟩
              = .ok err2 ⟨d2, t2 ++ t3⟩ ∧
            (⟨tier, mkEvent other generator2 param2, x.id⟩ : Invocation K V L) ∈ t3) := by
  refine ⟨fun d0 h => Clear_of_dispatching h, ?_, ?_⟩
  · intro H next w hw
    simp only [runProg, Clear_of_dispatching hw]
  · have hi1 := afterDispatch_idle (mkEvent evtId generator param) hi
    refine ⟨_, _, Dispatch_idle fuel d hi evtId generator param t
      (fun tier x hx => hloc tier x hx _), ?_⟩
    intro other tier x hx hkeep
    have hmem := mem_listeners_afterDispatch (mkEvent evtId generator param) d other tier x hx
      hkeep
    refine ⟨hmem, ?_⟩
    intro fuel2 generator2 param2 t2 hloc2
    refine ⟨_, _, _, by rw [Dispatch_idle fuel2 _ hi1 other generator2 param2 t2 hloc2,
      List.append_assoc], ?_⟩
    cases tier with
    | kind =>
      exact List.mem_append_left _ (List.mem_map.mpr ⟨x, hmem, rfl⟩)
    | value =>
      exact List.mem_append_right _ (List.mem_map.mpr ⟨x, hmem, rfl⟩)

/-- Witness of C10 on the reentrant example, whose listeners 1 (kind tier) and 6 (value
tier) call `Clear`. -/
theorem C10_clear_during_dispatch_witness :
    (∀ d0 : Dispatcher Nat Nat Nat, 0 < d0.dispatching → d0.Clear = d0) ∧
    (∀ (H : Handler Nat Nat Nat) (next : Prog Nat Nat Nat) (w : World Nat Nat Nat),
      0 < w.d.dispatching → runProg H (.Clear next) w = runProg H next w) ∧
    (∃ err d1, Dispatcher.Dispatch 0 ⟨10, 5⟩ none [] ⟨exReentrant, []⟩
        = .ok err ⟨d1, [] ++ (exReentrant.listeners ⟨10, 5⟩ .kind).map
                    (fun x => ⟨.kind, mkEvent ⟨10, 5⟩ none [], x.id⟩)
                ++ (exReentrant.listeners ⟨10, 5⟩ .value).map
                    (fun x => ⟨.value, mkEvent ⟨10, 5⟩ none [], x.id⟩)⟩ ∧
      ∀ (other : EventID Nat Nat) (tier : Tier) (x : listener Nat Nat Nat),
        x ∈ exReentrant.listeners other tier →
        (¬ reaches ⟨10, 5⟩ other tier ∨ x.removed (mkEvent ⟨10, 5⟩ none []) = false) →
        x ∈ d1.listeners other tier ∧
        ∀ (fuel2 : Nat) (generator2 : Any) (param2 : List Any)
            (t2 : List (Invocation Nat Nat Nat)),
          (∀ tier2, ∀ y ∈ d1.listeners other tier2,
            Prog.Local other tier2 y.id (y.callback (mkEvent other generator2 param2))) →
          ∃ err2 d2 t3, Dispatcher.Dispatch fuel2 other generator2 param2 ⟨d1, t2⟩
              = .ok err2 ⟨d2, t2 ++ t3⟩ ∧
            (⟨tier, mkEvent other generator2 param2, x.id⟩ : Invocation Nat Nat Nat) ∈ t3) :=
  C10_clear_during_dispatch 0 exReentrant exReentrant_idle ⟨10, 5⟩ none [] []
    exReentrant_local

end Claims

/-! ## Clear outside a dispatch -/

section ClearFacts

variable {K V L : Type} [DecidableEq K] [DecidableEq V] [DecidableEq L]

theorem NewDispatcher_idle : (NewDispatcher : Dispatcher K V L).Idle :=
  ⟨rfl, by simp [NewDispatcher]⟩

theorem Clear_of_idle {d : Dispatcher K V L} (h : d.dispatching = 0) :
    d.Clear = NewDispatcher := by
  obtain ⟨m, n⟩ := d
  simp only at h
  subst h
  simp [Dispatcher.Clear, NewDispatcher]

theorem listeners_NewDispatcher (evtId : EventID K V) (tier : Tier) :
    (NewDispatcher : Dispatcher K V L).listeners evtId tier = [] := by
  simp [Dispatcher.listeners, Dispatcher.container, NewDispatcher, GoMap.get]

theorem not_registered_NewDispatcher (evtId : EventID K V) (tier : Tier) (lID : L) :
    ¬ (NewDispatcher : Dispatcher K V L).registered evtId tier lID := by
  simp [Dispatcher.registered, listeners_NewDispatcher]

/-- C11: on a dispatcher with no dispatch in progress (depth counter 0), `Clear` leaves a
dispatcher equal to a freshly constructed one.  Its kind mapping is empty; every `Dispatch`
returns nil, calls no callback and changes nothing; every `RemKindListener` and
`RemValueListener` returns false and changes nothing; every `AddKindListener` and
`AddValueListener` with a non-nil callback returns true and registers the listener as the
only one of its container. -/
theorem C11_clear_outside_dispatch (d : Dispatcher K V L) (hd : d.dispatching = 0) :
    d.Clear = NewDispatcher ∧ d.Clear.kindListenerContainers = [] ∧
    (∀ fuel evtId generator param t,
      Dispatcher.Dispatch fuel evtId generator param ⟨d.Clear, t⟩ = .ok none ⟨d.Clear, t⟩) ∧
    (∀ k lID, d.Clear.RemKindListener k lID = (d.Clear, false)) ∧
    (∀ evtId lID, d.Clear.RemValueListener evtId lID = (d.Clear, false)) ∧
    (∀ (evtId : EventID K V) lID cb once, ∃ d1,
      d.Clear.AddKindListener evtId.Kind lID (some cb) once = .ok (d1, true) ∧
      d1.listeners evtId .kind = [⟨lID, cb, Dispatcher.onceFlag once, false⟩]) ∧
    (∀ (evtId : EventID K V) lID cb once, ∃ d1,
      d.Clear.AddValueListener evtId lID (some cb) once = .ok (d1, true) ∧
      d1.listeners evtId .value = [⟨lID, cb, Dispatcher.onceFlag once, false⟩]) := by
  rw [Clear_of_idle hd]
  refine ⟨rfl, rfl, ?_, ?_, ?_, ?_, ?_⟩
  · intro fuel evtId generator param t
    obtain ⟨H, hH⟩ := Dispatch_eq_DispatchWith (K := K) (V := V) (L := L) fuel
    rw [hH]
    simp [Dispatcher.DispatchWith, NewDispatcher, GoMap.get]
  · intro k lID
    simp [Dispatcher.RemKindListener, NewDispatcher, GoMap.get]
  · intro evtId lID
    simp [Dispatcher.RemValueListener, NewDispatcher, GoMap.get]
  · intro evtId lID cb once
    obtain ⟨d1, h1, _, h2, _⟩ := AddKindListener_new (NewDispatcher : Dispatcher K V L)
      NewDispatcher_idle evtId lID cb once (not_registered_NewDispatcher evtId .kind lID)
    exact ⟨d1, h1, by rw [h2, listeners_NewDispatcher]; rfl⟩
  · intro evtId lID cb once
    obtain ⟨d1, h1, _, h2, _⟩ := AddValueListener_new (NewDispatcher : Dispatcher K V L)
      NewDispatcher_idle evtId lID cb once (not_registered_NewDispatcher evtId .value lID)
    exact ⟨d1, h1, by rw [h2, listeners_NewDispatcher]; rfl⟩

/-- Witness of C11: the example dispatcher, which has no dispatch in progress. -/
theorem C11_clear_outside_dispatch_witness :
    exDispatcher.Clear = NewDispatcher ∧ exDispatcher.Clear.kindListenerContainers = [] ∧
    (∀ fuel evtId generator param t,
      Dispatcher.Dispatch fuel evtId generator param ⟨exDispatcher.Clear, t⟩
        = .ok none ⟨exDispatcher.Clear, t⟩) ∧
    (∀ k lID, exDispatcher.Clear.RemKindListener k lID = (exDispatcher.Clear, false)) ∧
    (∀ evtId lID, exDispatcher.Clear.RemValueListener evtId lID
      = (exDispatcher.Clear, false)) ∧
    (∀ (evtId : EventID Nat Nat) lID cb once, ∃ d1,
      exDispatcher.Clear.AddKindListener evtId.Kind lID (some cb) once = .ok (d1, true) ∧
      d1.listeners evtId .kind = [⟨lID, cb, Dispatcher.onceFlag once, false⟩]) ∧
    (∀ (evtId : EventID Nat Nat) lID cb once, ∃ d1,
      exDispatcher.Clear.AddValueListener evtId lID (some cb) once = .ok (d1, true) ∧
      d1.listeners evtId .value = [⟨lID, cb, Dispatcher.onceFlag once, false⟩]) :=
  C11_clear_outside_dispatch exDispatcher rfl

end ClearFacts

/-! ## Removal outside a dispatch -/

section RemovalFacts

variable {K V L : Type} [DecidableEq K] [DecidableEq V] [DecidableEq L]

theorem value_of_mem_ids {ls : listenerContainer K V L} {lID : L} (h : lID ∈ ls.ids) :
    ∃ l, ls.value lID = some l := by
  cases hv : ls.value lID with
  | some l => exact ⟨l, rfl⟩
  | none =>
    exfalso
    unfold listenerContainer.value at hv
    rw [List.find?_eq_none] at hv
    obtain ⟨x, hx, hxid⟩ := List.mem_map.mp h
    exact hv x hx (by simpa using hxid)

theorem filter_ids (ll : List (listener K V L)) (lID : L) :
    (ll.map (fun x => x.id)).filter (fun y => decide (y ≠ lID))
      = (ll.filter (fun x => decide (x.id ≠ lID))).map (fun x => x.id) := by
  rw [List.filter_map]
  rfl

theorem remListener_present {ls : listenerContainer K V L} (hi : ls.Idle) (lID : L)
    (h : lID ∈ ls.ids) :
    ls.remListener lID
      = (⟨ls.listenerList.filter (fun x => decide (x.id ≠ lID)),
          GoMap.diag ((ls.listenerList.filter (fun x => decide (x.id ≠ lID))).map
            (fun x => x.id)), none, 0⟩, true) := by
  obtain ⟨l, hv⟩ := value_of_mem_ids h
  have hid := value_id hv
  obtain ⟨hn, hq, _, hmap, _⟩ := hi
  have hg : GoMap.get lID ls.listenerMap = some lID := by
    rw [hmap, GoMap.get_diag]; simp [h]
  obtain ⟨ll, lmap, pq, n⟩ := ls
  simp only at hn hq hmap hg
  subst hn hq
  simp only [listenerContainer.remListener, hg, hv, listenerContainer.directRemListener, hid]
  simp only [hmap, listenerContainer.ids, GoMap.delete_diag, filter_ids]
  simp

theorem removed_idle {ls : listenerContainer K V L} (hi : ls.Idle) (lID : L) :
    (⟨ls.listenerList.filter (fun x => decide (x.id ≠ lID)),
      GoMap.diag ((ls.listenerList.filter (fun x => decide (x.id ≠ lID))).map
        (fun x => x.id)), none, 0⟩ : listenerContainer K V L).Idle := by
  obtain ⟨_, _, hf, _, hnd⟩ := hi
  refine ⟨rfl, rfl, ?_, rfl, ?_⟩
  · intro l hl
    exact hf l (List.mem_filter.mp hl).1
  · simp only [listenerContainer.ids] at hnd ⊢
    rw [← filter_ids]
    exact hnd.filter _

theorem remKindListener_present {klc : kindListenerContainer K V L} (hi : klc.Idle) (v : V)
    (lID : L) (h : lID ∈ (klc.tierList .kind v).map (fun x => x.id)) :
    ∃ klc1, klc.remKindListener lID = (klc1, true) ∧ klc1.Idle ∧
      klc1.tierList .kind v
        = (klc.tierList .kind v).filter (fun x => decide (x.id ≠ lID)) ∧
      ∀ u, klc1.tierList .value u = klc.tierList .value u := by
  obtain ⟨kl, vl, n⟩ := klc
  cases kl with
  | none => simp [kindListenerContainer.tierList, kindListenerContainer.container] at h
  | some ls =>
    have hls : ls.Idle := hi.2.1 ls rfl
    have h1 : lID ∈ ls.ids := by
      simpa [kindListenerContainer.tierList, kindListenerContainer.container,
        listenerContainer.ids] using h
    simp only [kindListenerContainer.remKindListener, remListener_present hls lID h1]
    by_cases he : (⟨ls.listenerList.filter (fun x => decide (x.id ≠ lID)),
        GoMap.diag ((ls.listenerList.filter (fun x => decide (x.id ≠ lID))).map
          (fun x => x.id)), none, 0⟩ : listenerContainer K V L).noListener = true
    · rw [if_pos he]
      refine ⟨_, rfl, ⟨hi.1, by simp, hi.2.2⟩, ?_, fun u => rfl⟩
      have := (noListener_iff_nil _).mp he
      simp only at this
      simp only [kindListenerContainer.tierList, kindListenerContainer.container]
      exact this.symm
    · rw [if_neg he]
      refine ⟨_, rfl, ⟨hi.1, ?_, hi.2.2⟩, rfl, fun u => rfl⟩
      intro lc hlc
      simp only [Option.some.injEq] at hlc
      subst hlc
      exact removed_idle hls lID

theorem remValueListener_present {klc : kindListenerContainer K V L} (hi : klc.Idle) (v : V)
    (lID : L) (h : lID ∈ (klc.tierList .value v).map (fun x => x.id)) :
    ∃ klc1, klc.remValueListener v lID = (klc1, true) ∧ klc1.Idle ∧
      klc1.tierList .value v
        = (klc.tierList .value v).filter (fun x => decide (x.id ≠ lID)) ∧
      (∀ u, u ≠ v → klc1.tierList .value u = klc.tierList .value u) ∧
      ∀ u, klc1.tierList .kind u = klc.tierList .kind u := by
  obtain ⟨kl, vl, n⟩ := klc
  cases vl with
  | none =>
    simp [kindListenerContainer.tierList, kindListenerContainer.container,
      kindListenerContainer.valueListener] at h
  | some m =>
    cases hg : GoMap.get v m with
    | none =>
      simp [kindListenerContainer.tierList, kindListenerContainer.container,
        kindListenerContainer.valueListener, hg] at h
    | some ls =>
      have hls : ls.Idle := hi.2.2 m rfl _ (GoMap.mem_of_get hg)
      have h1 : lID ∈ ls.ids := by
        simpa [kindListenerContainer.tierList, kindListenerContainer.container,
          kindListenerContainer.valueListener, hg, listenerContainer.ids] using h
      simp only [kindListenerContainer.remValueListener, kindListenerContainer.valueListener,
        hg, remListener_present hls lID h1, kindListenerContainer.pruneValue]
      by_cases he : (⟨ls.listenerList.filter (fun x => decide (x.id ≠ lID)),
          GoMap.diag ((ls.listenerList.filter (fun x => decide (x.id ≠ lID))).map
            (fun x => x.id)), none, 0⟩ : listenerContainer K V L).noListener = true
      · rw [if_pos he]
        have hnil := (noListener_iff_nil _).mp he
        simp only at hnil
        by_cases hl : GoMap.len (GoMap.delete v m) = 0
        · rw [if_pos hl]
          refine ⟨_, rfl, ⟨hi.1, hi.2.1, by simp⟩, ?_, ?_, fun u => rfl⟩
          · simp only [kindListenerContainer.tierList, kindListenerContainer.container,
              kindListenerContainer.valueListener, hg]
            exact hnil.symm
          · intro u hu
            have hnil2 : GoMap.delete v m = [] := List.length_eq_zero.mp hl
            have : GoMap.get u m = GoMap.get u (GoMap.delete v m) :=
              (GoMap.get_delete_ne m (Ne.symm hu)).symm
            simp [kindListenerContainer.tierList, kindListenerContainer.container,
              kindListenerContainer.valueListener, this, hnil2, GoMap.get]
        · rw [if_neg hl]
          refine ⟨_, rfl, ⟨hi.1, hi.2.1, ?_⟩, ?_, ?_, fun u => rfl⟩
          · intro m1 hm1 p hp
            simp only [Option.some.injEq] at hm1
            subst hm1
            exact hi.2.2 m rfl p (GoMap.mem_delete hp)
          · simp only [kindListenerContainer.tierList, kindListenerContainer.container,
              kindListenerContainer.valueListener, hg, GoMap.get_delete_self]
            exact hnil.symm
          · intro u hu
            simp [kindListenerContainer.tierList, kindListenerContainer.container,
              kindListenerContainer.valueListener, GoMap.get_delete_ne m (Ne.symm hu)]
      · rw [if_neg he]
        have hl : ¬ GoMap.len (GoMap.set v (⟨ls.listenerList.filter
            (fun x => decide (x.id ≠ lID)),
            GoMap.diag ((ls.listenerList.filter (fun x => decide (x.id ≠ lID))).map
              (fun x => x.id)), none, 0⟩ : listenerContainer K V L) m) = 0 :=
          Nat.pos_iff_ne_zero.mp (GoMap.len_set_pos _ _ _)
        rw [if_neg hl]
        refine ⟨_, rfl, ⟨hi.1, hi.2.1, ?_⟩, ?_, ?_, fun u => rfl⟩
        · intro m1 hm1 p hp
          simp only [Option.some.injEq] at hm1
          subst hm1
          rcases GoMap.mem_set hp with hp1 | hp1
          · rw [hp1]; exact removed_idle hls lID
          · exact hi.2.2 m rfl p hp1
        · simp [kindListenerContainer.tierList, kindListenerContainer.container,
            kindListenerContainer.valueListener, hg, GoMap.get_set_self]
        · intro u hu
          simp [kindListenerContainer.tierList, kindListenerContainer.container,
            kindListenerContainer.valueListener, GoMap.get_set_ne _ m (Ne.symm hu)]

theorem listeners_pruneKind_same_kind (d : Dispatcher K V L) (evtId other : EventID K V)
    (klc : kindListenerContainer K V L) (tier : Tier) (h : other.Kind = evtId.Kind) :
    (d.pruneKind evtId.Kind klc).listeners other tier = klc.tierList tier other.Value := by
  rw [← h]
  exact listeners_pruneKind_self d other klc tier

theorem listeners_pruneKind_ne (d : Dispatcher K V L) {k : K} (other : EventID K V)
    (klc : kindListenerContainer K V L) (tier : Tier) (h : k ≠ other.Kind) :
    (d.pruneKind k klc).listeners other tier = d.listeners other tier :=
  listeners_congr (get_pruneKind_ne d klc h) tier

theorem pruneKind_of_get {d : Dispatcher K V L} {k : K} {klc : kindListenerContainer K V L}
    (h : GoMap.get k d.kindListenerContainers = some klc) (hn : klc.noListener = false) :
    d.pruneKind k klc = d := by
  simp [Dispatcher.pruneKind, hn, GoMap.set_get_self h]

theorem length_filter_ne (ll : List (listener K V L)) (lID : L)
    (hnd : (ll.map (fun x => x.id)).Nodup) (h : lID ∈ ll.map (fun x => x.id)) :
    (ll.filter (fun x => decide (x.id ≠ lID))).length + 1 = ll.length := by
  induction ll with
  | nil => simp at h
  | cons a t ih =>
    simp only [List.map_cons, List.nodup_cons] at hnd
    by_cases ha : a.id = lID
    · have hnot : lID ∉ t.map (fun x => x.id) := ha ▸ hnd.1
      have : t.filter (fun x => decide (x.id ≠ lID)) = t := by
        rw [List.filter_eq_self]
        intro x hx
        have : x.id ≠ lID := fun e => hnot (List.mem_map.mpr ⟨x, hx, e⟩)
        simpa using this
      have e : (a :: t).filter (fun x => decide (x.id ≠ lID))
          = t.filter (fun x => decide (x.id ≠ lID)) := by
        simp [List.filter_cons, ha]
      rw [e, this, List.length_cons]
    · have hmem : lID ∈ t.map (fun x => x.id) := by
        simp only [List.map_cons, List.mem_cons] at h
        rcases h with h | h
        · exact absurd h.symm ha
        · exact h
      have := ih hnd.2 hmem
      have e : (a :: t).filter (fun x => decide (x.id ≠ lID))
          = a :: t.filter (fun x => decide (x.id ≠ lID)) := by
        simp [List.filter_cons, ha]
      rw [e, List.length_cons, this, List.length_cons]

theorem RemListener_present (d : Dispatcher K V L) (hi : d.Idle) (evtId : EventID K V)
    (tier : Tier) (lID : L) (h : d.registered evtId tier lID) :
    (d.RemListener evtId tier lID).2 = true ∧ (d.RemListener evtId tier lID).1.Idle ∧
      (d.RemListener evtId tier lID).1.listeners evtId tier
        = (d.listeners evtId tier).filter (fun x => decide (x.id ≠ lID)) ∧
      ∀ other tier2, ¬ (tier2 = tier ∧ reaches evtId other tier) →
        (d.RemListener evtId tier lID).1.listeners other tier2 = d.listeners other tier2 := by
  obtain ⟨klc, hg, _⟩ := addORGet_of_registered h
  have hki := idle_of_get hi hg
  have h1 : lID ∈ (klc.tierList tier evtId.Value).map (fun x => x.id) := by
    rw [← listeners_of_get hg]; exact h
  cases tier with
  | kind =>
    obtain ⟨klc1, hrem, hidle, hk, hv⟩ := remKindListener_present hki evtId.Value lID h1
    have hR : d.RemListener evtId .kind lID = (d.pruneKind evtId.Kind klc1, true) := by
      simp [Dispatcher.RemListener, Dispatcher.RemKindListener, hg, hrem]
    rw [hR]
    refine ⟨rfl, pruneKind_idle hi _ hidle, ?_, ?_⟩
    · simp only
      rw [listeners_pruneKind_self, hk, listeners_of_get hg]
    · intro other tier2 hne
      simp only
      by_cases hk2 : other.Kind = evtId.Kind
      · cases tier2 with
        | kind => exact absurd ⟨rfl, hk2, fun e => nomatch e⟩ hne
        | value =>
          have hg2 : GoMap.get other.Kind d.kindListenerContainers = some klc := by
            rw [hk2]; exact hg
          rw [listeners_pruneKind_same_kind d evtId other klc1 .value hk2, hv,
            listeners_of_get hg2]
      · exact listeners_pruneKind_ne d other klc1 tier2 (fun e => hk2 e.symm)
  | value =>
    obtain ⟨klc1, hrem, hidle, hv, hvo, hk⟩ := remValueListener_present hki evtId.Value lID h1
    have hR : d.RemListener evtId .value lID = (d.pruneKind evtId.Kind klc1, true) := by
      simp [Dispatcher.RemListener, Dispatcher.RemValueListener, hg, hrem]
    rw [hR]
    refine ⟨rfl, pruneKind_idle hi _ hidle, ?_, ?_⟩
    · simp only
      rw [listeners_pruneKind_self, hv, listeners_of_get hg]
    · intro other tier2 hne
      simp only
      by_cases hk2 : other.Kind = evtId.Kind
      · have hg2 : GoMap.get other.Kind d.kindListenerContainers = some klc := by
          rw [hk2]; exact hg
        cases tier2 with
        | kind =>
          rw [listeners_pruneKind_same_kind d evtId other klc1 .kind hk2, hk,
            listeners_of_get hg2]
        | value =>
          have hv2 : other.Value ≠ evtId.Value := fun e => hne ⟨rfl, hk2, fun _ => e⟩
          rw [listeners_pruneKind_same_kind d evtId other klc1 .value hk2, hvo _ hv2,
            listeners_of_get hg2]
      · exact listeners_pruneKind_ne d other klc1 tier2 (fun e => hk2 e.symm)

theorem mem_containers_kind {klc : kindListenerContainer K V L} {ls : listenerContainer K V L}
    (h : klc.kindListeners = some ls) : ls ∈ klc.containers := by
  simp [kindListenerContainer.containers, h]

theorem mem_containers_value {klc : kindListenerContainer K V L}
    {m : GoMap V (listenerContainer K V L)} {v : V} {ls : listenerContainer K V L}
    (hm : klc.valueListeners = some m) (h : GoMap.get v m = some ls) :
    ls ∈ klc.containers := by
  simp only [kindListenerContainer.containers, hm, Option.getD_some, List.mem_append,
    List.mem_map]
  exact Or.inr ⟨(v, ls), GoMap.mem_of_get h, rfl⟩

theorem noListener_false_of_ne_nil {ls : listenerContainer K V L} (h : ls.listenerList ≠ []) :
    ls.noListener = false := by
  cases hn : ls.noListener with
  | false => rfl
  | true => exact absurd ((noListener_iff_nil ls).mp hn) h

theorem RemListener_absent_state (d : Dispatcher K V L) (hi : d.Idle) (hp : d.Pruned)
    (evtId : EventID K V) (tier : Tier) (lID : L) (h : ¬ d.registered evtId tier lID) :
    d.RemListener evtId tier lID = (d, false) := by
  cases hg : GoMap.get evtId.Kind d.kindListenerContainers with
  | none => cases tier <;> simp [Dispatcher.RemListener, Dispatcher.RemKindListener,
      Dispatcher.RemValueListener, hg]
  | some klc =>
    have hki := idle_of_get hi hg
    obtain ⟨hpr, hno⟩ := hp _ (GoMap.mem_of_get hg)
    simp only at hpr hno
    have h1 : lID ∉ (klc.tierList tier evtId.Value).map (fun x => x.id) := by
      rw [← listeners_of_get hg]; exact h
    obtain ⟨kl, vl, n⟩ := klc
    cases tier with
    | kind =>
      cases kl with
      | none =>
        simp [Dispatcher.RemListener, Dispatcher.RemKindListener, hg,
          kindListenerContainer.remKindListener, pruneKind_of_get hg hno]
      | some ls =>
        have hls : ls.Idle := hki.2.1 ls rfl
        have h2 : lID ∉ ls.ids := by
          simpa [kindListenerContainer.tierList, kindListenerContainer.container,
            listenerContainer.ids] using h1
        have hne : ls.noListener = false :=
          noListener_false_of_ne_nil (hpr.1 ls (mem_containers_kind rfl))
        simp [Dispatcher.RemListener, Dispatcher.RemKindListener, hg,
          kindListenerContainer.remKindListener, remListener_absent hls.2.2.2 lID h2, hne,
          pruneKind_of_get hg hno]
    | value =>
      cases vl with
      | none =>
        simp [Dispatcher.RemListener, Dispatcher.RemValueListener, hg,
          kindListenerContainer.remValueListener, pruneKind_of_get hg hno]
      | some m =>
        cases hv : GoMap.get evtId.Value m with
        | none =>
          simp [Dispatcher.RemListener, Dispatcher.RemValueListener, hg,
            kindListenerContainer.remValueListener, kindListenerContainer.valueListener, hv,
            pruneKind_of_get hg hno]
        | some ls =>
          have hls : ls.Idle := hki.2.2 m rfl _ (GoMap.mem_of_get hv)
          have h2 : lID ∉ ls.ids := by
            simpa [kindListenerContainer.tierList, kindListenerContainer.container,
              kindListenerContainer.valueListener, hv, listenerContainer.ids] using h1
          have hne : ls.noListener = false :=
            noListener_false_of_ne_nil (hpr.1 ls (mem_containers_value rfl hv))
          have hlen : ¬ GoMap.len m = 0 := by
            intro e
            have : m = [] := List.length_eq_zero.mp e
            rw [this] at hv
            simp [GoMap.get] at hv
          simp [Dispatcher.RemListener, Dispatcher.RemValueListener, hg,
            kindListenerContainer.remValueListener, kindListenerContainer.valueListener, hv,
            remListener_absent hls.2.2.2 lID h2, kindListenerContainer.pruneValue, hne,
            GoMap.set_get_self hv, hlen, pruneKind_of_get hg hno]

theorem exDispatcher_pruned : exDispatcher.Pruned := by
  intro p hp
  simp only [exDispatcher, List.mem_cons, List.mem_singleton, List.not_mem_nil, or_false] at hp
  rcases hp with rfl | rfl <;>
    simp [kindListenerContainer.Pruned, kindListenerContainer.containers,
      kindListenerContainer.noListener, listenerContainer.noListener, GoMap.len]

/-- C13: on a dispatcher with no dispatch in progress that holds no empty container, a
removal (`RemKindListener` for the kind tier, `RemValueListener` for the value tier)
returns true exactly when the ID is registered in the container addressed.  When it
is, the listeners of that container afterwards are the prior ones without the listener of
that ID, in the same order, exactly one listener fewer; the listeners of every other
container are unchanged; and the dispatcher still has no dispatch in progress.  When the ID
is not registered, the removal returns false and the dispatcher is unchanged. -/
theorem C13_removal_outside_dispatch (d : Dispatcher K V L) (hi : d.Idle) (hp : d.Pruned)
    (evtId : EventID K V) (tier : Tier) (lID : L) :
    ((d.RemListener evtId tier lID).2 = true ↔ d.registered evtId tier lID) ∧
    (d.registered evtId tier lID →
      (d.RemListener evtId tier lID).1.listeners evtId tier
          = (d.listeners evtId tier).filter (fun x => decide (x.id ≠ lID)) ∧
      ((d.RemListener evtId tier lID).1.listeners evtId tier).length + 1
          = (d.listeners evtId tier).length ∧
      (∀ other tier2, ¬ (tier2 = tier ∧ reaches evtId other tier) →
        (d.RemListener evtId tier lID).1.listeners other tier2 = d.listeners other tier2) ∧
      (d.RemListener evtId tier lID).1.Idle) ∧
    (¬ d.registered evtId tier lID → d.RemListener evtId tier lID = (d, false)) := by
  refine ⟨⟨?_, fun h => (RemListener_present d hi evtId tier lID h).1⟩, ?_,
    RemListener_absent_state d hi hp evtId tier lID⟩
  · intro h
    by_contra hn
    rw [RemListener_absent d hi evtId tier lID hn] at h
    exact Bool.false_ne_true h
  · intro h
    obtain ⟨_, h2, h3, h4⟩ := RemListener_present d hi evtId tier lID h
    refine ⟨h3, ?_, h4, h2⟩
    rw [h3]
    exact length_filter_ne _ lID (listeners_nodup hi evtId tier) h

/-- Witness of C13: removing the kind-level listener 2 of kind 10 of the example dispatcher. -/
theorem C13_removal_outside_dispatch_witness :
    ((exDispatcher.RemListener ⟨10, 5⟩ .kind 2).2 = true ↔
      exDispatcher.registered ⟨10, 5⟩ .kind 2) ∧
    (exDispatcher.registered ⟨10, 5⟩ .kind 2 →
      (exDispatcher.RemListener ⟨10, 5⟩ .kind 2).1.listeners ⟨10, 5⟩ .kind
          = (exDispatcher.listeners ⟨10, 5⟩ .kind).filter (fun x => decide (x.id ≠ 2)) ∧
      ((exDispatcher.RemListener ⟨10, 5⟩ .kind 2).1.listeners ⟨10, 5⟩ .kind).length + 1
          = (exDispatcher.listeners ⟨10, 5⟩ .kind).length ∧
      (∀ other tier2, ¬ (tier2 = .kind ∧ reaches ⟨10, 5⟩ other .kind) →
        (exDispatcher.RemListener ⟨10, 5⟩ .kind 2).1.listeners other tier2
          = exDispatcher.listeners other tier2) ∧
      (exDispatcher.RemListener ⟨10, 5⟩ .kind 2).1.Idle) ∧
    (¬ exDispatcher.registered ⟨10, 5⟩ .kind 2 →
      exDispatcher.RemListener ⟨10, 5⟩ .kind 2 = (exDispatcher, false)) :=
  C13_removal_outside_dispatch exDispatcher exDispatcher_idle exDispatcher_pruned ⟨10, 5⟩ .kind 2

end RemovalFacts

/-! ## Removal and registration during a dispatch -/

section DeferredFacts

variable {K V L : Type} [DecidableEq K] [DecidableEq V] [DecidableEq L]

theorem eq_of_value {ls : listenerContainer K V L} (hnd : ls.ids.Nodup) {lID : L}
    {l x : listener K V L} (hv : ls.value lID = some l) (hx : x ∈ ls.listenerList)
    (hid : x.id = lID) : x = l := by
  have hl := value_mem hv
  have hlid := value_id hv
  exact List.inj_on_of_nodup_map hnd hx hl (hid.trans hlid.symm)

theorem map_mark_flagged {ls : listenerContainer K V L} (hnd : ls.ids.Nodup) {lID : L}
    {l : listener K V L} (hv : ls.value lID = some l) (hp : l.pendingRem = true) :
    ls.listenerList.map (fun x => if x.id = lID then { x with pendingRem := true } else x)
      = ls.listenerList := by
  conv_rhs => rw [← List.map_id ls.listenerList]
  apply List.map_congr_left
  intro x hx
  by_cases hid : x.id = lID
  · have := eq_of_value hnd hv hx hid
    subst this
    rw [if_pos hid]
    obtain ⟨i, c, o, p⟩ := x
    simp only at hp
    subst hp
    rfl
  · rw [if_neg hid]; rfl

theorem ids_pendingRemListener (ls : listenerContainer K V L) (l : listener K V L) (elem : L) :
    (ls.pendingRemListener l elem).ids = ls.ids := by
  unfold listenerContainer.pendingRemListener listenerContainer.ids
  split
  · rfl
  · simp only [List.map_map]
    apply List.map_congr_left
    intro x _
    simp only [Function.comp]
    split <;> rfl

theorem canon_pendingRemListener {ls : listenerContainer K V L} (hc : ls.Canon)
    (l : listener K V L) (elem : L) : (ls.pendingRemListener l elem).Canon := by
  unfold listenerContainer.Canon
  rw [ids_pendingRemListener, pendingRemListener_listenerMap]
  exact hc

theorem queued_pendingRemListener {ls : listenerContainer K V L} (hq : ls.Queued)
    (hnd : ls.ids.Nodup) {lID : L} {l : listener K V L} (hv : ls.value lID = some l) :
    (ls.pendingRemListener l lID).Queued := by
  by_cases hp : l.pendingRem = true
  · rw [pendingRemListener_of_pending ls lID l hp]; exact hq
  · have hnot : lID ∉ ls.pendingRemList.getD [] := by
      intro hmem
      have := (hq.1 l (value_mem hv)).mpr (by rw [value_id hv]; exact hmem)
      exact hp this
    simp only [listenerContainer.pendingRemListener, hp, Bool.false_eq_true, if_false,
      listenerContainer.Queued, Option.getD_some]
    constructor
    · intro x hx
      obtain ⟨y, hy, rfl⟩ := List.mem_map.mp hx
      by_cases hid : y.id = lID
      · simp [hid]
      · rw [if_neg hid]
        simp only [List.mem_append, List.mem_singleton, hid, or_false]
        exact hq.1 y hy
    · rw [List.nodup_append]
      refine ⟨hq.2, List.nodup_singleton _, ?_⟩
      intro a ha hb
      rw [List.mem_singleton] at hb
      exact hnot (hb ▸ ha)

theorem remListener_dispatching {ls : listenerContainer K V L} (hd : 0 < ls.dispatching)
    (hc : ls.Canon) {lID : L} (hreg : lID ∈ ls.ids) :
    ∃ l, ls.value lID = some l ∧ ls.remListener lID = (ls.pendingRemListener l lID, true) := by
  obtain ⟨l, hv⟩ := value_of_mem_ids hreg
  have hg : GoMap.get lID ls.listenerMap = some lID := by
    rw [hc.1, GoMap.get_diag]; simp [hreg]
  exact ⟨l, hv, by simp [listenerContainer.remListener, hg, hv, hd]⟩

theorem leave_flush {ls : listenerContainer K V L} (hc : ls.Canon) (h1 : ls.dispatching = 1)
    (q : List L) (hq : ls.pendingRemList = some q) :
    ls.leave.listenerList = ls.listenerList.filter (fun x => decide (x.id ∉ q)) ∧
      ls.leave.pendingRemList = none ∧ ls.leave.dispatching = 0 := by
  obtain ⟨ll, lmap, pq, n⟩ := ls
  simp only at h1 hq
  subst h1 hq
  have hm : lmap = GoMap.diag (ll.map (fun x => x.id)) := hc.1
  subst hm
  simp [listenerContainer.leave, flush_spec]

theorem exWalking_canon : exWalking.Canon := by
  unfold listenerContainer.Canon
  decide

theorem exWalking_queued : exWalking.Queued := by
  unfold listenerContainer.Queued
  decide

/-- C16: in a container whose depth is positive (index and list in agreement, flags and
queue in agreement), `remListener` of a registered ID returns true, leaves the index, the
depth and the sequence of listeners unchanged but for the pending-removal flag of that
listener, which is set, and leaves its element queued exactly once.  A second `remListener`
of the same ID returns true and changes nothing.  When the depth is 1, the closing
statements of `dispatch` (depth back to 0, then the flush) leave the container without
the queued IDs, the ID removed among them. -/
theorem C16_deferred_removal (ls : listenerContainer K V L) (hd : 0 < ls.dispatching)
    (hc : ls.Canon) (hq : ls.Queued) (lID : L) (hreg : lID ∈ ls.ids) :
    ∃ ls1, ls.remListener lID = (ls1, true) ∧
      ls1.listenerList
        = ls.listenerList.map (fun x => if x.id = lID then { x with pendingRem := true } else x) ∧
      ls1.ids = ls.ids ∧ ls1.listenerMap = ls.listenerMap ∧
      ls1.dispatching = ls.dispatching ∧
      (∃ l1, ls1.value lID = some l1 ∧ l1.pendingRem = true) ∧
      (ls1.pendingRemList.getD []).count lID = 1 ∧
      ls1.remListener lID = (ls1, true) ∧
      (ls1.dispatching = 1 →
        ls1.leave.ids = ls.ids.filter (fun i => decide (i ∉ ls1.pendingRemList.getD [])) ∧
        lID ∉ ls1.leave.ids) := by
  obtain ⟨l, hv, hrem⟩ := remListener_dispatching hd hc hreg
  have hc1 := canon_pendingRemListener hc l lID
  have hq1 := queued_pendingRemListener hq hc.2 hv
  have hfl : ∃ l1, (ls.pendingRemListener l lID).value lID = some l1 ∧ l1.pendingRem = true :=
    value_pendingRemListener hv
  have hd1 : 0 < (ls.pendingRemListener l lID).dispatching := by
    rw [pendingRemListener_dispatching]; exact hd
  have hreg1 : lID ∈ (ls.pendingRemListener l lID).ids := by
    rw [ids_pendingRemListener]; exact hreg
  have hmemq : lID ∈ (ls.pendingRemListener l lID).pendingRemList.getD [] := by
    obtain ⟨l1, hv1, hp1⟩ := hfl
    have := (hq1.1 l1 (value_mem hv1)).mp hp1
    rwa [value_id hv1] at this
  refine ⟨ls.pendingRemListener l lID, hrem, ?_, ids_pendingRemListener ls l lID,
    pendingRemListener_listenerMap ls lID l, pendingRemListener_dispatching ls lID l, hfl,
    List.count_eq_one_of_mem hq1.2 hmemq, ?_, ?_⟩
  · by_cases hp : l.pendingRem = true
    · rw [pendingRemListener_of_pending ls lID l hp, map_mark_flagged hc.2 hv hp]
    · simp [listenerContainer.pendingRemListener, hp]
  · obtain ⟨l1, hv1, hp1⟩ := hfl
    obtain ⟨l2, hv2, hrem2⟩ := remListener_dispatching hd1 hc1 hreg1
    rw [hrem2]
    rw [hv1] at hv2
    cases hv2
    rw [pendingRemListener_of_pending _ lID l1 hp1]
  · intro h1
    cases hqq : (ls.pendingRemListener l lID).pendingRemList with
    | none => rw [hqq] at hmemq; simp at hmemq
    | some q =>
      rw [hqq] at hmemq
      simp only [Option.getD_some] at hmemq ⊢
      obtain ⟨hl, _, _⟩ := leave_flush hc1 h1 q hqq
      have hids : (ls.pendingRemListener l lID).leave.ids
          = ls.ids.filter (fun i => decide (i ∉ q)) := by
        rw [← ids_pendingRemListener ls l lID]
        simp only [listenerContainer.ids, hl]
        rw [List.filter_map]
        rfl
      refine ⟨hids, ?_⟩
      rw [hids]
      intro hmem
      have := (List.mem_filter.mp hmem).2
      simp [hmemq] at this

/-- Witness of C16: removing listener 2 from the example container at depth 1. -/
theorem C16_deferred_removal_witness :
    ∃ ls1, exWalking.remListener 2 = (ls1, true) ∧
      ls1.listenerList
        = exWalking.listenerList.map
            (fun x => if x.id = 2 then { x with pendingRem := true } else x) ∧
      ls1.ids = exWalking.ids ∧ ls1.listenerMap = exWalking.listenerMap ∧
      ls1.dispatching = exWalking.dispatching ∧
      (∃ l1, ls1.value 2 = some l1 ∧ l1.pendingRem = true) ∧
      (ls1.pendingRemList.getD []).count 2 = 1 ∧
      ls1.remListener 2 = (ls1, true) ∧
      (ls1.dispatching = 1 →
        ls1.leave.ids
            = exWalking.ids.filter (fun i => decide (i ∉ ls1.pendingRemList.getD [])) ∧
        2 ∉ ls1.leave.ids) :=
  C16_deferred_removal exWalking (by decide) exWalking_canon exWalking_queued 2 (by decide)

/-- C17: in a container whose depth is positive, `addListener` panics with
"add listener on dispatching" for every listener, whether or not its ID is already in the
index: it returns neither true nor false, and no container results from the call (the
panic precedes every access to the list and the index). -/
theorem C17_add_during_dispatch (ls : listenerContainer K V L) (l : listener K V L)
    (hd : 0 < ls.dispatching) :
    ls.addListener l = .error "add listener on dispatching" ∧
      ∀ ls1 added, ls.addListener l ≠ .ok (ls1, added) := by
  have h : ls.addListener l = .error "add listener on dispatching" := by
    simp [listenerContainer.addListener, hd]
  exact ⟨h, fun ls1 added e => by rw [h] at e; cases e⟩

/-- Witness of C17: adding listener 2 (present) to the example container at depth 1. -/
theorem C17_add_during_dispatch_witness :
    exWalking.addListener ⟨2, cbNil, false, false⟩ = .error "add listener on dispatching" ∧
      ∀ ls1 added, exWalking.addListener ⟨2, cbNil, false, false⟩ ≠ .ok (ls1, added) :=
  C17_add_during_dispatch exWalking ⟨2, cbNil, false, false⟩ (by decide)

end DeferredFacts

/-! ## The shape of the error of a dispatch -/

section ShapeFacts

variable {K V L : Type} [DecidableEq K] [DecidableEq V] [DecidableEq L]

theorem wrapPhase_dispatchResult (dt : String) (evt : Event K V) (acc errs : List (Error K V)) :
    wrapPhase dt evt acc (dispatchResult errs) = acc ++ tierEntry dt evt.eventID errs := by
  cases errs <;> simp [wrapPhase, dispatchResult, tierEntry]

theorem dispatchErrorOf_eq (evt : Event K V) (ek ev : List (Error K V)) :
    dispatchErrorOf evt ek ev
      = dispatchResult (tierEntry "kind" evt.eventID ek ++ tierEntry "value" evt.eventID ev) := by
  unfold dispatchErrorOf
  rw [wrapPhase_dispatchResult, wrapPhase_dispatchResult, List.nil_append]

theorem lcDispatch_shape
    (run : Prog K V L → World K V L → Outcome K V L (Option (Error K V)))
    (tier : Tier) (evt : Event K V) (w w1 : World K V L) (r : Option (Error K V))
    (h : listenerContainer.dispatch run tier evt w = .ok r w1) :
    ∃ errs, r = dispatchResult errs ∧ Error.ErrRemAfterDispatch ∉ errs := by
  cases r with
  | none => exact ⟨[], by simp [dispatchResult], by simp⟩
  | some e =>
    obtain ⟨errs, he, hne, hns⟩ := lcDispatch_error run tier evt w w1 e h
    refine ⟨errs, ?_, hns⟩
    rw [he]
    cases errs with
    | nil => exact absurd rfl hne
    | cons a t => simp [dispatchResult]

theorem dispatchKind_shape
    (run : Prog K V L → World K V L → Outcome K V L (Option (Error K V)))
    (evt : Event K V) (w w1 : World K V L) (errs : List (Error K V))
    (h : kindListenerContainer.dispatchKind run evt w = .ok errs w1) :
    ∃ ek, errs = tierEntry "kind" evt.eventID ek ∧ Error.ErrRemAfterDispatch ∉ ek := by
  unfold kindListenerContainer.dispatchKind at h
  split at h
  · simp only [Outcome.ok.injEq] at h
    exact ⟨[], by rw [← h.1]; rfl, by simp⟩
  · split at h
    · rename_i err w2 hd
      simp only [Outcome.ok.injEq] at h
      obtain ⟨ek, hek, hns⟩ := lcDispatch_shape run .kind evt _ _ _ hd
      refine ⟨ek, ?_, hns⟩
      rw [← h.1, hek, wrapPhase_dispatchResult, List.nil_append]
    · simp at h
    · simp at h

theorem dispatchValue_shape
    (run : Prog K V L → World K V L → Outcome K V L (Option (Error K V)))
    (evt : Event K V) (w w1 : World K V L) (errs0 errs : List (Error K V))
    (h : kindListenerContainer.dispatchValue run evt errs0 w = .ok errs w1) :
    ∃ ev, errs = errs0 ++ tierEntry "value" evt.eventID ev ∧
      Error.ErrRemAfterDispatch ∉ ev := by
  unfold kindListenerContainer.dispatchValue at h
  split at h
  · simp only [Outcome.ok.injEq] at h
    exact ⟨[], by rw [← h.1]; simp [tierEntry], by simp⟩
  · split at h
    · rename_i err w2 hd
      simp only [Outcome.ok.injEq] at h
      obtain ⟨ev, hev, hns⟩ := lcDispatch_shape run .value evt _ _ _ hd
      refine ⟨ev, ?_, hns⟩
      rw [← h.1, hev, wrapPhase_dispatchResult]
    · simp at h
    · simp at h

theorem kindDispatch_shape
    (run : Prog K V L → World K V L → Outcome K V L (Option (Error K V)))
    (evt : Event K V) (w w1 : World K V L) (r : Option (Error K V))
    (h : kindListenerContainer.dispatch run evt w = .ok r w1) :
    ∃ ek ev, r = dispatchResult
        (tierEntry "kind" evt.eventID ek ++ tierEntry "value" evt.eventID ev) ∧
      Error.ErrRemAfterDispatch ∉ ek ∧ Error.ErrRemAfterDispatch ∉ ev := by
  unfold kindListenerContainer.dispatch at h
  split at h
  · simp at h
  · simp at h
  · rename_i errs1 w2 hk
    obtain ⟨ek, hek, hnk⟩ := dispatchKind_shape run evt _ _ _ hk
    split at h
    · simp at h
    · simp at h
    · rename_i errs2 w3 hv
      obtain ⟨ev, hev, hnv⟩ := dispatchValue_shape run evt _ _ _ _ hv
      simp only [Outcome.ok.injEq] at h
      exact ⟨ek, ev, by rw [← h.1, hev, hek], hnk, hnv⟩

theorem Dispatch_shape (fuel : Nat) (evtId : EventID K V) (generator : Any)
    (param : List Any) (w w1 : World K V L) (r : Option (Error K V))
    (h : Dispatcher.Dispatch fuel evtId generator param w = .ok r w1) :
    ∃ ek ev, r = dispatchResult (tierEntry "kind" evtId ek ++ tierEntry "value" evtId ev) ∧
      Error.ErrRemAfterDispatch ∉ ek ∧ Error.ErrRemAfterDispatch ∉ ev := by
  obtain ⟨H, hH⟩ := Dispatch_eq_DispatchWith (K := K) (V := V) (L := L) fuel
  rw [hH] at h
  unfold Dispatcher.DispatchWith at h
  split at h
  · simp only [Outcome.ok.injEq] at h
    exact ⟨[], [], by rw [← h.1]; simp [tierEntry, dispatchResult], by simp, by simp⟩
  · dsimp only at h
    split at h
    · rename_i err w2 hk
      simp only [Outcome.ok.injEq] at h
      rw [h.1] at hk
      exact kindDispatch_shape _ _ _ _ _ hk
    · simp at h
    · simp at h

theorem length_tierEntry (dt : String) (evtId : EventID K V) (errs : List (Error K V)) :
    (tierEntry dt evtId errs).length ≤ 1 := by
  cases errs <;> simp [tierEntry]

/-- C19: whatever the callbacks do, a non-nil error returned by `Dispatch` for the event ID
`evtId` is a `dispatchErrors` of at most two per-tier entries: first the entry of the kind
tier (tag "kind"), present exactly when the kind tier collected a genuine error, then the
entry of the value tier (tag "value"), present exactly when the value tier collected one;
at least one is present; each entry carries `evtId` and wraps the `dispatchErrors` of the
errors its tier collected, none of which is `ErrRemAfterDispatch`.  On a dispatcher with no
dispatch in progress, with callbacks that only clear or remove their own listener, `Dispatch`
returns, and the errors a tier collects are the genuine errors returned by the callbacks of
its listeners, in registration order. -/
theorem C19_composite_error (fuel : Nat) (evtId : EventID K V) (generator : Any)
    (param : List Any) :
    (∀ (w w1 : World K V L) (err : Error K V),
      Dispatcher.Dispatch fuel evtId generator param w = .ok (some err) w1 →
      ∃ ek ev, err = .dispatchErrors
          (tierEntry "kind" evtId ek ++ tierEntry "value" evtId ev) ∧
        (tierEntry "kind" evtId ek ++ tierEntry "value" evtId ev).length ≤ 2 ∧
        (ek ≠ [] ∨ ev ≠ []) ∧
        Error.ErrRemAfterDispatch ∉ ek ∧ Error.ErrRemAfterDispatch ∉ ev) ∧
    (∀ (d : Dispatcher K V L) (t : List (Invocation K V L)), d.Idle →
      (∀ tier, ∀ l ∈ d.listeners evtId tier,
        Prog.Local evtId tier l.id (l.callback (mkEvent evtId generator param))) →
      ∃ w1, Dispatcher.Dispatch fuel evtId generator param ⟨d, t⟩
        = .ok (dispatchResult
            (tierEntry "kind" evtId
                (genuineErrors (mkEvent evtId generator param) (d.listeners evtId .kind))
              ++ tierEntry "value" evtId
                (genuineErrors (mkEvent evtId generator param) (d.listeners evtId .value))))
            w1) := by
  constructor
  · intro w w1 err h
    obtain ⟨ek, ev, hr, hnk, hnv⟩ := Dispatch_shape fuel evtId generator param w w1 _ h
    refine ⟨ek, ev, ?_, ?_, ?_, hnk, hnv⟩
    · unfold dispatchResult at hr
      split at hr
      · simpa using hr
      · simp at hr
    · have := length_tierEntry "kind" evtId ek
      have := length_tierEntry "value" evtId ev
      simp only [List.length_append]
      omega
    · by_contra hc
      push_neg at hc
      rw [hc.1, hc.2] at hr
      simp [tierEntry, dispatchResult] at hr
  · intro d t hi hloc
    rw [Dispatch_idle fuel d hi evtId generator param t hloc, dispatchErrorOf_eq]
    exact ⟨_, rfl⟩

/-- Witness of C19: a dispatch of (10, 5) on the example with reentrant callbacks. -/
theorem C19_composite_error_witness :
    ∃ w1, Dispatcher.Dispatch 0 ⟨10, 5⟩ none [] ⟨exReentrant, []⟩
      = .ok (dispatchResult
          (tierEntry "kind" ⟨10, 5⟩
              (genuineErrors (mkEvent ⟨10, 5⟩ none []) (exReentrant.listeners ⟨10, 5⟩ .kind))
            ++ tierEntry "value" ⟨10, 5⟩
              (genuineErrors (mkEvent ⟨10, 5⟩ none []) (exReentrant.listeners ⟨10, 5⟩ .value))))
          w1 :=
  (C19_composite_error 0 ⟨10, 5⟩ none []).2 exReentrant [] exReentrant_idle
    (fun tier x hx => exReentrant_local tier x hx _)

end ShapeFacts

/-! ## The walk over a segment of a container -/

section SegmentFacts

variable {K V L : Type} [DecidableEq K] [DecidableEq V] [DecidableEq L]

theorem walk_seg (H : Handler K V L) (d : Dispatcher K V L)
    {klc : kindListenerContainer K V L} (evt : Event K V) {tier : Tier}
    (hp : klc.HasPlace tier) (hd : 0 < d.dispatching) :
    ∀ (rest pre tail : List (listener K V L)) (lmap : GoMap L L) (q : Option (List L))
      (n : Int) (t : List (Invocation K V L)) (errs : List (Error K V)),
      lmap = GoMap.diag ((pre ++ (rest ++ tail)).map (fun x => x.id)) →
      ((pre ++ (rest ++ tail)).map (fun x => x.id)).Nodup →
      0 < n →
      (∀ l ∈ rest, l.pendingRem = false →
        Prog.Local evt.eventID tier l.id (l.callback evt)) →
      listenerContainer.walk (runProg H) tier evt (rest.map (fun x => x.id))
          (inWalk d klc evt.eventID tier ⟨pre ++ (rest ++ tail), lmap, q, n⟩ t) errs
        = .ok (errs ++ genuineErrors evt rest)
            (inWalk d klc evt.eventID tier
              ⟨pre ++ (rest.map (listener.afterWalk evt) ++ tail), lmap,
                enqueue q ((rest.filter (listener.removed evt)).map (fun x => x.id)), n⟩
              (t ++ invocations tier evt rest)) := by
  intro rest
  induction rest with
  | nil =>
    intro pre tail lmap q n t errs _ _ _ _
    simp [listenerContainer.walk, genuineErrors, fired, invocations, enqueue]
  | cons l rest ih =>
    intro pre tail lmap q n t errs hmap hnd hn hloc
    simp only [List.cons_append] at hmap hnd ⊢
    have hv := value_split pre (rest ++ tail) l lmap q n hnd
    have hmem : l.id ∈ (pre ++ l :: (rest ++ tail)).map (fun x => x.id) := by simp
    have hm : GoMap.get l.id lmap = some l.id := by
      rw [hmap, GoMap.get_diag]
      simp
    have hnd1 : (((pre ++ [l.afterWalk evt]) ++ (rest ++ tail)).map (fun x => x.id)).Nodup := by
      have : (l.afterWalk evt).id = l.id := by
        unfold listener.afterWalk
        split <;> rfl
      simpa [this] using hnd
    have hmap1 : lmap = GoMap.diag (((pre ++ [l.afterWalk evt]) ++ (rest ++ tail)).map (fun x => x.id)) := by
      have : (l.afterWalk evt).id = l.id := by
        unfold listener.afterWalk
        split <;> rfl
      rw [hmap]
      simp [this]
    have hloc1 : ∀ x ∈ rest, x.pendingRem = false →
        Prog.Local evt.eventID tier x.id (x.callback evt) :=
      fun x hx => hloc x (List.mem_cons_of_mem _ hx)
    simp only [List.map_cons, listenerContainer.walk]
    rw [container_inWalk d evt.eventID hp]
    simp only [Option.some_bind, hv]
    by_cases hpend : l.pendingRem = true
    · -- flagged before its turn: skipped
      simp only [hpend, Bool.not_true, Bool.false_eq_true, if_false]
      have haw : l.afterWalk evt = l := by simp [listener.afterWalk, listener.removed, hpend]
      have hrm : l.removed evt = false := by simp [listener.removed, hpend]
      have := ih (pre ++ [l]) tail lmap q n t errs (by simpa [haw] using hmap1)
        (by simpa [haw] using hnd1) hn hloc1
      simp only [List.append_assoc, List.singleton_append] at this
      rw [this]
      simp [genuineErrors, fired, invocations, hpend, haw, List.filter_cons, hrm]
    · have hpend : l.pendingRem = false := by simpa using hpend
      simp only [hpend, Bool.not_false, if_true]
      rw [dispatch_inWalk H d evt hp hd _ t l hpend (hloc l (List.mem_cons_self _ _) hpend)
        hv hm hn]
      simp only [genuine_eq]
      -- the container after the callback and the removal check
      have hstep :
          (if (l.once || Error.isRemAfterDispatch (l.callback evt).result) = true then
              (inWalk d klc evt.eventID tier
                (if (l.callback evt).removes = true then
                  (⟨pre ++ l :: (rest ++ tail), lmap, q, n⟩ : listenerContainer K V L).pendingRemListener
                    l l.id
                else ⟨pre ++ l :: (rest ++ tail), lmap, q, n⟩)
                (t ++ [⟨tier, evt, l.id⟩])).pendingRemListener evt.eventID tier l.id
            else
              inWalk d klc evt.eventID tier
                (if (l.callback evt).removes = true then
                  (⟨pre ++ l :: (rest ++ tail), lmap, q, n⟩ : listenerContainer K V L).pendingRemListener
                    l l.id
                else ⟨pre ++ l :: (rest ++ tail), lmap, q, n⟩)
                (t ++ [⟨tier, evt, l.id⟩]))
            = inWalk d klc evt.eventID tier
                ⟨(pre ++ [l.afterWalk evt]) ++ (rest ++ tail), lmap,
                  enqueue q (if l.removed evt then [l.id] else []), n⟩
                (t ++ [⟨tier, evt, l.id⟩]) := by
        have hsplit := pendingRemListener_split pre (rest ++ tail) l lmap q n hnd hpend
        by_cases hr : (l.callback evt).removes = true
        · have hrm : l.removed evt = true := by simp [listener.removed, hpend, hr]
          simp only [hr, if_true, hsplit]
          have hnd2 : ((pre ++ { l with pendingRem := true } :: (rest ++ tail)).map
              (fun x => x.id)).Nodup := by simpa using hnd
          have hv2 := value_split pre (rest ++ tail) { l with pendingRem := true } lmap
            (some (q.getD [] ++ [l.id])) n hnd2
          have hv2' : (⟨pre ++ { l with pendingRem := true } :: (rest ++ tail), lmap,
              some (q.getD [] ++ [l.id]), n⟩ : listenerContainer K V L).value l.id
              = some { l with pendingRem := true } := hv2
          rw [pendingRemListener_inWalk d evt.eventID hp _ _ hv2',
            pendingRemListener_of_pending _ _ _ rfl]
          simp [listener.afterWalk, hrm, enqueue]
        · have hr : (l.callback evt).removes = false := by simpa using hr
          simp only [hr, Bool.false_eq_true, if_false]
          by_cases ho : (l.once || Error.isRemAfterDispatch (l.callback evt).result) = true
          · have hrm : l.removed evt = true := by
              simp only [listener.removed, hpend, hr, Bool.not_false, Bool.true_and,
                Bool.false_or]
              exact ho
            simp only [ho, if_true]
            rw [pendingRemListener_inWalk d evt.eventID hp _ _ hv, hsplit]
            simp [listener.afterWalk, hrm, enqueue]
          · have ho' : (l.once || Error.isRemAfterDispatch (l.callback evt).result) = false := by
              simpa using ho
            have hrm : l.removed evt = false := by
              simp only [listener.removed, hpend, hr, Bool.not_false, Bool.true_and,
                Bool.false_or]
              exact ho'
            simp only [ho, if_false]
            simp [listener.afterWalk, hrm, enqueue]
      rw [hstep]
      rw [ih (pre ++ [l.afterWalk evt]) tail lmap _ n _ _ hmap1 hnd1 hn hloc1]
      rw [enqueue_enqueue]
      have hfil : (if l.removed evt = true then [l.id] else [])
          ++ (rest.filter (listener.removed evt)).map (fun x => x.id)
          = ((l :: rest).filter (listener.removed evt)).map (fun x => x.id) := by
        by_cases hrm : l.removed evt = true <;> simp [List.filter_cons, hrm]
      rw [hfil]
      simp [genuineErrors, fired, invocations, hpend, List.filter_cons]

end SegmentFacts

/-! ## Properties preserved by every dispatch, whatever the callbacks do -/

section InvariantFacts

variable {K V L : Type} [DecidableEq K] [DecidableEq V] [DecidableEq L]

theorem walk_inv (run : Prog K V L → World K V L → Outcome K V L (Option (Error K V)))
    (tier : Tier) (evt : Event K V) (I : World K V L → Prop)
    (hrun : ∀ p w r w1, run p w = .ok r w1 → I w → I w1)
    (hlog : ∀ w l elem, I w →
      (w.d.container evt.eventID tier).bind (fun ls => ls.value elem) = some l →
      l.pendingRem = false → I (w.logCall tier evt l.id))
    (hmark : ∀ w elem, I w → I (w.pendingRemListener evt.eventID tier elem)) :
    ∀ (ids : List L) (w : World K V L) (errs errs1 : List (Error K V)) (w1 : World K V L),
      listenerContainer.walk run tier evt ids w errs = .ok errs1 w1 → I w → I w1 := by
  intro ids
  induction ids with
  | nil =>
    intro w errs errs1 w1 h hi
    simp only [listenerContainer.walk, Outcome.ok.injEq] at h
    rw [← h.2]; exact hi
  | cons elem rest ih =>
    intro w errs errs1 w1 h hi
    unfold listenerContainer.walk at h
    split at h
    · exact ih _ _ _ _ h hi
    · rename_i l hl
      split at h
      · rename_i hpend
        have hp : l.pendingRem = false := by simpa using hpend
        split at h
        · rename_i err w2 hd
          unfold listener.dispatch at hd
          simp only [hp, Bool.false_eq_true, if_false] at hd
          have h2 : I w2 := hrun _ _ _ _ hd (hlog w l elem hi hl hp)
          refine ih _ _ _ _ h ?_
          split
          · exact hmark _ _ h2
          · exact h2
        · simp at h
        · simp at h
      · exact ih _ _ _ _ h hi

theorem lcDispatch_inv (run : Prog K V L → World K V L → Outcome K V L (Option (Error K V)))
    (tier : Tier) (evt : Event K V) (I J : World K V L → Prop)
    (hrun : ∀ p w r w1, run p w = .ok r w1 → I w → I w1)
    (henter : ∀ w ls, J w → w.d.container evt.eventID tier = some ls →
      I { w with d := w.d.setContainer evt.eventID tier ls.enter })
    (hlog : ∀ w l elem, I w →
      (w.d.container evt.eventID tier).bind (fun ls => ls.value elem) = some l →
      l.pendingRem = false → I (w.logCall tier evt l.id))
    (hmark : ∀ w elem, I w → I (w.pendingRemListener evt.eventID tier elem))
    (hleave : ∀ w, I w → J (w.leaveTier evt.eventID tier))
    (w w1 : World K V L) (r : Option (Error K V)) (ls : listenerContainer K V L)
    (hc : w.d.container evt.eventID tier = some ls)
    (h : listenerContainer.dispatch run tier evt w = .ok r w1) (hj : J w) :
    J { w1 with d := (w1.d.updateKind evt.eventID.Kind
      (fun kls => kls.pruneTier tier evt.eventID.Value)) } := by
  unfold listenerContainer.dispatch at h
  rw [hc] at h
  simp only at h
  split at h
  · rename_i errs w2 hw
    have h2 : I w2 := walk_inv run tier evt I hrun hlog hmark _ _ _ _ _ hw (henter w ls hj hc)
    have h3 := hleave w2 h2
    unfold World.leaveTier at h3
    split at h
    · rename_i hn
      simp only [Outcome.ok.injEq] at h
      obtain ⟨_, rfl⟩ := h
      simpa [hn] using h3
    · rename_i ls1 hs
      simp only [Outcome.ok.injEq] at h
      obtain ⟨_, rfl⟩ := h
      simpa [hs] using h3
  · simp at h
  · simp at h

theorem container_kind_eq (d : Dispatcher K V L) (evtId : EventID K V) :
    d.container evtId .kind
      = (GoMap.get evtId.Kind d.kindListenerContainers).bind (fun kls => kls.kindListeners) := by
  unfold Dispatcher.container
  cases GoMap.get evtId.Kind d.kindListenerContainers <;> rfl

theorem container_value_eq (d : Dispatcher K V L) (evtId : EventID K V) :
    d.container evtId .value
      = (GoMap.get evtId.Kind d.kindListenerContainers).bind
          (fun kls => kls.valueListener evtId.Value) := by
  unfold Dispatcher.container
  cases GoMap.get evtId.Kind d.kindListenerContainers <;> rfl

theorem phase_inv (run : Prog K V L → World K V L → Outcome K V L (Option (Error K V)))
    (evt : Event K V) (Good : (World K V L → Prop) → Prop) (J : World K V L → Prop)
    (hrun : ∀ I, Good I → ∀ p w r w1, run p w = .ok r w1 → I w → I w1)
    (tier : Tier) (hframe : TierFrame Good J evt.eventID tier)
    (w w1 : World K V L) (r : Option (Error K V)) (ls : listenerContainer K V L)
    (hc : w.d.container evt.eventID tier = some ls)
    (h : listenerContainer.dispatch run tier evt w = .ok r w1) (hj : J w) :
    J { w1 with d := (w1.d.updateKind evt.eventID.Kind
      (fun kls => kls.pruneTier tier evt.eventID.Value)) } := by
  obtain ⟨I, hg, henter, hlog, hmark, hleave⟩ := hframe
  exact lcDispatch_inv run tier evt I J (hrun I hg) henter
    (fun w l elem hi hl hp => hlog w l evt elem rfl hi hl hp) hmark hleave w w1 r ls hc h hj

theorem kindDispatch_inv (run : Prog K V L → World K V L → Outcome K V L (Option (Error K V)))
    (evt : Event K V) (Good : (World K V L → Prop) → Prop) (J : World K V L → Prop)
    (hrun : ∀ I, Good I → ∀ p w r w1, run p w = .ok r w1 → I w → I w1)
    (hframe : ∀ tier, TierFrame Good J evt.eventID tier)
    (w w1 : World K V L) (r : Option (Error K V))
    (h : kindListenerContainer.dispatch run evt w = .ok r w1)
    (hj : J { w with d := (w.d.updateKind evt.eventID.Kind
      (fun kls => { kls with dispatching := kls.dispatching + 1 })) }) :
    ∃ w2, J w2 ∧ w1 = { w2 with d := (w2.d.updateKind evt.eventID.Kind (fun kls => kls.leave)) } := by
  unfold kindListenerContainer.dispatch at h
  split at h
  · simp at h
  · simp at h
  · rename_i errs1 wk hk
    have hjk : J wk := by
      unfold kindListenerContainer.dispatchKind at hk
      split at hk
      · simp only [Outcome.ok.injEq] at hk
        obtain ⟨_, rfl⟩ := hk
        exact hj
      · rename_i ls hls
        rw [← container_kind_eq] at hls
        split at hk
        · rename_i err w2 hd
          simp only [Outcome.ok.injEq] at hk
          obtain ⟨_, rfl⟩ := hk
          exact phase_inv run evt Good J hrun .kind (hframe .kind) _ _ _ ls hls hd hj
        · simp at hk
        · simp at hk
    split at h
    · simp at h
    · simp at h
    · rename_i errs2 wv hv
      have hjv : J wv := by
        unfold kindListenerContainer.dispatchValue at hv
        split at hv
        · simp only [Outcome.ok.injEq] at hv
          obtain ⟨_, rfl⟩ := hv
          exact hjk
        · rename_i ls hls
          rw [← container_value_eq] at hls
          split at hv
          · rename_i err w2 hd
            simp only [Outcome.ok.injEq] at hv
            obtain ⟨_, rfl⟩ := hv
            exact phase_inv run evt Good J hrun .value (hframe .value) _ _ _ ls hls hd hjk
          · simp at hv
          · simp at hv
      simp only [Outcome.ok.injEq] at h
      exact ⟨wv, hjv, h.2.symm⟩

theorem DispatchWith_inv (nested : Handler K V L) (Good : (World K V L → Prop) → Prop)
    (hrun : ∀ I, Good I → ∀ p w r w1, runProg nested p w = .ok r w1 → I w → I w1)
    (hframe : ∀ I, Good I → ∀ evtId, Frame Good I evtId)
    (I : World K V L → Prop) (hg : Good I) (evtId : EventID K V) (generator : Any)
    (param : List Any) (w w1 : World K V L) (r : Option (Error K V))
    (h : Dispatcher.DispatchWith nested evtId generator param w = .ok r w1) (hi : I w) :
    I w1 := by
  obtain ⟨J, hopen, hclose, htier⟩ := hframe I hg evtId
  unfold Dispatcher.DispatchWith at h
  split at h
  · simp only [Outcome.ok.injEq] at h
    obtain ⟨_, rfl⟩ := h
    exact hi
  · rename_i klc hget
    dsimp only at h
    split at h
    · rename_i err w2 hk
      obtain ⟨w3, hj3, rfl⟩ := kindDispatch_inv (runProg nested)
        ⟨evtId, firstParam param, generator⟩ Good J hrun htier _ _ _ hk (hopen w klc hi hget)
      simp only [Outcome.ok.injEq] at h
      obtain ⟨_, rfl⟩ := h
      exact hclose w3 hj3
    · simp at h
    · simp at h

theorem runProg_inv (H : Handler K V L) (Good : (World K V L → Prop) → Prop)
    (hH : ∀ I, Good I → ∀ evtId generator param w r w1,
      H evtId generator param w = .ok r w1 → I w → I w1)
    (hapi : ∀ I, Good I → ApiStable I) (I : World K V L → Prop) (hg : Good I) :
    ∀ (p : Prog K V L) (w : World K V L) (r : Option (Error K V)) (w1 : World K V L),
      runProg H p w = .ok r w1 → I w → I w1
  | .ret err, w, r, w1, h, hi => by
    simp only [runProg, Outcome.ok.injEq] at h
    obtain ⟨_, rfl⟩ := h
    exact hi
  | .AddKindListener evtKind lID callback once next, w, r, w1, h, hi => by
    simp only [runProg] at h
    split at h
    · simp at h
    · rename_i d1 added hadd
      exact runProg_inv H Good hH hapi I hg (next added) _ r w1 h
        ((hapi I hg).1 w evtKind lID callback once d1 added hi hadd)
  | .AddValueListener evtId lID callback once next, w, r, w1, h, hi => by
    simp only [runProg] at h
    split at h
    · simp at h
    · rename_i d1 added hadd
      exact runProg_inv H Good hH hapi I hg (next added) _ r w1 h
        ((hapi I hg).2.1 w evtId lID callback once d1 added hi hadd)
  | .RemKindListener evtKind lID next, w, r, w1, h, hi => by
    simp only [runProg] at h
    exact runProg_inv H Good hH hapi I hg _ _ r w1 h ((hapi I hg).2.2.1 w evtKind lID hi)
  | .RemValueListener evtId lID next, w, r, w1, h, hi => by
    simp only [runProg] at h
    exact runProg_inv H Good hH hapi I hg _ _ r w1 h ((hapi I hg).2.2.2.1 w evtId lID hi)
  | .Clear next, w, r, w1, h, hi => by
    simp only [runProg] at h
    exact runProg_inv H Good hH hapi I hg next _ r w1 h ((hapi I hg).2.2.2.2 w hi)
  | .Dispatch evtId generator param next, w, r, w1, h, hi => by
    simp only [runProg] at h
    split at h
    · rename_i err w2 hd
      exact runProg_inv H Good hH hapi I hg (next err) w2 r w1 h
        (hH I hg evtId generator param w err w2 hd hi)
    · simp at h
    · simp at h

/-- A class of properties that the public operations preserve and that every dispatch
frame leads back to is preserved by `Dispatch`, whatever the callbacks do. -/
theorem Dispatch_inv (Good : (World K V L → Prop) → Prop)
    (hapi : ∀ I, Good I → ApiStable I)
    (hframe : ∀ I, Good I → ∀ evtId, Frame Good I evtId) :
    ∀ (fuel : Nat) (I : World K V L → Prop), Good I →
      ∀ (evtId : EventID K V) (generator : Any) (param : List Any) (w : World K V L)
        (r : Option (Error K V)) (w1 : World K V L),
      Dispatcher.Dispatch fuel evtId generator param w = .ok r w1 → I w → I w1 := by
  intro fuel
  induction fuel with
  | zero =>
    intro I hg evtId generator param w r w1 h hi
    refine DispatchWith_inv (fun _ _ _ _ => .timeout) Good ?_ hframe I hg evtId generator param
      w w1 r h hi
    intro I2 hg2
    exact runProg_inv _ Good (fun _ _ _ _ _ _ _ _ h _ => by simp at h) hapi I2 hg2
  | succ fuel ih =>
    intro I hg evtId generator param w r w1 h hi
    refine DispatchWith_inv (Dispatcher.Dispatch fuel) Good ?_ hframe I hg evtId generator
      param w w1 r h hi
    intro I2 hg2
    exact runProg_inv _ Good ih hapi I2 hg2

end InvariantFacts

/-! ## A panic inside a walk -/

section PanicFacts

variable {K V L : Type} [DecidableEq K] [DecidableEq V] [DecidableEq L]

theorem walk_append (run : Prog K V L → World K V L → Outcome K V L (Option (Error K V)))
    (tier : Tier) (evt : Event K V) :
    ∀ (a b : List L) (w : World K V L) (errs : List (Error K V)),
      listenerContainer.walk run tier evt (a ++ b) w errs
        = match listenerContainer.walk run tier evt a w errs with
          | .ok errs1 w1 => listenerContainer.walk run tier evt b w1 errs1
          | .panic msg => .panic msg
          | .timeout => .timeout := by
  intro a
  induction a with
  | nil => intro b w errs; simp [listenerContainer.walk]
  | cons elem rest ih =>
    intro b w errs
    simp only [List.cons_append, listenerContainer.walk]
    cases hb : (w.d.container evt.eventID tier).bind (fun ls => ls.value elem) with
    | none => exact ih b w errs
    | some l =>
      simp only
      by_cases hp : l.pendingRem = true
      · simp only [hp, Bool.not_true, Bool.false_eq_true, if_false]
        exact ih b w errs
      · have hp : l.pendingRem = false := by simpa using hp
        simp only [hp, Bool.not_false, if_true]
        cases hd : l.dispatch run tier evt w with
        | ok err w1 => exact ih b _ _
        | panic msg => rfl
        | timeout => rfl

theorem walk_panic (H : Handler K V L) (d : Dispatcher K V L)
    {klc : kindListenerContainer K V L} (evt : Event K V) {tier : Tier}
    (hp : klc.HasPlace tier) (hd : 0 < d.dispatching)
    (pre rest : List (listener K V L)) (l : listener K V L) (lmap : GoMap L L)
    (q : Option (List L)) (n : Int) (t : List (Invocation K V L)) (errs : List (Error K V))
    (hmap : lmap = GoMap.diag ((pre ++ l :: rest).map (fun x => x.id)))
    (hnd : ((pre ++ l :: rest).map (fun x => x.id)).Nodup) (hn : 0 < n)
    (hloc : ∀ x ∈ pre, x.pendingRem = false →
      Prog.Local evt.eventID tier x.id (x.callback evt))
    (hpend : l.pendingRem = false) (msg : String)
    (hrun : ∀ ls1 t1, runProg H (l.callback evt) (inWalk d klc evt.eventID tier ls1 t1)
      = .panic msg) :
    listenerContainer.walk (runProg H) tier evt ((pre ++ l :: rest).map (fun x => x.id))
        (inWalk d klc evt.eventID tier ⟨pre ++ l :: rest, lmap, q, n⟩ t) errs
      = .panic msg := by
  rw [List.map_append, walk_append]
  have hw := walk_seg H d evt hp hd pre [] (l :: rest) lmap q n t errs
    (by simpa using hmap) (by simpa using hnd) hn hloc
  simp only [List.nil_append] at hw
  rw [hw]
  simp only [List.map_cons, listenerContainer.walk]
  rw [container_inWalk d evt.eventID hp]
  have hnd1 : ((pre.map (listener.afterWalk evt) ++ l :: rest).map (fun x => x.id)).Nodup := by
    rw [List.map_append, map_afterWalk_ids, ← List.map_append]; exact hnd
  simp only [Option.some_bind, value_split _ rest l lmap _ n hnd1, hpend, Bool.not_false,
    if_true, listener.dispatch, Bool.false_eq_true, if_false]
  have := hrun ⟨pre.map (listener.afterWalk evt) ++ l :: rest, lmap,
    enqueue q ((pre.filter (listener.removed evt)).map (fun x => x.id)), n⟩
    (t ++ invocations tier evt pre ++ [⟨tier, evt, l.id⟩])
  simp only [inWalk] at this ⊢
  rw [this]

theorem lcDispatch_panic (H : Handler K V L) (d : Dispatcher K V L)
    {klc : kindListenerContainer K V L} (evt : Event K V) {tier : Tier}
    (hp : klc.HasPlace tier) (hd : 0 < d.dispatching)
    (ls : listenerContainer K V L) (t : List (Invocation K V L)) (hc : ls.Canon)
    (hn : 0 ≤ ls.dispatching)
    (pre rest : List (listener K V L)) (l : listener K V L)
    (hlist : ls.listenerList = pre ++ l :: rest)
    (hloc : ∀ x ∈ pre, x.pendingRem = false →
      Prog.Local evt.eventID tier x.id (x.callback evt))
    (hpend : l.pendingRem = false) (msg : String)
    (hrun : ∀ ls1 t1, runProg H (l.callback evt) (inWalk d klc evt.eventID tier ls1 t1)
      = .panic msg) :
    listenerContainer.dispatch (runProg H) tier evt (inWalk d klc evt.eventID tier ls t)
      = .panic msg := by
  obtain ⟨ll, lmap, pq, n⟩ := ls
  obtain ⟨hmap, hnd⟩ := hc
  simp only [listenerContainer.ids] at hmap hnd
  simp only at hn hlist
  subst hlist
  unfold listenerContainer.dispatch
  rw [container_inWalk d evt.eventID hp]
  simp only
  rw [world_set_inWalk]
  have he : (listenerContainer.enter ⟨pre ++ l :: rest, lmap, pq, n⟩ : listenerContainer K V L)
      = ⟨pre ++ l :: rest, lmap, pq, n + 1⟩ := rfl
  rw [he, walk_panic H d evt hp hd pre rest l lmap pq (n + 1) t [] hmap hnd (by omega) hloc
    hpend msg hrun]

theorem dispatching_setContainer (x : kindListenerContainer K V L) (tier : Tier) (v : V)
    (ls : listenerContainer K V L) : (x.setContainer tier v ls).dispatching = x.dispatching := by
  cases tier with
  | kind => rfl
  | value =>
    unfold kindListenerContainer.setContainer
    cases x.valueListeners <;> rfl

theorem addORGet_inWalk (d : Dispatcher K V L) (klc : kindListenerContainer K V L)
    (evtId : EventID K V) (tier : Tier) (ls : listenerContainer K V L)
    (t : List (Invocation K V L)) :
    (inWalk d klc evtId tier ls t).d.addORGetKindListeners evtId.Kind
      = ((inWalk d klc evtId tier ls t).d, klc.setContainer tier evtId.Value ls) := by
  simp [inWalk, Dispatcher.addORGetKindListeners, get_putKind]

/-- A registration for a value of the kind under dispatch panics, whatever the value. -/
theorem AddValueListener_inWalk (H : Handler K V L) (d : Dispatcher K V L)
    (klc : kindListenerContainer K V L) (evtId : EventID K V) (tier : Tier)
    (hk : 0 < klc.dispatching) (v2 : V) (lID : L) (cb : ListenerCallback K V L)
    (once : List Bool) (next : Bool → Prog K V L) (ls : listenerContainer K V L)
    (t : List (Invocation K V L)) :
    runProg H (.AddValueListener ⟨evtId.Kind, v2⟩ lID (some cb) once next)
        (inWalk d klc evtId tier ls t)
      = .panic "add value listener on dispatching" := by
  have h : (inWalk d klc evtId tier ls t).d.AddValueListener ⟨evtId.Kind, v2⟩ lID (some cb) once
      = .error "add value listener on dispatching" := by
    rw [AddValueListener_eq]
    simp only [addORGet_inWalk]
    simp [kindListenerContainer.addValueListener, dispatching_setContainer, hk]
  simp only [runProg, h]

/-- A registration for the kind under dispatch panics. -/
theorem AddKindListener_inWalk (H : Handler K V L) (d : Dispatcher K V L)
    (klc : kindListenerContainer K V L) (evtId : EventID K V) (tier : Tier)
    (hk : 0 < klc.dispatching) (lID : L) (cb : ListenerCallback K V L)
    (once : List Bool) (next : Bool → Prog K V L) (ls : listenerContainer K V L)
    (t : List (Invocation K V L)) :
    runProg H (.AddKindListener evtId.Kind lID (some cb) once next)
        (inWalk d klc evtId tier ls t)
      = .panic "add kind listener on dispatching" := by
  have h : (inWalk d klc evtId tier ls t).d.AddKindListener evtId.Kind lID (some cb) once
      = .error "add kind listener on dispatching" := by
    rw [AddKindListener_eq]
    simp only [addORGet_inWalk]
    simp [kindListenerContainer.addKindListener, dispatching_setContainer, hk]
  simp only [runProg, h]

theorem dispatchTier_panic (H : Handler K V L) (d : Dispatcher K V L)
    (klc : kindListenerContainer K V L) (evt : Event K V) (hd : 0 < d.dispatching)
    (t : List (Invocation K V L)) (tier : Tier)
    (hi : ∀ ls, klc.container tier evt.eventID.Value = some ls → ls.Idle)
    (pre rest : List (listener K V L)) (l : listener K V L)
    (hlist : klc.tierList tier evt.eventID.Value = pre ++ l :: rest)
    (hloc : ∀ x ∈ pre, Prog.Local evt.eventID tier x.id (x.callback evt))
    (msg : String)
    (hrun : ∀ ls1 t1, runProg H (l.callback evt) (inWalk d klc evt.eventID tier ls1 t1)
      = .panic msg) :
    listenerContainer.dispatch (runProg H) tier evt ⟨d.putKind evt.eventID.Kind klc, t⟩
      = .panic msg := by
  cases hc : klc.container tier evt.eventID.Value with
  | none => simp [kindListenerContainer.tierList, hc] at hlist
  | some ls =>
    have hw : (⟨d.putKind evt.eventID.Kind klc, t⟩ : World K V L)
        = inWalk d klc evt.eventID tier ls t := by
      simp [inWalk, setContainer_of_container hc]
    have hidle := hi ls hc
    have hl : ls.listenerList = pre ++ l :: rest := by
      simpa [kindListenerContainer.tierList, hc] using hlist
    have hpend : l.pendingRem = false := hidle.2.2.1 l (by rw [hl]; simp)
    rw [hw]
    exact lcDispatch_panic H d evt (hasPlace_of_container hc) hd ls t hidle.2.2.2
      (by rw [hidle.1]) pre rest l hl (fun x hx _ => hloc x hx) hpend msg hrun

theorem dispatchKind_of_panic
    (run : Prog K V L → World K V L → Outcome K V L (Option (Error K V)))
    (evt : Event K V) (w : World K V L) (msg : String)
    (h : listenerContainer.dispatch run .kind evt w = .panic msg) :
    kindListenerContainer.dispatchKind run evt w = .panic msg := by
  unfold kindListenerContainer.dispatchKind
  rw [← container_kind_eq]
  cases hc : w.d.container evt.eventID .kind with
  | none => simp [listenerContainer.dispatch, hc] at h
  | some ls => simp only [h]

theorem dispatchValue_of_panic
    (run : Prog K V L → World K V L → Outcome K V L (Option (Error K V)))
    (evt : Event K V) (errs : List (Error K V)) (w : World K V L) (msg : String)
    (h : listenerContainer.dispatch run .value evt w = .panic msg) :
    kindListenerContainer.dispatchValue run evt errs w = .panic msg := by
  unfold kindListenerContainer.dispatchValue
  rw [← container_value_eq]
  cases hc : w.d.container evt.eventID .value with
  | none => simp [listenerContainer.dispatch, hc] at h
  | some ls => simp only [h]

theorem kindDispatch_panic (H : Handler K V L) (d : Dispatcher K V L)
    (klc : kindListenerContainer K V L) (evt : Event K V) (hd : 0 < d.dispatching)
    (t : List (Invocation K V L))
    (hget : GoMap.get evt.eventID.Kind d.kindListenerContainers = some klc)
    (hi : klc.Idle) (tier : Tier) (pre rest : List (listener K V L)) (l : listener K V L)
    (hlist : klc.tierList tier evt.eventID.Value = pre ++ l :: rest)
    (hloc : ∀ x ∈ pre, Prog.Local evt.eventID tier x.id (x.callback evt))
    (hkind : tier = .value → ∀ x ∈ klc.tierList .kind evt.eventID.Value,
      Prog.Local evt.eventID .kind x.id (x.callback evt))
    (msg : String)
    (hrun : ∀ klc1 ls1 t1, 0 < klc1.dispatching →
      runProg H (l.callback evt) (inWalk d klc1 evt.eventID tier ls1 t1) = .panic msg) :
    kindListenerContainer.dispatch (runProg H) evt ⟨d, t⟩ = .panic msg := by
  obtain ⟨hn, hik, hiv⟩ := hi
  unfold kindListenerContainer.dispatch
  simp only [updateKind_of_get hget]
  cases tier with
  | kind =>
    have hp : kindListenerContainer.dispatchKind (runProg H) evt
        ⟨d.putKind evt.eventID.Kind { klc with dispatching := klc.dispatching + 1 }, t⟩
        = .panic msg :=
      dispatchKind_of_panic _ _ _ _
        (dispatchTier_panic H d { klc with dispatching := klc.dispatching + 1 } evt hd t
          .kind (fun ls hls => hik ls hls) pre rest l hlist hloc msg
          (fun ls1 t1 => hrun _ ls1 t1 (by simp only; omega)))
    rw [hp]
  | value =>
    have e1 : kindListenerContainer.tierList
        { klc with dispatching := klc.dispatching + 1 } .kind evt.eventID.Value
        = klc.tierList .kind evt.eventID.Value := rfl
    have h1 := dispatchKind_spec H d { klc with dispatching := klc.dispatching + 1 } evt hd t
      hik (hkind rfl)
    rw [e1] at h1
    rw [h1]
    simp only
    have hp : kindListenerContainer.dispatchValue (runProg H) evt
        (wrapPhase "kind" evt []
          (dispatchResult (genuineErrors evt (klc.tierList .kind evt.eventID.Value))))
        ⟨d.putKind evt.eventID.Kind
            (kindListenerContainer.afterKind evt
              { klc with dispatching := klc.dispatching + 1 }),
          t ++ invocations .kind evt (klc.tierList .kind evt.eventID.Value)⟩
        = .panic msg := by
      apply dispatchValue_of_panic
      apply dispatchTier_panic H d
        (kindListenerContainer.afterKind evt { klc with dispatching := klc.dispatching + 1 })
        evt hd _ .value ?_ pre rest l hlist hloc msg
        (fun ls1 t1 => hrun _ ls1 t1 (by
          simp only [kindListenerContainer.afterKind]; omega))
      intro ls2 hls2
      have hls3 : klc.valueListener evt.eventID.Value = some ls2 := hls2
      cases hm : klc.valueListeners with
      | none => simp [kindListenerContainer.valueListener, hm] at hls3
      | some m =>
        have hget2 : GoMap.get evt.eventID.Value m = some ls2 := by
          simpa [kindListenerContainer.valueListener, hm] using hls3
        exact hiv m hm _ (GoMap.mem_of_get hget2)
    rw [hp]

theorem Dispatch_panic (fuel : Nat) (d : Dispatcher K V L) (hi : d.Idle)
    (evtId : EventID K V) (generator : Any) (param : List Any) (t : List (Invocation K V L))
    (tier : Tier) (pre rest : List (listener K V L)) (l : listener K V L)
    (hlist : d.listeners evtId tier = pre ++ l :: rest)
    (hloc : ∀ x ∈ pre,
      Prog.Local evtId tier x.id (x.callback (mkEvent evtId generator param)))
    (hkind : tier = .value → ∀ x ∈ d.listeners evtId .kind,
      Prog.Local evtId .kind x.id (x.callback (mkEvent evtId generator param)))
    (msg : String)
    (hrun : ∀ (H : Handler K V L) d1 klc1 ls1 t1, 0 < klc1.dispatching →
      runProg H (l.callback (mkEvent evtId generator param))
        (inWalk d1 klc1 evtId tier ls1 t1) = .panic msg) :
    Dispatcher.Dispatch fuel evtId generator param ⟨d, t⟩ = .panic msg := by
  obtain ⟨H, hH⟩ := Dispatch_eq_DispatchWith (K := K) (V := V) (L := L) fuel
  rw [hH]
  cases hg : GoMap.get evtId.Kind d.kindListenerContainers with
  | none => simp [listeners_of_get_none hg] at hlist
  | some klc =>
    have hki := idle_of_get hi hg
    unfold Dispatcher.DispatchWith
    simp only [hg]
    have hk := kindDispatch_panic H { d with dispatching := d.dispatching + 1 } klc
      (mkEvent evtId generator param) (by simp only; rw [hi.1]; omega) t hg hki tier pre rest l
      ((listeners_of_get hg tier).symm.trans hlist) hloc
      (fun ht x hx => hkind ht x ((listeners_of_get hg .kind).symm ▸ hx)) msg
      (fun klc1 ls1 t1 h => hrun H _ klc1 ls1 t1 h)
    simp only [mkEvent] at hk ⊢
    rw [hk]

end PanicFacts

/-! ## Claims on reentrant calls and on error messages -/

section ReentrantClaims

variable {K V L : Type} [DecidableEq K] [DecidableEq V] [DecidableEq L]

theorem exOnce_idle : exOnce.Idle := by decide

/-- C14 (the code departs from the claim): the dispatcher holds one kind-level listener,
registered with `once = true`, whose callback dispatches its own event again while it runs.
`Dispatch` calls the callback for the outer event, and the nested `Dispatch` calls it again:
the pending-removal flag of a one-shot listener is set only after its callback has
returned.  The listener is called twice, and is gone afterwards. -/
theorem C14_once_listener_reentrant :
    exOnce.Idle ∧
    exOnce.listeners ⟨10, 5⟩ .kind = [⟨1, cbRedispatch, true, false⟩] ∧
    (Dispatcher.Dispatch 1 ⟨10, 5⟩ none [] ⟨exOnce, []⟩).observe
      = some (true,
          [⟨.kind, ⟨⟨10, 5⟩, none, none⟩, 1⟩, ⟨.kind, ⟨⟨10, 5⟩, some 1, none⟩, 1⟩], 0) ∧
    ((Dispatcher.Dispatch 1 ⟨10, 5⟩ none [] ⟨exOnce, []⟩).observe.map
      (fun o => (o.2.1.filter (fun i => decide (i.id = 1))).length)) = some 2 :=
  ⟨exOnce_idle, rfl, by decide, by decide⟩

theorem exAdder_idle : exAdder.Idle := by decide

/-- C18, counterexample: listener 1 is registered for (10, 5) and its callback registers
listener 9 for (10, 6), an event ID of the same kind with another value, for which nothing
is registered and no container exists.  `Dispatch((10, 5))` does not return: the
registration panics with "add value listener on dispatching". -/
theorem C18_counterexample :
    exAdder.Idle ∧
    exAdder.listeners ⟨10, 5⟩ .value = [⟨1, cbAddOther, false, false⟩] ∧
    ¬ exAdder.registered ⟨10, 6⟩ .value 9 ∧
    exAdder.container ⟨10, 6⟩ .value = none ∧
    Dispatcher.Dispatch 0 ⟨10, 5⟩ none [] ⟨exAdder, []⟩
      = .panic "add value listener on dispatching" := by
  refine ⟨exAdder_idle, rfl, ?_, rfl, rfl⟩
  simp [Dispatcher.registered, Dispatcher.listeners, Dispatcher.container, exAdder, afterAdd,
    Dispatcher.AddValueListener, newListener, Dispatcher.addORGetKindListeners, NewDispatcher,
    GoMap.get, GoMap.set, kindListenerContainer.addValueListener, newKindListenerContainer,
    listenerContainer.addListener, newListenerContainer, kindListenerContainer.container,
    kindListenerContainer.valueListener]

/-- C18, amended: registration is fatal for the whole kind that is mid-dispatch, not only
for the container being walked.  On a dispatcher with no dispatch in progress, let a
listener reached by `Dispatch(evtId)`, in either tier, have a callback that calls
`AddValueListener` for an event ID of the same kind and any value `v2` (equal to the
dispatched value or not) with a non-nil callback, the listeners called before it not
reentering.  Then the registration panics with "add value listener on dispatching", because
the depth counter of the per-kind container is positive during the whole dispatch, and
`Dispatch` does not return. -/
theorem C18_registration_fatal_for_kind (fuel : Nat) (d : Dispatcher K V L) (hi : d.Idle)
    (evtId : EventID K V) (generator : Any) (param : List Any) (t : List (Invocation K V L))
    (tier : Tier) (pre rest : List (listener K V L)) (l : listener K V L)
    (hlist : d.listeners evtId tier = pre ++ l :: rest)
    (hloc : ∀ x ∈ pre,
      Prog.Local evtId tier x.id (x.callback (mkEvent evtId generator param)))
    (hkind : tier = .value → ∀ x ∈ d.listeners evtId .kind,
      Prog.Local evtId .kind x.id (x.callback (mkEvent evtId generator param)))
    (v2 : V) (lID : L) (cb : ListenerCallback K V L) (once : List Bool)
    (next : Bool → Prog K V L)
    (hcb : l.callback (mkEvent evtId generator param)
      = .AddValueListener ⟨evtId.Kind, v2⟩ lID (some cb) once next) :
    Dispatcher.Dispatch fuel evtId generator param ⟨d, t⟩
      = .panic "add value listener on dispatching" := by
  apply Dispatch_panic fuel d hi evtId generator param t tier pre rest l hlist hloc hkind
  intro H d1 klc1 ls1 t1 hk
  rw [hcb]
  exact AddValueListener_inWalk H d1 klc1 evtId tier hk v2 lID cb once next ls1 t1

/-- Witness of C18, amended: the example dispatcher whose listener 1 of (10, 5) registers
a listener for (10, 6). -/
theorem C18_registration_fatal_for_kind_witness :
    Dispatcher.Dispatch 0 ⟨10, 5⟩ none [] ⟨exAdder, []⟩
      = .panic "add value listener on dispatching" :=
  C18_registration_fatal_for_kind 0 exAdder exAdder_idle ⟨10, 5⟩ none [] [] .value [] []
    ⟨1, cbAddOther, false, false⟩ rfl (by simp) (fun _ x hx => by
      have : exAdder.listeners ⟨10, 5⟩ .kind = [] := rfl
      rw [this] at hx
      simp at hx) 6 9 cbNil [] (fun _ => .ret none) rfl

/-- C20 (the code departs from the claim): the message of a per-tier dispatch error
renders the value of the event in the kind field.  For the tag "kind", the event ID (1, 2)
and a cause whose message is "boom", `Error()` yields the text with `kind:2` where the
claim, and the format string, announce the kind, `kind:1`.  In general the message is the
one the specification states with the kind field rendering the value. -/
theorem C20_message_kind_field :
    Error.Error Nat.repr (fun _ => "boom")
        (.dispatchError "kind" ⟨1, 2⟩ (.other 0) : Error Nat Nat)
      = "dispatch kind event of id=\x7bkind:2, value:2\x7d: boom" ∧
    specDispatchErrorMessage Nat.repr Nat.repr "kind" (⟨1, 2⟩ : EventID Nat Nat) "boom"
      = "dispatch kind event of id=\x7bkind:1, value:2\x7d: boom" ∧
    Error.Error Nat.repr (fun _ => "boom")
        (.dispatchError "kind" ⟨1, 2⟩ (.other 0) : Error Nat Nat)
      ≠ specDispatchErrorMessage Nat.repr Nat.repr "kind" (⟨1, 2⟩ : EventID Nat Nat) "boom" ∧
    ∀ (fmtV : V → String) (msg : Nat → String) (dt : String) (eventID : EventID K V)
      (err : Error K V),
      Error.Error fmtV msg (.dispatchError dt eventID err)
        = specDispatchErrorMessage (fun _ => fmtV eventID.Value) fmtV dt eventID
            (Error.Error fmtV msg err) := by
  refine ⟨by decide, by decide, by decide, ?_⟩
  intro fmtV msg dt eventID err
  simp [Error.Error, specDispatchErrorMessage]

end ReentrantClaims

/-! ## The pruning invariant -/

section PruningFacts

variable {K V L : Type} [DecidableEq K] [DecidableEq V] [DecidableEq L]

theorem pruned_iff (klc : kindListenerContainer K V L) :
    klc.Pruned ↔ (∀ lc, klc.kindListeners = some lc → lc.listenerList ≠ []) ∧
      (∀ m, klc.valueListeners = some m → m ≠ [] ∧ ∀ p ∈ m, p.2.listenerList ≠ []) := by
  unfold kindListenerContainer.Pruned kindListenerContainer.containers
  constructor
  · rintro ⟨h1, h2⟩
    refine ⟨fun lc hlc => h1 lc ?_, fun m hm => ⟨fun e => h2 (by rw [hm, e]), fun p hp => ?_⟩⟩
    · exact List.mem_append.mpr (Or.inl (by simp [hlc]))
    · refine h1 p.2 (List.mem_append.mpr (Or.inr (List.mem_map.mpr ⟨p, ?_, rfl⟩)))
      simpa [hm] using hp
  · rintro ⟨h1, h2⟩
    refine ⟨fun lc hlc => ?_, fun e => (h2 _ e).1 rfl⟩
    rcases List.mem_append.mp hlc with h | h
    · exact h1 lc (by simpa using h)
    · obtain ⟨p, hp, rfl⟩ := List.mem_map.mp h
      cases hv : klc.valueListeners with
      | none => simp [hv] at hp
      | some m => exact (h2 m hv).2 p (by simpa [hv] using hp)

theorem pruned_new : (newKindListenerContainer : kindListenerContainer K V L).Pruned := by
  rw [pruned_iff]; simp [newKindListenerContainer]

theorem noListener_false_of_kind {klc : kindListenerContainer K V L}
    {ls : listenerContainer K V L} (h : klc.kindListeners = some ls)
    (hne : ls.listenerList ≠ []) : klc.noListener = false := by
  simp [kindListenerContainer.noListener, h, noListener_false_of_ne_nil hne]

theorem noListener_false_of_value {klc : kindListenerContainer K V L}
    {m : GoMap V (listenerContainer K V L)} (h : klc.valueListeners = some m)
    (hne : m ≠ []) : klc.noListener = false := by
  have : ¬ GoMap.len m = 0 := fun e => hne (List.length_eq_zero.mp e)
  simp [kindListenerContainer.noListener, h, this]

theorem addListener_ne_nil {ls ls1 : listenerContainer K V L} {l : listener K V L} {b : Bool}
    (h : ls.addListener l = .ok (ls1, b))
    (hne : ls.listenerList ≠ [] ∨ ls.listenerMap = []) : ls1.listenerList ≠ [] := by
  unfold listenerContainer.addListener at h
  split at h
  · simp at h
  · split at h
    · rename_i x hg
      simp only [Except.ok.injEq, Prod.mk.injEq] at h
      obtain ⟨rfl, _⟩ := h
      rcases hne with h1 | h1
      · exact h1
      · rw [h1] at hg; simp [GoMap.get] at hg
    · simp only [Except.ok.injEq, Prod.mk.injEq] at h
      obtain ⟨rfl, _⟩ := h
      simp

theorem addKindListener_pruned {klc klc1 : kindListenerContainer K V L} {l : listener K V L}
    {b : Bool} (hp : klc.Pruned) (h : klc.addKindListener l = .ok (klc1, b)) :
    klc1.Pruned ∧ klc1.noListener = false := by
  rw [pruned_iff] at hp
  unfold kindListenerContainer.addKindListener at h
  split at h
  · simp at h
  · dsimp only at h
    split at h
    · simp at h
    · rename_i lc1 added hadd
      simp only [Except.ok.injEq, Prod.mk.injEq] at h
      obtain ⟨rfl, _⟩ := h
      have hne : lc1.listenerList ≠ [] := by
        refine addListener_ne_nil hadd ?_
        cases hk : klc.kindListeners with
        | none => right; rfl
        | some lc => left; exact hp.1 lc hk
      refine ⟨?_, noListener_false_of_kind rfl hne⟩
      rw [pruned_iff]
      refine ⟨?_, hp.2⟩
      intro lc hlc
      simp only [Option.some.injEq] at hlc
      subst hlc
      exact hne

theorem addValueListener_core_pruned (kl : Option (listenerContainer K V L))
    (m : GoMap V (listenerContainer K V L)) (n : Int) (v : V) (l : listener K V L)
    (lc lc1 : listenerContainer K V L) (added : Bool)
    (hm : ∀ p ∈ m, p.2.listenerList ≠ [])
    (hkl : ∀ x, kl = some x → x.listenerList ≠ [])
    (hlc : (GoMap.get v m).getD newListenerContainer = lc)
    (hadd : lc.addListener l = .ok (lc1, added)) :
    (⟨kl, some (GoMap.set v lc1 m), n⟩ : kindListenerContainer K V L).Pruned ∧
      (⟨kl, some (GoMap.set v lc1 m), n⟩ : kindListenerContainer K V L).noListener = false := by
  have hne : lc1.listenerList ≠ [] := by
    refine addListener_ne_nil hadd ?_
    cases hg : GoMap.get v m with
    | none => right; rw [← hlc, hg]; rfl
    | some x => left; rw [← hlc, hg]; exact hm _ (GoMap.mem_of_get hg)
  refine ⟨?_, noListener_false_of_value rfl (GoMap.set_ne_nil _ _ _)⟩
  rw [pruned_iff]
  refine ⟨hkl, ?_⟩
  intro m1 hm1
  simp only [Option.some.injEq] at hm1
  subst hm1
  refine ⟨GoMap.set_ne_nil _ _ _, ?_⟩
  intro p hp1
  rcases GoMap.mem_set hp1 with h1 | h1
  · rw [h1]; exact hne
  · exact hm p h1

theorem addValueListener_pruned {klc klc1 : kindListenerContainer K V L} {v : V}
    {l : listener K V L} {b : Bool} (hp : klc.Pruned)
    (h : klc.addValueListener v l = .ok (klc1, b)) :
    klc1.Pruned ∧ klc1.noListener = false := by
  rw [pruned_iff] at hp
  obtain ⟨kl, vl, n⟩ := klc
  unfold kindListenerContainer.addValueListener at h
  split at h
  · simp at h
  · cases vl with
    | none =>
      dsimp only at h
      split at h
      · simp at h
      · rename_i lc1 added hadd
        simp only [Except.ok.injEq, Prod.mk.injEq] at h
        obtain ⟨rfl, _⟩ := h
        exact addValueListener_core_pruned kl [] n v l _ lc1 added (by simp) hp.1 rfl hadd
    | some m =>
      dsimp only at h
      split at h
      · simp at h
      · rename_i lc1 added hadd
        simp only [Except.ok.injEq, Prod.mk.injEq] at h
        obtain ⟨rfl, _⟩ := h
        refine addValueListener_core_pruned kl m n v l _ lc1 added (hp.2 m rfl).2 hp.1 ?_ hadd
        cases GoMap.get v m <;> rfl

theorem remKindListener_pruned {klc : kindListenerContainer K V L} (hp : klc.Pruned)
    (lID : L) : (klc.remKindListener lID).1.Pruned := by
  rw [pruned_iff] at hp
  unfold kindListenerContainer.remKindListener
  split
  · rw [pruned_iff]; exact hp
  · rename_i lc hk
    dsimp only
    split
    · rw [pruned_iff]
      exact ⟨by simp, hp.2⟩
    · rename_i hn
      rw [pruned_iff]
      refine ⟨?_, hp.2⟩
      intro x hx
      simp only [Option.some.injEq] at hx
      subst hx
      intro he
      exact hn ((noListener_iff_nil _).mpr he)

theorem pruneValue_pruned {m : GoMap V (listenerContainer K V L)}
    (hm : ∀ p ∈ m, p.2.listenerList ≠ []) (v : V) (lc : listenerContainer K V L) :
    ∀ p ∈ kindListenerContainer.pruneValue m v lc, p.2.listenerList ≠ [] := by
  intro p hp
  unfold kindListenerContainer.pruneValue at hp
  split at hp
  · exact hm p (GoMap.mem_delete hp)
  · rename_i hn
    rcases GoMap.mem_set hp with h1 | h1
    · rw [h1]
      intro he
      exact hn ((noListener_iff_nil _).mpr he)
    · exact hm p h1

theorem remValueListener_pruned {klc : kindListenerContainer K V L} (hp : klc.Pruned)
    (v : V) (lID : L) : (klc.remValueListener v lID).1.Pruned := by
  rw [pruned_iff] at hp
  unfold kindListenerContainer.remValueListener
  split
  · rename_i m lc hm hv
    dsimp only
    split
    · rw [pruned_iff]
      exact ⟨hp.1, by simp⟩
    · rename_i hl
      rw [pruned_iff]
      refine ⟨hp.1, ?_⟩
      intro m1 hm1
      simp only [Option.some.injEq] at hm1
      subst hm1
      refine ⟨fun e => hl (by rw [e]; rfl), pruneValue_pruned (hp.2 m hm).2 v _⟩
  · rw [pruned_iff]; exact hp

theorem pruneKind_pruned {d : Dispatcher K V L} (hd : d.Pruned) (k : K)
    {klc : kindListenerContainer K V L} (hk : klc.Pruned) : (d.pruneKind k klc).Pruned := by
  unfold Dispatcher.pruneKind
  split
  · intro p hp
    exact hd p (GoMap.mem_delete hp)
  · rename_i hn
    intro p hp
    rcases GoMap.mem_set hp with h1 | h1
    · rw [h1]; exact ⟨hk, by simpa using hn⟩
    · exact hd p h1

theorem putKind_pruned {d : Dispatcher K V L} (hd : d.Pruned) (k : K)
    {klc : kindListenerContainer K V L} (hk : klc.Pruned) (hn : klc.noListener = false) :
    (d.putKind k klc).Pruned := by
  intro p hp
  rcases GoMap.mem_set hp with h1 | h1
  · rw [h1]; exact ⟨hk, hn⟩
  · exact hd p h1

theorem addORGet_pruned {d : Dispatcher K V L} (hd : d.Pruned) (k : K) :
    (d.addORGetKindListeners k).2.Pruned := by
  unfold Dispatcher.addORGetKindListeners
  split
  · rename_i klc hg
    exact (hd _ (GoMap.mem_of_get hg)).1
  · exact pruned_new

theorem apiStable_pruned : ApiStable (fun w : World K V L => w.d.Pruned) := by
  refine ⟨?_, ?_, ?_, ?_, ?_⟩
  · intro w k lID cb once d1 b hi h
    cases cb with
    | none => simp [Dispatcher.AddKindListener] at h
    | some c =>
      rw [AddKindListener_eq] at h
      split at h
      · simp at h
      · rename_i klc1 added hadd
        simp only [Except.ok.injEq, Prod.mk.injEq] at h
        obtain ⟨rfl, _⟩ := h
        rw [addORGet_putKind]
        obtain ⟨h1, h2⟩ := addKindListener_pruned (addORGet_pruned hi k) hadd
        exact putKind_pruned hi k h1 h2
  · intro w evtId lID cb once d1 b hi h
    cases cb with
    | none => simp [Dispatcher.AddValueListener] at h
    | some c =>
      rw [AddValueListener_eq] at h
      split at h
      · simp at h
      · rename_i klc1 added hadd
        simp only [Except.ok.injEq, Prod.mk.injEq] at h
        obtain ⟨rfl, _⟩ := h
        rw [addORGet_putKind]
        obtain ⟨h1, h2⟩ := addValueListener_pruned (addORGet_pruned hi evtId.Kind) hadd
        exact putKind_pruned hi evtId.Kind h1 h2
  · intro w k lID hi
    show (w.d.RemKindListener k lID).1.Pruned
    unfold Dispatcher.RemKindListener
    split
    · exact hi
    · rename_i klc hg
      exact pruneKind_pruned hi k (remKindListener_pruned (hi _ (GoMap.mem_of_get hg)).1 lID)
  · intro w evtId lID hi
    show (w.d.RemValueListener evtId lID).1.Pruned
    unfold Dispatcher.RemValueListener
    split
    · exact hi
    · rename_i klc hg
      exact pruneKind_pruned hi evtId.Kind
        (remValueListener_pruned (hi _ (GoMap.mem_of_get hg)).1 evtId.Value lID)
  · intro w hi
    show w.d.Clear.Pruned
    unfold Dispatcher.Clear
    split
    · exact hi
    · intro p hp
      simp at hp

theorem mem_updateKind {d : Dispatcher K V L} {k : K}
    {f : kindListenerContainer K V L → kindListenerContainer K V L}
    {p : K × kindListenerContainer K V L}
    (h : p ∈ (d.updateKind k f).kindListenerContainers) :
    p ∈ d.kindListenerContainers ∨
      ∃ klc, GoMap.get k d.kindListenerContainers = some klc ∧ p = (k, f klc) := by
  unfold Dispatcher.updateKind at h
  split at h
  · exact Or.inl h
  · rename_i klc hg
    rcases GoMap.mem_set h with h1 | h1
    · exact Or.inr ⟨klc, hg, h1⟩
    · exact Or.inl h1

theorem get_updateKind (d : Dispatcher K V L) (k : K)
    (f : kindListenerContainer K V L → kindListenerContainer K V L) :
    GoMap.get k (d.updateKind k f).kindListenerContainers
      = (GoMap.get k d.kindListenerContainers).map f := by
  unfold Dispatcher.updateKind
  cases hg : GoMap.get k d.kindListenerContainers with
  | none => simp [hg]
  | some klc => simp [GoMap.get_set_self]

theorem updateKind_updateKind (d : Dispatcher K V L) (k : K)
    (f g : kindListenerContainer K V L → kindListenerContainer K V L) :
    (d.updateKind k f).updateKind k g = d.updateKind k (fun x => g (f x)) := by
  cases hg : GoMap.get k d.kindListenerContainers with
  | none => simp [Dispatcher.updateKind, hg]
  | some klc =>
    rw [updateKind_of_get hg f, updateKind_putKind, updateKind_of_get hg]

theorem setContainer_pruned {klc : kindListenerContainer K V L} (hp : klc.Pruned) (tier : Tier)
    (v : V) {ls1 : listenerContainer K V L} (hne : ls1.listenerList ≠ []) :
    (klc.setContainer tier v ls1).Pruned := by
  rw [pruned_iff] at hp ⊢
  cases tier with
  | kind =>
    refine ⟨?_, hp.2⟩
    intro lc hlc
    simp only [kindListenerContainer.setContainer, Option.some.injEq] at hlc
    subst hlc
    exact hne
  | value =>
    unfold kindListenerContainer.setContainer
    cases hv : klc.valueListeners with
    | none => simp only [hv]; exact ⟨hp.1, by simp [hv]⟩
    | some m =>
      refine ⟨hp.1, ?_⟩
      intro m1 hm1
      simp only [Option.some.injEq] at hm1
      subst hm1
      refine ⟨GoMap.set_ne_nil _ _ _, ?_⟩
      intro p hp1
      rcases GoMap.mem_set hp1 with h1 | h1
      · rw [h1]; exact hne
      · exact (hp.2 m hv).2 p h1

theorem noListener_setContainer {klc : kindListenerContainer K V L} {tier : Tier} {v : V}
    {ls : listenerContainer K V L} (hc : klc.container tier v = some ls)
    {ls1 : listenerContainer K V L} (hne : ls1.listenerList ≠ []) :
    (klc.setContainer tier v ls1).noListener = false := by
  cases tier with
  | kind => exact noListener_false_of_kind rfl hne
  | value =>
    cases hv : klc.valueListeners with
    | none => simp [kindListenerContainer.container, kindListenerContainer.valueListener, hv] at hc
    | some m =>
      have : (klc.setContainer .value v ls1).valueListeners = some (GoMap.set v ls1 m) := by
        simp [kindListenerContainer.setContainer, hv]
      exact noListener_false_of_value this (GoMap.set_ne_nil _ _ _)

theorem ne_nil_of_container {klc : kindListenerContainer K V L} (hp : klc.Pruned) {tier : Tier}
    {v : V} {ls : listenerContainer K V L} (hc : klc.container tier v = some ls) :
    ls.listenerList ≠ [] := by
  rw [pruned_iff] at hp
  cases tier with
  | kind => exact hp.1 ls hc
  | value =>
    cases hv : klc.valueListeners with
    | none => simp [kindListenerContainer.container, kindListenerContainer.valueListener, hv] at hc
    | some m =>
      have hg : GoMap.get v m = some ls := by
        simpa [kindListenerContainer.container, kindListenerContainer.valueListener, hv] using hc
      exact (hp.2 m hv).2 _ (GoMap.mem_of_get hg)

theorem noListener_of_container {klc : kindListenerContainer K V L} (hp : klc.Pruned)
    {tier : Tier} {v : V} {ls : listenerContainer K V L} (hc : klc.container tier v = some ls) :
    klc.noListener = false := by
  have := noListener_setContainer hc (ne_nil_of_container hp hc)
  rwa [setContainer_of_container hc] at this

theorem pruneTier_pruned {klc : kindListenerContainer K V L} (hp : klc.Pruned) (tier : Tier)
    (v : V) : (klc.pruneTier tier v).Pruned := by
  rw [pruned_iff] at hp ⊢
  cases tier with
  | kind =>
    simp only [kindListenerContainer.pruneTier, kindListenerContainer.pruneKindListeners]
    split
    · exact hp
    · split
      · exact ⟨by simp, hp.2⟩
      · exact hp
  | value =>
    simp only [kindListenerContainer.pruneTier, kindListenerContainer.pruneValueListeners]
    split
    · rename_i m lc hm hv
      split
      · split
        · exact ⟨hp.1, by simp⟩
        · rename_i hl
          refine ⟨hp.1, ?_⟩
          intro m1 hm1
          simp only [Option.some.injEq] at hm1
          subst hm1
          exact ⟨fun e => hl (by rw [e]; rfl), fun p hp1 => (hp.2 m hm).2 p (GoMap.mem_delete hp1)⟩
      · exact hp
    · exact hp

theorem pruneTier_setContainer_pruned {klc : kindListenerContainer K V L} (hp : klc.Pruned)
    (tier : Tier) (v : V) (ls1 : listenerContainer K V L) :
    ((klc.setContainer tier v ls1).pruneTier tier v).Pruned := by
  by_cases hne : ls1.listenerList = []
  · rw [pruned_iff] at hp
    rw [pruned_iff]
    have hno : ls1.noListener = true := (noListener_iff_nil ls1).mpr hne
    cases tier with
    | kind =>
      simp only [kindListenerContainer.pruneTier, kindListenerContainer.pruneKindListeners,
        kindListenerContainer.setContainer, hno, if_true]
      exact ⟨by simp, hp.2⟩
    | value =>
      cases hv : klc.valueListeners with
      | none =>
        simp only [kindListenerContainer.pruneTier, kindListenerContainer.pruneValueListeners,
          kindListenerContainer.setContainer, hv]
        exact ⟨hp.1, by simp [hv]⟩
      | some m =>
        simp only [kindListenerContainer.pruneTier, kindListenerContainer.pruneValueListeners,
          kindListenerContainer.setContainer, hv, kindListenerContainer.valueListener,
          GoMap.get_set_self, hno, if_true, GoMap.delete_set]
        split
        · exact ⟨hp.1, by simp⟩
        · rename_i hl
          refine ⟨hp.1, ?_⟩
          intro m1 hm1
          simp only [Option.some.injEq] at hm1
          subst hm1
          exact ⟨fun e => hl (by rw [e]; rfl),
            fun p hp1 => (hp.2 m hv).2 p (GoMap.mem_delete hp1)⟩
  · exact pruneTier_pruned (setContainer_pruned hp tier v hne) tier v

theorem prunedBut_of_pruned {d : Dispatcher K V L} (h : d.Pruned) (k : K) : d.PrunedBut k := by
  intro p hp
  refine ⟨(h p hp).1, fun hn => ?_⟩
  rw [(h p hp).2] at hn
  exact absurd hn (by simp)

theorem prunedBut_openKind {w : World K V L} (h : w.d.Pruned) (k : K) :
    (w.openKind k).d.PrunedBut k := by
  apply prunedBut_of_pruned
  intro p hp
  rcases mem_updateKind hp with h1 | ⟨klc, hg, rfl⟩
  · exact h p h1
  · obtain ⟨h1, h2⟩ := h _ (GoMap.mem_of_get hg)
    exact ⟨h1, h2⟩

theorem pruned_closeKind {w : World K V L} {k : K} (h : w.d.PrunedBut k) :
    (w.closeKind k).d.Pruned := by
  unfold World.closeKind
  simp only [get_updateKind]
  cases hg : GoMap.get k w.d.kindListenerContainers with
  | none =>
    simp only [Option.map_none']
    intro p hp
    have hp1 : p ∈ w.d.kindListenerContainers := by
      rcases mem_updateKind hp with h1 | ⟨klc, hg2, _⟩
      · exact h1
      · rw [hg] at hg2; cases hg2
    refine ⟨(h p hp1).1, ?_⟩
    cases hn : p.2.noListener with
    | false => rfl
    | true =>
      have := ((h p hp1).2 hn).2
      rw [hg] at this; cases this
  | some klc =>
    simp only [Option.map_some']
    have hleave : klc.leave.noListener = klc.noListener := by
      unfold kindListenerContainer.leave
      split <;> rfl
    have hlp : klc.leave.Pruned := by
      have := (h _ (GoMap.mem_of_get hg)).1
      rw [pruned_iff] at this ⊢
      unfold kindListenerContainer.leave
      split <;> exact this
    by_cases hn : klc.leave.noListener = true
    · simp only [hn, if_true]
      intro p hp
      have hmem := List.mem_filter.mp hp
      have hne : p.1 ≠ k := by simpa using hmem.2
      have hp1 : p ∈ w.d.kindListenerContainers := by
        rcases mem_updateKind hmem.1 with h1 | ⟨_, _, h2⟩
        · exact h1
        · rw [h2] at hne; exact absurd rfl hne
      refine ⟨(h p hp1).1, ?_⟩
      cases hn2 : p.2.noListener with
      | false => rfl
      | true => exact absurd ((h p hp1).2 hn2).1 hne
    · simp only [hn, if_false]
      intro p hp
      rcases mem_updateKind hp with h1 | ⟨klc2, hg2, rfl⟩
      · refine ⟨(h p h1).1, ?_⟩
        cases hn2 : p.2.noListener with
        | false => rfl
        | true =>
          have := ((h p h1).2 hn2).2
          rw [hg] at this
          simp only [Option.some.injEq] at this
          rw [← this, ← hleave] at hn2
          exact absurd hn2 hn
      · rw [hg] at hg2
        simp only [Option.some.injEq] at hg2
        subst hg2
        exact ⟨hlp, by simpa using hn⟩

theorem pruned_setContainer {d : Dispatcher K V L} {evtId : EventID K V}
    (h : d.PrunedBut evtId.Kind) {tier : Tier} {ls : listenerContainer K V L}
    (hc : d.container evtId tier = some ls) {ls1 : listenerContainer K V L}
    (hne : ls1.listenerList ≠ []) : (d.setContainer evtId tier ls1).Pruned := by
  unfold Dispatcher.container at hc
  cases hg : GoMap.get evtId.Kind d.kindListenerContainers with
  | none => simp [hg] at hc
  | some klc =>
    simp only [hg] at hc
    have hkp := (h _ (GoMap.mem_of_get hg)).1
    intro p hp
    rcases mem_updateKind hp with h1 | ⟨klc2, hg2, rfl⟩
    · refine ⟨(h p h1).1, ?_⟩
      cases hn2 : p.2.noListener with
      | false => rfl
      | true =>
        have := ((h p h1).2 hn2).2
        rw [hg] at this
        simp only [Option.some.injEq] at this
        rw [← this, noListener_of_container hkp hc] at hn2
        exact absurd hn2 (by simp)
    · rw [hg] at hg2
      simp only [Option.some.injEq] at hg2
      subst hg2
      exact ⟨setContainer_pruned hkp tier _ hne, noListener_setContainer hc hne⟩

theorem ne_nil_of_dcontainer {d : Dispatcher K V L} {evtId : EventID K V}
    (h : d.PrunedBut evtId.Kind) {tier : Tier} {ls : listenerContainer K V L}
    (hc : d.container evtId tier = some ls) : ls.listenerList ≠ [] := by
  unfold Dispatcher.container at hc
  cases hg : GoMap.get evtId.Kind d.kindListenerContainers with
  | none => simp [hg] at hc
  | some klc =>
    simp only [hg] at hc
    exact ne_nil_of_container (h _ (GoMap.mem_of_get hg)).1 hc

theorem prunedBut_leaveTier {w : World K V L} (h : w.d.Pruned) (evtId : EventID K V)
    (tier : Tier) : (w.leaveTier evtId tier).d.PrunedBut evtId.Kind := by
  unfold World.leaveTier
  simp only
  have key : ∀ (f : kindListenerContainer K V L → kindListenerContainer K V L),
      (∀ klc, klc.Pruned → (f klc).Pruned) →
      (w.d.updateKind evtId.Kind f).PrunedBut evtId.Kind := by
    intro f hf p hp
    rcases mem_updateKind hp with h1 | ⟨klc, hg, rfl⟩
    · refine ⟨(h p h1).1, fun hn => ?_⟩
      rw [(h p h1).2] at hn
      exact absurd hn (by simp)
    · refine ⟨hf klc (h _ (GoMap.mem_of_get hg)).1, fun _ => ⟨rfl, ?_⟩⟩
      rw [get_updateKind, hg]
      rfl
  cases hc : w.d.container evtId tier with
  | none =>
    simp only
    exact key _ (fun klc hk => pruneTier_pruned hk tier evtId.Value)
  | some ls =>
    simp only
    unfold Dispatcher.setContainer
    rw [updateKind_updateKind]
    exact key _ (fun klc hk => pruneTier_setContainer_pruned hk tier evtId.Value ls.leave)

theorem frame_pruned (evtId : EventID K V) :
    Frame (fun I => I = fun w : World K V L => w.d.Pruned) (fun w => w.d.Pruned) evtId := by
  refine ⟨fun w => w.d.PrunedBut evtId.Kind, fun w klc hi _ => prunedBut_openKind hi _,
    fun w hj => pruned_closeKind hj, fun tier => ⟨fun w => w.d.Pruned, rfl, ?_, ?_, ?_, ?_⟩⟩
  · intro w ls hj hc
    have hne : ls.listenerList ≠ [] := ne_nil_of_dcontainer hj hc
    exact pruned_setContainer hj hc hne
  · intro w l evt elem _ hi _ _
    exact hi
  · intro w elem hi
    unfold World.pendingRemListener
    split
    · exact hi
    · rename_i ls hc
      split
      · exact hi
      · rename_i l hv
        refine pruned_setContainer (prunedBut_of_pruned hi _) hc ?_
        intro he
        have h1 := (noListener_iff_nil _).mpr he
        rw [pendingRemListener_noListener, noListener_of_value hv] at h1
        exact absurd h1 (by simp)
  · intro w hi
    exact prunedBut_leaveTier hi evtId tier

/-- Whatever the callbacks do, `Dispatch` preserves the pruning invariant. -/
theorem Dispatch_pruned (fuel : Nat) (evtId : EventID K V) (generator : Any)
    (param : List Any) (w w1 : World K V L) (r : Option (Error K V))
    (h : Dispatcher.Dispatch fuel evtId generator param w = .ok r w1) (hp : w.d.Pruned) :
    w1.d.Pruned :=
  Dispatch_inv (fun I => I = fun w : World K V L => w.d.Pruned)
    (fun I hI => by subst hI; exact apiStable_pruned)
    (fun I hI evtId => by subst hI; exact frame_pruned evtId)
    fuel _ rfl evtId generator param w r w1 h hp

theorem reachable_pruned {d : Dispatcher K V L} (h : d.Reachable) : d.Pruned := by
  induction h with
  | NewDispatcher => intro p hp; simp [NewDispatcher] at hp
  | AddKindListener _ hr ih => exact apiStable_pruned.1 ⟨_, []⟩ _ _ _ _ _ _ ih hr
  | AddValueListener _ hr ih => exact apiStable_pruned.2.1 ⟨_, []⟩ _ _ _ _ _ _ ih hr
  | RemKindListener k lID _ ih => exact apiStable_pruned.2.2.1 ⟨_, []⟩ k lID ih
  | RemValueListener evtId lID _ ih => exact apiStable_pruned.2.2.2.1 ⟨_, []⟩ evtId lID ih
  | Clear _ ih => exact apiStable_pruned.2.2.2.2 ⟨_, []⟩ ih
  | Dispatch _ hr ih => exact Dispatch_pruned _ _ _ _ _ _ _ hr ih

theorem allListeners_ne_nil {klc : kindListenerContainer K V L} (hp : klc.Pruned)
    (hn : klc.noListener = false) : klc.allListeners ≠ [] := by
  rw [pruned_iff] at hp
  obtain ⟨kl, vl, n⟩ := klc
  unfold kindListenerContainer.allListeners kindListenerContainer.containers
  cases kl with
  | some lc =>
    have := hp.1 lc rfl
    intro he
    simp only [Option.toList_some, List.singleton_append, List.flatMap_cons,
      List.append_eq_nil] at he
    exact this he.1
  | none =>
    cases vl with
    | none => simp [kindListenerContainer.noListener] at hn
    | some m =>
      obtain ⟨hne, hall⟩ := hp.2 m rfl
      cases m with
      | nil => exact absurd rfl hne
      | cons p t =>
        intro he
        simp only [Option.toList_none, List.nil_append, Option.getD_some, List.map_cons,
          List.flatMap_cons, List.append_eq_nil] at he
        exact hall p (List.mem_cons_self _ _) he.1

theorem exOnce_reachable : exOnce.Reachable :=
  Dispatcher.Reachable.AddKindListener Dispatcher.Reachable.NewDispatcher
    (show NewDispatcher.AddKindListener 10 1 (some cbRedispatch) [true] = .ok (exOnce, true)
      from rfl)

/-- C12: in every dispatcher state reached from `NewDispatcher` by public operations that
return, whatever the registered callbacks do during a `Dispatch` (nested dispatches,
removals, registrations, `Clear`), no empty container exists at any level: every kind in
the mapping has at least one listener, a kind-level listener container that is present
holds at least one listener, a value mapping that is present has at least one entry, and
every per-value container in it holds at least one listener. -/
theorem C12_pruning_invariant (d : Dispatcher K V L) (h : d.Reachable) :
    ∀ k klc, GoMap.get k d.kindListenerContainers = some klc →
      klc.allListeners ≠ [] ∧
      (∀ lc, klc.kindListeners = some lc → lc.listenerList ≠ []) ∧
      (∀ m, klc.valueListeners = some m →
        m ≠ [] ∧ ∀ v lc, GoMap.get v m = some lc → lc.listenerList ≠ []) := by
  intro k klc hg
  obtain ⟨hp, hn⟩ := reachable_pruned h _ (GoMap.mem_of_get hg)
  refine ⟨allListeners_ne_nil hp hn, ?_⟩
  rw [pruned_iff] at hp
  exact ⟨hp.1, fun m hm => ⟨(hp.2 m hm).1, fun v lc hv => (hp.2 m hm).2 _ (GoMap.mem_of_get hv)⟩⟩

/-- Witness of C12: the dispatcher after one registration. -/
theorem C12_pruning_invariant_witness :
    ∃ klc, GoMap.get 10 exOnce.kindListenerContainers = some klc ∧
      klc.allListeners ≠ [] ∧
      (∀ lc, klc.kindListeners = some lc → lc.listenerList ≠ []) ∧
      (∀ m, klc.valueListeners = some m →
        m ≠ [] ∧ ∀ v lc, GoMap.get v m = some lc → lc.listenerList ≠ []) :=
  ⟨_, rfl, C12_pruning_invariant exOnce exOnce_reachable 10 _ rfl⟩

end PruningFacts

/-! ## A listener flagged for removal is masked until its container leaves the dispatch -/

section MaskFacts

variable {K V L : Type} [DecidableEq K] [DecidableEq V] [DecidableEq L]

theorem lcMasks_pendingRemListener {ls : listenerContainer K V L} {lID : L} {n : Int}
    (h : ls.Masks lID n) (l : listener K V L) (elem : L) :
    (ls.pendingRemListener l elem).Masks lID n := by
  obtain ⟨h1, h2, h3, h4⟩ := h
  refine ⟨by rw [pendingRemListener_dispatching]; exact h1, ?_, ?_,
    by rw [ids_pendingRemListener]; exact h4⟩
  · unfold listenerContainer.pendingRemListener
    split
    · exact h2
    · simp only [Option.getD_some, List.mem_append]
      exact Or.inl h2
  · unfold listenerContainer.pendingRemListener
    split
    · exact h3
    · intro x hx hid
      simp only [List.mem_map] at hx
      obtain ⟨y, hy, rfl⟩ := hx
      by_cases he : y.id = elem
      · simp [he]
      · simp only [he, if_false] at hid ⊢
        exact h3 y hy hid

theorem lcMasks_remListener {ls : listenerContainer K V L} {lID : L} {n : Int}
    (h : ls.Masks lID n) (hn : 1 ≤ n) (x : L) : (ls.remListener x).1.Masks lID n := by
  unfold listenerContainer.remListener
  split
  · exact h
  · split
    · exact h
    · have : ls.dispatching > 0 := by rw [h.1]; omega
      simp only [this, if_true]
      exact lcMasks_pendingRemListener h _ _

theorem lcMasks_enter {ls : listenerContainer K V L} {lID : L} {n : Int}
    (h : ls.Masks lID n) : ls.enter.Masks lID (n + 1) := by
  obtain ⟨h1, h2, h3, h4⟩ := h
  exact ⟨by simp [listenerContainer.enter, h1], h2, h3, h4⟩

theorem lcMasks_leave {ls : listenerContainer K V L} {lID : L} {n : Int}
    (h : ls.Masks lID (n + 1)) (hn : 1 ≤ n) : ls.leave.Masks lID n := by
  obtain ⟨h1, h2, h3, h4⟩ := h
  have e : ls.leave = { ls with dispatching := n } := by
    unfold listenerContainer.leave
    have a1 : ¬ (ls.dispatching - 1 < 0) := by omega
    have a2 : ¬ (ls.dispatching - 1 = 0) := by omega
    simp only [a1, a2, if_false]
    congr 1
    omega
  rw [e]
  exact ⟨rfl, h2, h3, h4⟩

theorem lcMasks_ne_nil {ls : listenerContainer K V L} {lID : L} {n : Int}
    (h : ls.Masks lID n) : ls.listenerList ≠ [] := by
  intro he
  have := h.2.2.2
  simp [listenerContainer.ids, he] at this

theorem lcMasks_addListener {ls : listenerContainer K V L} {lID : L} {n : Int}
    (h : ls.Masks lID n) (hn : 1 ≤ n) (l : listener K V L)
    (ls1 : listenerContainer K V L) (b : Bool) : ls.addListener l ≠ .ok (ls1, b) := by
  have : ls.dispatching > 0 := by rw [h.1]; omega
  simp [listenerContainer.addListener, this]

theorem container_setContainer_other (x : kindListenerContainer K V L) {tier tier2 : Tier}
    {v v2 : V} (hne : ¬ (tier2 = tier ∧ (tier = .value → v2 = v)))
    (a : listenerContainer K V L) :
    (x.setContainer tier2 v2 a).container tier v = x.container tier v := by
  cases tier2 <;> cases tier
  · exact absurd ⟨rfl, fun e => nomatch e⟩ hne
  · rfl
  · unfold kindListenerContainer.setContainer
    cases x.valueListeners <;> rfl
  · have hv : v2 ≠ v := fun e => hne ⟨rfl, fun _ => e⟩
    unfold kindListenerContainer.setContainer
    cases hm : x.valueListeners with
    | none => simp [hm]
    | some m =>
      simp [kindListenerContainer.container, kindListenerContainer.valueListener, hm,
        GoMap.get_set_ne _ m hv]

theorem km_setContainer_same {klc : kindListenerContainer K V L} {tier : Tier} {v : V}
    {lID : L} {n n1 : Int} (h : klc.Masks tier v lID n) {a : listenerContainer K V L}
    (ha : a.Masks lID n1) : (klc.setContainer tier v a).Masks tier v lID n1 := by
  obtain ⟨ls, hc, _⟩ := h
  exact ⟨a, container_setContainer (hasPlace_of_container hc) v a, ha⟩

theorem km_setContainer_other {klc : kindListenerContainer K V L} {tier tier2 : Tier}
    {v v2 : V} {lID : L} {n : Int} (h : klc.Masks tier v lID n)
    (hne : ¬ (tier2 = tier ∧ (tier = .value → v2 = v))) (a : listenerContainer K V L) :
    (klc.setContainer tier2 v2 a).Masks tier v lID n := by
  obtain ⟨ls, hc, hm⟩ := h
  exact ⟨ls, by rw [container_setContainer_other klc hne]; exact hc, hm⟩

theorem km_noListener {klc : kindListenerContainer K V L} {tier : Tier} {v : V}
    {lID : L} {n : Int} (h : klc.Masks tier v lID n) : klc.noListener = false := by
  obtain ⟨ls, hc, hm⟩ := h
  have := noListener_setContainer hc (lcMasks_ne_nil hm)
  rwa [setContainer_of_container hc] at this

theorem km_dispatching {klc : kindListenerContainer K V L} {tier : Tier} {v : V}
    {lID : L} {n : Int} (h : klc.Masks tier v lID n) (x : Int) :
    kindListenerContainer.Masks { klc with dispatching := x } tier v lID n := h

theorem km_leave {klc : kindListenerContainer K V L} {tier : Tier} {v : V}
    {lID : L} {n : Int} (h : klc.Masks tier v lID n) : klc.leave.Masks tier v lID n := by
  unfold kindListenerContainer.leave
  split <;> exact h

theorem km_pruneTier {klc : kindListenerContainer K V L} {tier : Tier} {v : V}
    {lID : L} {n : Int} (h : klc.Masks tier v lID n) (tier2 : Tier) (v2 : V) :
    (klc.pruneTier tier2 v2).Masks tier v lID n := by
  obtain ⟨ls, hc, hm⟩ := h
  have hne := lcMasks_ne_nil hm
  refine ⟨ls, ?_, hm⟩
  cases tier2 with
  | kind =>
    simp only [kindListenerContainer.pruneTier, kindListenerContainer.pruneKindListeners]
    split
    · exact hc
    · rename_i lc hk
      split
      · rename_i hno
        cases tier with
        | kind =>
          have : lc = ls := by
            simpa [kindListenerContainer.container, hk] using hc
          rw [this, noListener_false_of_ne_nil hne] at hno
          exact absurd hno (by simp)
        | value => exact hc
      · exact hc
  | value =>
    simp only [kindListenerContainer.pruneTier, kindListenerContainer.pruneValueListeners]
    split
    · rename_i m lc hmm hv
      split
      · rename_i hno
        cases tier with
        | kind =>
          split <;> exact hc
        | value =>
          have hg : GoMap.get v m = some ls := by
            simpa [kindListenerContainer.container, kindListenerContainer.valueListener, hmm]
              using hc
          have hg2 : GoMap.get v2 m = some lc := by
            simpa [kindListenerContainer.valueListener, hmm] using hv
          have hv2 : v2 ≠ v := by
            intro e
            rw [e, hg] at hg2
            simp only [Option.some.injEq] at hg2
            rw [← hg2, noListener_false_of_ne_nil hne] at hno
            exact absurd hno (by simp)
          have hg3 : GoMap.get v (GoMap.delete v2 m) = some ls := by
            rw [GoMap.get_delete_ne m hv2]; exact hg
          have hlen : ¬ GoMap.len (GoMap.delete v2 m) = 0 := by
            intro e
            have : GoMap.delete v2 m = [] := List.length_eq_zero.mp e
            rw [this] at hg3
            simp [GoMap.get] at hg3
          simp only [hlen, if_false]
          simpa [kindListenerContainer.container, kindListenerContainer.valueListener] using hg3
      · exact hc
    · exact hc

theorem km_remKindListener {klc : kindListenerContainer K V L} {tier : Tier} {v : V}
    {lID : L} {n : Int} (h : klc.Masks tier v lID n) (hn : 1 ≤ n) (x : L) :
    (klc.remKindListener x).1.Masks tier v lID n := by
  obtain ⟨ls, hc, hm⟩ := h
  unfold kindListenerContainer.remKindListener
  split
  · exact ⟨ls, hc, hm⟩
  · rename_i lc hk
    dsimp only
    cases tier with
    | value => split <;> exact ⟨ls, hc, hm⟩
    | kind =>
      have : lc = ls := by simpa [kindListenerContainer.container, hk] using hc
      subst this
      have hm1 := lcMasks_remListener hm hn x
      rw [noListener_false_of_ne_nil (lcMasks_ne_nil hm1)]
      simp only [Bool.false_eq_true, if_false]
      exact ⟨_, rfl, hm1⟩

theorem km_remValueListener {klc : kindListenerContainer K V L} {tier : Tier} {v : V}
    {lID : L} {n : Int} (h : klc.Masks tier v lID n) (hn : 1 ≤ n) (v2 : V) (x : L) :
    (klc.remValueListener v2 x).1.Masks tier v lID n := by
  obtain ⟨ls, hc, hm⟩ := h
  unfold kindListenerContainer.remValueListener
  split
  · rename_i m lc hmm hv
    dsimp only
    have hg2 : GoMap.get v2 m = some lc := by
      simpa [kindListenerContainer.valueListener, hmm] using hv
    cases tier with
    | kind => split <;> exact ⟨ls, hc, hm⟩
    | value =>
      have hg : GoMap.get v m = some ls := by
        simpa [kindListenerContainer.container, kindListenerContainer.valueListener, hmm]
          using hc
      have key : ∃ ls1, GoMap.get v
          (kindListenerContainer.pruneValue m v2 (lc.remListener x).1) = some ls1 ∧
          ls1.Masks lID n := by
        unfold kindListenerContainer.pruneValue
        by_cases hv2 : v2 = v
        · subst hv2
          rw [hg] at hg2
          simp only [Option.some.injEq] at hg2
          subst hg2
          have hm1 := lcMasks_remListener hm hn x
          rw [noListener_false_of_ne_nil (lcMasks_ne_nil hm1)]
          simp only [Bool.false_eq_true, if_false, GoMap.get_set_self]
          exact ⟨_, rfl, hm1⟩
        · split
          · rw [GoMap.get_delete_ne m hv2]; exact ⟨ls, hg, hm⟩
          · rw [GoMap.get_set_ne _ m hv2]; exact ⟨ls, hg, hm⟩
      obtain ⟨ls1, hg1, hm1⟩ := key
      have hlen : ¬ GoMap.len
          (kindListenerContainer.pruneValue m v2 (lc.remListener x).1) = 0 := by
        intro e
        have := List.length_eq_zero.mp e
        rw [this] at hg1
        simp [GoMap.get] at hg1
      simp only [hlen, if_false]
      exact ⟨ls1, by
        simpa [kindListenerContainer.container, kindListenerContainer.valueListener]
          using hg1, hm1⟩
  · exact ⟨ls, hc, hm⟩

theorem km_addKindListener {klc klc1 : kindListenerContainer K V L} {tier : Tier} {v : V}
    {lID : L} {n : Int} (h : klc.Masks tier v lID n) (hn : 1 ≤ n) {l : listener K V L}
    {b : Bool} (hadd : klc.addKindListener l = .ok (klc1, b)) :
    klc1.Masks tier v lID n := by
  obtain ⟨ls, hc, hm⟩ := h
  unfold kindListenerContainer.addKindListener at hadd
  split at hadd
  · simp at hadd
  · dsimp only at hadd
    split at hadd
    · simp at hadd
    · rename_i lc1 added ha
      simp only [Except.ok.injEq, Prod.mk.injEq] at hadd
      obtain ⟨rfl, _⟩ := hadd
      cases tier with
      | value => exact ⟨ls, hc, hm⟩
      | kind =>
        have hk : klc.kindListeners = some ls := hc
        rw [hk] at ha
        exact absurd ha (lcMasks_addListener hm hn l lc1 added)

theorem km_addValueListener {klc klc1 : kindListenerContainer K V L} {tier : Tier} {v : V}
    {lID : L} {n : Int} (h : klc.Masks tier v lID n) (hn : 1 ≤ n) {v2 : V}
    {l : listener K V L} {b : Bool} (hadd : klc.addValueListener v2 l = .ok (klc1, b)) :
    klc1.Masks tier v lID n := by
  obtain ⟨ls, hc, hm⟩ := h
  obtain ⟨kl, vl, kn⟩ := klc
  unfold kindListenerContainer.addValueListener at hadd
  split at hadd
  · simp at hadd
  · cases tier with
    | kind =>
      dsimp only at hadd
      split at hadd
      · simp at hadd
      · simp only [Except.ok.injEq, Prod.mk.injEq] at hadd
        obtain ⟨rfl, _⟩ := hadd
        exact ⟨ls, hc, hm⟩
    | value =>
      cases vl with
      | none =>
        simp [kindListenerContainer.container, kindListenerContainer.valueListener] at hc
      | some m =>
        have hg : GoMap.get v m = some ls := by
          simpa [kindListenerContainer.container, kindListenerContainer.valueListener] using hc
        dsimp only at hadd
        split at hadd
        · simp at hadd
        · rename_i lc1 added ha
          simp only [Except.ok.injEq, Prod.mk.injEq] at hadd
          obtain ⟨rfl, _⟩ := hadd
          by_cases hv2 : v2 = v
          · subst hv2
            rw [hg] at ha
            exact absurd ha (lcMasks_addListener hm hn l lc1 added)
          · refine ⟨ls, ?_, hm⟩
            simpa [kindListenerContainer.container, kindListenerContainer.valueListener,
              GoMap.get_set_ne _ m hv2] using hg

theorem masks_putKind_self {d : Dispatcher K V L} {evtId : EventID K V} {tier : Tier}
    {lID : L} {n m : Int} (hd : d.dispatching = m) {klc : kindListenerContainer K V L}
    (h : klc.Masks tier evtId.Value lID n) : (d.putKind evtId.Kind klc).Masks evtId tier lID n m :=
  ⟨hd, klc, get_putKind d evtId.Kind klc, h⟩

theorem masks_putKind_ne {d : Dispatcher K V L} {evtId : EventID K V} {tier : Tier}
    {lID : L} {n m : Int} (h : d.Masks evtId tier lID n m) {k : K} (hk : k ≠ evtId.Kind)
    (x : kindListenerContainer K V L) : (d.putKind k x).Masks evtId tier lID n m := by
  obtain ⟨hd, klc, hg, hm⟩ := h
  exact ⟨hd, klc, by simp only [Dispatcher.putKind]; rw [GoMap.get_set_ne _ _ hk]; exact hg, hm⟩

theorem masks_putKind {d : Dispatcher K V L} {evtId : EventID K V} {tier : Tier}
    {lID : L} {n m : Int} (h : d.Masks evtId tier lID n m) (k : K)
    (x : kindListenerContainer K V L)
    (hx : k = evtId.Kind → x.Masks tier evtId.Value lID n) :
    (d.putKind k x).Masks evtId tier lID n m := by
  by_cases hk : k = evtId.Kind
  · subst hk; exact masks_putKind_self h.1 (hx rfl)
  · exact masks_putKind_ne h hk x

theorem masks_pruneKind {d : Dispatcher K V L} {evtId : EventID K V} {tier : Tier}
    {lID : L} {n m : Int} (h : d.Masks evtId tier lID n m) (k : K)
    (x : kindListenerContainer K V L)
    (hx : k = evtId.Kind → x.Masks tier evtId.Value lID n) :
    (d.pruneKind k x).Masks evtId tier lID n m := by
  by_cases hk : k = evtId.Kind
  · subst hk
    have hno := km_noListener (hx rfl)
    have : d.pruneKind evtId.Kind x = d.putKind evtId.Kind x := by
      simp [Dispatcher.pruneKind, Dispatcher.putKind, hno]
    rw [this]
    exact masks_putKind_self h.1 (hx rfl)
  · obtain ⟨hd, klc, hg, hm⟩ := h
    refine ⟨?_, klc, ?_, hm⟩
    · unfold Dispatcher.pruneKind; split <;> exact hd
    · rw [get_pruneKind_ne d x hk]; exact hg

theorem masks_updateKind {d : Dispatcher K V L} {evtId : EventID K V} {tier : Tier}
    {lID : L} {n n1 m : Int} (h : d.Masks evtId tier lID n m) (k : K)
    (f : kindListenerContainer K V L → kindListenerContainer K V L)
    (hf : k = evtId.Kind → ∀ klc, GoMap.get evtId.Kind d.kindListenerContainers = some klc →
      klc.Masks tier evtId.Value lID n → (f klc).Masks tier evtId.Value lID n1)
    (hn : k ≠ evtId.Kind → n1 = n) :
    (d.updateKind k f).Masks evtId tier lID n1 m := by
  obtain ⟨hd, klc, hg, hm⟩ := h
  by_cases hk : k = evtId.Kind
  · subst hk
    rw [updateKind_of_get hg]
    exact masks_putKind_self hd (hf rfl klc hg hm)
  · rw [hn hk]
    cases hg2 : GoMap.get k d.kindListenerContainers with
    | none =>
      have : d.updateKind k f = d := by simp [Dispatcher.updateKind, hg2]
      rw [this]; exact ⟨hd, klc, hg, hm⟩
    | some x =>
      rw [updateKind_of_get hg2]
      exact masks_putKind_ne ⟨hd, klc, hg, hm⟩ hk _

theorem container_samePlace (klc : kindListenerContainer K V L) {tier tier2 : Tier} {v v2 : V}
    (ht : tier2 = tier) (hv : tier = .value → v2 = v) :
    klc.container tier2 v2 = klc.container tier v := by
  subst ht
  cases tier2 with
  | kind => rfl
  | value => rw [hv rfl]

theorem setContainer_samePlace (klc : kindListenerContainer K V L) {tier tier2 : Tier}
    {v v2 : V} (ht : tier2 = tier) (hv : tier = .value → v2 = v)
    (a : listenerContainer K V L) :
    klc.setContainer tier2 v2 a = klc.setContainer tier v a := by
  subst ht
  cases tier2 with
  | kind => rfl
  | value => rw [hv rfl]

theorem container_of_masks {d : Dispatcher K V L} {evtId : EventID K V} {tier : Tier}
    {lID : L} {n m : Int} (h : d.Masks evtId tier lID n m) {e2 : EventID K V} {tier2 : Tier}
    (hs : samePlace evtId tier e2 tier2) :
    ∃ ls, d.container e2 tier2 = some ls ∧ ls.Masks lID n := by
  obtain ⟨_, klc, hg, ls, hc, hm⟩ := h
  obtain ⟨ht, hk, hv⟩ := hs
  refine ⟨ls, ?_, hm⟩
  unfold Dispatcher.container
  rw [hk, hg]
  simp only
  rw [container_samePlace klc ht hv]
  exact hc

theorem masks_setContainer_same {d : Dispatcher K V L} {evtId : EventID K V} {tier : Tier}
    {lID : L} {n n1 m : Int} (h : d.Masks evtId tier lID n m) {e2 : EventID K V}
    {tier2 : Tier} (hs : samePlace evtId tier e2 tier2) {a : listenerContainer K V L}
    (ha : a.Masks lID n1) : (d.setContainer e2 tier2 a).Masks evtId tier lID n1 m := by
  obtain ⟨ht, hk, hv⟩ := hs
  unfold Dispatcher.setContainer
  refine masks_updateKind h _ _ ?_ (fun hne => absurd hk hne)
  intro _ klc _ hm
  rw [setContainer_samePlace klc ht hv]
  exact km_setContainer_same hm ha

theorem masks_setContainer_other {d : Dispatcher K V L} {evtId : EventID K V} {tier : Tier}
    {lID : L} {n m : Int} (h : d.Masks evtId tier lID n m) {e2 : EventID K V}
    {tier2 : Tier} (hs : ¬ samePlace evtId tier e2 tier2) (a : listenerContainer K V L) :
    (d.setContainer e2 tier2 a).Masks evtId tier lID n m := by
  unfold Dispatcher.setContainer
  refine masks_updateKind h _ _ ?_ (fun _ => rfl)
  intro hk klc _ hm
  exact km_setContainer_other hm (fun hc => hs ⟨hc.1, hk, hc.2⟩) a

theorem addORGet_of_get {d : Dispatcher K V L} {k : K} {klc : kindListenerContainer K V L}
    (h : GoMap.get k d.kindListenerContainers = some klc) :
    d.addORGetKindListeners k = (d, klc) := by
  simp [Dispatcher.addORGetKindListeners, h]

theorem apiStable_masked (evtId : EventID K V) (tier : Tier) (lID : L) (n m : Int) (c : Nat)
    (hn : 1 ≤ n) (hm : 1 ≤ m) : ApiStable (Masked (L := L) evtId tier lID n m c) := by
  refine ⟨?_, ?_, ?_, ?_, ?_⟩
  · intro w k x cb once d1 b hi h
    refine ⟨?_, hi.2⟩
    cases cb with
    | none => simp [Dispatcher.AddKindListener] at h
    | some cbf =>
      rw [AddKindListener_eq] at h
      split at h
      · simp at h
      · rename_i klc1 added hadd
        simp only [Except.ok.injEq, Prod.mk.injEq] at h
        obtain ⟨rfl, _⟩ := h
        rw [addORGet_putKind]
        refine masks_putKind hi.1 k klc1 ?_
        intro hk
        obtain ⟨_, klc, hg, hkm⟩ := hi.1
        rw [hk, addORGet_of_get hg] at hadd
        exact km_addKindListener hkm hn hadd
  · intro w e2 x cb once d1 b hi h
    refine ⟨?_, hi.2⟩
    cases cb with
    | none => simp [Dispatcher.AddValueListener] at h
    | some cbf =>
      rw [AddValueListener_eq] at h
      split at h
      · simp at h
      · rename_i klc1 added hadd
        simp only [Except.ok.injEq, Prod.mk.injEq] at h
        obtain ⟨rfl, _⟩ := h
        rw [addORGet_putKind]
        refine masks_putKind hi.1 e2.Kind klc1 ?_
        intro hk
        obtain ⟨_, klc, hg, hkm⟩ := hi.1
        rw [hk, addORGet_of_get hg] at hadd
        exact km_addValueListener hkm hn hadd
  · intro w k x hi
    refine ⟨?_, hi.2⟩
    show (w.d.RemKindListener k x).1.Masks evtId tier lID n m
    unfold Dispatcher.RemKindListener
    split
    · exact hi.1
    · rename_i klc2 hg2
      refine masks_pruneKind hi.1 k _ ?_
      intro hk
      obtain ⟨_, klc, hg, hkm⟩ := hi.1
      rw [hk, hg] at hg2
      simp only [Option.some.injEq] at hg2
      subst hg2
      exact km_remKindListener hkm hn x
  · intro w e2 x hi
    refine ⟨?_, hi.2⟩
    show (w.d.RemValueListener e2 x).1.Masks evtId tier lID n m
    unfold Dispatcher.RemValueListener
    split
    · exact hi.1
    · rename_i klc2 hg2
      refine masks_pruneKind hi.1 e2.Kind _ ?_
      intro hk
      obtain ⟨_, klc, hg, hkm⟩ := hi.1
      rw [hk, hg] at hg2
      simp only [Option.some.injEq] at hg2
      subst hg2
      exact km_remValueListener hkm hn e2.Value x
  · intro w hi
    refine ⟨?_, hi.2⟩
    show w.d.Clear.Masks evtId tier lID n m
    rw [Clear_of_dispatching (by rw [hi.1.1]; omega)]
    exact hi.1

theorem masked_openKind {evtId : EventID K V} {tier : Tier} {lID : L} {n m : Int} {c : Nat}
    {w : World K V L} (h : Masked evtId tier lID n m c w) (k : K) :
    Masked evtId tier lID n (m + 1) c (w.openKind k) := by
  refine ⟨?_, h.2⟩
  unfold World.openKind
  simp only
  have h1 : Dispatcher.Masks { w.d with dispatching := w.d.dispatching + 1 } evtId tier lID n
      (m + 1) := by
    obtain ⟨hd, rest⟩ := h.1
    exact ⟨by simp [hd], rest⟩
  exact masks_updateKind h1 k _ (fun _ klc _ hk => km_dispatching hk _) (fun _ => rfl)

theorem masked_closeKind {evtId : EventID K V} {tier : Tier} {lID : L} {n m : Int} {c : Nat}
    {w : World K V L} (h : Masked evtId tier lID n (m + 1) c w) (k : K) :
    Masked evtId tier lID n m c (w.closeKind k) := by
  refine ⟨?_, h.2⟩
  have h1 : (w.d.updateKind k (fun kls => kls.leave)).Masks evtId tier lID n (m + 1) :=
    masks_updateKind h.1 k _ (fun _ klc _ hk => km_leave hk) (fun _ => rfl)
  unfold World.closeKind
  simp only
  generalize w.d.updateKind k (fun kls => kls.leave) = d1 at h1
  obtain ⟨hd, klc, hg, hkm⟩ := h1
  have key : ∀ d2 : Dispatcher K V L, d2.dispatching = m + 1 →
      GoMap.get evtId.Kind d2.kindListenerContainers = some klc →
      Dispatcher.Masks { d2 with dispatching := d2.dispatching - 1 } evtId tier lID n m := by
    intro d2 h2 hg2
    exact ⟨by simp only [h2]; omega, klc, hg2, hkm⟩
  split
  · exact key d1 hd hg
  · rename_i klc2 hg2
    split
    · rename_i hno
      have hk : k ≠ evtId.Kind := by
        intro e
        rw [e, hg] at hg2
        simp only [Option.some.injEq] at hg2
        rw [← hg2, km_noListener hkm] at hno
        exact absurd hno (by simp)
      exact key _ hd (by simp only; rw [GoMap.get_delete_ne _ hk]; exact hg)
    · exact key d1 hd hg

theorem calls_append (evtId : EventID K V) (tier : Tier) (lID : L)
    (t : List (Invocation K V L)) (i : Invocation K V L)
    (h : ¬ (i.tier = tier ∧ i.id = lID ∧ i.event.eventID.Kind = evtId.Kind ∧
      (tier = .value → i.event.eventID.Value = evtId.Value))) :
    calls evtId tier lID (t ++ [i]) = calls evtId tier lID t := by
  unfold calls
  rw [List.countP_append, List.countP_cons, List.countP_nil]
  have : decide (i.tier = tier ∧ i.id = lID ∧ i.event.eventID.Kind = evtId.Kind ∧
      (tier = .value → i.event.eventID.Value = evtId.Value)) = false := decide_eq_false h
  rw [this]
  simp

theorem frame_masked (evtId : EventID K V) (tier : Tier) (lID : L) (n m : Int) (c : Nat)
    (hn : 1 ≤ n) (hm : 1 ≤ m) (e2 : EventID K V) :
    Frame (MaskedClass evtId tier lID) (Masked (L := L) evtId tier lID n m c) e2 := by
  refine ⟨Masked evtId tier lID n (m + 1) c, fun w klc hi _ => masked_openKind hi _,
    fun w hj => masked_closeKind hj _, fun tier2 => ?_⟩
  by_cases hs : samePlace evtId tier e2 tier2
  · refine ⟨Masked evtId tier lID (n + 1) (m + 1) c,
      ⟨n + 1, m + 1, c, by omega, by omega, rfl⟩, ?_, ?_, ?_, ?_⟩
    · intro w ls hj hc
      obtain ⟨ls0, hc0, hm0⟩ := container_of_masks hj.1 hs
      rw [hc0] at hc
      simp only [Option.some.injEq] at hc
      subst hc
      exact ⟨masks_setContainer_same hj.1 hs (lcMasks_enter hm0), hj.2⟩
    · intro w l evt elem he hi hl hp
      refine ⟨hi.1, ?_⟩
      rw [← hi.2]
      apply calls_append
      intro hcall
      obtain ⟨ls0, hc0, hm0⟩ := container_of_masks hi.1 hs
      rw [hc0] at hl
      simp only [Option.some_bind] at hl
      have := hm0.2.2.1 l (value_mem hl) hcall.2.1
      rw [hp] at this
      exact absurd this (by simp)
    · intro w elem hi
      refine ⟨?_, ?_⟩
      · unfold World.pendingRemListener
        obtain ⟨ls0, hc0, hm0⟩ := container_of_masks hi.1 hs
        rw [hc0]
        simp only
        split
        · exact hi.1
        · exact masks_setContainer_same hi.1 hs (lcMasks_pendingRemListener hm0 _ _)
      · have : (w.pendingRemListener e2 tier2 elem).trace = w.trace := by
          unfold World.pendingRemListener
          split
          · rfl
          · split <;> rfl
        rw [this]; exact hi.2
    · intro w hi
      refine ⟨?_, hi.2⟩
      unfold World.leaveTier
      obtain ⟨ls0, hc0, hm0⟩ := container_of_masks hi.1 hs
      simp only [hc0]
      have h1 := masks_setContainer_same hi.1 hs (lcMasks_leave hm0 hn)
      exact masks_updateKind h1 _ _ (fun _ klc _ hk => km_pruneTier hk _ _) (fun _ => rfl)
  · refine ⟨Masked evtId tier lID n (m + 1) c,
      ⟨n, m + 1, c, hn, by omega, rfl⟩, ?_, ?_, ?_, ?_⟩
    · intro w ls hj hc
      exact ⟨masks_setContainer_other hj.1 hs _, hj.2⟩
    · intro w l evt elem he hi hl hp
      refine ⟨hi.1, ?_⟩
      rw [← hi.2]
      apply calls_append
      intro hcall
      apply hs
      simp only [he] at hcall
      exact ⟨hcall.1, hcall.2.2.1, hcall.2.2.2⟩
    · intro w elem hi
      refine ⟨?_, ?_⟩
      · unfold World.pendingRemListener
        split
        · exact hi.1
        · split
          · exact hi.1
          · exact masks_setContainer_other hi.1 hs _
      · have : (w.pendingRemListener e2 tier2 elem).trace = w.trace := by
          unfold World.pendingRemListener
          split
          · rfl
          · split <;> rfl
        rw [this]; exact hi.2
    · intro w hi
      refine ⟨?_, hi.2⟩
      unfold World.leaveTier
      simp only
      have h1 : (match w.d.container e2 tier2 with
          | none => w.d
          | some ls => w.d.setContainer e2 tier2 ls.leave).Masks evtId tier lID n (m + 1) := by
        split
        · exact hi.1
        · exact masks_setContainer_other hi.1 hs _
      exact masks_updateKind h1 _ _ (fun _ klc _ hk => km_pruneTier hk _ _) (fun _ => rfl)

theorem masked_logCall {evtId : EventID K V} {tier : Tier} {lID : L} {n m : Int} {c : Nat}
    {w : World K V L} (hi : Masked evtId tier lID n m c w) {evt : Event K V}
    (he : evt.eventID = evtId) {l : listener K V L} {elem : L}
    (hl : (w.d.container evtId tier).bind (fun ls => ls.value elem) = some l)
    (hp : l.pendingRem = false) : Masked evtId tier lID n m c (w.logCall tier evt l.id) := by
  refine ⟨hi.1, ?_⟩
  rw [← hi.2]
  apply calls_append
  intro hcall
  obtain ⟨ls0, hc0, hm0⟩ := container_of_masks hi.1
    (⟨rfl, rfl, fun _ => rfl⟩ : samePlace evtId tier evtId tier)
  rw [hc0] at hl
  simp only [Option.some_bind] at hl
  have := hm0.2.2.1 l (value_mem hl) hcall.2.1
  rw [hp] at this
  exact absurd this (by simp)

theorem masked_pendingRemListener {evtId : EventID K V} {tier : Tier} {lID : L} {n m : Int}
    {c : Nat} {w : World K V L} (hi : Masked evtId tier lID n m c w) (elem : L) :
    Masked evtId tier lID n m c (w.pendingRemListener evtId tier elem) := by
  have hs : samePlace evtId tier evtId tier := ⟨rfl, rfl, fun _ => rfl⟩
  refine ⟨?_, ?_⟩
  · unfold World.pendingRemListener
    obtain ⟨ls0, hc0, hm0⟩ := container_of_masks hi.1 hs
    rw [hc0]
    simp only
    split
    · exact hi.1
    · exact masks_setContainer_same hi.1 hs (lcMasks_pendingRemListener hm0 _ _)
  · have : (w.pendingRemListener evtId tier elem).trace = w.trace := by
      unfold World.pendingRemListener
      split
      · rfl
      · split <;> rfl
    rw [this]; exact hi.2

/-- Whatever the callbacks do, a dispatch made while a listener is masked in a container
under dispatch leaves it masked at the same depths and does not call it. -/
theorem Dispatch_masked (fuel : Nat) (evtId : EventID K V) (tier : Tier) (lID : L)
    (n m : Int) (c : Nat) (hn : 1 ≤ n) (hm : 1 ≤ m) (e2 : EventID K V) (generator : Any)
    (param : List Any) (w w1 : World K V L) (r : Option (Error K V))
    (h : Dispatcher.Dispatch fuel e2 generator param w = .ok r w1)
    (hw : Masked evtId tier lID n m c w) : Masked evtId tier lID n m c w1 :=
  Dispatch_inv (MaskedClass evtId tier lID)
    (fun I hI => by
      obtain ⟨n1, m1, c1, h1, h2, rfl⟩ := hI
      exact apiStable_masked evtId tier lID n1 m1 c1 h1 h2)
    (fun I hI e3 => by
      obtain ⟨n1, m1, c1, h1, h2, rfl⟩ := hI
      exact frame_masked evtId tier lID n1 m1 c1 h1 h2 e3)
    fuel _ ⟨n, m, c, hn, hm, rfl⟩ e2 generator param w r w1 h hw

/-- Whatever it does, a callback body run while a listener is masked in a container under
dispatch leaves it masked at the same depths and does not call it. -/
theorem runProg_masked (fuel : Nat) (evtId : EventID K V) (tier : Tier) (lID : L)
    (n m : Int) (c : Nat) (hn : 1 ≤ n) (hm : 1 ≤ m) (p : Prog K V L) (w w1 : World K V L)
    (r : Option (Error K V))
    (h : runProg (Dispatcher.Dispatch fuel) p w = .ok r w1)
    (hw : Masked evtId tier lID n m c w) : Masked evtId tier lID n m c w1 :=
  runProg_inv (Dispatcher.Dispatch fuel) (MaskedClass evtId tier lID)
    (fun I hI e2 generator param w2 r2 w3 h2 hi => by
      obtain ⟨n1, m1, c1, h1, h3, rfl⟩ := hI
      exact Dispatch_masked fuel evtId tier lID n1 m1 c1 h1 h3 e2 generator param w2 w3 r2 h2 hi)
    (fun I hI => by
      obtain ⟨n1, m1, c1, h1, h2, rfl⟩ := hI
      exact apiStable_masked evtId tier lID n1 m1 c1 h1 h2)
    _ ⟨n, m, c, hn, hm, rfl⟩ p w r w1 h hw

/-- Whatever the callbacks do, the walk of a container that masks a listener does not call
it and leaves it masked. -/
theorem walk_masked (fuel : Nat) (tier : Tier) (evt : Event K V) (lID : L)
    (n m : Int) (c : Nat) (hn : 1 ≤ n) (hm : 1 ≤ m) (ids : List L) (w w1 : World K V L)
    (errs errs1 : List (Error K V))
    (h : listenerContainer.walk (runProg (Dispatcher.Dispatch fuel)) tier evt ids w errs
      = .ok errs1 w1)
    (hw : Masked evt.eventID tier lID n m c w) : Masked evt.eventID tier lID n m c w1 :=
  walk_inv (runProg (Dispatcher.Dispatch fuel)) tier evt (Masked evt.eventID tier lID n m c)
    (fun p w2 r w3 h2 hi => runProg_masked fuel evt.eventID tier lID n m c hn hm p w2 w3 r h2 hi)
    (fun w2 l elem hi hl hp => masked_logCall hi rfl hl hp)
    (fun w2 elem hi => masked_pendingRemListener hi elem)
    ids w errs errs1 w1 h hw

theorem flush_ids_subset (q : List L) :
    ∀ (ls : listenerContainer K V L) (x : L), x ∈ (ls.flush q).ids → x ∈ ls.ids := by
  induction q with
  | nil => intro ls x h; exact h
  | cons e rest ih =>
    intro ls x h
    unfold listenerContainer.flush at h
    split at h
    · exact ih ls x h
    · have := ih _ x h
      simp only [listenerContainer.ids, listenerContainer.directRemListener, List.mem_map,
        List.mem_filter] at this ⊢
      obtain ⟨y, hy, rfl⟩ := this
      exact ⟨y, hy.1, rfl⟩

theorem flush_removes (q : List L) :
    ∀ (ls : listenerContainer K V L) (x : L), x ∈ q → x ∉ (ls.flush q).ids := by
  induction q with
  | nil => intro ls x h; simp at h
  | cons e rest ih =>
    intro ls x hx hmem
    by_cases he : x = e
    · subst he
      unfold listenerContainer.flush at hmem
      split at hmem
      · rename_i hv
        have h1 := flush_ids_subset rest ls x hmem
        obtain ⟨l, hl⟩ := value_of_mem_ids h1
        rw [hl] at hv; cases hv
      · have h1 := flush_ids_subset rest _ x hmem
        simp only [listenerContainer.ids, listenerContainer.directRemListener, List.mem_map,
          List.mem_filter] at h1
        obtain ⟨y, hy, hyid⟩ := h1
        simp [hyid] at hy
    · have hx1 : x ∈ rest := by
        rcases List.mem_cons.mp hx with h | h
        · exact absurd h he
        · exact h
      unfold listenerContainer.flush at hmem
      split at hmem
      · exact ih ls x hx1 hmem
      · exact ih _ x hx1 hmem

/-- Leaving depth 1 detaches a masked listener. -/
theorem lcMasks_leave_last {ls : listenerContainer K V L} {lID : L}
    (h : ls.Masks lID 1) : lID ∉ ls.leave.ids := by
  obtain ⟨h1, h2, _, _⟩ := h
  unfold listenerContainer.leave
  simp only [h1, sub_self, lt_self_iff_false, if_false, if_true]
  cases hq : ls.pendingRemList with
  | none => rw [hq] at h2; simp at h2
  | some q =>
    rw [hq] at h2
    simp only [Option.getD_some] at h2
    simp only
    exact flush_removes q _ lID h2

end MaskFacts

/-! ## Removal of a peer by a callback -/

section PeerFacts

variable {K V L : Type} [DecidableEq K] [DecidableEq V] [DecidableEq L]

theorem flag_id (i : L) (x : listener K V L) : (x.flag i).id = x.id := by
  unfold listener.flag; split <;> rfl

theorem flag_callback (i : L) (x : listener K V L) : (x.flag i).callback = x.callback := by
  unfold listener.flag; split <;> rfl

theorem flag_of_pending (i : L) {x : listener K V L} (h : (x.flag i).pendingRem = false) :
    x.pendingRem = false ∧ x.flag i = x := by
  unfold listener.flag at h ⊢
  split at h
  · simp at h
  · rename_i hne
    exact ⟨h, by simp [hne]⟩

theorem map_flag_ids (i : L) (ll : List (listener K V L)) :
    (ll.map (listener.flag i)).map (fun x => x.id) = ll.map (fun x => x.id) := by
  simp [List.map_map, Function.comp_def, flag_id]

theorem map_flag_of_not_mem (ll : List (listener K V L)) (i : L)
    (h : i ∉ ll.map (fun x => x.id)) : ll.map (listener.flag i) = ll :=
  map_mark_of_not_mem ll i h

theorem mark_list {ls : listenerContainer K V L} (hnd : ls.ids.Nodup) (elem : L) :
    (ls.mark elem).listenerList = ls.listenerList.map (listener.flag elem) := by
  unfold listenerContainer.mark
  cases hv : ls.value elem with
  | none =>
    simp only
    symm
    apply map_flag_of_not_mem
    intro hmem
    have hmem1 : elem ∈ ls.ids := hmem
    obtain ⟨l, hl⟩ := value_of_mem_ids hmem1
    rw [hl] at hv; cases hv
  | some l =>
    simp only
    by_cases hp : l.pendingRem = true
    · rw [pendingRemListener_of_pending ls elem l hp]
      exact (map_mark_flagged hnd hv hp).symm
    · simp only [listenerContainer.pendingRemListener, hp, Bool.false_eq_true, if_false]
      rfl

theorem mark_listenerMap (ls : listenerContainer K V L) (elem : L) :
    (ls.mark elem).listenerMap = ls.listenerMap := by
  unfold listenerContainer.mark
  split
  · rfl
  · exact pendingRemListener_listenerMap _ _ _

theorem mark_dispatching (ls : listenerContainer K V L) (elem : L) :
    (ls.mark elem).dispatching = ls.dispatching := by
  unfold listenerContainer.mark
  split
  · rfl
  · exact pendingRemListener_dispatching _ _ _

theorem mark_ids (ls : listenerContainer K V L) (elem : L) :
    (ls.mark elem).ids = ls.ids := by
  unfold listenerContainer.mark
  split
  · rfl
  · exact ids_pendingRemListener _ _ _

theorem mark_queue_mono (ls : listenerContainer K V L) (elem x : L)
    (h : x ∈ ls.pendingRemList.getD []) : x ∈ (ls.mark elem).pendingRemList.getD [] := by
  unfold listenerContainer.mark
  split
  · exact h
  · unfold listenerContainer.pendingRemListener
    split
    · exact h
    · simp only [Option.getD_some, List.mem_append]
      exact Or.inl h

theorem masks_mark {ls : listenerContainer K V L} (hnd : ls.ids.Nodup) {elem : L}
    (hreg : elem ∈ ls.ids)
    (hflag : ∀ l, ls.value elem = some l → l.pendingRem = true →
      elem ∈ ls.pendingRemList.getD []) :
    (ls.mark elem).Masks elem ls.dispatching := by
  refine ⟨mark_dispatching ls elem, ?_, ?_, by rw [mark_ids]; exact hreg⟩
  · obtain ⟨l, hv⟩ := value_of_mem_ids hreg
    unfold listenerContainer.mark
    rw [hv]
    simp only
    by_cases hp : l.pendingRem = true
    · rw [pendingRemListener_of_pending ls elem l hp]
      exact hflag l hv hp
    · simp [listenerContainer.pendingRemListener, hp]
  · rw [mark_list hnd]
    intro x hx hid
    obtain ⟨y, hy, rfl⟩ := List.mem_map.mp hx
    rw [flag_id] at hid
    simp [listener.flag, hid]

theorem lcMasks_mark {ls : listenerContainer K V L} {lID : L} {n : Int}
    (h : ls.Masks lID n) (elem : L) : (ls.mark elem).Masks lID n := by
  unfold listenerContainer.mark
  split
  · exact h
  · exact lcMasks_pendingRemListener h _ _

theorem mark_inWalk (d : Dispatcher K V L) {klc : kindListenerContainer K V L}
    (evtId : EventID K V) {tier : Tier} (hp : klc.HasPlace tier)
    (ls : listenerContainer K V L) (t : List (Invocation K V L)) (elem : L) :
    (inWalk d klc evtId tier ls t).pendingRemListener evtId tier elem
      = inWalk d klc evtId tier (ls.mark elem) t := by
  cases hv : ls.value elem with
  | some l =>
    rw [pendingRemListener_inWalk d evtId hp ls t hv]
    simp [listenerContainer.mark, hv]
  | none =>
    unfold World.pendingRemListener
    rw [container_inWalk d evtId hp]
    simp [listenerContainer.mark, hv]

theorem removePeer_inWalk (H : Handler K V L) (d : Dispatcher K V L)
    {klc : kindListenerContainer K V L} (evtId : EventID K V) {tier : Tier}
    (hp : klc.HasPlace tier) (ls : listenerContainer K V L) (t : List (Invocation K V L))
    {lID : L} (hreg : lID ∈ ls.ids) (hm : ls.listenerMap = GoMap.diag ls.ids)
    (hd : 0 < ls.dispatching) (next : Bool → Prog K V L) :
    runProg H (removePeer evtId tier lID next) (inWalk d klc evtId tier ls t)
      = runProg H (next true) (inWalk d klc evtId tier (ls.mark lID) t) := by
  obtain ⟨l, hv⟩ := value_of_mem_ids hreg
  have hg : GoMap.get lID ls.listenerMap = some lID := by
    rw [hm, GoMap.get_diag]; simp [hreg]
  have hmk : ls.mark lID = ls.pendingRemListener l lID := by
    simp [listenerContainer.mark, hv]
  rw [hmk]
  cases tier with
  | kind =>
    simp only [removePeer, runProg, RemKindListener_inWalk d klc evtId ls t hv hg hd]
    rfl
  | value =>
    simp only [removePeer, runProg, RemValueListener_inWalk d evtId hp ls t hv hg hd]
    rfl

theorem walk_remover_step (H : Handler K V L) (d : Dispatcher K V L)
    {klc : kindListenerContainer K V L} (evt : Event K V) {tier : Tier}
    (hp : klc.HasPlace tier) (ls : listenerContainer K V L) (t : List (Invocation K V L))
    (errs : List (Error K V)) (S : listener K V L) (X : L) (r : Option (Error K V))
    (rest : List L) (hc : ls.Canon) (hd : 0 < ls.dispatching)
    (hv : ls.value S.id = some S) (hS : S.pendingRem = false) (hX : X ∈ ls.ids)
    (hcb : S.callback evt = removePeer evt.eventID tier X (fun _ => .ret r)) :
    listenerContainer.walk (runProg H) tier evt (S.id :: rest)
        (inWalk d klc evt.eventID tier ls t) errs
      = listenerContainer.walk (runProg H) tier evt rest
          (inWalk d klc evt.eventID tier
            (if (S.once || Error.isRemAfterDispatch r) = true then (ls.mark X).mark S.id
              else ls.mark X)
            (t ++ [⟨tier, evt, S.id⟩])) (errs ++ genuine r) := by
  simp only [listenerContainer.walk]
  rw [container_inWalk d evt.eventID hp]
  simp only [Option.some_bind, hv, hS, Bool.not_false, if_true, listener.dispatch,
    Bool.false_eq_true, if_false, hcb]
  have hrun := removePeer_inWalk H d evt.eventID hp ls (t ++ [⟨tier, evt, S.id⟩]) hX hc.1 hd
    (fun _ => .ret r)
  simp only [inWalk] at hrun
  simp only [inWalk, hrun, runProg, genuine_eq]
  by_cases ho : (S.once || Error.isRemAfterDispatch r) = true
  · simp only [ho, if_true]
    have := mark_inWalk d evt.eventID hp (ls.mark X) (t ++ [⟨tier, evt, S.id⟩]) S.id
    simp only [inWalk] at this
    rw [this]
  · simp only [ho, Bool.false_eq_true, if_false]

theorem flag_of_ne {i : L} {x : listener K V L} (h : ¬ x.id = i) : x.flag i = x := by
  unfold listener.flag
  rw [if_neg h]

theorem canon_mark {ls : listenerContainer K V L} (hc : ls.Canon) (elem : L) :
    (ls.mark elem).Canon := by
  unfold listenerContainer.Canon
  rw [mark_ids, mark_listenerMap]
  exact hc

theorem lc_eta (ls : listenerContainer K V L) :
    ls = ⟨ls.listenerList, ls.listenerMap, ls.pendingRemList, ls.dispatching⟩ := rfl

theorem removed_of_flagged_afterWalk {evt : Event K V} {y : listener K V L}
    (hy : y.pendingRem = false) (h : (y.afterWalk evt).pendingRem = true) :
    y.removed evt = true := by
  unfold listener.afterWalk at h
  split at h
  · assumption
  · rw [hy] at h; cases h

theorem mem_enqueue {q : Option (List L)} {ids : List L} {x : L} (h : x ∈ ids) :
    x ∈ (enqueue q ids).getD [] := by
  cases ids with
  | nil => simp at h
  | cons a t => simp only [enqueue, Option.getD_some, List.mem_append]; exact Or.inr h

theorem mem_enqueue_of_mem {q : Option (List L)} (ids : List L) {x : L}
    (h : x ∈ q.getD []) : x ∈ (enqueue q ids).getD [] := by
  cases ids with
  | nil => exact h
  | cons a t => simp only [enqueue, Option.getD_some, List.mem_append]; exact Or.inl h

/-- The container a walk over a segment leaves behind still masks what it masked. -/
theorem masks_walked_seg (evt : Event K V) (P R T : List (listener K V L)) (lmap : GoMap L L)
    (q : Option (List L)) (n : Int) (Y : List L) (X : L)
    (h : (⟨P ++ (R ++ T), lmap, q, n⟩ : listenerContainer K V L).Masks X n) :
    (⟨P ++ (R.map (listener.afterWalk evt) ++ T), lmap, enqueue q Y, n⟩ :
      listenerContainer K V L).Masks X n := by
  obtain ⟨_, h2, h3, h4⟩ := h
  refine ⟨rfl, mem_enqueue_of_mem Y h2, ?_, ?_⟩
  · intro x hx hid
    simp only [List.mem_append, List.mem_map] at hx
    rcases hx with hx | ⟨y, hy, rfl⟩ | hx
    · exact h3 x (by simp [hx]) hid
    · rw [afterWalk_id] at hid
      have hyf := h3 y (by simp [hy]) hid
      unfold listener.afterWalk
      split
      · rfl
      · exact hyf
    · exact h3 x (by simp [hx]) hid
  · simpa [listenerContainer.ids, List.map_map, Function.comp_def, afterWalk_id] using h4

/-- The walk of a container in which the listener `S` removes the peer `X` and returns,
the other callbacks only clearing or removing their own listener: the listeners before
`S` are called, then `S`, then the listeners behind `S` but `X`; `X` ends up masked. -/
theorem walk_remover (H : Handler K V L) (d : Dispatcher K V L)
    {klc : kindListenerContainer K V L} (evt : Event K V) {tier : Tier}
    (hp : klc.HasPlace tier) (hd : 0 < d.dispatching)
    (seg1 seg2 : List (listener K V L)) (S : listener K V L) (X : L)
    (r : Option (Error K V)) (lmap : GoMap L L) (q : Option (List L)) (n : Int)
    (t : List (Invocation K V L))
    (hmap : lmap = GoMap.diag ((seg1 ++ S :: seg2).map (fun x => x.id)))
    (hnd : ((seg1 ++ S :: seg2).map (fun x => x.id)).Nodup) (hn : 0 < n)
    (hun : ∀ l ∈ seg1 ++ S :: seg2, l.pendingRem = false)
    (hX : X ∈ (seg1 ++ S :: seg2).map (fun x => x.id))
    (hcb : S.callback evt = removePeer evt.eventID tier X (fun _ => .ret r))
    (hloc1 : ∀ l ∈ seg1, Prog.Local evt.eventID tier l.id (l.callback evt))
    (hloc2 : ∀ l ∈ seg2, Prog.Local evt.eventID tier l.id (l.callback evt)) :
    ∃ errs ls1,
      listenerContainer.walk (runProg H) tier evt ((seg1 ++ S :: seg2).map (fun x => x.id))
          (inWalk d klc evt.eventID tier ⟨seg1 ++ S :: seg2, lmap, q, n⟩ t) []
        = .ok errs (inWalk d klc evt.eventID tier ls1
            (t ++ invocations tier evt seg1 ++ [⟨tier, evt, S.id⟩]
              ++ invocations tier evt (seg2.map (listener.flag X)))) ∧
      ls1.Masks X n ∧ ls1.Canon ∧
      ls1.ids = (seg1 ++ S :: seg2).map (fun x => x.id) := by
  have hSun : S.pendingRem = false := hun S (by simp)
  -- the walk over the listeners before S
  rw [List.map_append, walk_append]
  have hw1 := walk_seg H d evt hp hd seg1 [] (S :: seg2) lmap q n t []
    (by simpa using hmap) (by simpa using hnd) hn (fun l hl _ => hloc1 l hl)
  simp only [List.nil_append] at hw1
  rw [hw1]
  simp only [List.map_cons]
  -- the container when S is called
  have hids1 : ((seg1.map (listener.afterWalk evt) ++ S :: seg2).map (fun x => x.id))
      = (seg1 ++ S :: seg2).map (fun x => x.id) := by
    rw [List.map_append, map_afterWalk_ids, ← List.map_append]
  have hc1 : (⟨seg1.map (listener.afterWalk evt) ++ S :: seg2, lmap,
      enqueue q ((seg1.filter (listener.removed evt)).map (fun x => x.id)), n⟩ :
      listenerContainer K V L).Canon := by
    refine ⟨?_, ?_⟩
    · simp only [listenerContainer.ids]; rw [hids1]; exact hmap
    · simp only [listenerContainer.ids]; rw [hids1]; exact hnd
  have hv1 := value_split (seg1.map (listener.afterWalk evt)) seg2 S lmap
    (enqueue q ((seg1.filter (listener.removed evt)).map (fun x => x.id))) n
    (by rw [hids1]; exact hnd)
  have hX1 : X ∈ (⟨seg1.map (listener.afterWalk evt) ++ S :: seg2, lmap,
      enqueue q ((seg1.filter (listener.removed evt)).map (fun x => x.id)), n⟩ :
      listenerContainer K V L).ids := by
    simp only [listenerContainer.ids]; rw [hids1]; exact hX
  rw [walk_remover_step H d evt hp _ _ _ S X r _ hc1 hn hv1 hSun hX1 hcb]
  -- X is masked from here on
  have hmX : (listenerContainer.mark (⟨seg1.map (listener.afterWalk evt) ++ S :: seg2, lmap,
      enqueue q ((seg1.filter (listener.removed evt)).map (fun x => x.id)), n⟩ :
      listenerContainer K V L) X).Masks X n := by
    refine masks_mark hc1.2 hX1 ?_
    intro l hl hpl
    have hmem := value_mem hl
    have hlid := value_id hl
    simp only [List.mem_append, List.mem_map, List.mem_cons] at hmem
    rcases hmem with ⟨y, hy, rfl⟩ | rfl | hmem
    · have hyun := hun y (by simp [hy])
      have hrem := removed_of_flagged_afterWalk hyun hpl
      rw [afterWalk_id] at hlid
      apply mem_enqueue
      exact List.mem_map.mpr ⟨y, List.mem_filter.mpr ⟨hy, hrem⟩, hlid⟩
    · rw [hSun] at hpl; cases hpl
    · rw [hun l (by simp [hmem])] at hpl; cases hpl
  generalize hC2 : (if (S.once || Error.isRemAfterDispatch r) = true then
      (listenerContainer.mark (⟨seg1.map (listener.afterWalk evt) ++ S :: seg2, lmap,
        enqueue q ((seg1.filter (listener.removed evt)).map (fun x => x.id)), n⟩ :
        listenerContainer K V L) X).mark S.id
    else listenerContainer.mark (⟨seg1.map (listener.afterWalk evt) ++ S :: seg2, lmap,
        enqueue q ((seg1.filter (listener.removed evt)).map (fun x => x.id)), n⟩ :
        listenerContainer K V L) X) = C2
  -- the shape of the container after the call of S
  have hC2 : ∃ (g : listener K V L → listener K V L) (q2 : Option (List L)),
      C2 = ⟨(seg1.map (listener.afterWalk evt) ++ S :: seg2).map g, lmap, q2, n⟩ ∧
      (∀ x, (g x).id = x.id) ∧ (∀ x, (g x).callback = x.callback) ∧
      (∀ x, (g x).pendingRem = false → x.pendingRem = false) ∧
      (∀ x ∈ seg2, g x = x.flag X) ∧ C2.Masks X n := by
    have hl1 := mark_list hc1.2 X
    by_cases ho : (S.once || Error.isRemAfterDispatch r) = true
    · rw [if_pos ho] at hC2
      have hl2 := mark_list (canon_mark hc1 X).2 S.id
      rw [hl1] at hl2
      refine ⟨fun x => (x.flag X).flag S.id, C2.pendingRemList, ?_, ?_, ?_, ?_, ?_, ?_⟩
      · rw [lc_eta C2]
        congr 1
        · rw [← hC2, hl2, List.map_map]; rfl
        · rw [← hC2, mark_listenerMap, mark_listenerMap]
        · rw [← hC2, mark_dispatching, mark_dispatching]
      · intro x; simp [flag_id]
      · intro x; simp [flag_callback]
      · intro x hx
        exact (flag_of_pending X (flag_of_pending S.id hx).1).1
      · intro x hx
        have hne : ¬ (x.flag X).id = S.id := by
          rw [flag_id]
          intro e
          have h1 := hnd
          rw [List.map_append, List.map_cons] at h1
          have h2 := (List.nodup_cons.mp (List.nodup_append.mp h1).2.1).1
          exact h2 (List.mem_map.mpr ⟨x, hx, e⟩)
        exact flag_of_ne hne
      · rw [← hC2]; exact lcMasks_mark hmX S.id
    · rw [if_neg ho] at hC2
      refine ⟨fun x => x.flag X, C2.pendingRemList, ?_, ?_, ?_, ?_, ?_, ?_⟩
      · rw [lc_eta C2]
        congr 1
        · rw [← hC2, hl1]
        · rw [← hC2, mark_listenerMap]
        · rw [← hC2, mark_dispatching]
      · intro x; simp [flag_id]
      · intro x; simp [flag_callback]
      · intro x hx; exact (flag_of_pending X hx).1
      · intro x _; rfl
      · rw [← hC2]; exact hmX
  obtain ⟨g, q2, hCeq, hgid, hgcb, hgp, hg2, hm2⟩ := hC2
  have hgids : ∀ ll : List (listener K V L), (ll.map g).map (fun x => x.id)
      = ll.map (fun x => x.id) := by
    intro ll; simp [List.map_map, Function.comp_def, hgid]
  rw [hCeq]
  have hsplit : (seg1.map (listener.afterWalk evt) ++ S :: seg2).map g
      = (seg1.map (listener.afterWalk evt) ++ [S]).map g ++ (seg2.map g ++ []) := by
    simp
  rw [hsplit]
  have hids2 : (((seg1.map (listener.afterWalk evt) ++ [S]).map g ++ (seg2.map g ++ [])).map
      (fun x : listener K V L => x.id)) = (seg1 ++ S :: seg2).map (fun x => x.id) := by
    rw [← hsplit, hgids, hids1]
  have hw2 := walk_seg H d evt hp hd (seg2.map g)
    ((seg1.map (listener.afterWalk evt) ++ [S]).map g) [] lmap q2 n
    (t ++ invocations tier evt seg1 ++ [⟨tier, evt, S.id⟩]) (genuineErrors evt seg1 ++ genuine r)
    (by rw [hids2]; exact hmap) (by rw [hids2]; exact hnd) hn
    (by
      intro l hl _
      obtain ⟨y, hy, rfl⟩ := List.mem_map.mp hl
      rw [hgid, hgcb]
      exact hloc2 y hy)
  rw [hgids] at hw2
  have e2 : seg2.map g = seg2.map (listener.flag X) := List.map_congr_left hg2
  have hinv : invocations tier evt (seg2.map g)
      = invocations tier evt (seg2.map (listener.flag X)) := by rw [e2]
  rw [hinv] at hw2
  have hids3 : (((seg1.map (listener.afterWalk evt) ++ [S]).map g
      ++ ((seg2.map g).map (listener.afterWalk evt) ++ [])).map
      (fun x : listener K V L => x.id)) = (seg1 ++ S :: seg2).map (fun x => x.id) := by
    simp [List.map_map, Function.comp_def, afterWalk_id, hgid]
  refine ⟨_, _, hw2, ?_, ⟨?_, ?_⟩, ?_⟩
  · apply masks_walked_seg
    rw [← hsplit, ← hCeq]
    exact hm2
  · exact hmap.trans (congrArg GoMap.diag hids3.symm)
  · exact (congrArg List.Nodup hids3).mpr hnd
  · exact hids3.trans (by simp)

theorem calls_app (evtId : EventID K V) (tier : Tier) (lID : L)
    (t u : List (Invocation K V L)) :
    calls evtId tier lID (t ++ u) = calls evtId tier lID t + calls evtId tier lID u := by
  unfold calls
  rw [List.countP_append]

theorem invocations_cons (tier : Tier) (evt : Event K V) (x : listener K V L)
    (seg : List (listener K V L)) :
    invocations tier evt (x :: seg)
      = if x.pendingRem = false then ⟨tier, evt, x.id⟩ :: invocations tier evt seg
        else invocations tier evt seg := by
  unfold invocations fired
  cases hx : x.pendingRem <;> simp [List.filter_cons, hx]

theorem calls_cons_self (evt : Event K V) (tier : Tier) (lID : L)
    (u : List (Invocation K V L)) :
    calls evt.eventID tier lID (⟨tier, evt, lID⟩ :: u) = calls evt.eventID tier lID u + 1 := by
  unfold calls
  rw [List.countP_cons]
  simp

theorem calls_cons_other (evt : Event K V) (tier : Tier) {lID x : L} (h : ¬ x = lID)
    (u : List (Invocation K V L)) :
    calls evt.eventID tier lID (⟨tier, evt, x⟩ :: u) = calls evt.eventID tier lID u := by
  unfold calls
  rw [List.countP_cons]
  simp [h]

/-- A walk over listeners none of which has the ID `lID` logs no call of `lID`. -/
theorem calls_invocations_absent (evt : Event K V) (tier : Tier) (lID : L) :
    ∀ seg : List (listener K V L), lID ∉ seg.map (fun x => x.id) →
      calls evt.eventID tier lID (invocations tier evt seg) = 0 := by
  intro seg
  induction seg with
  | nil => intro _; rfl
  | cons x seg ih =>
    intro h
    simp only [List.map_cons, List.mem_cons, not_or] at h
    rw [invocations_cons]
    split
    · rw [calls_cons_other evt tier (fun e => h.1 e.symm)]
      exact ih h.2
    · exact ih h.2

/-- A walk over distinct listeners logs exactly one call of a listener that is not flagged
for removal. -/
theorem calls_invocations_once (evt : Event K V) (tier : Tier) (A : listener K V L)
    (hA : A.pendingRem = false) :
    ∀ seg : List (listener K V L), A ∈ seg → (seg.map (fun x => x.id)).Nodup →
      calls evt.eventID tier A.id (invocations tier evt seg) = 1 := by
  intro seg
  induction seg with
  | nil => intro h; simp at h
  | cons x seg ih =>
    intro h hnd
    simp only [List.map_cons, List.nodup_cons] at hnd
    rw [invocations_cons]
    rcases List.mem_cons.mp h with rfl | h1
    · rw [if_pos hA, calls_cons_self, calls_invocations_absent evt tier _ seg hnd.1]
    · have hne : ¬ x.id = A.id := by
        intro e
        exact hnd.1 (e ▸ List.mem_map.mpr ⟨A, h1, rfl⟩)
      split
      · rw [calls_cons_other evt tier hne]
        exact ih h1 hnd.2
      · exact ih h1 hnd.2

theorem dcontainer_setContainer {d : Dispatcher K V L} {evtId : EventID K V} {tier : Tier}
    {ls : listenerContainer K V L} (h : d.container evtId tier = some ls)
    (a : listenerContainer K V L) :
    (d.setContainer evtId tier a).container evtId tier = some a := by
  unfold Dispatcher.container at h ⊢
  unfold Dispatcher.setContainer
  rw [get_updateKind]
  cases hg : GoMap.get evtId.Kind d.kindListenerContainers with
  | none => simp [hg] at h
  | some klc =>
    simp only [hg] at h
    simp only [Option.map_some']
    exact container_setContainer (hasPlace_of_container h) _ _

/-- The world of a walk is masked when the walked container masks the listener. -/
theorem masked_inWalk (d : Dispatcher K V L) {klc : kindListenerContainer K V L}
    (evtId : EventID K V) {tier : Tier} (hp : klc.HasPlace tier)
    {ls : listenerContainer K V L} {lID : L} {n : Int} (h : ls.Masks lID n)
    (t : List (Invocation K V L)) :
    Masked evtId tier lID n d.dispatching (calls evtId tier lID t)
      (inWalk d klc evtId tier ls t) :=
  ⟨⟨rfl, _, get_putKind d evtId.Kind _, ls, container_setContainer hp _ _, h⟩, rfl⟩

/-- From the turn of a listener whose callback starts by removing the peer `X`, whatever
the callback does next and whatever the callbacks of the rest of the walk do, nested
dispatches included: `X` is not called any more, and the container still masks it when
the walk is over. -/
theorem walk_remover_masked (fuel : Nat) (d : Dispatcher K V L)
    {klc : kindListenerContainer K V L} (evt : Event K V) {tier : Tier}
    (hp : klc.HasPlace tier) (ls : listenerContainer K V L) (t : List (Invocation K V L))
    (errs errs1 : List (Error K V)) (w1 : World K V L) (S : listener K V L) (X : L)
    (next : Bool → Prog K V L) (rest : List L)
    (hc : ls.Canon) (hn : 1 ≤ ls.dispatching) (hm : 1 ≤ d.dispatching)
    (hq : ∀ x ∈ ls.listenerList, x.pendingRem = true → x.id ∈ ls.pendingRemList.getD [])
    (hv : ls.value S.id = some S) (hS : S.pendingRem = false) (hX : X ∈ ls.ids)
    (hXS : ¬ S.id = X)
    (hcb : S.callback evt = removePeer evt.eventID tier X next)
    (h : listenerContainer.walk (runProg (Dispatcher.Dispatch fuel)) tier evt (S.id :: rest)
      (inWalk d klc evt.eventID tier ls t) errs = .ok errs1 w1) :
    Masked evt.eventID tier X ls.dispatching d.dispatching (calls evt.eventID tier X t) w1 := by
  have hmask : (ls.mark X).Masks X ls.dispatching := by
    refine masks_mark hc.2 hX ?_
    intro l hl hpl
    have := hq l (value_mem hl) hpl
    rwa [value_id hl] at this
  have hstart := masked_inWalk d evt.eventID hp hmask (t ++ [⟨tier, evt, S.id⟩])
  have hcalls : calls evt.eventID tier X (t ++ [⟨tier, evt, S.id⟩])
      = calls evt.eventID tier X t :=
    calls_append evt.eventID tier X t _ (fun e => hXS e.2.1)
  rw [hcalls] at hstart
  simp only [listenerContainer.walk] at h
  rw [container_inWalk d evt.eventID hp] at h
  simp only [Option.some_bind, hv, hS, Bool.not_false, if_true, listener.dispatch,
    Bool.false_eq_true, if_false, hcb] at h
  have hrun := removePeer_inWalk (Dispatcher.Dispatch fuel) d evt.eventID hp ls
    (t ++ [⟨tier, evt, S.id⟩]) hX hc.1 (by omega) next
  simp only [inWalk] at hrun hstart
  simp only [inWalk, hrun] at h
  split at h
  · rename_i err w2 hd
    have h2 := runProg_masked fuel evt.eventID tier X _ _ _ hn hm _ _ _ _ hd hstart
    refine walk_masked fuel tier evt X _ _ _ hn hm rest _ w1 _ errs1 h ?_
    split
    · exact masked_pendingRemListener h2 _
    · exact h2
  · simp at h
  · simp at h

/-- C15: peer removal during a dispatch.  The container `ls` is dispatched to; the
listener `S` is live at its turn (the callbacks of the listeners before it only return,
clear or remove their own listener) and its callback starts by removing the peer `X`;
what that callback does next and what the callbacks of the listeners behind `S` do is
arbitrary, nested dispatches included.  When the dispatch returns:
if `X` is registered behind `S` (A removes B), the log holds no call of `X` that it did
not hold before the dispatch, so `X` was called neither by this dispatch nor by a
dispatch nested inside it; if `X` is a live listener registered before `S` (B removes A),
the log holds exactly one call of `X` more than before; and in both cases `X` is not
registered any more when this dispatch is the outermost one on the container (depth 0
at entry), and stays masked at the depth of the enclosing dispatch otherwise. -/
theorem C15_peer_removal (fuel : Nat) (d : Dispatcher K V L)
    {klc : kindListenerContainer K V L} (evt : Event K V) {tier : Tier}
    (hp : klc.HasPlace tier) (hd : 0 < d.dispatching)
    (ls : listenerContainer K V L) (seg1 seg2 : List (listener K V L)) (S : listener K V L)
    (X : L) (next : Bool → Prog K V L) (t : List (Invocation K V L))
    (hl : ls.listenerList = seg1 ++ S :: seg2) (hc : ls.Canon) (hq : ls.Queued)
    (hn : 0 ≤ ls.dispatching) (hS : S.pendingRem = false) (hX : X ∈ ls.ids)
    (hXS : ¬ S.id = X)
    (hcb : S.callback evt = removePeer evt.eventID tier X next)
    (hloc : ∀ l ∈ seg1, l.pendingRem = false →
      Prog.Local evt.eventID tier l.id (l.callback evt))
    (r : Option (Error K V)) (w1 : World K V L)
    (hrun : listenerContainer.dispatch (runProg (Dispatcher.Dispatch fuel)) tier evt
      (inWalk d klc evt.eventID tier ls t) = .ok r w1) :
    (X ∉ seg1.map (fun x => x.id) →
      calls evt.eventID tier X w1.trace = calls evt.eventID tier X t) ∧
    (∀ A ∈ seg1, A.id = X → A.pendingRem = false →
      calls evt.eventID tier X w1.trace = calls evt.eventID tier X t + 1) ∧
    ∃ ls1, w1.d.container evt.eventID tier = some ls1 ∧
      (ls.dispatching = 0 → X ∉ ls1.ids) ∧
      (1 ≤ ls.dispatching → ls1.Masks X ls.dispatching) := by
  obtain ⟨ll, lmap, q, n⟩ := ls
  simp only at hl hn
  subst hl
  obtain ⟨hmap, hnd⟩ := hc
  simp only [listenerContainer.ids] at hmap hnd hX
  -- the walk over the listeners before S
  unfold listenerContainer.dispatch at hrun
  rw [container_inWalk d evt.eventID hp] at hrun
  simp only at hrun
  rw [world_set_inWalk] at hrun
  have he : (listenerContainer.enter ⟨seg1 ++ S :: seg2, lmap, q, n⟩ : listenerContainer K V L)
      = ⟨seg1 ++ S :: seg2, lmap, q, n + 1⟩ := rfl
  rw [he, List.map_append, walk_append] at hrun
  have hw1 := walk_seg (Dispatcher.Dispatch fuel) d evt hp hd seg1 [] (S :: seg2) lmap q (n + 1)
    t [] (by simpa using hmap) (by simpa using hnd) (by omega) hloc
  simp only [List.nil_append] at hw1
  rw [hw1] at hrun
  simp only [List.map_cons] at hrun
  -- the container when S is called
  have hids1 : ((seg1.map (listener.afterWalk evt) ++ S :: seg2).map (fun x => x.id))
      = (seg1 ++ S :: seg2).map (fun x => x.id) := by
    rw [List.map_append, map_afterWalk_ids, ← List.map_append]
  have hc1 : (⟨seg1.map (listener.afterWalk evt) ++ S :: seg2, lmap,
      enqueue q ((seg1.filter (listener.removed evt)).map (fun x => x.id)), n + 1⟩ :
      listenerContainer K V L).Canon :=
    ⟨hmap.trans (congrArg GoMap.diag hids1.symm), (congrArg List.Nodup hids1).mpr hnd⟩
  have hv1 := value_split (seg1.map (listener.afterWalk evt)) seg2 S lmap
    (enqueue q ((seg1.filter (listener.removed evt)).map (fun x => x.id))) (n + 1)
    (by rw [hids1]; exact hnd)
  have hq1 : ∀ x ∈ seg1.map (listener.afterWalk evt) ++ S :: seg2, x.pendingRem = true →
      x.id ∈ (enqueue q ((seg1.filter (listener.removed evt)).map (fun x => x.id))).getD [] := by
    intro x hx hpx
    simp only [List.mem_append, List.mem_map, List.mem_cons] at hx
    rcases hx with ⟨y, hy, rfl⟩ | rfl | hx
    · rw [afterWalk_id]
      cases hyp : y.pendingRem with
      | true => exact mem_enqueue_of_mem _ ((hq.1 y (by simp [hy])).mp hyp)
      | false =>
        exact mem_enqueue (List.mem_map.mpr
          ⟨y, List.mem_filter.mpr ⟨hy, removed_of_flagged_afterWalk hyp hpx⟩, rfl⟩)
    · rw [hS] at hpx; cases hpx
    · exact mem_enqueue_of_mem _ ((hq.1 x (by simp [hx])).mp hpx)
  split at hrun
  · rename_i errs w2 hwalk
    have hM := walk_remover_masked fuel d evt hp _ _ _ _ _ S X next _ hc1 (by simp; omega) hd
      hq1 hv1 hS (by simp only [listenerContainer.ids]; rw [hids1]; exact hX) hXS hcb hwalk
    obtain ⟨ls1, hls1, hm1⟩ := container_of_masks hM.1 ⟨rfl, rfl, fun _ => rfl⟩
    rw [hls1] at hrun
    simp only [Outcome.ok.injEq] at hrun
    obtain ⟨_, rfl⟩ := hrun
    have hcalls : calls evt.eventID tier X w2.trace
        = calls evt.eventID tier X t + calls evt.eventID tier X (invocations tier evt seg1) := by
      rw [hM.2, calls_app]
    refine ⟨?_, ?_, ls1.leave, dcontainer_setContainer hls1 _, ?_, ?_⟩
    · intro hx
      show calls evt.eventID tier X w2.trace = _
      rw [hcalls, calls_invocations_absent evt tier X seg1 hx]
      rfl
    · intro A hA hid hAp
      show calls evt.eventID tier X w2.trace = _
      rw [hcalls, ← hid, calls_invocations_once evt tier A hAp seg1 hA]
      have h1 := hnd
      rw [List.map_append] at h1
      exact (List.nodup_append.mp h1).1
    · intro h0
      simp only at h0
      subst h0
      exact lcMasks_leave_last hm1
    · intro h1
      exact lcMasks_leave hm1 h1
  · simp at hrun
  · simp at hrun

theorem ok_of_observe {o : Outcome K V L (Option (Error K V))}
    {x : Bool × List (Invocation K V L) × Nat} (h : o.observe = some x) :
    ∃ r w, o = .ok r w ∧ w.trace = x.2.1 := by
  cases o with
  | ok r w =>
    simp only [Outcome.observe, Option.some.injEq] at h
    exact ⟨r, w, rfl, by rw [← h]⟩
  | panic msg => simp [Outcome.observe] at h
  | timeout => simp [Outcome.observe] at h

theorem exPeers_canon (X : Nat) : (exPeers X).Canon :=
  ⟨rfl, show ([1, 2, 3] : List Nat).Nodup by decide⟩

theorem exPeers_queued (X : Nat) : (exPeers X).Queued := by
  refine ⟨?_, show ([] : List Nat).Nodup by decide⟩
  intro x hx
  simp only [exPeers, List.mem_cons, List.mem_singleton, List.mem_nil_iff, or_false] at hx
  rcases hx with rfl | rfl | rfl <;> simp [exPeers]

theorem exPeers_local : ∀ l ∈ [(⟨1, cbNil, false, false⟩ : listener Nat Nat Nat)],
    l.pendingRem = false →
    Prog.Local (⟨10, 5⟩ : EventID Nat Nat) .kind l.id (l.callback ⟨⟨10, 5⟩, none, none⟩) := by
  intro l hl _
  rw [List.mem_singleton.mp hl]
  exact .ret none

theorem exPeers_run_behind :
    (listenerContainer.dispatch (runProg (Dispatcher.Dispatch 1)) .kind
      ⟨⟨10, 5⟩, none, none⟩ (exPeersWorld 3)).observe
      = some (true, [⟨.kind, ⟨⟨10, 5⟩, none, none⟩, 1⟩, ⟨.kind, ⟨⟨10, 5⟩, none, none⟩, 2⟩,
          ⟨.kind, ⟨⟨10, 5⟩, some 1, none⟩, 1⟩, ⟨.kind, ⟨⟨10, 5⟩, some 1, none⟩, 2⟩], 1) := by
  decide

theorem exPeers_run_before :
    (listenerContainer.dispatch (runProg (Dispatcher.Dispatch 1)) .kind
      ⟨⟨10, 5⟩, none, none⟩ (exPeersWorld 1)).observe
      = some (true, [⟨.kind, ⟨⟨10, 5⟩, none, none⟩, 1⟩, ⟨.kind, ⟨⟨10, 5⟩, none, none⟩, 2⟩,
          ⟨.kind, ⟨⟨10, 5⟩, some 1, none⟩, 2⟩, ⟨.kind, ⟨⟨10, 5⟩, some 1, none⟩, 3⟩,
          ⟨.kind, ⟨⟨10, 5⟩, none, none⟩, 3⟩], 1) := by
  decide

/-- Witness of C15: listener 2 removes listener 3 (registered behind it), and listener 2
removes listener 1 (registered before it); in both runs the callback of listener 2 also
dispatches the event again. -/
theorem C15_peer_removal_witness :
    (∃ r w1, listenerContainer.dispatch (runProg (Dispatcher.Dispatch 1)) .kind
        ⟨⟨10, 5⟩, none, none⟩ (exPeersWorld 3) = .ok r w1 ∧
      calls ⟨10, 5⟩ .kind 3 w1.trace = 0 ∧
      ∃ ls1, w1.d.container ⟨10, 5⟩ .kind = some ls1 ∧ 3 ∉ ls1.ids) ∧
    (∃ r w1, listenerContainer.dispatch (runProg (Dispatcher.Dispatch 1)) .kind
        ⟨⟨10, 5⟩, none, none⟩ (exPeersWorld 1) = .ok r w1 ∧
      calls ⟨10, 5⟩ .kind 1 w1.trace = 1 ∧
      ∃ ls1, w1.d.container ⟨10, 5⟩ .kind = some ls1 ∧ 1 ∉ ls1.ids) := by
  obtain ⟨r3, w3, hrun3, _⟩ := ok_of_observe exPeers_run_behind
  obtain ⟨r1, w1, hrun1, _⟩ := ok_of_observe exPeers_run_before
  refine ⟨⟨r3, w3, hrun3, ?_⟩, ⟨r1, w1, hrun1, ?_⟩⟩
  · have h := @C15_peer_removal Nat Nat Nat _ _ _ 1 ⟨[], 1⟩ ⟨none, none, 1⟩
      ⟨⟨10, 5⟩, none, none⟩ .kind
      (fun h => by cases h) (by decide) (exPeers 3) [⟨1, cbNil, false, false⟩]
      [⟨3, cbNil, false, false⟩] ⟨2, cbRemovePeer 3, false, false⟩ 3 _ [] rfl
      (exPeers_canon 3) (exPeers_queued 3)
      (by decide) rfl (by decide) (by decide) rfl exPeers_local r3 w3 hrun3
    obtain ⟨h1, _, ls1, h3, h4, _⟩ := h
    exact ⟨h1 (by decide), ls1, h3, h4 rfl⟩
  · have h := @C15_peer_removal Nat Nat Nat _ _ _ 1 ⟨[], 1⟩ ⟨none, none, 1⟩
      ⟨⟨10, 5⟩, none, none⟩ .kind
      (fun h => by cases h) (by decide) (exPeers 1) [⟨1, cbNil, false, false⟩]
      [⟨3, cbNil, false, false⟩] ⟨2, cbRemovePeer 1, false, false⟩ 1 _ [] rfl
      (exPeers_canon 1) (exPeers_queued 1)
      (by decide) rfl (by decide) (by decide) rfl exPeers_local r1 w1 hrun1
    obtain ⟨_, h2, ls1, h3, h4, _⟩ := h
    exact ⟨h2 _ (List.mem_singleton.mpr rfl) rfl rfl, ls1, h3, h4 rfl⟩

end PeerFacts

/-! ## Reachable states and the calls of Dispatch that are active -/

section BalanceFacts

variable {K V L : Type} [DecidableEq K] [DecidableEq V] [DecidableEq L]

theorem depthOf_cons (f : Call K V) (s : List (Call K V)) (e : EventID K V) (tier : Tier) :
    depthOf (f :: s) e tier
      = depthOf s e tier + (if f.phase = some tier ∧ f.evtId.Kind = e.Kind ∧
          (tier = .value → f.evtId.Value = e.Value) then 1 else 0) := by
  unfold depthOf
  rw [List.countP_cons]
  simp only [decide_eq_true_eq]

theorem kindDepthOf_cons (f : Call K V) (s : List (Call K V)) (k : K) :
    kindDepthOf (f :: s) k = kindDepthOf s k + (if f.evtId.Kind = k then 1 else 0) := by
  unfold kindDepthOf
  rw [List.countP_cons]
  simp only [decide_eq_true_eq]

theorem depthOf_pos {s : List (Call K V)} {f : Call K V} (hf : f ∈ s) {tier : Tier}
    (hp : f.phase = some tier) {e : EventID K V} (hk : f.evtId.Kind = e.Kind)
    (hv : tier = .value → f.evtId.Value = e.Value) : 0 < depthOf s e tier := by
  unfold depthOf
  rw [List.countP_pos_iff]
  exact ⟨f, hf, decide_eq_true ⟨hp, hk, hv⟩⟩

theorem kindDepthOf_pos {s : List (Call K V)} {f : Call K V} (hf : f ∈ s) :
    0 < kindDepthOf s f.evtId.Kind := by
  unfold kindDepthOf
  rw [List.countP_pos_iff]
  exact ⟨f, hf, by simp⟩

theorem sound_new : (newListenerContainer : listenerContainer K V L).Sound 0 := by
  refine ⟨⟨rfl, List.nodup_nil⟩, ⟨?_, List.nodup_nil⟩, rfl, ?_, fun _ => rfl⟩
  · intro x hx; simp [newListenerContainer] at hx
  · intro e he; simp [newListenerContainer] at he

theorem sound_depth_zero {ls : listenerContainer K V L} {n : Nat} (h : ls.Sound n)
    (hd : ¬ ls.dispatching > 0) : n = 0 := by
  have := h.2.2.1
  omega

theorem unflagged_of_sound_zero {ls : listenerContainer K V L} (h : ls.Sound 0) :
    ∀ x ∈ ls.listenerList, x.pendingRem = false := by
  intro x hx
  have hq := (h.2.1.1 x hx)
  rw [h.2.2.2.2 rfl] at hq
  cases hp : x.pendingRem with
  | false => rfl
  | true => simp [hp] at hq

/-- A registration that returns leaves the container in good order, and not empty. -/
theorem sound_addListener {ls ls1 : listenerContainer K V L} {n : Nat} {l : listener K V L}
    {b : Bool} (h : ls.Sound n) (hl : l.pendingRem = false)
    (hr : ls.addListener l = .ok (ls1, b)) : ls1.Sound n ∧ ls1.listenerList ≠ [] := by
  obtain ⟨⟨hmap, hnd⟩, hq, hdep, hsub, hz⟩ := h
  unfold listenerContainer.addListener at hr
  split at hr
  · simp at hr
  · rename_i hd
    have hn : n = 0 := by omega
    subst hn
    have hqn := hz rfl
    cases hg : GoMap.get l.id ls.listenerMap with
    | some e =>
      simp only [hg, Except.ok.injEq, Prod.mk.injEq] at hr
      obtain ⟨rfl, _⟩ := hr
      refine ⟨⟨⟨hmap, hnd⟩, hq, hdep, hsub, hz⟩, ?_⟩
      intro he
      rw [hmap, GoMap.get_diag] at hg
      simp [listenerContainer.ids, he] at hg
    | none =>
      simp only [hg, Except.ok.injEq, Prod.mk.injEq] at hr
      obtain ⟨rfl, _⟩ := hr
      have hnot : l.id ∉ ls.ids := by
        intro hmem
        rw [hmap, GoMap.get_diag, if_pos hmem] at hg
        cases hg
      refine ⟨⟨⟨?_, ?_⟩, ⟨?_, ?_⟩, hdep, ?_, fun _ => hqn⟩, by simp⟩
      · simp only [listenerContainer.ids, List.map_append, List.map_cons, List.map_nil]
        rw [hmap]
        exact GoMap.set_diag l.id _ hnot
      · simp only [listenerContainer.ids, List.map_append, List.map_cons, List.map_nil]
        exact List.Nodup.append hnd (List.nodup_singleton _)
          (by
            intro a ha hb
            simp only [List.mem_singleton] at hb
            subst hb
            exact hnot ha)
      · intro x hx
        simp only [hqn, Option.getD_none, List.not_mem_nil, iff_false, Bool.not_eq_true]
        simp only [List.mem_append, List.mem_singleton] at hx
        rcases hx with hx | rfl
        · have := hq.1 x hx
          rw [hqn] at this
          cases hp : x.pendingRem with
          | false => rfl
          | true => simp [hp] at this
        · exact hl
      · exact hq.2
      · intro e he
        simp [hqn] at he

theorem sound_enter {ls : listenerContainer K V L} {n : Nat} (h : ls.Sound n) :
    ls.enter.Sound (n + 1) := by
  obtain ⟨hc, hq, hdep, hsub, _⟩ := h
  refine ⟨hc, hq, ?_, hsub, fun h0 => by omega⟩
  simp only [listenerContainer.enter, hdep]
  push_cast
  rfl

/-- Flagging a listener during a dispatch keeps the container in good order. -/
theorem sound_pendingRemListener {ls : listenerContainer K V L} {n : Nat} (h : ls.Sound n)
    (hn : 0 < n) {elem : L} {l : listener K V L} (hv : ls.value elem = some l) :
    (ls.pendingRemListener l elem).Sound n := by
  obtain ⟨hc, hq, hdep, hsub, _⟩ := h
  refine ⟨canon_pendingRemListener hc l elem, queued_pendingRemListener hq hc.2 hv,
    by rw [pendingRemListener_dispatching]; exact hdep, ?_, fun h0 => by omega⟩
  intro e he
  rw [ids_pendingRemListener]
  unfold listenerContainer.pendingRemListener at he
  split at he
  · exact hsub e he
  · simp only [Option.getD_some, List.mem_append, List.mem_singleton] at he
    rcases he with he | rfl
    · exact hsub e he
    · have := value_mem hv
      have hid := value_id hv
      exact List.mem_map.mpr ⟨l, this, hid⟩

theorem sound_zero_iff_idle (ls : listenerContainer K V L) : ls.Sound 0 ↔ ls.Idle := by
  constructor
  · intro h
    exact ⟨h.2.2.1, h.2.2.2.2 rfl, unflagged_of_sound_zero h, h.1⟩
  · intro ⟨hd, hq, hf, hc⟩
    refine ⟨hc, ⟨?_, ?_⟩, hd, ?_, fun _ => hq⟩
    · intro x hx
      simp [hq, hf x hx]
    · simp [hq]
    · intro e he
      simp [hq] at he

/-- A removal leaves the container in good order; during a dispatch it does not change
the IDs in the list. -/
theorem sound_remListener {ls : listenerContainer K V L} {n : Nat} (h : ls.Sound n) (lID : L) :
    (ls.remListener lID).1.Sound n ∧ (0 < n → (ls.remListener lID).1.ids = ls.ids) := by
  by_cases hreg : lID ∈ ls.ids
  · cases n with
    | zero =>
      have hi := (sound_zero_iff_idle ls).mp h
      rw [remListener_present hi lID hreg]
      exact ⟨(sound_zero_iff_idle _).mpr (removed_idle hi lID), fun h0 => by omega⟩
    | succ m =>
      have hd : 0 < ls.dispatching := by
        have := h.2.2.1
        omega
      obtain ⟨l, hv, hrem⟩ := remListener_dispatching hd h.1 hreg
      rw [hrem]
      exact ⟨sound_pendingRemListener h (by omega) hv, fun _ => ids_pendingRemListener ls l lID⟩
  · rw [remListener_absent h.1 lID hreg]
    exact ⟨h, fun _ => rfl⟩

theorem leave_of_deep (ls : listenerContainer K V L) (h : 1 < ls.dispatching) :
    ls.leave = { ls with dispatching := ls.dispatching - 1 } := by
  have h1 : ¬ (ls.dispatching - 1 < 0) := by omega
  have h2 : ¬ (ls.dispatching - 1 = 0) := by omega
  unfold listenerContainer.leave
  simp only [h1, h2, if_false]

/-- The closing statements of `dispatch` leave the container in good order one level
down, without clamping; above depth 0 they do not change the list. -/
theorem sound_leave {ls : listenerContainer K V L} {n : Nat} (h : ls.Sound (n + 1)) :
    ls.leave.Sound n ∧ (0 < n → ls.leave.listenerList = ls.listenerList) ∧
      ls.leave.dispatching = ls.dispatching - 1 := by
  obtain ⟨⟨hmap, hnd⟩, hq, hdep, hsub, _⟩ := h
  obtain ⟨ll, lmap, pq, d⟩ := ls
  simp only [listenerContainer.ids] at hmap hnd hdep hsub
  push_cast at hdep
  subst hdep hmap
  cases n with
  | zero =>
    cases pq with
    | none =>
      have e : (listenerContainer.leave ⟨ll, GoMap.diag (ll.map (fun x => x.id)), none,
          ((0 : Nat) : Int) + 1⟩ : listenerContainer K V L)
          = ⟨ll, GoMap.diag (ll.map (fun x => x.id)), none, 0⟩ := by
        simp [listenerContainer.leave]
      rw [e]
      refine ⟨⟨⟨rfl, hnd⟩, hq, rfl, hsub, fun _ => rfl⟩, fun h0 => by omega, by simp⟩
    | some q =>
      have e : (listenerContainer.leave ⟨ll, GoMap.diag (ll.map (fun x => x.id)), some q,
          ((0 : Nat) : Int) + 1⟩ : listenerContainer K V L)
          = ⟨ll.filter (fun x => decide (x.id ∉ q)),
              GoMap.diag ((ll.filter (fun x => decide (x.id ∉ q))).map (fun x => x.id)),
              none, 0⟩ := by
        simp [listenerContainer.leave, flush_spec]
      rw [e]
      refine ⟨(sound_zero_iff_idle _).mpr ⟨rfl, rfl, ?_, rfl, ?_⟩, fun h0 => by omega, by simp⟩
      · intro x hx
        obtain ⟨hx1, hx2⟩ := List.mem_filter.mp hx
        have := hq.1 x hx1
        simp only [Option.getD_some] at this
        simp only [decide_eq_true_eq] at hx2
        cases hp : x.pendingRem with
        | false => rfl
        | true => exact absurd (this.mp hp) hx2
      · simp only [listenerContainer.ids]
        exact hnd.sublist (List.Sublist.map _ (List.filter_sublist ll))
  | succ m =>
    have e := leave_of_deep (⟨ll, GoMap.diag (ll.map (fun x => x.id)), pq,
      ((m + 1 : Nat) : Int) + 1⟩ : listenerContainer K V L) (by simp only; omega)
    rw [e]
    refine ⟨⟨⟨rfl, hnd⟩, hq, ?_, hsub, fun h0 => by omega⟩, fun _ => rfl, rfl⟩
    simp only
    omega

theorem kept_eq_some {ls ls1 : listenerContainer K V L} (h : ls.kept = some ls1) :
    ls1 = ls ∧ ls.listenerList ≠ [] := by
  unfold listenerContainer.kept at h
  split at h
  · cases h
  · rename_i hn
    simp only [Option.some.injEq] at h
    refine ⟨h.symm, fun he => hn ((noListener_iff_nil ls).mpr he)⟩

theorem kept_of_ne_nil {ls : listenerContainer K V L} (h : ls.listenerList ≠ []) :
    ls.kept = some ls := by
  unfold listenerContainer.kept
  rw [noListener_false_of_ne_nil h]
  rfl

theorem container_remKind_kind (klc : kindListenerContainer K V L) (lID : L) (v : V) :
    (klc.remKindListener lID).1.container .kind v
      = klc.kindListeners.bind (fun lc => (lc.remListener lID).1.kept) := by
  unfold kindListenerContainer.remKindListener
  split
  · rename_i hk
    simp [kindListenerContainer.container, hk]
  · rename_i lc hk
    dsimp only
    simp only [hk, Option.some_bind, listenerContainer.kept]
    split <;> rfl

theorem container_remKind_value (klc : kindListenerContainer K V L) (lID : L) (v : V) :
    (klc.remKindListener lID).1.container .value v = klc.container .value v := by
  unfold kindListenerContainer.remKindListener
  split
  · rfl
  · dsimp only
    split <;> rfl

theorem dispatching_remKind (klc : kindListenerContainer K V L) (lID : L) :
    (klc.remKindListener lID).1.dispatching = klc.dispatching := by
  unfold kindListenerContainer.remKindListener
  split
  · rfl
  · dsimp only
    split <;> rfl

theorem container_remValue_kind (klc : kindListenerContainer K V L) (v0 : V) (lID : L)
    (v : V) :
    (klc.remValueListener v0 lID).1.container .kind v = klc.container .kind v := by
  unfold kindListenerContainer.remValueListener
  split
  · dsimp only
    split <;> rfl
  · rfl

theorem dispatching_remValue (klc : kindListenerContainer K V L) (v0 : V) (lID : L) :
    (klc.remValueListener v0 lID).1.dispatching = klc.dispatching := by
  unfold kindListenerContainer.remValueListener
  split
  · dsimp only
    split <;> rfl
  · rfl

theorem get_of_len_zero {α β : Type} [DecidableEq α] {m : GoMap α β} (h : GoMap.len m = 0)
    (k : α) : GoMap.get k m = none := by
  have := List.length_eq_zero.mp h
  rw [this]
  rfl

theorem get_pruneValue (m : GoMap V (listenerContainer K V L)) (v0 v : V)
    (lc : listenerContainer K V L) :
    GoMap.get v (kindListenerContainer.pruneValue m v0 lc)
      = if v = v0 then lc.kept else GoMap.get v m := by
  unfold kindListenerContainer.pruneValue listenerContainer.kept
  by_cases hv : v = v0
  · subst hv
    simp only [if_true]
    split
    · exact GoMap.get_delete_self v m
    · exact GoMap.get_set_self v lc m
  · simp only [hv, if_false]
    have hne : v0 ≠ v := fun e => hv e.symm
    split
    · exact GoMap.get_delete_ne m hne
    · exact GoMap.get_set_ne lc m hne

theorem container_remValue_value (klc : kindListenerContainer K V L) (v0 : V) (lID : L)
    (v : V) :
    (klc.remValueListener v0 lID).1.container .value v
      = if v = v0 then (klc.valueListener v0).bind (fun lc => (lc.remListener lID).1.kept)
        else klc.container .value v := by
  unfold kindListenerContainer.remValueListener
  split
  · rename_i m lc hmm hv
    dsimp only
    have key := get_pruneValue m v0 v (lc.remListener lID).1
    have hold : klc.container .value v = GoMap.get v m := by
      simp [kindListenerContainer.container, kindListenerContainer.valueListener, hmm]
    rw [hv, Option.some_bind, hold, ← key]
    split
    · rename_i hlen
      rw [get_of_len_zero hlen]
      simp [kindListenerContainer.container, kindListenerContainer.valueListener]
    · simp [kindListenerContainer.container, kindListenerContainer.valueListener]
  · rename_i hno
    by_cases hv : v = v0
    · subst hv
      simp only [if_true]
      cases hmm : klc.valueListeners with
      | none =>
        simp [kindListenerContainer.container, kindListenerContainer.valueListener, hmm]
      | some m =>
        cases hg : klc.valueListener v with
        | none =>
          simp [kindListenerContainer.container, hg]
        | some lc => exact absurd hg (hno m lc hmm)
    · simp only [hv, if_false]

theorem addKindListener_ok {klc klc1 : kindListenerContainer K V L} {l : listener K V L}
    {b : Bool} (h : klc.addKindListener l = .ok (klc1, b)) :
    ∃ lc1, (klc.kindListeners.getD newListenerContainer).addListener l = .ok (lc1, b) ∧
      klc1 = { klc with kindListeners := some lc1 } := by
  unfold kindListenerContainer.addKindListener at h
  split at h
  · simp at h
  · dsimp only at h
    split at h
    · simp at h
    · rename_i lc1 added ha
      simp only [Except.ok.injEq, Prod.mk.injEq] at h
      obtain ⟨rfl, rfl⟩ := h
      refine ⟨lc1, ?_, rfl⟩
      rw [← ha]
      cases klc.kindListeners <;> rfl

theorem addValueListener_ok {klc klc1 : kindListenerContainer K V L} {v0 : V}
    {l : listener K V L} {b : Bool} (h : klc.addValueListener v0 l = .ok (klc1, b)) :
    ∃ lc1, ((klc.valueListener v0).getD newListenerContainer).addListener l = .ok (lc1, b) ∧
      klc1.dispatching = klc.dispatching ∧
      (∀ v, klc1.container .kind v = klc.container .kind v) ∧
      (∀ v, klc1.container .value v
        = if v = v0 then some lc1 else klc.container .value v) := by
  obtain ⟨kl, vl, kn⟩ := klc
  unfold kindListenerContainer.addValueListener at h
  split at h
  · simp at h
  · dsimp only at h
    split at h
    · simp at h
    · rename_i lc1 added ha
      simp only [Except.ok.injEq, Prod.mk.injEq] at h
      obtain ⟨rfl, rfl⟩ := h
      refine ⟨lc1, ?_, rfl, fun v => rfl, ?_⟩
      · rw [← ha]
        cases vl with
        | none => rfl
        | some m =>
          simp only [kindListenerContainer.valueListener]
          cases GoMap.get v0 m <;> rfl
      · intro v
        simp only [kindListenerContainer.container, kindListenerContainer.valueListener]
        by_cases hv : v = v0
        · subst hv
          simp only [if_true]
          exact GoMap.get_set_self v lc1 _
        · simp only [hv, if_false]
          have hne : v0 ≠ v := fun e => hv e.symm
          rw [GoMap.get_set_ne lc1 _ hne]
          cases vl <;> rfl

theorem pruneValueListeners_some (kl : Option (listenerContainer K V L))
    (m : GoMap V (listenerContainer K V L)) (kn : Int) {v0 : V} {lc : listenerContainer K V L}
    (hg : GoMap.get v0 m = some lc) :
    kindListenerContainer.pruneValueListeners ⟨kl, some m, kn⟩ v0
      = if lc.noListener then
          (if GoMap.len (GoMap.delete v0 m) = 0 then ⟨kl, none, kn⟩
            else ⟨kl, some (GoMap.delete v0 m), kn⟩)
        else ⟨kl, some m, kn⟩ := by
  simp [kindListenerContainer.pruneValueListeners, kindListenerContainer.valueListener, hg]

theorem pruneValueListeners_none (klc : kindListenerContainer K V L) {v0 : V}
    (hg : klc.valueListener v0 = none) : klc.pruneValueListeners v0 = klc := by
  unfold kindListenerContainer.pruneValueListeners
  split
  · rename_i hv
    rw [hg] at hv
    cases hv
  · rfl

theorem container_pruneTier (klc : kindListenerContainer K V L) (tier0 : Tier) (v0 : V)
    (tier : Tier) (v : V) :
    (klc.pruneTier tier0 v0).container tier v
      = if tier = tier0 ∧ (tier0 = .value → v = v0) then
          (klc.container tier v).bind (fun lc => lc.kept)
        else klc.container tier v := by
  cases tier0 with
  | kind =>
    obtain ⟨kl, vl, kn⟩ := klc
    simp only [kindListenerContainer.pruneTier, kindListenerContainer.pruneKindListeners]
    cases tier with
    | kind =>
      simp only [true_and, reduceCtorEq, false_implies, if_true]
      cases kl with
      | none => rfl
      | some lc =>
        simp only [kindListenerContainer.container, Option.some_bind, listenerContainer.kept]
        split <;> rfl
    | value =>
      simp only [reduceCtorEq, false_and, if_false]
      cases kl with
      | none => rfl
      | some lc =>
        simp only
        split <;> rfl
  | value =>
    show (klc.pruneValueListeners v0).container tier v = _
    cases hg0 : klc.valueListener v0 with
    | none =>
      rw [pruneValueListeners_none klc hg0]
      by_cases hh : tier = Tier.value ∧ (Tier.value = Tier.value → v = v0)
      · rw [if_pos hh]
        obtain ⟨rfl, hv⟩ := hh
        have hv0 : v = v0 := hv rfl
        subst hv0
        have : klc.container .value v = none := hg0
        rw [this]
        rfl
      · rw [if_neg hh]
    | some lc =>
      obtain ⟨kl, vl, kn⟩ := klc
      cases vl with
      | none => simp [kindListenerContainer.valueListener] at hg0
      | some m =>
        have hg : GoMap.get v0 m = some lc := by
          simpa [kindListenerContainer.valueListener] using hg0
        rw [pruneValueListeners_some kl m kn hg]
        have hkept : lc.kept = if lc.noListener then none else some lc := rfl
        cases tier with
        | kind =>
          have hc : ¬ (Tier.kind = Tier.value ∧ (Tier.value = Tier.value → v = v0)) :=
            fun h => nomatch h.1
          rw [if_neg hc]
          split
          · split <;> rfl
          · rfl
        | value =>
          have hold : (kindListenerContainer.container ⟨kl, some m, kn⟩ .value v)
              = GoMap.get v m := rfl
          by_cases hvv : v = v0
          · have hc : Tier.value = Tier.value ∧ (Tier.value = Tier.value → v = v0) :=
              ⟨rfl, fun _ => hvv⟩
            rw [if_pos hc, hold]
            subst hvv
            rw [hg, Option.some_bind, hkept]
            by_cases hnl : lc.noListener = true
            · rw [if_pos hnl, if_pos hnl]
              by_cases hlen : GoMap.len (GoMap.delete v m) = 0
              · rw [if_pos hlen]; rfl
              · rw [if_neg hlen]; exact GoMap.get_delete_self v m
            · rw [if_neg hnl, if_neg hnl]; exact hg
          · have hc : ¬ (Tier.value = Tier.value ∧ (Tier.value = Tier.value → v = v0)) :=
              fun h => hvv (h.2 rfl)
            rw [if_neg hc, hold]
            have hne : v0 ≠ v := fun e => hvv e.symm
            by_cases hnl : lc.noListener = true
            · rw [if_pos hnl]
              by_cases hlen : GoMap.len (GoMap.delete v0 m) = 0
              · rw [if_pos hlen]
                have := get_of_len_zero hlen v
                rw [GoMap.get_delete_ne m hne] at this
                rw [this]
                rfl
              · rw [if_neg hlen]; exact GoMap.get_delete_ne m hne
            · rw [if_neg hnl]; rfl

theorem dispatching_pruneTier (klc : kindListenerContainer K V L) (tier0 : Tier) (v0 : V) :
    (klc.pruneTier tier0 v0).dispatching = klc.dispatching := by
  cases tier0 with
  | kind =>
    simp only [kindListenerContainer.pruneTier, kindListenerContainer.pruneKindListeners]
    split
    · rfl
    · split <;> rfl
  | value =>
    simp only [kindListenerContainer.pruneTier, kindListenerContainer.pruneValueListeners]
    split
    · split
      · split <;> rfl
      · rfl
    · rfl

theorem container_setContainer_eq {klc : kindListenerContainer K V L} {tier0 : Tier} {v0 : V}
    (hp : klc.HasPlace tier0) (a : listenerContainer K V L) (tier : Tier) (v : V) :
    (klc.setContainer tier0 v0 a).container tier v
      = if tier = tier0 ∧ (tier0 = .value → v = v0) then some a
        else klc.container tier v := by
  by_cases h : tier = tier0 ∧ (tier0 = .value → v = v0)
  · rw [if_pos h]
    obtain ⟨rfl, hv⟩ := h
    rw [← container_setContainer hp v0 a]
    exact (container_samePlace _ rfl (fun ht => (hv ht).symm)).symm
  · rw [if_neg h]
    exact container_setContainer_other klc (fun hh => h ⟨hh.1.symm, fun ht => (hh.2 (hh.1 ▸ ht)).symm⟩) a

theorem ne_nil_of_ids {ls ls1 : listenerContainer K V L} (h : ls1.ids = ls.ids)
    (hne : ls.listenerList ≠ []) : ls1.listenerList ≠ [] := by
  intro he
  have h1 : ls1.ids = [] := by simp [listenerContainer.ids, he]
  rw [h] at h1
  exact hne (List.map_eq_nil_iff.mp h1)

/-- A removal and the pruning that follows it keep a per-kind container in good order. -/
theorem kbal_remKind {klc : kindListenerContainer K V L} {kd : Nat} {dp : Tier → V → Nat}
    (h : klc.Balanced kd dp) (lID : L) : (klc.remKindListener lID).1.Balanced kd dp := by
  obtain ⟨hd, hcont, hlive⟩ := h
  refine ⟨by rw [dispatching_remKind]; exact hd, ?_, ?_⟩
  · intro tier v ls1 hc
    cases tier with
    | kind =>
      rw [container_remKind_kind] at hc
      cases hk : klc.kindListeners with
      | none => simp [hk] at hc
      | some lc =>
        rw [hk, Option.some_bind] at hc
        obtain ⟨rfl, hne⟩ := kept_eq_some hc
        exact ⟨(sound_remListener (hcont .kind v lc hk).1 lID).1, hne⟩
    | value =>
      rw [container_remKind_value] at hc
      exact hcont _ _ _ hc
  · intro tier v hpos
    cases tier with
    | kind =>
      obtain ⟨ls, hc⟩ := hlive .kind v hpos
      have hk : klc.kindListeners = some ls := hc
      obtain ⟨hs, hne⟩ := hcont .kind v ls hc
      rw [container_remKind_kind, hk, Option.some_bind]
      exact ⟨_, kept_of_ne_nil (ne_nil_of_ids ((sound_remListener hs lID).2 hpos) hne)⟩
    | value =>
      rw [container_remKind_value]
      exact hlive _ _ hpos

theorem kbal_remValue {klc : kindListenerContainer K V L} {kd : Nat} {dp : Tier → V → Nat}
    (h : klc.Balanced kd dp) (v0 : V) (lID : L) :
    (klc.remValueListener v0 lID).1.Balanced kd dp := by
  obtain ⟨hd, hcont, hlive⟩ := h
  refine ⟨by rw [dispatching_remValue]; exact hd, ?_, ?_⟩
  · intro tier v ls1 hc
    cases tier with
    | kind =>
      rw [container_remValue_kind] at hc
      exact hcont _ _ _ hc
    | value =>
      rw [container_remValue_value] at hc
      by_cases hv : v = v0
      · subst hv
        rw [if_pos rfl] at hc
        cases hk : klc.valueListener v with
        | none => simp [hk] at hc
        | some lc =>
          rw [hk, Option.some_bind] at hc
          obtain ⟨rfl, hne⟩ := kept_eq_some hc
          exact ⟨(sound_remListener (hcont .value v lc hk).1 lID).1, hne⟩
      · rw [if_neg hv] at hc
        exact hcont _ _ _ hc
  · intro tier v hpos
    cases tier with
    | kind =>
      rw [container_remValue_kind]
      exact hlive _ _ hpos
    | value =>
      rw [container_remValue_value]
      by_cases hv : v = v0
      · subst hv
        rw [if_pos rfl]
        obtain ⟨ls, hc⟩ := hlive .value v hpos
        have hk : klc.valueListener v = some ls := hc
        obtain ⟨hs, hne⟩ := hcont .value v ls hc
        rw [hk, Option.some_bind]
        exact ⟨_, kept_of_ne_nil (ne_nil_of_ids ((sound_remListener hs lID).2 hpos) hne)⟩
      · rw [if_neg hv]
        exact hlive _ _ hpos

theorem sound_of_absent {klc : kindListenerContainer K V L} {kd : Nat} {dp : Tier → V → Nat}
    (h : klc.Balanced kd dp) (tier : Tier) (v : V) :
    ((klc.container tier v).getD newListenerContainer).Sound (dp tier v) := by
  cases hc : klc.container tier v with
  | some lc => exact (h.2.1 tier v lc hc).1
  | none =>
    have h0 : dp tier v = 0 := by
      by_contra hne
      obtain ⟨ls, hls⟩ := h.2.2 tier v (Nat.pos_of_ne_zero hne)
      rw [hc] at hls
      cases hls
    rw [h0]
    exact sound_new

/-- A registration that returns keeps a per-kind container in good order. -/
theorem kbal_addKind {klc klc1 : kindListenerContainer K V L} {kd : Nat}
    {dp : Tier → V → Nat} (h : klc.Balanced kd dp) {l : listener K V L} {b : Bool}
    (hl : l.pendingRem = false) (hadd : klc.addKindListener l = .ok (klc1, b)) :
    klc1.Balanced kd dp := by
  obtain ⟨lc1, ha, rfl⟩ := addKindListener_ok hadd
  refine ⟨h.1, ?_, ?_⟩
  · intro tier v ls1 hc
    cases tier with
    | kind =>
      have : lc1 = ls1 := by simpa [kindListenerContainer.container] using hc
      subst this
      have hs : (klc.kindListeners.getD newListenerContainer).Sound (dp .kind v) :=
        sound_of_absent h .kind v
      exact sound_addListener hs hl ha
    | value => exact h.2.1 .value v ls1 hc
  · intro tier v hpos
    cases tier with
    | kind => exact ⟨lc1, rfl⟩
    | value => exact h.2.2 .value v hpos

theorem kbal_addValue {klc klc1 : kindListenerContainer K V L} {kd : Nat}
    {dp : Tier → V → Nat} (h : klc.Balanced kd dp) {v0 : V} {l : listener K V L} {b : Bool}
    (hl : l.pendingRem = false) (hadd : klc.addValueListener v0 l = .ok (klc1, b)) :
    klc1.Balanced kd dp := by
  obtain ⟨lc1, ha, hd, hkind, hvalue⟩ := addValueListener_ok hadd
  refine ⟨by rw [hd]; exact h.1, ?_, ?_⟩
  · intro tier v ls1 hc
    cases tier with
    | kind =>
      rw [hkind] at hc
      exact h.2.1 .kind v ls1 hc
    | value =>
      rw [hvalue] at hc
      by_cases hv : v = v0
      · subst hv
        rw [if_pos rfl] at hc
        simp only [Option.some.injEq] at hc
        subst hc
        have hs : ((klc.valueListener v).getD newListenerContainer).Sound (dp .value v) :=
          sound_of_absent h .value v
        exact sound_addListener hs hl ha
      · rw [if_neg hv] at hc
        exact h.2.1 .value v ls1 hc
  · intro tier v hpos
    cases tier with
    | kind =>
      rw [hkind]
      exact h.2.2 .kind v hpos
    | value =>
      rw [hvalue]
      by_cases hv : v = v0
      · rw [if_pos hv]; exact ⟨lc1, rfl⟩
      · rw [if_neg hv]; exact h.2.2 .value v hpos

/-- Writing a container in good order back to its place keeps the per-kind container in
good order, at the numbers of active calls that go with the new container. -/
theorem kbal_setContainer {klc : kindListenerContainer K V L} {kd : Nat}
    {dp dp1 : Tier → V → Nat} (h : klc.Balanced kd dp) {tier0 : Tier} {v0 : V}
    {ls0 : listenerContainer K V L} (hc0 : klc.container tier0 v0 = some ls0)
    {a : listenerContainer K V L}
    (ha : ∀ tier v, tier = tier0 ∧ (tier0 = .value → v = v0) → a.Sound (dp1 tier v))
    (hne : a.listenerList ≠ [])
    (hother : ∀ tier v, ¬ (tier = tier0 ∧ (tier0 = .value → v = v0)) → dp1 tier v = dp tier v) :
    (klc.setContainer tier0 v0 a).Balanced kd dp1 := by
  have hp := hasPlace_of_container hc0
  refine ⟨by rw [dispatching_setContainer]; exact h.1, ?_, ?_⟩
  · intro tier v ls1 hc
    rw [container_setContainer_eq hp] at hc
    by_cases hs : tier = tier0 ∧ (tier0 = .value → v = v0)
    · rw [if_pos hs] at hc
      simp only [Option.some.injEq] at hc
      subst hc
      exact ⟨ha tier v hs, hne⟩
    · rw [if_neg hs] at hc
      rw [hother tier v hs]
      exact h.2.1 tier v ls1 hc
  · intro tier v hpos
    rw [container_setContainer_eq hp]
    by_cases hs : tier = tier0 ∧ (tier0 = .value → v = v0)
    · rw [if_pos hs]; exact ⟨a, rfl⟩
    · rw [if_neg hs]
      rw [hother tier v hs] at hpos
      exact h.2.2 tier v hpos

theorem container_at_place {klc : kindListenerContainer K V L} {tier0 tier : Tier} {v0 v : V}
    (hs : tier = tier0 ∧ (tier0 = .value → v = v0)) :
    klc.container tier v = klc.container tier0 v0 :=
  container_samePlace klc hs.1 hs.2

/-- The closing statements of a phase keep a per-kind container in good order, with one
active call less on the container of the phase. -/
theorem kbal_leaveTier {klc : kindListenerContainer K V L} {kd : Nat}
    {dp dp1 : Tier → V → Nat} (h : klc.Balanced kd dp1) {tier0 : Tier} {v0 : V}
    {ls : listenerContainer K V L} (hc0 : klc.container tier0 v0 = some ls)
    (hsame : ∀ tier v, tier = tier0 ∧ (tier0 = .value → v = v0) → dp1 tier v = dp tier v + 1)
    (hother : ∀ tier v, ¬ (tier = tier0 ∧ (tier0 = .value → v = v0)) → dp1 tier v = dp tier v) :
    ((klc.setContainer tier0 v0 ls.leave).pruneTier tier0 v0).Balanced kd dp := by
  have hp := hasPlace_of_container hc0
  refine ⟨by rw [dispatching_pruneTier, dispatching_setContainer]; exact h.1, ?_, ?_⟩
  · intro tier v ls1 hc
    rw [container_pruneTier, container_setContainer_eq hp] at hc
    by_cases hs : tier = tier0 ∧ (tier0 = .value → v = v0)
    · rw [if_pos hs, if_pos hs, Option.some_bind] at hc
      obtain ⟨rfl, hne⟩ := kept_eq_some hc
      have hls : klc.container tier v = some ls := (container_at_place hs).trans hc0
      have hsd := (h.2.1 tier v ls hls).1
      rw [hsame tier v hs] at hsd
      exact ⟨(sound_leave hsd).1, hne⟩
    · rw [if_neg hs, if_neg hs] at hc
      rw [← hother tier v hs]
      exact h.2.1 tier v ls1 hc
  · intro tier v hpos
    rw [container_pruneTier, container_setContainer_eq hp]
    by_cases hs : tier = tier0 ∧ (tier0 = .value → v = v0)
    · rw [if_pos hs, if_pos hs, Option.some_bind]
      have hls : klc.container tier v = some ls := (container_at_place hs).trans hc0
      obtain ⟨hsd, hne⟩ := h.2.1 tier v ls hls
      rw [hsame tier v hs] at hsd
      have := (sound_leave hsd).2.1 hpos
      exact ⟨_, kept_of_ne_nil (by rw [this]; exact hne)⟩
    · rw [if_neg hs, if_neg hs]
      rw [← hother tier v hs] at hpos
      exact h.2.2 tier v hpos

theorem kbal_open {klc : kindListenerContainer K V L} {kd : Nat} {dp : Tier → V → Nat}
    (h : klc.Balanced kd dp) :
    ({ klc with dispatching := klc.dispatching + 1 } :
      kindListenerContainer K V L).Balanced (kd + 1) dp := by
  refine ⟨?_, fun tier v ls hc => h.2.1 tier v ls ?_, fun tier v hpos => ?_⟩
  · simp only [h.1]; push_cast; rfl
  · cases tier <;> exact hc
  · obtain ⟨ls, hc⟩ := h.2.2 tier v hpos
    exact ⟨ls, by cases tier <;> exact hc⟩

/-- The closing statements of `kindListenerContainer.dispatch` keep the per-kind container
in good order with one active call less, without clamping. -/
theorem kbal_kleave {klc : kindListenerContainer K V L} {kd : Nat} {dp : Tier → V → Nat}
    (h : klc.Balanced (kd + 1) dp) :
    klc.leave.Balanced kd dp ∧ klc.leave.dispatching = klc.dispatching - 1 := by
  have hd := h.1
  push_cast at hd
  have hnc : ¬ (klc.dispatching - 1 < 0) := by omega
  have e : klc.leave = { klc with dispatching := klc.dispatching - 1 } := by
    unfold kindListenerContainer.leave
    rw [if_neg hnc]
  rw [e]
  refine ⟨⟨?_, fun tier v ls hc => h.2.1 tier v ls ?_, fun tier v hpos => ?_⟩, rfl⟩
  · simp only; omega
  · cases tier <;> exact hc
  · obtain ⟨ls, hc⟩ := h.2.2 tier v hpos
    exact ⟨ls, by cases tier <;> exact hc⟩

theorem depthOf_le (s : List (Call K V)) (k : K) (v : V) (tier : Tier) :
    depthOf s ⟨k, v⟩ tier ≤ kindDepthOf s k := by
  unfold depthOf kindDepthOf
  apply List.countP_mono_left
  intro f _ hf
  simp only [decide_eq_true_eq] at hf ⊢
  exact hf.2.1

theorem exists_of_kindDepthOf_pos {s : List (Call K V)} {k : K} (h : 0 < kindDepthOf s k) :
    ∃ f ∈ s, f.evtId.Kind = k := by
  unfold kindDepthOf at h
  rw [List.countP_pos_iff] at h
  obtain ⟨f, hf, hk⟩ := h
  exact ⟨f, hf, by simpa using hk⟩

theorem noListener_false_of_place {klc : kindListenerContainer K V L} {tier : Tier} {v : V}
    {ls : listenerContainer K V L} (hc : klc.container tier v = some ls)
    (hne : ls.listenerList ≠ []) : klc.noListener = false := by
  cases tier with
  | kind => exact noListener_false_of_kind hc hne
  | value =>
    cases hm : klc.valueListeners with
    | none => simp [kindListenerContainer.container, kindListenerContainer.valueListener, hm] at hc
    | some m =>
      refine noListener_false_of_value hm ?_
      intro he
      subst he
      simp [kindListenerContainer.container, kindListenerContainer.valueListener, hm,
        GoMap.get] at hc

/-- While callbacks can run, a per-kind container with an active call holds a listener. -/
theorem noListener_false_of_active {klc : kindListenerContainer K V L} {s : List (Call K V)}
    {k : K} (h : klc.Balanced (kindDepthOf s k) (fun tier v => depthOf s ⟨k, v⟩ tier))
    (hs : Callable s) (hpos : 0 < kindDepthOf s k) : klc.noListener = false := by
  obtain ⟨f, hf, hk⟩ := exists_of_kindDepthOf_pos hpos
  cases hp : f.phase with
  | none => exact absurd hp (hs f hf)
  | some tier =>
    have hd : 0 < depthOf s ⟨k, f.evtId.Value⟩ tier :=
      depthOf_pos hf hp hk (fun _ => rfl)
    obtain ⟨ls, hc⟩ := h.2.2 tier f.evtId.Value hd
    exact noListener_false_of_place hc (h.2.1 tier _ ls hc).2

theorem kbal_new {s : List (Call K V)} {k : K} (h : kindDepthOf s k = 0) :
    (newKindListenerContainer : kindListenerContainer K V L).Balanced (kindDepthOf s k)
      (fun tier v => depthOf s ⟨k, v⟩ tier) := by
  refine ⟨by rw [h]; rfl, ?_, ?_⟩
  · intro tier v ls hc
    cases tier <;> simp [newKindListenerContainer, kindListenerContainer.container,
      kindListenerContainer.valueListener] at hc
  · intro tier v hpos
    have := depthOf_le s k v tier
    simp only at hpos
    omega

/-- The dispatcher stays in good order when the per-kind container of one kind is
replaced by one in good order and the active calls of the other kinds stay as they are. -/
theorem dbal_of_set {d d1 : Dispatcher K V L} {s s1 : List (Call K V)} (h : d.Balanced s)
    {k0 : K} {klc1 : kindListenerContainer K V L}
    (hlen : d1.dispatching = (s1.length : Int)) (hcall : Callable s1.tail)
    (hmap : d1.kindListenerContainers = GoMap.set k0 klc1 d.kindListenerContainers)
    (hk0 : klc1.Balanced (kindDepthOf s1 k0) (fun tier v => depthOf s1 ⟨k0, v⟩ tier))
    (hkd : ∀ k, k ≠ k0 → kindDepthOf s1 k = kindDepthOf s k)
    (hdp : ∀ k, k ≠ k0 → ∀ tier v, depthOf s1 ⟨k, v⟩ tier = depthOf s ⟨k, v⟩ tier) :
    d1.Balanced s1 := by
  refine ⟨hlen, hcall, ?_, ?_⟩
  · intro k klc hg
    rw [hmap] at hg
    by_cases hk : k = k0
    · subst hk
      rw [GoMap.get_set_self] at hg
      simp only [Option.some.injEq] at hg
      subst hg
      exact hk0
    · rw [GoMap.get_set_ne klc1 _ (fun e => hk e.symm)] at hg
      have := h.2.2.1 k klc hg
      rw [hkd k hk]
      have e : (fun tier v => depthOf s1 (⟨k, v⟩ : EventID K V) tier)
          = (fun tier v => depthOf s ⟨k, v⟩ tier) := by
        funext tier v
        exact hdp k hk tier v
      rw [e]
      exact this
  · intro k hpos
    rw [hmap]
    by_cases hk : k = k0
    · subst hk
      exact ⟨klc1, GoMap.get_set_self _ _ _⟩
    · rw [GoMap.get_set_ne klc1 _ (fun e => hk e.symm)]
      rw [hkd k hk] at hpos
      exact h.2.2.2 k hpos

/-- The dispatcher stays in good order when the per-kind container of a kind without
active calls is deleted. -/
theorem dbal_of_delete {d d1 : Dispatcher K V L} {s s1 : List (Call K V)} (h : d.Balanced s)
    {k0 : K} (hlen : d1.dispatching = (s1.length : Int)) (hcall : Callable s1.tail)
    (hmap : d1.kindListenerContainers = GoMap.delete k0 d.kindListenerContainers)
    (hzero : kindDepthOf s1 k0 = 0)
    (hkd : ∀ k, k ≠ k0 → kindDepthOf s1 k = kindDepthOf s k)
    (hdp : ∀ k, k ≠ k0 → ∀ tier v, depthOf s1 ⟨k, v⟩ tier = depthOf s ⟨k, v⟩ tier) :
    d1.Balanced s1 := by
  refine ⟨hlen, hcall, ?_, ?_⟩
  · intro k klc hg
    rw [hmap] at hg
    by_cases hk : k = k0
    · subst hk
      rw [GoMap.get_delete_self] at hg
      cases hg
    · rw [GoMap.get_delete_ne _ (fun e => hk e.symm)] at hg
      have := h.2.2.1 k klc hg
      rw [hkd k hk]
      have e : (fun tier v => depthOf s1 (⟨k, v⟩ : EventID K V) tier)
          = (fun tier v => depthOf s ⟨k, v⟩ tier) := by
        funext tier v
        exact hdp k hk tier v
      rw [e]
      exact this
  · intro k hpos
    rw [hmap]
    by_cases hk : k = k0
    · subst hk
      omega
    · rw [GoMap.get_delete_ne _ (fun e => hk e.symm)]
      rw [hkd k hk] at hpos
      exact h.2.2.2 k hpos

theorem dbal_putKind {d : Dispatcher K V L} {s : List (Call K V)} (h : d.Balanced s) (k : K)
    {klc1 : kindListenerContainer K V L}
    (hk : klc1.Balanced (kindDepthOf s k) (fun tier v => depthOf s ⟨k, v⟩ tier)) :
    (d.putKind k klc1).Balanced s :=
  dbal_of_set h h.1 h.2.1 rfl hk (fun _ _ => rfl) (fun _ _ _ _ => rfl)

theorem dbal_pruneKind {d : Dispatcher K V L} {s : List (Call K V)} (h : d.Balanced s)
    (hs : Callable s) (k : K) {klc1 : kindListenerContainer K V L}
    (hk : klc1.Balanced (kindDepthOf s k) (fun tier v => depthOf s ⟨k, v⟩ tier)) :
    (d.pruneKind k klc1).Balanced s := by
  unfold Dispatcher.pruneKind
  split
  · rename_i hno
    refine dbal_of_delete h h.1 h.2.1 rfl ?_ (fun _ _ => rfl) (fun _ _ _ _ => rfl)
    by_contra hne
    have := noListener_false_of_active hk hs (Nat.pos_of_ne_zero hne)
    rw [this] at hno
    cases hno
  · exact dbal_of_set h h.1 h.2.1 rfl hk (fun _ _ => rfl) (fun _ _ _ _ => rfl)

/-- The public operations other than `Dispatch` keep the dispatcher in good order. -/
theorem dbal_RemKindListener {d : Dispatcher K V L} {s : List (Call K V)} (h : d.Balanced s)
    (hs : Callable s) (k : K) (lID : L) : (d.RemKindListener k lID).1.Balanced s := by
  unfold Dispatcher.RemKindListener
  cases hg : GoMap.get k d.kindListenerContainers with
  | none => exact h
  | some klc => exact dbal_pruneKind h hs k (kbal_remKind (h.2.2.1 k klc hg) lID)

theorem dbal_RemValueListener {d : Dispatcher K V L} {s : List (Call K V)} (h : d.Balanced s)
    (hs : Callable s) (evtId : EventID K V) (lID : L) :
    (d.RemValueListener evtId lID).1.Balanced s := by
  unfold Dispatcher.RemValueListener
  cases hg : GoMap.get evtId.Kind d.kindListenerContainers with
  | none => exact h
  | some klc =>
    exact dbal_pruneKind h hs evtId.Kind (kbal_remValue (h.2.2.1 _ klc hg) evtId.Value lID)

theorem kbal_addORGet {d : Dispatcher K V L} {s : List (Call K V)} (h : d.Balanced s) (k : K) :
    (d.addORGetKindListeners k).2.Balanced (kindDepthOf s k)
      (fun tier v => depthOf s ⟨k, v⟩ tier) := by
  unfold Dispatcher.addORGetKindListeners
  cases hg : GoMap.get k d.kindListenerContainers with
  | some klc => exact h.2.2.1 k klc hg
  | none =>
    refine kbal_new ?_
    by_contra hne
    obtain ⟨klc, hk⟩ := h.2.2.2 k (Nat.pos_of_ne_zero hne)
    rw [hg] at hk
    cases hk

theorem dbal_AddKindListener {d d1 : Dispatcher K V L} {s : List (Call K V)}
    (h : d.Balanced s) {k : K} {lID : L} {cb : Option (ListenerCallback K V L)}
    {once : List Bool} {b : Bool} (hr : d.AddKindListener k lID cb once = .ok (d1, b)) :
    d1.Balanced s := by
  cases cb with
  | none => simp [Dispatcher.AddKindListener] at hr
  | some c =>
    rw [AddKindListener_eq] at hr
    split at hr
    · simp at hr
    · rename_i klc1 added hadd
      simp only [Except.ok.injEq, Prod.mk.injEq] at hr
      obtain ⟨rfl, _⟩ := hr
      rw [addORGet_putKind]
      exact dbal_putKind h k (kbal_addKind (kbal_addORGet h k) rfl hadd)

theorem dbal_AddValueListener {d d1 : Dispatcher K V L} {s : List (Call K V)}
    (h : d.Balanced s) {evtId : EventID K V} {lID : L}
    {cb : Option (ListenerCallback K V L)} {once : List Bool} {b : Bool}
    (hr : d.AddValueListener evtId lID cb once = .ok (d1, b)) : d1.Balanced s := by
  cases cb with
  | none => simp [Dispatcher.AddValueListener] at hr
  | some c =>
    rw [AddValueListener_eq] at hr
    split at hr
    · simp at hr
    · rename_i klc1 added hadd
      simp only [Except.ok.injEq, Prod.mk.injEq] at hr
      obtain ⟨rfl, _⟩ := hr
      rw [addORGet_putKind]
      exact dbal_putKind h evtId.Kind (kbal_addValue (kbal_addORGet h evtId.Kind) rfl hadd)

theorem dbal_Clear {d : Dispatcher K V L} {s : List (Call K V)} (h : d.Balanced s) :
    d.Clear.Balanced s := by
  unfold Dispatcher.Clear
  split
  · exact h
  · rename_i hd
    have hl : s = [] := by
      have := h.1
      apply List.eq_nil_of_length_eq_zero
      omega
    subst hl
    refine ⟨h.1, h.2.1, ?_, ?_⟩
    · intro k klc hg
      simp [GoMap.get] at hg
    · intro k hpos
      simp [kindDepthOf] at hpos

theorem depthOf_cons_none (e : EventID K V) (s : List (Call K V)) (e1 : EventID K V)
    (tier : Tier) : depthOf (⟨e, none⟩ :: s) e1 tier = depthOf s e1 tier := by
  rw [depthOf_cons, if_neg (fun h => nomatch h.1)]
  rfl

theorem depthOf_cons_same (e : EventID K V) (tier0 : Tier) (s : List (Call K V))
    (e1 : EventID K V) (tier : Tier)
    (h : tier = tier0 ∧ e.Kind = e1.Kind ∧ (tier0 = .value → e1.Value = e.Value)) :
    depthOf (⟨e, some tier0⟩ :: s) e1 tier = depthOf s e1 tier + 1 := by
  obtain ⟨rfl, hk, hv⟩ := h
  rw [depthOf_cons, if_pos ⟨rfl, hk, fun ht => (hv ht).symm⟩]

theorem depthOf_cons_other (e : EventID K V) (tier0 : Tier) (s : List (Call K V))
    (e1 : EventID K V) (tier : Tier)
    (h : ¬ (tier = tier0 ∧ e.Kind = e1.Kind ∧ (tier0 = .value → e1.Value = e.Value))) :
    depthOf (⟨e, some tier0⟩ :: s) e1 tier = depthOf s e1 tier := by
  rw [depthOf_cons, if_neg]
  · rfl
  · intro hh
    apply h
    have ht : tier0 = tier := by
      have := hh.1
      simpa using this
    subst ht
    exact ⟨rfl, hh.2.1, fun hv => (hh.2.2 hv).symm⟩

theorem kindDepthOf_cons_same (e : EventID K V) (p : Option Tier) (s : List (Call K V)) :
    kindDepthOf (⟨e, p⟩ :: s) e.Kind = kindDepthOf s e.Kind + 1 := by
  rw [kindDepthOf_cons, if_pos rfl]

theorem kindDepthOf_cons_other (e : EventID K V) (p : Option Tier) (s : List (Call K V))
    {k : K} (h : k ≠ e.Kind) : kindDepthOf (⟨e, p⟩ :: s) k = kindDepthOf s k := by
  rw [kindDepthOf_cons, if_neg (fun hh => h hh.symm)]
  rfl

theorem depthOf_cons_kind_ne (e : EventID K V) (p : Option Tier) (s : List (Call K V))
    {k : K} (h : k ≠ e.Kind) (v : V) (tier : Tier) :
    depthOf (⟨e, p⟩ :: s) ⟨k, v⟩ tier = depthOf s ⟨k, v⟩ tier := by
  rw [depthOf_cons, if_neg (fun hh => h hh.2.1.symm)]
  rfl

theorem kbal_congr {klc : kindListenerContainer K V L} {kd kd1 : Nat}
    {dp dp1 : Tier → V → Nat} (h : klc.Balanced kd dp) (hk : kd1 = kd)
    (hd : ∀ tier v, dp1 tier v = dp tier v) : klc.Balanced kd1 dp1 := by
  have e : dp1 = dp := by
    funext tier v
    exact hd tier v
  rw [hk, e]
  exact h

/-- The opening statements of a dispatch keep the dispatcher in good order, with the new
call on the stack. -/
theorem dbal_openKind {d : Dispatcher K V L} {s : List (Call K V)} (h : d.Balanced s)
    (hs : Callable s) (e : EventID K V) {klc : kindListenerContainer K V L}
    (hk : GoMap.get e.Kind d.kindListenerContainers = some klc)
    (t : List (Invocation K V L)) :
    ((⟨d, t⟩ : World K V L).openKind e.Kind).d.Balanced (⟨e, none⟩ :: s) := by
  have hk1 : GoMap.get e.Kind ({ d with dispatching := d.dispatching + 1 } :
      Dispatcher K V L).kindListenerContainers = some klc := hk
  simp only [World.openKind]
  rw [updateKind_of_get hk1]
  refine dbal_of_set h ?_ hs rfl ?_ (fun k hne => kindDepthOf_cons_other e none s hne)
    (fun k hne tier v => depthOf_cons_kind_ne e none s hne v tier)
  · simp only [Dispatcher.putKind, List.length_cons, h.1]
    push_cast
    rfl
  · exact kbal_congr (kbal_open (h.2.2.1 _ klc hk)) (kindDepthOf_cons_same e none s)
      (fun tier v => depthOf_cons_none e s _ tier)

theorem get_of_dcontainer {d : Dispatcher K V L} {e : EventID K V} {tier : Tier}
    {ls : listenerContainer K V L} (hc : d.container e tier = some ls) :
    ∃ klc, GoMap.get e.Kind d.kindListenerContainers = some klc ∧
      klc.container tier e.Value = some ls := by
  unfold Dispatcher.container at hc
  cases hg : GoMap.get e.Kind d.kindListenerContainers with
  | none => simp [hg] at hc
  | some klc =>
    simp only [hg] at hc
    exact ⟨klc, rfl, hc⟩

theorem dcontainer_of_get {d : Dispatcher K V L} {e : EventID K V}
    {klc : kindListenerContainer K V L}
    (hg : GoMap.get e.Kind d.kindListenerContainers = some klc) (tier : Tier) :
    d.container e tier = klc.container tier e.Value := by
  unfold Dispatcher.container
  rw [hg]

/-- Writing a container back to the place of the innermost call keeps the dispatcher in
good order when the per-kind container stays in good order. -/
theorem dbal_setContainer {d : Dispatcher K V L} {s s1 : List (Call K V)} (h : d.Balanced s)
    {e : EventID K V} {tier : Tier} {klc : kindListenerContainer K V L}
    (hg : GoMap.get e.Kind d.kindListenerContainers = some klc)
    (a : listenerContainer K V L) (hlen : s1.length = s.length) (hcall : Callable s1.tail)
    (hk0 : (klc.setContainer tier e.Value a).Balanced (kindDepthOf s1 e.Kind)
      (fun tier v => depthOf s1 ⟨e.Kind, v⟩ tier))
    (hkd : ∀ k, k ≠ e.Kind → kindDepthOf s1 k = kindDepthOf s k)
    (hdp : ∀ k, k ≠ e.Kind → ∀ tier v, depthOf s1 ⟨k, v⟩ tier = depthOf s ⟨k, v⟩ tier) :
    (d.setContainer e tier a).Balanced s1 := by
  unfold Dispatcher.setContainer
  rw [updateKind_of_get hg]
  exact dbal_of_set h (by rw [hlen]; exact h.1) hcall rfl hk0 hkd hdp

/-- Entering a phase keeps the dispatcher in good order, with the innermost call in the
phase. -/
theorem dbal_enter {d : Dispatcher K V L} {s : List (Call K V)} {e : EventID K V}
    (h : d.Balanced (⟨e, none⟩ :: s)) {tier : Tier} {ls : listenerContainer K V L}
    (hc : d.container e tier = some ls) :
    (d.setContainer e tier ls.enter).Balanced (⟨e, some tier⟩ :: s) := by
  obtain ⟨klc, hg, hkc⟩ := get_of_dcontainer hc
  have hb := h.2.2.1 _ klc hg
  refine dbal_setContainer h hg _ rfl h.2.1 ?_ ?_ ?_
  · refine kbal_setContainer (kbal_congr hb ?_ (fun _ _ => rfl)) hkc ?_ ?_ ?_
    · rw [kindDepthOf_cons_same, kindDepthOf_cons_same]
    · intro tier1 v hs
      have hls : klc.container tier1 v = some ls := (container_at_place hs).trans hkc
      have hsd := (hb.2.1 tier1 v ls hls).1
      beta_reduce at hsd
      rw [depthOf_cons_none] at hsd
      rw [depthOf_cons_same e tier s ⟨e.Kind, v⟩ tier1 ⟨hs.1, rfl, hs.2⟩]
      exact sound_enter hsd
    · intro he
      exact (hb.2.1 tier _ ls hkc).2 he
    · intro tier1 v hs
      rw [depthOf_cons_none,
        depthOf_cons_other e tier s ⟨e.Kind, v⟩ tier1 (fun hh => hs ⟨hh.1, hh.2.2⟩)]
  · intro k hne
    rw [kindDepthOf_cons_other e _ s hne, kindDepthOf_cons_other e _ s hne]
  · intro k hne tier1 v
    rw [depthOf_cons_kind_ne e _ s hne, depthOf_cons_kind_ne e _ s hne]

/-- Flagging a listener from the walk keeps the dispatcher in good order. -/
theorem dbal_pendingRemListener {w : World K V L} {s : List (Call K V)} {e : EventID K V}
    {tier : Tier} (h : w.d.Balanced (⟨e, some tier⟩ :: s)) (elem : L) :
    (w.pendingRemListener e tier elem).d.Balanced (⟨e, some tier⟩ :: s) := by
  cases hc : w.d.container e tier with
  | none =>
    simp only [World.pendingRemListener, hc]
    exact h
  | some ls =>
    cases hv : ls.value elem with
    | none =>
      simp only [World.pendingRemListener, hc, hv]
      exact h
    | some l =>
      simp only [World.pendingRemListener, hc, hv]
      obtain ⟨klc, hg, hkc⟩ := get_of_dcontainer hc
      have hb := h.2.2.1 _ klc hg
      refine dbal_setContainer h hg _ rfl h.2.1 ?_ (fun _ _ => rfl) (fun _ _ _ _ => rfl)
      refine kbal_setContainer hb hkc ?_ ?_ (fun _ _ _ => rfl)
      · intro tier1 v hs
        have hls : klc.container tier1 v = some ls := (container_at_place hs).trans hkc
        have hsd := (hb.2.1 tier1 v ls hls).1
        refine sound_pendingRemListener hsd ?_ hv
        beta_reduce
        rw [depthOf_cons_same e tier s ⟨e.Kind, v⟩ tier1 ⟨hs.1, rfl, hs.2⟩]
        omega
      · exact ne_nil_of_ids (ids_pendingRemListener ls l elem) (hb.2.1 tier _ ls hkc).2

/-- The closing statements of a phase keep the dispatcher in good order, with the
innermost call outside its phases again. -/
theorem dbal_leaveTier {w : World K V L} {s : List (Call K V)} {e : EventID K V}
    {tier : Tier} (h : w.d.Balanced (⟨e, some tier⟩ :: s)) :
    (w.leaveTier e tier).d.Balanced (⟨e, none⟩ :: s) := by
  obtain ⟨klc, hg⟩ := h.2.2.2 e.Kind (by rw [kindDepthOf_cons_same]; omega)
  have hb := h.2.2.1 _ klc hg
  obtain ⟨ls, hkc⟩ := hb.2.2 tier e.Value (by
    beta_reduce
    rw [depthOf_cons_same e tier s ⟨e.Kind, e.Value⟩ tier ⟨rfl, rfl, fun _ => rfl⟩]
    omega)
  have hc : w.d.container e tier = some ls := by
    rw [dcontainer_of_get hg]; exact hkc
  simp only [World.leaveTier, hc]
  unfold Dispatcher.setContainer
  rw [updateKind_of_get hg, updateKind_putKind]
  refine dbal_of_set h h.1 h.2.1 rfl ?_ ?_ ?_
  · refine kbal_leaveTier (kbal_congr hb ?_ (fun _ _ => rfl)) hkc ?_ ?_
    · rw [kindDepthOf_cons_same, kindDepthOf_cons_same]
    · intro tier1 v hs
      rw [depthOf_cons_none, depthOf_cons_same e tier s ⟨e.Kind, v⟩ tier1 ⟨hs.1, rfl, hs.2⟩]
    · intro tier1 v hs
      rw [depthOf_cons_none,
        depthOf_cons_other e tier s ⟨e.Kind, v⟩ tier1 (fun hh => hs ⟨hh.1, hh.2.2⟩)]
  · intro k hne
    rw [kindDepthOf_cons_other e _ s hne, kindDepthOf_cons_other e _ s hne]
  · intro k hne tier1 v
    rw [depthOf_cons_kind_ne e _ s hne, depthOf_cons_kind_ne e _ s hne]

/-- The closing statements of a dispatch keep the dispatcher in good order, with the call
off the stack. -/
theorem dbal_closeKind {w : World K V L} {s : List (Call K V)} {e : EventID K V}
    (h : w.d.Balanced (⟨e, none⟩ :: s)) : (w.closeKind e.Kind).d.Balanced s := by
  obtain ⟨klc, hg⟩ := h.2.2.2 e.Kind (by rw [kindDepthOf_cons_same]; omega)
  have hb := h.2.2.1 _ klc hg
  have hs : Callable s := h.2.1
  have hbl : klc.leave.Balanced (kindDepthOf s e.Kind)
      (fun tier v => depthOf s ⟨e.Kind, v⟩ tier) :=
    (kbal_kleave (kbal_congr hb (kindDepthOf_cons_same e none s).symm
      (fun tier v => (depthOf_cons_none e s _ tier).symm))).1
  have hlen : w.d.dispatching - 1 = (s.length : Int) := by
    have := h.1
    simp only [List.length_cons] at this
    push_cast at this
    omega
  have hcall : Callable s.tail := fun f hf => hs f (List.mem_of_mem_tail hf)
  simp only [World.closeKind]
  rw [updateKind_of_get hg]
  simp only [get_putKind]
  have hkd : ∀ k, k ≠ e.Kind → kindDepthOf s k = kindDepthOf (⟨e, none⟩ :: s) k :=
    fun k hne => (kindDepthOf_cons_other e none s hne).symm
  have hdp : ∀ k, k ≠ e.Kind → ∀ tier v,
      depthOf s ⟨k, v⟩ tier = depthOf (⟨e, none⟩ :: s) ⟨k, v⟩ tier :=
    fun k hne tier v => (depthOf_cons_kind_ne e none s hne v tier).symm
  split
  · rename_i hno
    refine dbal_of_delete h hlen hcall ?_ ?_ hkd hdp
    · simp only [Dispatcher.putKind, GoMap.delete_set]
    · by_contra hne
      have := noListener_false_of_active hbl hs (Nat.pos_of_ne_zero hne)
      rw [this] at hno
      cases hno
  · exact dbal_of_set h hlen hcall rfl hbl hkd hdp

theorem callable_cons {e : EventID K V} {tier : Tier} {s : List (Call K V)}
    (hs : Callable s) : Callable (⟨e, some tier⟩ :: s) := by
  intro f hf
  rcases List.mem_cons.mp hf with rfl | h
  · simp
  · exact hs f h

theorem dbal_new : (NewDispatcher : Dispatcher K V L).Balanced [] := by
  refine ⟨rfl, fun f hf => by simp at hf, ?_, ?_⟩
  · intro k klc hg
    simp [NewDispatcher, GoMap.get] at hg
  · intro k hpos
    simp [kindDepthOf] at hpos

/-- Every reachable state is in good order under its stack of active calls. -/
theorem reach_balanced {s : List (Call K V)} {w : World K V L} (h : Reach s w) :
    w.d.Balanced s := by
  induction h with
  | NewDispatcher t => exact dbal_new
  | AddKindListener _ _ hr ih => exact dbal_AddKindListener ih hr
  | AddValueListener _ _ hr ih => exact dbal_AddValueListener ih hr
  | RemKindListener k lID _ hs ih => exact dbal_RemKindListener ih hs k lID
  | RemValueListener evtId lID _ hs ih => exact dbal_RemValueListener ih hs evtId lID
  | Clear _ _ ih => exact dbal_Clear ih
  | openKind evtId _ hs hk ih => exact dbal_openKind ih hs evtId hk _
  | enter tier _ hc ih => exact dbal_enter ih hc
  | logCall evt lID _ ih => exact ih
  | pendingRemListener elem _ ih => exact dbal_pendingRemListener ih elem
  | leaveTier _ ih => exact dbal_leaveTier ih
  | closeKind _ ih => exact dbal_closeKind ih

theorem reach_callable_tail {s : List (Call K V)} {w : World K V L} (h : Reach s w) :
    Callable s.tail :=
  (reach_balanced h).2.1

/-- The log plays no part in what is reachable. -/
theorem reach_trace {s : List (Call K V)} {w : World K V L} (h : Reach s w) :
    ∀ t, Reach s ⟨w.d, t⟩ := by
  induction h with
  | NewDispatcher t0 => exact fun t => Reach.NewDispatcher t
  | AddKindListener _ hs hr ih => exact fun t => Reach.AddKindListener (ih t) hs hr
  | AddValueListener _ hs hr ih => exact fun t => Reach.AddValueListener (ih t) hs hr
  | RemKindListener k lID _ hs ih => exact fun t => Reach.RemKindListener k lID (ih t) hs
  | RemValueListener evtId lID _ hs ih =>
    exact fun t => Reach.RemValueListener evtId lID (ih t) hs
  | Clear _ hs ih => exact fun t => Reach.Clear (ih t) hs
  | openKind evtId _ hs hk ih => exact fun t => Reach.openKind evtId (ih t) hs hk
  | enter tier _ hc ih => exact fun t => Reach.enter tier (ih t) hc
  | logCall evt lID _ ih => exact ih
  | pendingRemListener elem _ ih =>
    intro t
    have := Reach.pendingRemListener elem (ih t)
    unfold World.pendingRemListener at this ⊢
    split
    · rename_i hc
      simp only [hc] at this
      exact this
    · rename_i ls hc
      simp only [hc] at this
      split
      · rename_i hv
        simp only [hv] at this
        exact this
      · rename_i l hv
        simp only [hv] at this
        exact this
  | leaveTier _ ih => exact fun t => Reach.leaveTier (ih t)
  | closeKind _ ih => exact fun t => Reach.closeKind (ih t)

theorem apiStable_reach {s : List (Call K V)} (hs : Callable s) :
    ApiStable (Reach (L := L) s) :=
  ⟨fun _ _ _ _ _ _ _ hi hr => Reach.AddKindListener hi hs hr,
    fun _ _ _ _ _ _ _ hi hr => Reach.AddValueListener hi hs hr,
    fun _ k lID hi => Reach.RemKindListener k lID hi hs,
    fun _ evtId lID hi => Reach.RemValueListener evtId lID hi hs,
    fun _ hi => Reach.Clear hi hs⟩

theorem frame_reach {s : List (Call K V)} (hs : Callable s) (evtId : EventID K V) :
    Frame ReachClass (Reach (L := L) s) evtId := by
  refine ⟨Reach (⟨evtId, none⟩ :: s), fun w klc hi hk => Reach.openKind evtId hi hs hk,
    fun w hj => Reach.closeKind hj, fun tier => ?_⟩
  refine ⟨Reach (⟨evtId, some tier⟩ :: s), ⟨_, callable_cons hs, rfl⟩, ?_, ?_, ?_, ?_⟩
  · intro w ls hj hc
    exact Reach.enter tier hj hc
  · intro w l evt elem _ hi _ _
    exact Reach.logCall evt l.id hi
  · intro w elem hi
    exact Reach.pendingRemListener elem hi
  · intro w hi
    exact Reach.leaveTier hi

/-- A call of `Dispatch` that returns, made from outside or by a callback, leads from a
reachable state to a reachable state with the same active calls, whatever the callbacks
do. -/
theorem Dispatch_reach (fuel : Nat) {s : List (Call K V)} (hs : Callable s)
    (evtId : EventID K V) (generator : Any) (param : List Any) (w w1 : World K V L)
    (r : Option (Error K V))
    (h : Dispatcher.Dispatch fuel evtId generator param w = .ok r w1) (hw : Reach s w) :
    Reach s w1 :=
  Dispatch_inv ReachClass
    (fun I hI => by
      obtain ⟨s1, hs1, rfl⟩ := hI
      exact apiStable_reach hs1)
    (fun I hI e => by
      obtain ⟨s1, hs1, rfl⟩ := hI
      exact frame_reach hs1 e)
    fuel _ ⟨s, hs, rfl⟩ evtId generator param w r w1 h hw

/-- The states between calls of the public operations are reachable with no active call. -/
theorem reachable_reach {d : Dispatcher K V L} (h : d.Reachable) :
    ∀ t, Reach [] (⟨d, t⟩ : World K V L) := by
  have hnil : Callable ([] : List (Call K V)) := fun f hf => by simp at hf
  induction h with
  | NewDispatcher => exact fun t => Reach.NewDispatcher t
  | AddKindListener _ hr ih => exact fun t => Reach.AddKindListener (ih t) hnil hr
  | AddValueListener _ hr ih => exact fun t => Reach.AddValueListener (ih t) hnil hr
  | RemKindListener k lID _ ih => exact fun t => Reach.RemKindListener k lID (ih t) hnil
  | RemValueListener evtId lID _ ih =>
    exact fun t => Reach.RemValueListener evtId lID (ih t) hnil
  | Clear _ ih => exact fun t => Reach.Clear (ih t) hnil
  | Dispatch _ hr ih =>
    intro t
    exact reach_trace (Dispatch_reach _ hnil _ _ _ _ _ _ hr (ih _)) t

theorem reach_enterTier {s : List (Call K V)} {w : World K V L} {evtId : EventID K V}
    (tier : Tier) (h : Reach (⟨evtId, none⟩ :: s) w)
    (hc : (w.d.container evtId tier).isSome = true) :
    Reach (⟨evtId, some tier⟩ :: s) (w.enterTier evtId tier) := by
  unfold World.enterTier
  cases hls : w.d.container evtId tier with
  | none => rw [hls] at hc; cases hc
  | some ls => exact Reach.enter tier h hls

/-- Whatever a callback body does from a reachable state, the state it leaves is reachable
with the same active calls. -/
theorem runProg_reach (fuel : Nat) {s : List (Call K V)} (hs : Callable s) (p : Prog K V L)
    (w w1 : World K V L) (r : Option (Error K V))
    (h : runProg (Dispatcher.Dispatch fuel) p w = .ok r w1) (hw : Reach s w) : Reach s w1 :=
  runProg_inv (Dispatcher.Dispatch fuel) ReachClass
    (fun I hI e2 generator param w2 r2 w3 h2 hi => by
      obtain ⟨s1, hs1, rfl⟩ := hI
      exact Dispatch_reach fuel hs1 e2 generator param w2 w3 r2 h2 hi)
    (fun I hI => by
      obtain ⟨s1, hs1, rfl⟩ := hI
      exact apiStable_reach hs1)
    _ ⟨s, hs, rfl⟩ p w r w1 h hw

theorem canon_keys {ls : listenerContainer K V L} (hc : ls.Canon) :
    ls.listenerMap.map (fun p => p.1) = ls.ids := by
  rw [hc.1]
  simp [GoMap.diag, List.map_map, Function.comp_def]

theorem canon_entry {ls : listenerContainer K V L} (hc : ls.Canon) {p : L × L}
    (hp : p ∈ ls.listenerMap) :
    p.2 = p.1 ∧ ∃ l, l ∈ ls.listenerList ∧ ls.value p.2 = some l ∧ l.id = p.1 := by
  rw [hc.1] at hp
  simp only [GoMap.diag, List.mem_map] at hp
  obtain ⟨i, hi, rfl⟩ := hp
  obtain ⟨l, hl⟩ := value_of_mem_ids hi
  exact ⟨rfl, l, value_mem hl, hl, value_id hl⟩

theorem exTwo_reach : Reach [] (⟨exTwo, []⟩ : World Nat Nat Nat) :=
  Reach.AddKindListener
    (Reach.AddKindListener (Reach.NewDispatcher []) (fun f hf => by simp at hf)
      (show NewDispatcher.AddKindListener 10 1 (some cbRedispatch) []
        = .ok (afterAdd (NewDispatcher.AddKindListener 10 1 (some cbRedispatch) []), true)
        from rfl))
    (fun f hf => by simp at hf)
    (show (afterAdd (NewDispatcher.AddKindListener 10 1 (some cbRedispatch) [])).AddKindListener
        10 2 (some cbNil) [] = .ok (exTwo, true) from rfl)

theorem exOuter_reach : Reach [⟨⟨10, 5⟩, some .kind⟩] exOuter :=
  Reach.logCall _ _
    (reach_enterTier .kind
      (Reach.openKind ⟨10, 5⟩ exTwo_reach (fun f hf => by simp at hf)
        (show GoMap.get 10 exTwo.kindListenerContainers = some _ from rfl))
      rfl)

theorem exNested_reach :
    Reach [⟨⟨10, 5⟩, some .kind⟩, ⟨⟨10, 5⟩, some .kind⟩] exNested :=
  reach_enterTier .kind
    (Reach.openKind ⟨10, 5⟩ exOuter_reach (callable_cons (fun f hf => by simp at hf))
      (show GoMap.get 10 exOuter.d.kindListenerContainers = some _ from rfl))
    rfl

theorem exNestedRem_reach :
    Reach [⟨⟨10, 5⟩, some .kind⟩, ⟨⟨10, 5⟩, some .kind⟩] exNestedRem :=
  Reach.RemKindListener 10 2 exNested_reach
    (callable_cons (callable_cons (fun f hf => by simp at hf)))

/-- C21: sequence and index of every listener container agree in every reachable state.
The states are those of `Reach`: reached from `NewDispatcher` by the public operations
(which run `addListener` and `remListener` on the containers) and by the statements of
dispatches in progress, the operations being called from outside or from inside
callbacks, at any depth of nesting (`Dispatch_reach`: a call of `Dispatch` that returns,
whatever its callbacks do, stays within these states).  For the container an event
reaches in a tier of such a state: the keys of the identity index are exactly the IDs of
the listeners in the sequence, no ID occurs at two positions of the sequence, each index
entry refers to the element of its own ID, that element is in the sequence and carries a
listener with this ID, and a lookup of a listed ID finds its element. -/
theorem C21_index_consistency (s : List (Call K V)) (w : World K V L) (h : Reach s w)
    (evtId : EventID K V) (tier : Tier) (ls : listenerContainer K V L)
    (hc : w.d.container evtId tier = some ls) :
    (∀ k, k ∈ ls.listenerMap.map (fun p => p.1) ↔ k ∈ ls.listenerList.map (fun l => l.id)) ∧
    (ls.listenerList.map (fun l => l.id)).Nodup ∧
    (ls.listenerMap.map (fun p => p.1)).Nodup ∧
    (∀ p ∈ ls.listenerMap, p.2 = p.1 ∧
      ∃ l, l ∈ ls.listenerList ∧ ls.value p.2 = some l ∧ l.id = p.1) ∧
    (∀ l ∈ ls.listenerList, GoMap.get l.id ls.listenerMap = some l.id) := by
  obtain ⟨klc, hg, hkc⟩ := get_of_dcontainer hc
  have hcan : ls.Canon := (((reach_balanced h).2.2.1 _ klc hg).2.1 tier _ ls hkc).1.1
  have hkeys := canon_keys hcan
  refine ⟨fun k => by rw [hkeys]; rfl, hcan.2, by rw [hkeys]; exact hcan.2,
    fun p hp => canon_entry hcan hp, ?_⟩
  intro l hl
  have hmem : l.id ∈ ls.ids := List.mem_map.mpr ⟨l, hl, rfl⟩
  rw [hcan.1, GoMap.get_diag, if_pos hmem]

/-- Witness of C21: the kind-level container of kind 10 in the state `exNestedRem`, in
the middle of two nested dispatches and after a removal by a callback. -/
theorem C21_index_consistency_witness :
    ∃ ls, exNestedRem.d.container ⟨10, 5⟩ .kind = some ls ∧
      ls.listenerList.map (fun l => l.id) = [1, 2] ∧
      ls.listenerMap = [(1, 1), (2, 2)] ∧
      (∀ k, k ∈ ls.listenerMap.map (fun p => p.1) ↔ k ∈ ls.listenerList.map (fun l => l.id)) ∧
      (ls.listenerList.map (fun l => l.id)).Nodup ∧
      (ls.listenerMap.map (fun p => p.1)).Nodup ∧
      (∀ p ∈ ls.listenerMap, p.2 = p.1 ∧
        ∃ l, l ∈ ls.listenerList ∧ ls.value p.2 = some l ∧ l.id = p.1) ∧
      (∀ l ∈ ls.listenerList, GoMap.get l.id ls.listenerMap = some l.id) :=
  ⟨_, rfl, rfl, rfl,
    C21_index_consistency _ exNestedRem exNestedRem_reach ⟨10, 5⟩ .kind _ rfl⟩

/-- C22: the depth counters are balanced in every reachable state.  The states are those
of `Reach`, with the stack `s` of the calls of `Dispatch` that are active; a call of
`Dispatch` that returns, whatever its callbacks do, stays within these states
(`Dispatch_reach`), and the states between calls of the public operations are those of the
empty stack (`reachable_reach`).  The counter of the dispatcher is the number of active
calls; the counter of a per-kind container is the number of active calls for its kind; the
counter of a listener container is the number of active calls that are in the phase
dispatching to it; so no counter is negative.  Each active call has its per-kind container
and, while in a phase, its listener container, with counters of at least 1: the
decrements at the end of a phase and of a call do not go below 0 and the clamps are not
taken.  A container at depth 0 has no pending-removal queue.  With no dispatch in
progress every counter is 0 and no queue exists. -/
theorem C22_depth_counters_balanced (s : List (Call K V)) (w : World K V L) (h : Reach s w) :
    (w.d.dispatching = (s.length : Int) ∧ 0 ≤ w.d.dispatching) ∧
    (∀ k klc, GoMap.get k w.d.kindListenerContainers = some klc →
      klc.dispatching = (kindDepthOf s k : Int) ∧ 0 ≤ klc.dispatching) ∧
    (∀ e tier ls, w.d.container e tier = some ls →
      ls.dispatching = (depthOf s e tier : Int) ∧ 0 ≤ ls.dispatching ∧
      (ls.dispatching = 0 → ls.pendingRemList = none)) ∧
    (∀ f ∈ s, ∃ klc, GoMap.get f.evtId.Kind w.d.kindListenerContainers = some klc ∧
      ¬ (klc.dispatching - 1 < 0) ∧ klc.leave.dispatching = klc.dispatching - 1 ∧
      ∀ tier, f.phase = some tier → ∃ ls, w.d.container f.evtId tier = some ls ∧
        ¬ (ls.dispatching - 1 < 0) ∧ ls.leave.dispatching = ls.dispatching - 1) ∧
    (s = [] → w.d.dispatching = 0 ∧
      (∀ k klc, GoMap.get k w.d.kindListenerContainers = some klc → klc.dispatching = 0) ∧
      ∀ e tier ls, w.d.container e tier = some ls →
        ls.dispatching = 0 ∧ ls.pendingRemList = none) := by
  have hb := reach_balanced h
  have hcont : ∀ e tier ls, w.d.container e tier = some ls →
      ls.Sound (depthOf s e tier) := by
    intro e tier ls hc
    obtain ⟨klc, hg, hkc⟩ := get_of_dcontainer hc
    exact ((hb.2.2.1 _ klc hg).2.1 tier _ ls hkc).1
  refine ⟨⟨hb.1, by rw [hb.1]; exact Int.natCast_nonneg _⟩, ?_, ?_, ?_, ?_⟩
  · intro k klc hg
    have := (hb.2.2.1 k klc hg).1
    exact ⟨this, by rw [this]; exact Int.natCast_nonneg _⟩
  · intro e tier ls hc
    have hs := hcont e tier ls hc
    refine ⟨hs.2.2.1, by rw [hs.2.2.1]; exact Int.natCast_nonneg _, ?_⟩
    intro h0
    apply hs.2.2.2.2
    have := hs.2.2.1
    omega
  · intro f hf
    obtain ⟨klc, hg⟩ := hb.2.2.2 f.evtId.Kind (kindDepthOf_pos hf)
    have hk := hb.2.2.1 _ klc hg
    have hkpos := kindDepthOf_pos hf
    have hkd := hk.1
    have hnc : ¬ (klc.dispatching - 1 < 0) := by omega
    refine ⟨klc, hg, hnc, ?_, ?_⟩
    · unfold kindListenerContainer.leave
      rw [if_neg hnc]
    · intro tier hp
      have hdpos : 0 < depthOf s ⟨f.evtId.Kind, f.evtId.Value⟩ tier :=
        depthOf_pos hf hp rfl (fun _ => rfl)
      obtain ⟨ls, hkc⟩ := hk.2.2 tier f.evtId.Value hdpos
      have hs := (hk.2.1 tier _ ls hkc).1
      beta_reduce at hs
      have hdep := hs.2.2.1
      obtain ⟨n, hn⟩ : ∃ n, depthOf s ⟨f.evtId.Kind, f.evtId.Value⟩ tier = n + 1 :=
        ⟨_, (Nat.succ_pred_eq_of_pos hdpos).symm⟩
      rw [hn] at hs
      refine ⟨ls, by rw [dcontainer_of_get hg]; exact hkc, by omega, (sound_leave hs).2.2⟩
  · intro hnil
    subst hnil
    refine ⟨hb.1, fun k klc hg => (hb.2.2.1 k klc hg).1, ?_⟩
    intro e tier ls hc
    have hs := hcont e tier ls hc
    exact ⟨hs.2.2.1, hs.2.2.2.2 rfl⟩

/-- Witness of C22: the state `exNested`, in which two calls of `Dispatch((10, 5))` are
active, the second made by a callback of the first; the three counters are 2. -/
theorem C22_depth_counters_balanced_witness :
    exNested.d.dispatching = 2 ∧
    (∃ klc, GoMap.get 10 exNested.d.kindListenerContainers = some klc ∧
      klc.dispatching = 2 ∧ ¬ (klc.dispatching - 1 < 0)) ∧
    (∃ ls, exNested.d.container ⟨10, 5⟩ .kind = some ls ∧ ls.dispatching = 2 ∧
      ¬ (ls.dispatching - 1 < 0) ∧ ls.leave.dispatching = ls.dispatching - 1) := by
  have h := C22_depth_counters_balanced _ exNested exNested_reach
  obtain ⟨h1, h2, h3, h4, _⟩ := h
  obtain ⟨klc, hg, hnc, _, hl⟩ := h4 ⟨⟨10, 5⟩, some .kind⟩ (by simp)
  obtain ⟨ls, hc, hlc, hle⟩ := hl .kind rfl
  exact ⟨h1.1, ⟨klc, hg, (h2 10 klc hg).1, hnc⟩, ⟨ls, hc, (h3 _ _ ls hc).1, hlc, hle⟩⟩

end BalanceFacts

/-! ## The scenarios of event_test.go -/

section Scenarios

/-- Test `TestTypeHandler`: two kind-level listeners are called in order; after removing the
second only the first is called; after removing both nothing is called and no kind is
left; a one-shot listener is called once and leaves no kind behind. -/
theorem scenario_TestTypeHandler :
    let d2 : Dispatcher Nat Nat Nat :=
      afterAdd ((afterAdd (NewDispatcher.AddKindListener 1 1 (some cbNil) [false])).AddKindListener
        1 2 (some cbNil) [false])
    let d3 := (d2.RemKindListener 1 2).1
    let d4 := (d3.RemKindListener 1 1).1
    let d5 := afterAdd (d4.AddKindListener 1 2 (some cbNil) [true])
    (Dispatcher.Dispatch 0 ⟨1, 1⟩ none [none] ⟨d2, []⟩).observe
        = some (true, [⟨.kind, ⟨⟨1, 1⟩, none, none⟩, 1⟩, ⟨.kind, ⟨⟨1, 1⟩, none, none⟩, 2⟩], 1) ∧
      (Dispatcher.Dispatch 0 ⟨1, 1⟩ none [none] ⟨d3, []⟩).observe
        = some (true, [⟨.kind, ⟨⟨1, 1⟩, none, none⟩, 1⟩], 1) ∧
      (Dispatcher.Dispatch 0 ⟨1, 1⟩ none [none] ⟨d4, []⟩).observe = some (true, [], 0) ∧
      (Dispatcher.Dispatch 0 ⟨1, 1⟩ none [none] ⟨d5, []⟩).observe
        = some (true, [⟨.kind, ⟨⟨1, 1⟩, none, none⟩, 2⟩], 0) := by
  intro d2 d3 d4 d5
  exact ⟨by decide, by decide, by decide, by decide⟩

/-- The scenario of the specification: kind listener A and value listener B on (X, 1).
Dispatching (X, 1) calls A then B, dispatching (X, 2) calls only A; without A only B is
called; without both nothing is called and no container is left for X. -/
theorem scenario_two_tiers :
    let d2 : Dispatcher Nat Nat Nat :=
      afterAdd ((afterAdd (NewDispatcher.AddKindListener 7 1 (some cbNil) [])).AddValueListener
        ⟨7, 1⟩ 2 (some cbNil) [])
    let d3 := (d2.RemKindListener 7 1).1
    let d4 := (d3.RemValueListener ⟨7, 1⟩ 2).1
    (Dispatcher.Dispatch 0 ⟨7, 1⟩ none [] ⟨d2, []⟩).observe
        = some (true, [⟨.kind, ⟨⟨7, 1⟩, none, none⟩, 1⟩, ⟨.value, ⟨⟨7, 1⟩, none, none⟩, 2⟩], 1) ∧
      (Dispatcher.Dispatch 0 ⟨7, 2⟩ none [] ⟨d2, []⟩).observe
        = some (true, [⟨.kind, ⟨⟨7, 2⟩, none, none⟩, 1⟩], 1) ∧
      (Dispatcher.Dispatch 0 ⟨7, 1⟩ none [] ⟨d3, []⟩).observe
        = some (true, [⟨.value, ⟨⟨7, 1⟩, none, none⟩, 2⟩], 1) ∧
      (Dispatcher.Dispatch 0 ⟨7, 1⟩ none [] ⟨d4, []⟩).observe = some (true, [], 0) := by
  intro d2 d3 d4
  exact ⟨by decide, by decide, by decide, by decide⟩

end Scenarios

end Gevent
